import Mathlib

/-! diffchecker: chunked boundary-advancing diff engine

Shallow embedding of `internal/app/diff` (field types, boundary planner, chunk
hasher, row-level differ, main driver loop) together with the properties stated
for it.

Conventions of the embedding:

* a Go `any` cell is a `Value`;
* a Go panic (failed type assertion, `errorCheck` on a driver error, index out of
  range) is `none`;
* the two database handles (`*sql.DB`) are `Endpoint` records of query answers;
* `envArg` is passed explicitly as an `envarg` record.
-/

namespace Diffchecker

/-! ## Values and library functions -/

/-- Dynamic Go value held in an `any` cell: `nil`, an `int64`/`int`, a `[]uint8`
as delivered by the driver for character columns, or a `string`. -/
inductive Value where
  | null
  | int (n : Int)
  | bytes (s : String)
  | str (s : String)
  deriving DecidableEq, Repr, Inhabited

/-- Decimal rendering of an integer (`strconv.Itoa`, `fmt.Sprint` of an integer). -/
def fmtInt : Int → String
  | Int.ofNat m => String.mk (Nat.toDigits 10 m)
  | Int.negSucc m => String.mk ('-' :: Nat.toDigits 10 (m + 1))

/-- Rendering of `fmt.Sprint(v)`: `<nil>` for nil, decimal for integers, the text
itself for strings and the bracketed list of byte values for a byte slice. -/
def fmtSprint : Value → String
  | Value.null => "<nil>"
  | Value.int n => fmtInt n
  | Value.bytes s => "[" ++ " ".intercalate (s.toUTF8.toList.map (fun b => fmtInt b.toNat)) ++ "]"
  | Value.str s => s

/-- Outcome of the digit loop of `strconv.ParseUint(s, 10, 64)`. -/
inductive UintResult where
  | ok (n : Nat)
  | invalid
  | range
  deriving DecidableEq, Repr

/-- Largest `uint64`. -/
def maxUint64 : Nat := 2 ^ 64 - 1

/-- Digit loop of `strconv.ParseUint(s, 10, 64)`: a non-digit is a syntax error, an
overflow stops the loop at once with a range error. -/
def parseUintLoop : List Char → Nat → UintResult
  | [], n => UintResult.ok n
  | c :: cs, n =>
    if c.isDigit then
      if n ≥ maxUint64 / 10 + 1 then UintResult.range
      else if n * 10 + (c.toNat - 48) > maxUint64 then UintResult.range
      else parseUintLoop cs (n * 10 + (c.toNat - 48))
    else UintResult.invalid

/-- Value returned by `strconv.ParseInt(s, 10, 64)`; the error is dropped by every
caller, so a syntax error reads as `0` and a range error as the nearest bound. -/
def ParseInt (s : String) : Int :=
  match s.data with
  | [] => 0
  | c :: cs =>
    let neg := decide (c = '-')
    let rest := if c = '+' ∨ c = '-' then cs else c :: cs
    match rest with
    | [] => 0
    | _ :: _ =>
      match parseUintLoop rest 0 with
      | UintResult.invalid => 0
      | UintResult.range => if neg then -(2 ^ 63) else 2 ^ 63 - 1
      | UintResult.ok un =>
        if !neg && decide (un ≥ 2 ^ 63) then 2 ^ 63 - 1
        else if neg && decide (un > 2 ^ 63) then -(2 ^ 63)
        else if neg then -(un : Int) else (un : Int)

/-- Replacement of the first `?` of a text (`strings.Replace(s, "?", x, 1)`). -/
def replaceFirstQ : List Char → List Char → List Char
  | [], _ => []
  | c :: cs, x => if c = '?' then x ++ cs else c :: replaceFirstQ cs x

/-- Text version of `replaceFirstQ`. -/
def stringsReplaceOnce (s x : String) : String := String.mk (replaceFirstQ s.data x.data)

/-- The single quote used around quoted SQL literals. -/
def sqlQuote : String := String.singleton (Char.ofNat 39)

/-! ## Field-type handlers (`fieldtype.go`) -/

/-- Interface `iFieldType`: the per-column handler. -/
structure iFieldType where
  transformDBResultType : Value → Option Value
  transformFieldType : Value → Option Value
  lowestFieldData : Value
  greaterThan : Value → Value → Option Bool
  equals : Value → Value → Option Bool
  withQuote : Bool

/-- Handler `fieldtypeInt`. -/
def fieldtypeInt : iFieldType where
  transformDBResultType := fun v => some v
  transformFieldType := fun v => some (Value.int (ParseInt (fmtSprint v)))
  lowestFieldData := Value.int (-(2 ^ 63))
  greaterThan := fun v1 v2 => some (decide (ParseInt (fmtSprint v1) > ParseInt (fmtSprint v2)))
  equals := fun v1 v2 => some (decide (ParseInt (fmtSprint v1) = ParseInt (fmtSprint v2)))
  withQuote := false

/-- Type assertion `v.(string)`. -/
def assertString : Value → Option String
  | Value.str s => some s
  | _ => none

/-- Handler `fieldtypeChar`. -/
def fieldtypeChar : iFieldType where
  transformDBResultType := fun v =>
    match v with
    | Value.bytes s => some (Value.str s)
    | _ => none
  transformFieldType := fun v => (assertString v).map Value.str
  lowestFieldData := Value.str ""
  greaterThan := fun v1 v2 =>
    match assertString v1, assertString v2 with
    | some a, some b => some (decide (b < a))
    | _, _ => none
  equals := fun v1 v2 =>
    match assertString v1, assertString v2 with
    | some a, some b => some (decide (a = b))
    | _, _ => none
  withQuote := true

/-- Primary-key column descriptor `pkColumn`. -/
structure pkColumn where
  ColumnName : String
  DataType : String
  FieldType : iFieldType
  IsLastField : Bool

/-- Package variable `envArg`. -/
structure envarg where
  ArgDebug : Bool
  ArgTrace : Bool
  ArgLowerBoundary : List String
  ArgUpperBoundary : List String
  ArgSrcTable : String
  ArgTgtTable : String
  ArgChunksize : Int
  ArgPKColumnSequence : List String
  ArgIgnoreFields : List String
  ArgAdditionalFilter : String

/-- Table model `pkTable`: the effective PK columns, their names, and the declared
primary key (all PK columns, used for row identity at row level). -/
structure pkTable where
  _pkColumns : List pkColumn
  _pkColumnNames : List String
  _allPKColumns : List pkColumn

/-- Getter `GetPKColumns`. -/
def pkTable.GetPKColumns (t : pkTable) : List pkColumn := t._pkColumns

/-- Getter `GetPKColumnNames`. -/
def pkTable.GetPKColumnNames (t : pkTable) : List String := t._pkColumnNames

/-- Getter `GetAllPKColumns`. -/
def pkTable.GetAllPKColumns (t : pkTable) : List pkColumn := t._allPKColumns

/-- Getter `GetAllPKColumnNames`. -/
def pkTable.GetAllPKColumnNames (t : pkTable) : List String :=
  t._allPKColumns.map (fun c => c.ColumnName)

/-- Field type of the trailing effective PK column,
`GetPKColumns()[len(GetPKColumns())-1].FieldType`; indexing an empty list panics. -/
def pkTable.lastPKfieldtype (t : pkTable) : Option iFieldType :=
  t.GetPKColumns.getLast?.map (fun c => c.FieldType)

/-! ## Database endpoints -/

/-- One scanned row of a lookahead query: `COUNT(1)`, the leading PK columns and
`MAX` of the trailing PK column. -/
structure ubRow where
  count : Int
  leading : List Value
  maxTrailing : Value
  deriving DecidableEq, Repr

/-- Answer of a hash query together with the wall-clock readings taken around it. -/
structure hashAnswer (α : Type) where
  data : α
  ts : Int
  elapsedms : Int
  deriving DecidableEq, Repr

/-- Database handle `*sql.DB`, given by the answers to the queries the engine
issues; `none` is a driver error (prepare, query or scan), on which `errorCheck`
panics.  The additional filter and the ignored columns are fixed for a run and are
part of the endpoint. -/
structure Endpoint where
  /-- Column names of a table, `GetTableColumns`. -/
  columns : String → List String
  /-- Rows of `SELECT pk.. FROM table ORDER BY pk.. LIMIT 1`. -/
  firstRow : String → List String → Option (List (List Value))
  /-- Rows of the lookahead query for the given column names, operators, `LIMIT`
  and bound parameters. -/
  lookahead : List String → List String → Int → List Value → Option (List ubRow)
  /-- Row `(COUNT(1), crc32)` of the chunk hash query on a table, for the given
  PK column names and bound parameters. -/
  chunkHash : String → List String → List Value → Option (hashAnswer (Int × Int))
  /-- Rows `(crc32, all PK values)` of the row-level query. -/
  rowLevel : String → List String → List Value → Option (hashAnswer (List (Int × List Value)))
  /-- Rows of the `GROUP BY .. HAVING COUNT(1) > 1 ORDER BY COUNT(1) DESC LIMIT 1`
  query. -/
  maxGroupCount : String → List String → Option (List Int)

/-! ## Chunk descriptor and query texts (`pktable.go`, `pktable_chunklevel.go`) -/

/-- Result `tableHashResult` of one endpoint for one chunk. -/
structure tableHashResult where
  issrc : Bool
  rowcnt : Int
  hash : Int
  ts : Int
  elapsedms : Int
  deriving DecidableEq, Repr

/-- Chunk descriptor `tableChunkInfo` (with the embedded `tableUpperBoundary`). -/
structure tableChunkInfo where
  Match : Bool
  ChunkIdx : Int
  TimestampSrc : Int
  TimestampTgt : Int
  ElapsedMsSrc : Int
  ElapsedMsTgt : Int
  TableSrc : String
  TableTgt : String
  PKColumnNames : List String
  PKColumnSequence : List String
  RowcntSrc : Int
  RowcntTgt : Int
  HashSrc : Int
  HashTgt : Int
  IgnoreFields : List String
  AdditionalFilter : String
  LastPKFieldUpperBoundary : Value
  LowerBoundary : List Value
  UpperBoundaryQuery : String
  HashQuerySrc : String
  HashQueryTgt : String
  deriving DecidableEq, Repr

/-- Zero value of `tableChunkInfo` (`var tci tableChunkInfo`). -/
def tableChunkInfo.zero : tableChunkInfo where
  Match := false
  ChunkIdx := 0
  TimestampSrc := 0
  TimestampTgt := 0
  ElapsedMsSrc := 0
  ElapsedMsTgt := 0
  TableSrc := ""
  TableTgt := ""
  PKColumnNames := []
  PKColumnSequence := []
  RowcntSrc := 0
  RowcntTgt := 0
  HashSrc := 0
  HashTgt := 0
  IgnoreFields := []
  AdditionalFilter := ""
  LastPKFieldUpperBoundary := Value.null
  LowerBoundary := []
  UpperBoundaryQuery := ""
  HashQuerySrc := ""
  HashQueryTgt := ""

/-- The ` AND <filter>` suffix appended when an additional filter is configured. -/
def additionalfilterstmt (env : envarg) : String :=
  if env.ArgAdditionalFilter ≠ "" then " AND " ++ env.ArgAdditionalFilter else ""

/-- The `WHERE` conjuncts of the hash queries: `= ?` on the leading PK columns and
`BETWEEN ? AND ?` on the trailing one. -/
def pkColumnsWhere : List String → List String
  | [] => []
  | [c] => [c ++ " BETWEEN ? AND ?"]
  | c :: d :: cs => (c ++ " = ?") :: pkColumnsWhere (d :: cs)

/-- Function `TableQueryColumnNames`: the table columns without the ignored ones,
and the `WHERE` conjuncts. -/
def pkTable.TableQueryColumnNames (env : envarg) (t : pkTable) (db : Endpoint)
    (table : String) : List String × List String :=
  ((db.columns table).filter (fun x => !(env.ArgIgnoreFields.contains x)),
   pkColumnsWhere t.GetPKColumnNames)

/-- Function `TableHashQueryChunkLevel`: text of the chunk hash query. -/
def pkTable.TableHashQueryChunkLevel (env : envarg) (t : pkTable) (db : Endpoint)
    (table : String) : String :=
  let cw := t.TableQueryColumnNames env db table
  "\n    SELECT SQL_NO_CACHE\n      COUNT(1) AS rowcnt,\n      COALESCE(\n        CAST(CRC32(\n" ++
  "          GROUP_CONCAT(\n            CAST(CRC32(\n              CONCAT_WS(" ++
  sqlQuote ++ "#" ++ sqlQuote ++ "," ++ ",".intercalate cw.1 ++
  ")\n              ) AS UNSIGNED)\n            )\n          ) AS UNSIGNED),\n        0) AS crc32\n    FROM " ++
  table ++ "\n    WHERE " ++ " AND ".intercalate cw.2 ++ additionalfilterstmt env

/-- Function `TableHashQueryRowLevel`: text of the row-level hash query, keyed and
ordered by the declared primary key. -/
def pkTable.TableHashQueryRowLevel (env : envarg) (t : pkTable) (db : Endpoint)
    (table : String) : String :=
  let cw := t.TableQueryColumnNames env db table
  "\n    SELECT SQL_NO_CACHE\n      CAST(CRC32(\n        CONCAT_WS(" ++
  sqlQuote ++ "#" ++ sqlQuote ++ "," ++ ",".intercalate cw.1 ++
  ")\n        ) AS UNSIGNED) AS crc32," ++ ",".intercalate t.GetAllPKColumnNames ++
  "\n    FROM " ++ table ++ "\n    WHERE " ++ " AND ".intercalate cw.2 ++
  additionalfilterstmt env ++ "\n    ORDER BY " ++ ",".intercalate t.GetAllPKColumnNames

/-- Quote used for the `i`-th bound parameter of a hash query: the parameter after
the last PK column is the trailing upper boundary and is quoted like the trailing
column. -/
def hashInputQuote (t : pkTable) (i : Nat) : String :=
  let cols := t.GetPKColumns
  let col := if i = cols.length then cols.getLast? else cols.get? i
  match col with
  | some c => if c.FieldType.withQuote then sqlQuote else ""
  | none => ""

/-- Plugging of the bound parameters into a normalized query text, for logging. -/
def plugInputs (quote : Nat → String) : Nat → List Value → String → String
  | _, [], q => q
  | i, v :: vs, q =>
    plugInputs quote (i + 1) vs (stringsReplaceOnce q (quote i ++ fmtSprint v ++ quote i))

/-- Function `TableHashStmt`: the bound parameters (lower boundary followed by the
trailing upper boundary) and the query text with the parameters plugged in. -/
def pkTable.TableHashStmt (t : pkTable) (query : String) (LowerBoundary : List Value)
    (LastPKFieldUpperBoundary : Value) : List Value × String :=
  let inputs := LowerBoundary ++ [LastPKFieldUpperBoundary]
  (inputs, plugInputs (hashInputQuote t) 0 inputs query)

/-- Name of the table an endpoint is asked about. -/
def envarg.table (env : envarg) (issrc : Bool) : String :=
  if issrc then env.ArgSrcTable else env.ArgTgtTable

/-- Function `TableResultChunkLevel`: runs the chunk hash query on one endpoint and
returns its result; the query text of that side is filled in for logging. -/
def pkTable.TableResultChunkLevel (env : envarg) (t : pkTable) (db : Endpoint)
    (issrc : Bool) (tci : tableChunkInfo) : Option (tableHashResult × tableChunkInfo) :=
  let q := if issrc then tci.HashQuerySrc else tci.HashQueryTgt
  let st := t.TableHashStmt q tci.LowerBoundary tci.LastPKFieldUpperBoundary
  let tci1 := if issrc then { tci with HashQuerySrc := st.2 } else { tci with HashQueryTgt := st.2 }
  match db.chunkHash (env.table issrc) t.GetPKColumnNames st.1 with
  | none => none
  | some a =>
    some ({ issrc := issrc, rowcnt := a.data.1, hash := a.data.2, ts := a.ts,
            elapsedms := a.elapsedms }, tci1)

/-- Body of the `for result := range hashchan` loop of `TableRoutineChunkLevel`:
a result is stored in the fields of its own side. -/
def routeChunkResult (tci : tableChunkInfo) (result : tableHashResult) : tableChunkInfo :=
  if result.issrc then
    { tci with RowcntSrc := result.rowcnt, HashSrc := result.hash,
               ElapsedMsSrc := result.elapsedms, TimestampSrc := result.ts }
  else
    { tci with RowcntTgt := result.rowcnt, HashTgt := result.hash,
               ElapsedMsTgt := result.elapsedms, TimestampTgt := result.ts }

/-- The statement `tci.Match = (RowcntSrc == RowcntTgt) && (HashSrc == HashTgt)`. -/
def setMatch (tci : tableChunkInfo) : tableChunkInfo :=
  { tci with Match := decide (tci.RowcntSrc = tci.RowcntTgt) && decide (tci.HashSrc = tci.HashTgt) }

/-- The results of the two endpoints in the order in which they arrive on the
channel. -/
def arrivalOrder (srcFirst : Bool) (rs rt : tableHashResult) : List tableHashResult :=
  if srcFirst then [rs, rt] else [rt, rs]

/-! ## Row-level differ (`pktable_rowlevel.go`) -/

/-- Row record `TableRow`: row hash and the values of all declared PK columns. -/
structure TableRow where
  Hash : Int
  AllPKColumnValues : List Value
  deriving DecidableEq, Repr

/-- Record `tableRowCrud`: the three classification lists. -/
structure tableRowCrud where
  Insert : List TableRow
  Update : List TableRow
  Delete : List TableRow
  deriving DecidableEq, Repr

/-- Go `map[string]int`, kept as the list of assignments, newest first. -/
abbrev GoMap := List (String × Int)

/-- Assignment `m[k] = v`. -/
def GoMap.set (m : GoMap) (k : String) (v : Int) : GoMap := (k, v) :: m

/-- Lookup `v, exists := m[k]`: the value assigned last, if any. -/
def GoMap.get? (m : GoMap) (k : String) : Option Int :=
  match m with
  | [] => none
  | (k1, v) :: rest => if k = k1 then some v else GoMap.get? rest k

/-- Lookup `m[k]`, the zero value when the key is absent. -/
def GoMap.get (m : GoMap) (k : String) : Int := (m.get? k).getD 0

/-- Record `TableChunkRowsInfo`: the chunk descriptor, the diff, and the raw rows
and PK-to-hash maps of both sides. -/
structure TableChunkRowsInfo extends tableChunkInfo where
  Diff : tableRowCrud
  TableRowsSrc : List TableRow
  TableRowsTgt : List TableRow
  MapTableRowsSrc : GoMap
  MapTableRowsTgt : GoMap
  deriving DecidableEq, Repr

/-- Scan of the PK cells of one row-level result row: one cell per declared PK
column, each canonicalised by the column handler (`transformDBResultType`). -/
def scanPKValues : List pkColumn → List Value → Option (List Value)
  | [], [] => some []
  | c :: cs, v :: vs =>
    match c.FieldType.transformDBResultType v, scanPKValues cs vs with
    | some x, some xs => some (x :: xs)
    | _, _ => none
  | _, _ => none

/-- The `for rowresult.Next()` loop of `TableResultRowLevel`: each row is appended
to the row list of its side and its hash stored under the encoded PK tuple. -/
def rowLevelLoop (marshal : List Value → String) (t : pkTable) (issrc : Bool) :
    List (Int × List Value) → TableChunkRowsInfo → Option TableChunkRowsInfo
  | [], tcri => some tcri
  | (h, vals) :: rest, tcri =>
    match scanPKValues t.GetAllPKColumns vals with
    | none => none
    | some pk =>
      let tr : TableRow := { Hash := h, AllPKColumnValues := pk }
      let stringAllPKColumnValues := marshal tr.AllPKColumnValues
      if issrc then
        rowLevelLoop marshal t issrc rest
          { tcri with TableRowsSrc := tcri.TableRowsSrc ++ [tr],
                      MapTableRowsSrc := tcri.MapTableRowsSrc.set stringAllPKColumnValues tr.Hash }
      else
        rowLevelLoop marshal t issrc rest
          { tcri with TableRowsTgt := tcri.TableRowsTgt ++ [tr],
                      MapTableRowsTgt := tcri.MapTableRowsTgt.set stringAllPKColumnValues tr.Hash }

/-- Function `TableResultRowLevel`: runs the row-level query on one endpoint and
stores its rows; `marshal` is `json.Marshal` on a PK tuple. -/
def pkTable.TableResultRowLevel (marshal : List Value → String) (env : envarg) (t : pkTable)
    (db : Endpoint) (issrc : Bool) (tcri : TableChunkRowsInfo) :
    Option (tableHashResult × TableChunkRowsInfo) :=
  let q := if issrc then tcri.HashQuerySrc else tcri.HashQueryTgt
  let st := t.TableHashStmt q tcri.LowerBoundary tcri.LastPKFieldUpperBoundary
  let tcri1 := if issrc then { tcri with HashQuerySrc := st.2 } else { tcri with HashQueryTgt := st.2 }
  match db.rowLevel (env.table issrc) t.GetPKColumnNames st.1 with
  | none => none
  | some a =>
    match rowLevelLoop marshal t issrc a.data tcri1 with
    | none => none
    | some tcri2 =>
      some ({ issrc := issrc, rowcnt := 0, hash := 0, ts := a.ts, elapsedms := a.elapsedms }, tcri2)

/-- Body of the `for result := range hashchan` loop of `TableRoutineRowLevel`. -/
def routeRowResult (tcri : TableChunkRowsInfo) (result : tableHashResult) : TableChunkRowsInfo :=
  if result.issrc then
    { tcri with ElapsedMsSrc := result.elapsedms, TimestampSrc := result.ts }
  else
    { tcri with ElapsedMsTgt := result.elapsedms, TimestampTgt := result.ts }

/-- First classification loop of `TableRoutineRowLevel`, over the source rows. -/
def classifySrc (marshal : List Value → String) :
    List TableRow → TableChunkRowsInfo → TableChunkRowsInfo
  | [], tcri => tcri
  | tr :: rest, tcri =>
    let stringAllPKColumnValues := marshal tr.AllPKColumnValues
    match tcri.MapTableRowsTgt.get? stringAllPKColumnValues with
    | none =>
      classifySrc marshal rest
        { tcri with Diff := { tcri.Diff with Insert := tcri.Diff.Insert ++ [tr] } }
    | some _ =>
      if tcri.MapTableRowsSrc.get stringAllPKColumnValues ≠
          tcri.MapTableRowsTgt.get stringAllPKColumnValues then
        classifySrc marshal rest
          { tcri with Diff := { tcri.Diff with Update := tcri.Diff.Update ++ [tr] } }
      else classifySrc marshal rest tcri

/-- Second classification loop of `TableRoutineRowLevel`, over the target rows. -/
def classifyTgt (marshal : List Value → String) :
    List TableRow → TableChunkRowsInfo → TableChunkRowsInfo
  | [], tcri => tcri
  | tr :: rest, tcri =>
    match tcri.MapTableRowsSrc.get? (marshal tr.AllPKColumnValues) with
    | none =>
      classifyTgt marshal rest
        { tcri with Diff := { tcri.Diff with Delete := tcri.Diff.Delete ++ [tr] } }
    | some _ => classifyTgt marshal rest tcri

/-- Function `TableRoutineRowLevel`: both endpoints are queried, the two results are
routed by their `issrc` tag in arrival order, then the rows are classified. -/
def pkTable.TableRoutineRowLevel (marshal : List Value → String) (env : envarg) (t : pkTable)
    (dbSrc dbTgt : Endpoint) (srcFirst : Bool) (tcri : TableChunkRowsInfo) :
    Option TableChunkRowsInfo :=
  match t.TableResultRowLevel marshal env dbSrc true tcri with
  | none => none
  | some (rs, tcri1) =>
    match t.TableResultRowLevel marshal env dbTgt false tcri1 with
    | none => none
    | some (rt, tcri2) =>
      let tcri3 := (arrivalOrder srcFirst rs rt).foldl routeRowResult tcri2
      let tcri4 := classifySrc marshal tcri3.TableRowsSrc tcri3
      some (classifyTgt marshal tcri4.TableRowsTgt tcri4)

/-- Function `RunTableRoutineRowLevel`: builds a fresh `TableChunkRowsInfo` from the
chunk descriptor, runs the row-level differ and returns the line written to the
row-level log. -/
def pkTable.RunTableRoutineRowLevel (marshal : List Value → String) (env : envarg) (t : pkTable)
    (dbSrc dbTgt : Endpoint) (srcFirst : Bool) (tci : tableChunkInfo) :
    Option TableChunkRowsInfo :=
  let tcri : TableChunkRowsInfo :=
    { tableChunkInfo.zero with
      Match := tci.Match
      ChunkIdx := tci.ChunkIdx
      TableSrc := env.ArgSrcTable
      TableTgt := env.ArgTgtTable
      PKColumnNames := t.GetPKColumnNames
      RowcntSrc := tci.RowcntSrc
      RowcntTgt := tci.RowcntTgt
      HashSrc := tci.HashSrc
      HashTgt := tci.HashTgt
      LastPKFieldUpperBoundary := tci.LastPKFieldUpperBoundary
      LowerBoundary := tci.LowerBoundary
      UpperBoundaryQuery := tci.UpperBoundaryQuery
      PKColumnSequence := tci.PKColumnSequence
      IgnoreFields := tci.IgnoreFields
      AdditionalFilter := tci.AdditionalFilter
      HashQuerySrc := t.TableHashQueryRowLevel env dbSrc env.ArgSrcTable
      HashQueryTgt := t.TableHashQueryRowLevel env dbTgt env.ArgTgtTable
      Diff := { Insert := [], Update := [], Delete := [] }
      TableRowsSrc := []
      TableRowsTgt := []
      MapTableRowsSrc := []
      MapTableRowsTgt := [] }
  t.TableRoutineRowLevel marshal env dbSrc dbTgt srcFirst tcri

/-! ## Chunk hasher (`pktable_chunklevel.go`) -/

/-- Function `TableRoutineChunkLevel`: both endpoints are queried, the results are
routed by their `issrc` tag in arrival order, `Match` is set, and on a mismatch the
row-level differ runs.  Returns the descriptor and the row-level log line, if one
was written. -/
def pkTable.TableRoutineChunkLevel (marshal : List Value → String) (env : envarg) (t : pkTable)
    (dbSrc dbTgt : Endpoint) (srcFirst : Bool) (tci : tableChunkInfo) :
    Option (tableChunkInfo × Option TableChunkRowsInfo) :=
  match t.TableResultChunkLevel env dbSrc true tci with
  | none => none
  | some (rs, tci1) =>
    match t.TableResultChunkLevel env dbTgt false tci1 with
    | none => none
    | some (rt, tci2) =>
      let tci3 := setMatch ((arrivalOrder srcFirst rs rt).foldl routeChunkResult tci2)
      if !tci3.Match then
        match t.RunTableRoutineRowLevel marshal env dbSrc dbTgt srcFirst tci3 with
        | none => none
        | some line => some (tci3, some line)
      else some (tci3, none)

/-- Function `RunTableRoutineChunkLevel`: runs the chunk hasher, blanks the SQL
texts unless debug is on, and returns the descriptor as written to the chunk log
together with the row-level log line, if any. -/
def pkTable.RunTableRoutineChunkLevel (marshal : List Value → String) (env : envarg)
    (t : pkTable) (dbSrc dbTgt : Endpoint) (srcFirst : Bool) (tci : tableChunkInfo) :
    Option (tableChunkInfo × Option TableChunkRowsInfo) :=
  match t.TableRoutineChunkLevel marshal env dbSrc dbTgt srcFirst tci with
  | none => none
  | some (tci1, line) =>
    if !env.ArgDebug then
      some ({ tci1 with UpperBoundaryQuery := "", HashQuerySrc := "", HashQueryTgt := "" }, line)
    else some (tci1, line)

/-- Canonical encoding of the PK tuple of a row, the key under which the row is
stored in the PK-to-hash map. -/
def pkKey (marshal : List Value → String) (tr : TableRow) : String :=
  marshal tr.AllPKColumnValues

/-- Number of PK tuples present on both sides. -/
def commonPK (src tgt : List TableRow) : Nat :=
  ((src.map (fun r => r.AllPKColumnValues)).toFinset ∩
    (tgt.map (fun r => r.AllPKColumnValues)).toFinset).card

/-! ## Boundary planner (`pkable_single.go`, `pktable_multi.go`) -/

/-- The two implementations of interface `ipkTable`. -/
inductive pkKind where
  | single
  | multi
  deriving DecidableEq, Repr

/-- One row of a planner resultset: `COUNT(1)`, the leading PK values, the lower
and the upper boundary of the trailing PK column, and the lookahead query text. -/
structure resultRow where
  count : Int
  leading : List Value
  lb : Value
  ub : Value
  query : String
  deriving DecidableEq, Repr

/-- The `WHERE` conjuncts of a lookahead query: one `name op ?` per operator. -/
def lookaheadWhere : List String → List String → List String
  | n :: ns, o :: os => (n ++ o ++ "?") :: lookaheadWhere ns os
  | _, _ => []

/-- Function `pkTableSingle.UpperBoundaryQuery`: text of the single-PK lookahead;
indexing an empty name or operator list panics. -/
def pkTableSingle.UpperBoundaryQuery (env : envarg) (columnNames columnOperators : List String)
    (chunksize : Int) : Option String :=
  match columnNames, columnOperators with
  | n :: _, o :: _ =>
    some ("\n    SELECT SQL_NO_CACHE\n\t\t\tCOUNT(1) AS rowcnt, MAX(" ++ n ++
      ")\n    FROM (\n      SELECT " ++ ",".intercalate columnNames ++
      "\n      FROM " ++ env.ArgSrcTable ++
      "\n      WHERE " ++ " AND ".intercalate [n ++ o ++ "?"] ++ additionalfilterstmt env ++
      "\n      ORDER BY " ++ ",".intercalate columnNames ++
      "\n      LIMIT " ++ fmtInt chunksize ++ ") AS A\n    ")
  | _, _ => none

/-- Function `pkTableMulti.UpperBoundaryQuery`: text of the composite-PK lookahead;
columns without an operator get no `WHERE` conjunct. -/
def pkTableMulti.UpperBoundaryQuery (env : envarg) (columnNames columnOperators : List String)
    (chunksize : Int) : String :=
  let nolast := ",".intercalate columnNames.dropLast
  "\n    SELECT SQL_NO_CACHE\n\t\t\tCOUNT(1) AS rowcnt," ++ nolast ++ ",MAX(" ++
    columnNames.getLastD "" ++ ")\n    FROM (\n      SELECT " ++ ",".intercalate columnNames ++
    "\n      FROM " ++ env.ArgSrcTable ++
    "\n      WHERE " ++ " AND ".intercalate (lookaheadWhere columnNames columnOperators) ++
    additionalfilterstmt env ++
    "\n      ORDER BY " ++ ",".intercalate columnNames ++
    "\n      LIMIT " ++ fmtInt chunksize ++ ") AS A\n    GROUP BY " ++ nolast ++
    "\n    ORDER BY " ++ nolast ++ "\n    "

/-- Quote used for the `i`-th bound parameter of a lookahead query. -/
def lookaheadInputQuote (t : pkTable) (i : Nat) : String :=
  match t.GetPKColumns.get? i with
  | some c => if c.FieldType.withQuote then sqlQuote else ""
  | none => ""

/-- Function `UpperBoundaryResult`: runs a lookahead on the source with the lower
boundary as bound parameters and scans its rows (one `COUNT(1)` cell, one cell per
leading column, one trailing cell; any other row shape is a scan error).  Returns the
rows and the query text with the parameters plugged in. -/
def pkTable.UpperBoundaryResult (t : pkTable) (dbSrc : Endpoint) (columnNames : List String)
    (columnOperators : List String) (chunksize : Int) (query : String)
    (LowerBoundary : List Value) : Option (List ubRow × String) :=
  match dbSrc.lookahead columnNames columnOperators chunksize LowerBoundary with
  | none => none
  | some rub =>
    if rub.all (fun r => r.leading.length + 1 = columnNames.length) then
      some (rub, plugInputs (lookaheadInputQuote t) 0 LowerBoundary query)
    else none

/-- The closure `populateResultset` of `pkTableSingle.TransformUpperBoundaryResult`:
only the first scanned row is used.  The single-PK lookahead selects `COUNT(1)` and
`MAX` only, so its rows have no leading cell. -/
def pkTableSingle.populateResultset (t : pkTable) (LowerBoundary : List Value) (query : String)
    (rub : List ubRow) : Option (Int × List resultRow) :=
  match rub, LowerBoundary, t.lastPKfieldtype with
  | originalrow :: _, lb0 :: _, some ft =>
    if originalrow.leading ≠ [] then none
    else
      match ft.transformDBResultType originalrow.maxTrailing with
      | none => none
      | some ub =>
        some (originalrow.count,
          [{ count := originalrow.count, leading := [], lb := lb0, ub := ub, query := query }])
  | _, _, _ => none

/-- Function `pkTableSingle.TransformUpperBoundaryResult`: one lookahead with the
operator `>=`. -/
def pkTableSingle.TransformUpperBoundaryResult (env : envarg) (t : pkTable) (dbSrc : Endpoint)
    (LowerBoundary : List Value) : Option (List resultRow) :=
  match t.lastPKfieldtype,
      pkTableSingle.UpperBoundaryQuery env t.GetPKColumnNames [">="] env.ArgChunksize with
  | some _, some q =>
    match t.UpperBoundaryResult dbSrc t.GetPKColumnNames [">="] env.ArgChunksize q
        LowerBoundary with
    | none => none
    | some (rub, q1) => (pkTableSingle.populateResultset t LowerBoundary q1 rub).map Prod.snd
  | _, _ => none

/-- Canonicalisation of the leading cells of a scanned lookahead row, the `c`-th
cell by the handler of the `c`-th effective PK column. -/
def transformLeading : List pkColumn → List Value → Option (List Value)
  | _, [] => some []
  | [], _ :: _ => none
  | c :: cs, v :: vs =>
    match c.FieldType.transformDBResultType v, transformLeading cs vs with
    | some x, some xs => some (x :: xs)
    | _, _ => none

/-- Trailing lower boundary put into a composite planner row: the lowest value of
the trailing field type once the lower boundary has been cut during unwinding,
otherwise the trailing value of the lower boundary. -/
def trailingLowerBoundary (t : pkTable) (ft : iFieldType) (LowerBoundary : List Value) :
    Option Value :=
  if LowerBoundary.length < t.GetPKColumnNames.length then some ft.lowestFieldData
  else LowerBoundary.get? (t.GetPKColumnNames.length - 1)

/-- The closure `populateResultset` of `pkTableMulti.TransformUpperBoundaryResult`:
one planner row per scanned row; returns the sum of the counts. -/
def pkTableMulti.populateResultset (t : pkTable) (ft : iFieldType) (LowerBoundary : List Value)
    (query : String) : List ubRow → Option (Int × List resultRow)
  | [] => some (0, [])
  | originalrow :: rest =>
    match transformLeading t.GetPKColumns originalrow.leading,
        trailingLowerBoundary t ft LowerBoundary,
        ft.transformDBResultType originalrow.maxTrailing with
    | some leading, some lb, some ub =>
      match pkTableMulti.populateResultset t ft LowerBoundary query rest with
      | none => none
      | some (cnt, rows) =>
        some (originalrow.count + cnt,
          { count := originalrow.count, leading := leading, lb := lb, ub := ub,
            query := query } :: rows)
    | _, _, _ => none

/-- The closure `runUpperBoundary` of `pkTableMulti.TransformUpperBoundaryResult`:
one lookahead with the current operators, chunk size and lower boundary. -/
def pkTableMulti.runUpperBoundary (env : envarg) (t : pkTable) (dbSrc : Endpoint)
    (ft : iFieldType) (pkColumnOperators : List String) (chunksize : Int)
    (LowerBoundary : List Value) : Option (Int × List resultRow) :=
  let q := pkTableMulti.UpperBoundaryQuery env t.GetPKColumnNames pkColumnOperators chunksize
  match t.UpperBoundaryResult dbSrc t.GetPKColumnNames pkColumnOperators chunksize q
      LowerBoundary with
  | none => none
  | some (rub, q1) => pkTableMulti.populateResultset t ft LowerBoundary q1 rub

/-- Slice `s[:len(s)-1]`; it panics on an empty slice. -/
def sliceDropLast (s : List Value) : Option (List Value) :=
  if s = [] then none else some s.dropLast

/-- The closure `runUpperBoundaryFor2PKFields`: a lookahead with the current
operators and, if it falls short of the chunk size, one with `[>]` on the lower
boundary cut by its last element, for the remaining size. -/
def pkTableMulti.runUpperBoundaryFor2PKFields (env : envarg) (t : pkTable) (dbSrc : Endpoint)
    (ft : iFieldType) (pkColumnOperators : List String) (chunksize : Int)
    (LowerBoundary : List Value) : Option (List resultRow) :=
  match pkTableMulti.runUpperBoundary env t dbSrc ft pkColumnOperators chunksize LowerBoundary with
  | none => none
  | some (rowcntSrc, rows) =>
    if rowcntSrc = chunksize then some rows
    else
      match sliceDropLast LowerBoundary with
      | none => none
      | some lb1 =>
        match pkTableMulti.runUpperBoundary env t dbSrc ft [">"] (chunksize - rowcntSrc) lb1 with
        | none => none
        | some (_, rows1) => some (rows ++ rows1)

/-- The closure `runUpperBoundaryFor3PKFields`. -/
def pkTableMulti.runUpperBoundaryFor3PKFields (env : envarg) (t : pkTable) (dbSrc : Endpoint)
    (ft : iFieldType) (pkColumnOperators : List String) (chunksize : Int)
    (LowerBoundary : List Value) : Option (List resultRow) :=
  match pkTableMulti.runUpperBoundary env t dbSrc ft pkColumnOperators chunksize LowerBoundary with
  | none => none
  | some (rowcntSrc, rows) =>
    if rowcntSrc = chunksize then some rows
    else
      match sliceDropLast LowerBoundary with
      | none => none
      | some lb1 =>
        match pkTableMulti.runUpperBoundaryFor2PKFields env t dbSrc ft ["=", ">"]
            (chunksize - rowcntSrc) lb1 with
        | none => none
        | some rows1 => some (rows ++ rows1)

/-- The closure `runUpperBoundaryFor4PKFields`. -/
def pkTableMulti.runUpperBoundaryFor4PKFields (env : envarg) (t : pkTable) (dbSrc : Endpoint)
    (ft : iFieldType) (pkColumnOperators : List String) (chunksize : Int)
    (LowerBoundary : List Value) : Option (List resultRow) :=
  match pkTableMulti.runUpperBoundary env t dbSrc ft pkColumnOperators chunksize LowerBoundary with
  | none => none
  | some (rowcntSrc, rows) =>
    if rowcntSrc = chunksize then some rows
    else
      match sliceDropLast LowerBoundary with
      | none => none
      | some lb1 =>
        match pkTableMulti.runUpperBoundaryFor3PKFields env t dbSrc ft ["=", "=", ">"]
            (chunksize - rowcntSrc) lb1 with
        | none => none
        | some rows1 => some (rows ++ rows1)

/-- Function `pkTableMulti.TransformUpperBoundaryResult`: the lookahead family for
2, 3 or 4 effective PK columns; any other arity is fatal. -/
def pkTableMulti.TransformUpperBoundaryResult (env : envarg) (t : pkTable) (dbSrc : Endpoint)
    (LowerBoundary : List Value) : Option (List resultRow) :=
  match t.lastPKfieldtype with
  | none => none
  | some ft =>
    if t.GetPKColumnNames.length = 2 then
      pkTableMulti.runUpperBoundaryFor2PKFields env t dbSrc ft ["=", ">="] env.ArgChunksize
        LowerBoundary
    else if t.GetPKColumnNames.length = 3 then
      pkTableMulti.runUpperBoundaryFor3PKFields env t dbSrc ft ["=", "=", ">="] env.ArgChunksize
        LowerBoundary
    else if t.GetPKColumnNames.length = 4 then
      pkTableMulti.runUpperBoundaryFor4PKFields env t dbSrc ft ["=", "=", "=", ">="]
        env.ArgChunksize LowerBoundary
    else none

/-- Interface method `TransformUpperBoundaryResult`. -/
def TransformUpperBoundaryResult (kind : pkKind) (env : envarg) (t : pkTable) (dbSrc : Endpoint)
    (LowerBoundary : List Value) : Option (List resultRow) :=
  match kind with
  | pkKind.single => pkTableSingle.TransformUpperBoundaryResult env t dbSrc LowerBoundary
  | pkKind.multi => pkTableMulti.TransformUpperBoundaryResult env t dbSrc LowerBoundary

/-! ## Lower/upper boundary reset and clamping -/

/-- The loop `lowerboundary[c-1] = row[c]` of `ResetLowerboundaryUpperboundary`:
the first cells of the lower boundary are overwritten by the given values; writing
past the end of the lower boundary panics. -/
def assignLowerboundary : List Value → List Value → Option (List Value)
  | [], lowerboundary => some lowerboundary
  | _ :: _, [] => none
  | v :: vs, _ :: rest => (assignLowerboundary vs rest).map (fun r => v :: r)

/-- Tail of `ResetLowerboundaryUpperboundary`, common to both implementations: the
planner's trailing upper boundary is compared with the user's and clamped to it.
Returns `stopAfterRun` and the trailing upper boundary. -/
def clampTrailing (env : envarg) (t : pkTable) (lastpkfieldUpperboundary : Value) :
    Option (Bool × Value) :=
  match t.lastPKfieldtype, env.ArgUpperBoundary.getLast? with
  | some lastPKfieldtype, some u =>
    match lastPKfieldtype.transformFieldType (Value.str u) with
    | none => none
    | some userUpperboundary =>
      match lastPKfieldtype.equals lastpkfieldUpperboundary userUpperboundary with
      | none => none
      | some true => some (true, lastpkfieldUpperboundary)
      | some false =>
        match lastPKfieldtype.greaterThan lastpkfieldUpperboundary userUpperboundary with
        | none => none
        | some true => some (true, userUpperboundary)
        | some false => some (false, lastpkfieldUpperboundary)
  | _, _ => none

/-- Function `pkTableSingle.ResetLowerboundaryUpperboundary`.  Returns
`stopAfterRun`, the trailing upper boundary and the updated lower boundary. -/
def pkTableSingle.ResetLowerboundaryUpperboundary (env : envarg) (t : pkTable) (row : resultRow)
    (lowerboundary : List Value) : Option (Bool × Value × List Value) :=
  match assignLowerboundary (row.leading ++ [row.lb]) lowerboundary with
  | none => none
  | some lowerboundary1 =>
    match env.ArgUpperBoundary.getLast? with
    | none => none
    | some u =>
      if u = "" then some (false, row.ub, lowerboundary1)
      else (clampTrailing env t row.ub).map (fun r => (r.1, r.2, lowerboundary1))

/-- The loop of `pkTableMulti.ResetLowerboundaryUpperboundary` over the leading
columns, from column index `i` with `matchedfieldcnt` columns matched so far.
`some true`: the function returns early (no clamping); `some false`: the loop runs to
its end. -/
def compareLeading (t : pkTable) (ArgUpperBoundary : List String) :
    Nat → Nat → List Value → Option Bool
  | _, _, [] => some false
  | i, matchedfieldcnt, v :: vs =>
    match t.GetPKColumns.get? i, ArgUpperBoundary.get? i with
    | some col, some userUB =>
      match col.FieldType.equals v (Value.str userUB) with
      | none => none
      | some true => compareLeading t ArgUpperBoundary (i + 1) (matchedfieldcnt + 1) vs
      | some false =>
        match col.FieldType.greaterThan v (Value.str userUB) with
        | none => none
        | some false => some true
        | some true =>
          if matchedfieldcnt = i then some true
          else compareLeading t ArgUpperBoundary (i + 1) matchedfieldcnt vs
    | _, _ => none

/-- Function `pkTableMulti.ResetLowerboundaryUpperboundary`. -/
def pkTableMulti.ResetLowerboundaryUpperboundary (env : envarg) (t : pkTable) (row : resultRow)
    (lowerboundary : List Value) : Option (Bool × Value × List Value) :=
  match assignLowerboundary (row.leading ++ [row.lb]) lowerboundary with
  | none => none
  | some lowerboundary1 =>
    if env.ArgUpperBoundary = [""] then some (false, row.ub, lowerboundary1)
    else
      match compareLeading t env.ArgUpperBoundary 0 0 row.leading with
      | none => none
      | some true => some (false, row.ub, lowerboundary1)
      | some false => (clampTrailing env t row.ub).map (fun r => (r.1, r.2, lowerboundary1))

/-- Interface method `ResetLowerboundaryUpperboundary`. -/
def ResetLowerboundaryUpperboundary (kind : pkKind) (env : envarg) (t : pkTable)
    (row : resultRow) (lowerboundary : List Value) : Option (Bool × Value × List Value) :=
  match kind with
  | pkKind.single => pkTableSingle.ResetLowerboundaryUpperboundary env t row lowerboundary
  | pkKind.multi => pkTableMulti.ResetLowerboundaryUpperboundary env t row lowerboundary

/-! ## Main driver loop (`pktable.go`) -/

/-- Mutable state of a run: the chunk index, the current lower boundary, and the
lines written so far to the chunk log and to the row-level log. -/
structure RunState where
  chunkidx : Int
  lowerboundary : List Value
  chunklog : List tableChunkInfo
  rowlog : List TableChunkRowsInfo
  deriving DecidableEq, Repr

/-- How a step of the driver ends: the loop goes on (`stoprun = false`), the run
stops (`stoprun = true`), or the process dies on a panic. -/
inductive Outcome where
  | more
  | stop
  | abort
  deriving DecidableEq, Repr

/-- Everything a run depends on besides its state: the arguments, the table model
and its implementation, the two endpoints, `json.Marshal` on PK tuples, and for
every chunk index whether the source result arrives first. -/
structure RunEnv where
  env : envarg
  kind : pkKind
  t : pkTable
  dbSrc : Endpoint
  dbTgt : Endpoint
  marshal : List Value → String
  srcFirst : Int → Bool

/-- Assignment `lowerboundary[len(lowerboundary)-1] = v`. -/
def setLast (lowerboundary : List Value) (v : Value) : List Value :=
  lowerboundary.dropLast ++ [v]

/-- The `for r := 0; r < len(resultset); r++` loop of `RunTableChunk`, on the rows
still to be processed. -/
def RunTableChunkLoop (w : RunEnv) (lastPKfieldtype : iFieldType)
    (hashQuerySrc hashQueryTgt : String) :
    List resultRow → tableChunkInfo → RunState → RunState × Outcome
  | [], _, st => (st, Outcome.more)
  | row :: rest, tci, st =>
    match ResetLowerboundaryUpperboundary w.kind w.env w.t row st.lowerboundary with
    | none => (st, Outcome.abort)
    | some (stopAfterRun, lastpkfieldUpperboundary, lowerboundary) =>
      let st1 := { st with lowerboundary := lowerboundary }
      let lastRecord : Option Bool :=
        if rest.isEmpty then
          match lowerboundary.getLast? with
          | none => none
          | some lbLast => lastPKfieldtype.equals lbLast lastpkfieldUpperboundary
        else some false
      match lastRecord with
      | none => (st1, Outcome.abort)
      | some true => (st1, Outcome.stop)
      | some false =>
        let chunkidx := st.chunkidx + 1
        let tci1 : tableChunkInfo :=
          { tci with
            ChunkIdx := chunkidx
            LastPKFieldUpperBoundary := lastpkfieldUpperboundary
            LowerBoundary := lowerboundary
            UpperBoundaryQuery := row.query
            HashQuerySrc := hashQuerySrc
            HashQueryTgt := hashQueryTgt }
        match w.t.RunTableRoutineChunkLevel w.marshal w.env w.dbSrc w.dbTgt (w.srcFirst chunkidx)
            tci1 with
        | none => ({ st1 with chunkidx := chunkidx }, Outcome.abort)
        | some (tci2, line) =>
          let st2 : RunState :=
            { chunkidx := chunkidx
              lowerboundary := lowerboundary
              chunklog := st.chunklog ++ [tci2]
              rowlog := st.rowlog ++ line.toList }
          if stopAfterRun then (st2, Outcome.stop)
          else
            RunTableChunkLoop w lastPKfieldtype hashQuerySrc hashQueryTgt rest tci2
              { st2 with lowerboundary := setLast lowerboundary tci2.LastPKFieldUpperBoundary }

/-- Function `RunTableChunk`: processes one planner resultset. -/
def RunTableChunk (w : RunEnv) (tci : tableChunkInfo) (resultset : List resultRow)
    (st : RunState) : RunState × Outcome :=
  match w.t.lastPKfieldtype with
  | none => (st, Outcome.abort)
  | some lastPKfieldtype =>
    RunTableChunkLoop w lastPKfieldtype
      (w.t.TableHashQueryChunkLevel w.env w.dbSrc w.env.ArgSrcTable)
      (w.t.TableHashQueryChunkLevel w.env w.dbTgt w.env.ArgTgtTable) resultset tci st

/-- The chunk descriptor prepared at the start of an iteration of `RunTableRoutine`. -/
def initialChunkInfo (w : RunEnv) : tableChunkInfo :=
  { tableChunkInfo.zero with
    TableSrc := w.env.ArgSrcTable
    TableTgt := w.env.ArgTgtTable
    PKColumnNames := w.t.GetPKColumnNames
    PKColumnSequence := w.env.ArgPKColumnSequence
    IgnoreFields := w.env.ArgIgnoreFields
    AdditionalFilter := w.env.ArgAdditionalFilter }

/-- The `for chunkidx := 0; !stoprun; ` loop of `RunTableRoutine`, for at most
`fuel` iterations; the outcome is `more` when the loop is still running after them. -/
def RunTableRoutineLoop (w : RunEnv) : Nat → RunState → RunState × Outcome
  | 0, st => (st, Outcome.more)
  | fuel + 1, st =>
    match TransformUpperBoundaryResult w.kind w.env w.t w.dbSrc st.lowerboundary with
    | none => (st, Outcome.abort)
    | some resultset =>
      match RunTableChunk w (initialChunkInfo w) resultset st with
      | (st1, Outcome.more) => RunTableRoutineLoop w fuel st1
      | r => r

/-- The loop of `FindInitialPKFieldLowerboundary` over a user-supplied lower
boundary: a non-empty argument is canonicalised, an empty one leaves `nil`. -/
def userLowerboundary : List pkColumn → List String → Option (List Value)
  | [], _ => some []
  | _ :: _, [] => none
  | c :: cs, a :: as =>
    match (if a ≠ "" then c.FieldType.transformFieldType (Value.str a) else some Value.null),
        userLowerboundary cs as with
    | some v, some vs => some (v :: vs)
    | _, _ => none

/-- Function `FindInitialPKFieldLowerboundary`: the user's lower boundary if one is
given, otherwise the first row of the source table, and a boundary of `nil` cells
when the table is empty. -/
def FindInitialPKFieldLowerboundary (w : RunEnv) : Option (List Value) :=
  match w.env.ArgLowerBoundary with
  | [] => none
  | a :: _ =>
    if a ≠ "" then
      if w.t.GetPKColumnNames.length = w.t.GetPKColumns.length then
        userLowerboundary w.t.GetPKColumns w.env.ArgLowerBoundary
      else none
    else
      match w.dbSrc.firstRow w.env.ArgSrcTable w.t.GetPKColumnNames with
      | none => none
      | some [] => some (List.replicate w.t.GetPKColumnNames.length Value.null)
      | some (originalrow :: _) =>
        if originalrow.length = w.t.GetPKColumnNames.length then
          transformLeading w.t.GetPKColumns originalrow
        else none

/-- Function `RunTableRoutine`, for at most `fuel` planner iterations. -/
def RunTableRoutine (w : RunEnv) (fuel : Nat) : RunState × Outcome :=
  match FindInitialPKFieldLowerboundary w with
  | none => ({ chunkidx := 0, lowerboundary := [], chunklog := [], rowlog := [] }, Outcome.abort)
  | some lowerboundary =>
    RunTableRoutineLoop w fuel
      { chunkidx := 0, lowerboundary := lowerboundary, chunklog := [], rowlog := [] }

/-! ## Start of a run (`diff.go`) -/

/-- Function `PKColumnMaxGroupCount`: the single cell of the
`GROUP BY .. HAVING COUNT(1) > 1 ORDER BY COUNT(1) DESC LIMIT 1` query; a driver
error panics, and so does an empty answer (`Scan` reports that there are no rows). -/
def pkTable.PKColumnMaxGroupCount (env : envarg) (t : pkTable) (dbSrc : Endpoint) : Option Int :=
  match dbSrc.maxGroupCount env.ArgSrcTable t.GetPKColumnNames with
  | some (count :: _) => some count
  | _ => none

/-- How `RunTable` ends its checks before the driver loop. -/
inductive StartResult where
  | fatal
  | panicked
  | started
  deriving DecidableEq, Repr

/-- The stall guard of `RunTable`: when the effective PK sequence is shorter than
the declared primary key, the chunk size must exceed the largest group count. -/
def RunTableGuard (env : envarg) (t : pkTable) (dbSrc : Endpoint) (allpkcolumns : List pkColumn) :
    StartResult :=
  if t.GetPKColumnNames.length < allpkcolumns.length then
    match t.PKColumnMaxGroupCount env dbSrc with
    | none => StartResult.panicked
    | some maxgroupcount =>
      if env.ArgChunksize ≤ maxgroupcount then StartResult.fatal else StartResult.started
  else StartResult.started

/-- The choice of implementation in `RunTable`, by the number of declared PK
columns. -/
def RunTableKind (allpkcolumns : List pkColumn) : pkKind :=
  if allpkcolumns.length = 1 then pkKind.single else pkKind.multi

/-! ## A table as an endpoint

The endpoints of a run are MySQL-compatible servers.  For scenarios on concrete
tables the answers of such a server are computed from the stored rows. -/

/-- A stored row: the values of the declared PK columns and the `CRC32` of the
`CONCAT_WS` of its non-ignored columns. -/
structure DBRow where
  pk : List Value
  crc : Int
  deriving DecidableEq, Repr

/-- Text content of a character value. -/
def Value.text? : Value → Option String
  | Value.bytes s => some s
  | Value.str s => some s
  | _ => none

/-- SQL comparison `a = b` on integers and on texts; it is never true on `NULL` or
across the two kinds. -/
def sqlEq (a b : Value) : Bool :=
  match a, b with
  | Value.int x, Value.int y => decide (x = y)
  | _, _ =>
    match a.text?, b.text? with
    | some x, some y => decide (x = y)
    | _, _ => false

/-- SQL comparison `a < b` on integers and on texts; it is never true on `NULL` or
across the two kinds. -/
def sqlLt (a b : Value) : Bool :=
  match a, b with
  | Value.int x, Value.int y => decide (x < y)
  | _, _ =>
    match a.text?, b.text? with
    | some x, some y => decide (x < y)
    | _, _ => false

/-- SQL comparison `a <= b`. -/
def sqlLe (a b : Value) : Bool := sqlEq a b || sqlLt a b

/-- Kind of a value in `ORDER BY`: `NULL` first, then integers, then texts. -/
def Value.rank : Value → Nat
  | Value.null => 0
  | Value.int _ => 1
  | Value.bytes _ => 2
  | Value.str _ => 2

/-- Strict `ORDER BY` order on values. -/
def orderLt (a b : Value) : Bool :=
  decide (a.rank < b.rank) || (decide (a.rank = b.rank) && sqlLt a b)

/-- Strict lexicographic `ORDER BY` order on key tuples. -/
def keyLt : List Value → List Value → Bool
  | [], [] => false
  | [], _ :: _ => true
  | _ :: _, [] => false
  | a :: as, b :: bs => orderLt a b || (!orderLt b a && keyLt as bs)

/-- Key tuple of a stored row for a column sequence (0-based positions in the
declared primary key). -/
def DBRow.key (seq : List Nat) (r : DBRow) : List Value :=
  seq.map (fun i => r.pk.getD i Value.null)

/-- Rows in `ORDER BY` order of the given key columns. -/
def orderBy (seq : List Nat) (rows : List DBRow) : List DBRow :=
  rows.insertionSort (fun r1 r2 => keyLt (r2.key seq) (r1.key seq) = false)

/-- One `WHERE` conjunct `cell op ?` of a lookahead query; an unknown operator is a
statement error. -/
def whereOp (op : String) (cell param : Value) : Option Bool :=
  if op = "=" then some (sqlEq cell param)
  else if op = ">" then some (sqlLt param cell)
  else if op = ">=" then some (sqlLe param cell)
  else none

/-- The `WHERE` clause of a lookahead query on a key tuple: one conjunct per
operator, each with its own bound parameter. -/
def whereLookahead : List String → List Value → List Value → Option Bool
  | [], [], _ => some true
  | op :: ops, p :: ps, c :: cs =>
    match whereOp op c p, whereLookahead ops ps cs with
    | some b, some bs => some (b && bs)
    | _, _ => none
  | _, _, _ => none

/-- Greater of two trailing values, for `MAX`. -/
def maxValue (a b : Value) : Value := if orderLt a b then b else a

/-- Grouping `GROUP BY <leading columns>` of key tuples that are in `ORDER BY`
order, with `COUNT(1)` and `MAX(<trailing column>)` per group. -/
def groupLeading : List (List Value) → List ubRow
  | [] => []
  | k :: ks =>
    match groupLeading ks with
    | [] => [{ count := 1, leading := k.dropLast, maxTrailing := k.getLastD Value.null }]
    | g :: gs =>
      if keyLt k.dropLast g.leading = false ∧ keyLt g.leading k.dropLast = false then
        { count := g.count + 1, leading := g.leading,
          maxTrailing := maxValue (k.getLastD Value.null) g.maxTrailing } :: gs
      else
        { count := 1, leading := k.dropLast, maxTrailing := k.getLastD Value.null } :: g :: gs

/-- Answer of a lookahead query on stored rows: `WHERE`, `ORDER BY`, `LIMIT`, then
`GROUP BY` the leading columns.  Without leading columns (single-PK lookahead) the
aggregate gives exactly one row, with `NULL` as `MAX` of no rows. -/
def tableLookahead (rows : List DBRow) (seq : List Nat) (ops : List String) (limit : Int)
    (inputs : List Value) : Option (List ubRow) :=
  if ops.length ≠ inputs.length ∨ seq.length < ops.length then none
  else if ¬ ops.all (fun op => op = "=" ∨ op = ">" ∨ op = ">=") then none
  else
    let hit := (orderBy seq rows).filter
      (fun r => whereLookahead ops inputs ((r.key seq).take ops.length) = some true)
    let window := (hit.take limit.toNat).map (fun r => r.key seq)
    if seq.length = 1 then
      some [{ count := window.length, leading := [],
              maxTrailing := (window.map (fun k => k.getLastD Value.null)).foldl maxValue
                Value.null }]
    else some (groupLeading window)

/-- The `WHERE` clause of the hash queries on a key tuple: `=` on the leading
columns and `BETWEEN ? AND ?` on the trailing one. -/
def whereHash : List Value → List Value → Bool
  | [c], [lo, hi] => sqlLe lo c && sqlLe c hi
  | c :: cs, p :: ps => sqlEq c p && whereHash cs ps
  | _, _ => false

/-- Counts of the groups of `GROUP BY <key columns>`. -/
def groupCounts (seq : List Nat) (rows : List DBRow) : List Nat :=
  ((rows.map (fun r => r.key seq)).eraseDups).map
    (fun k => (rows.filter (fun r => r.key seq = k)).length)

/-- Endpoint of a table with the given columns, stored `rows` and effective PK
column sequence `seq`; `crc32` is the checksum of the concatenated row checksums of
a chunk.  Timestamps are not tracked. -/
def tableDB (cols : List String) (rows : List DBRow) (seq : List Nat) (crc32 : List Int → Int) :
    Endpoint where
  columns := fun _ => cols
  firstRow := fun _ _ => some (((orderBy seq rows).take 1).map (fun r => r.key seq))
  lookahead := fun _ ops limit inputs => tableLookahead rows seq ops limit inputs
  chunkHash := fun _ _ inputs =>
    if inputs.length ≠ seq.length + 1 then none
    else
      let hit := rows.filter (fun r => whereHash (r.key seq) inputs)
      some { data := ((hit.length : Int), if hit = [] then 0 else crc32 (hit.map (fun r => r.crc))),
             ts := 0, elapsedms := 0 }
  rowLevel := fun _ _ inputs =>
    if inputs.length ≠ seq.length + 1 then none
    else
      let hit := (orderBy (List.range (rows.foldl (fun n r => max n r.pk.length) 0)) rows).filter
        (fun r => whereHash (r.key seq) inputs)
      some { data := hit.map (fun r => (r.crc, r.pk)), ts := 0, elapsedms := 0 }
  maxGroupCount := fun _ _ =>
    let big := (groupCounts seq rows).filter (fun c => 1 < c)
    if big = [] then some [] else some [((big.foldl max 0 : Nat) : Int)]

/-- Rendering of an integer PK tuple as `json.Marshal` gives it: `[1,2]`.  Other
cells are rendered by `fmtSprint`, which is not their JSON form. -/
def marshalInts (pk : List Value) : String :=
  "[" ++ ",".intercalate (pk.map fmtSprint) ++ "]"

/-- Integer PK column. -/
def intColumn (name : String) (last : Bool) : pkColumn :=
  { ColumnName := name, DataType := "int", FieldType := fieldtypeInt, IsLastField := last }

/-- Arguments of a run on table `t` with the given chunk size and no other option. -/
def plainArgs (chunksize : Int) : envarg :=
  { ArgDebug := false, ArgTrace := false, ArgLowerBoundary := [""], ArgUpperBoundary := [""],
    ArgSrcTable := "t", ArgTgtTable := "t", ArgChunksize := chunksize,
    ArgPKColumnSequence := [""], ArgIgnoreFields := [""], ArgAdditionalFilter := "" }

/-- Stored rows with integer PK tuples; the row checksum is given with each tuple. -/
def intRows (rows : List (List Int × Int)) : List DBRow :=
  rows.map (fun r => { pk := r.1.map Value.int, crc := r.2 })

/-- Table model of a table whose declared and effective PK are the named integer
columns. -/
def intTable (names : List String) : pkTable :=
  { _pkColumns := names.map (fun n => intColumn n false)
    _pkColumnNames := names
    _allPKColumns := names.map (fun n => intColumn n false) }

/-- Run of the engine on two tables with the same integer PK columns, with
`json.Marshal` restricted to integer tuples and the sum as chunk checksum. -/
def intRun (names : List String) (chunksize : Int) (src tgt : List (List Int × Int)) : RunEnv :=
  { env := plainArgs chunksize
    kind := RunTableKind (intTable names)._allPKColumns
    t := intTable names
    dbSrc := tableDB names (intRows src) (List.range names.length) List.sum
    dbTgt := tableDB names (intRows tgt) (List.range names.length) List.sum
    marshal := marshalInts
    srcFirst := fun _ => true }

/-! ## Auxiliary notions used in the statements -/

/-- The PK-to-hash map of a row list, as `TableResultRowLevel` builds it. -/
def mapOfRows (marshal : List Value → String) (rows : List TableRow) : GoMap :=
  (rows.reverse).map (fun r => (pkKey marshal r, r.Hash))

/-- Condition under which the first loop appends a source row to `Diff.Insert`. -/
def insertCond (marshal : List Value → String) (mapTgt : GoMap) (tr : TableRow) : Bool :=
  (mapTgt.get? (pkKey marshal tr)).isNone

/-- Condition under which the first loop appends a source row to `Diff.Update`. -/
def updateCond (marshal : List Value → String) (mapSrc mapTgt : GoMap) (tr : TableRow) : Bool :=
  (mapTgt.get? (pkKey marshal tr)).isSome &&
    decide (mapSrc.get (pkKey marshal tr) ≠ mapTgt.get (pkKey marshal tr))

/-- Injectivity of the encoding on the PK tuples of the given rows. -/
def EncodingInjOn (marshal : List Value → String) (rows : List TableRow) : Prop :=
  ∀ a ∈ rows, ∀ b ∈ rows,
    marshal a.AllPKColumnValues = marshal b.AllPKColumnValues →
      a.AllPKColumnValues = b.AllPKColumnValues

/-- A row of the answer of the row-level query and the `TableRow` scanned from it:
the row keeps the checksum of the answer row and has one PK value per declared PK
column, each being the cell as the handler of its column canonicalises it
(`transformDBResultType`). -/
def ScannedRow (cols : List pkColumn) (raw : Int × List Value) (tr : TableRow) : Prop :=
  tr.Hash = raw.1 ∧ raw.2.length = cols.length ∧
  List.zipWith (fun (c : pkColumn) (v : Value) => c.FieldType.transformDBResultType v) cols
    raw.2 = tr.AllPKColumnValues.map some

/-- The row list `rows` is what the row-level query of the chunk `tci` returned on
the endpoint `db`: the query answered, and `rows` are its rows, one for one and in
the order of the answer, each scanned as `ScannedRow` says. -/
def QueriedRows (env : envarg) (t : pkTable) (db : Endpoint) (issrc : Bool)
    (tci : tableChunkInfo) (rows : List TableRow) : Prop :=
  ∃ a, db.rowLevel (env.table issrc) t.GetPKColumnNames
      (tci.LowerBoundary ++ [tci.LastPKFieldUpperBoundary]) = some a ∧
    List.Forall₂ (ScannedRow t.GetAllPKColumns) a.data rows

/-- Zero value of `TableChunkRowsInfo`. -/
def TableChunkRowsInfo.zero : TableChunkRowsInfo :=
  { tableChunkInfo.zero with
    Diff := { Insert := [], Update := [], Delete := [] }
    TableRowsSrc := []
    TableRowsTgt := []
    MapTableRowsSrc := []
    MapTableRowsTgt := [] }

/-- Example run: single integer PK, chunk size 2; the source has the rows 1 to 4,
the target has the rows 1, 2 and 5, and row 2 differs in content. -/
def exampleRun : RunEnv :=
  intRun ["id"] 2 [([1], 10), ([2], 21), ([3], 30), ([4], 40)]
    [([1], 10), ([2], 20), ([5], 50)]

/-- Example chunk: PK range 1 to 5 of `exampleRun`. -/
def exampleChunk : tableChunkInfo :=
  { tableChunkInfo.zero with
    LowerBoundary := [Value.int 1]
    LastPKFieldUpperBoundary := Value.int 5 }

/-- Row-level log line of the example chunk. -/
def exampleLine : TableChunkRowsInfo :=
  (exampleRun.t.RunTableRoutineRowLevel exampleRun.marshal exampleRun.env exampleRun.dbSrc
    exampleRun.dbTgt true exampleChunk).getD TableChunkRowsInfo.zero

/-- Laws of a field-type handler that the clamp relies on: equal values are not
greater than one another, and no comparable value is greater than itself. -/
structure iFieldType.OrderLaws (ft : iFieldType) : Prop where
  eq_not_gt : ∀ a b, ft.equals a b = some true → ft.greaterThan a b = some false
  gt_irrefl : ∀ a b, (ft.greaterThan a b).isSome = true → ft.greaterThan b b = some false

/-- The leading values of a planner row, from column index `i` on, all equal the
corresponding components of the user upper boundary under the column handlers. -/
def leadingEqualUser (t : pkTable) (ArgUpperBoundary : List String) : Nat → List Value → Bool
  | _, [] => true
  | i, v :: vs =>
    (match t.GetPKColumns.get? i, ArgUpperBoundary.get? i with
      | some col, some userUB => col.FieldType.equals v (Value.str userUB) == some true
      | _, _ => false) &&
    leadingEqualUser t ArgUpperBoundary (i + 1) vs

/-- Example: composite integer PK `(g, id)` with the user upper boundary `1,5`. -/
def clampArgs : envarg := { plainArgs 2 with ArgUpperBoundary := ["1", "5"] }

/-- Example: planner row of the leading group `g = 0`, whose largest `id` is 9. -/
def clampRow : resultRow :=
  { count := 2, leading := [Value.int 0], lb := Value.int 3, ub := Value.int 9, query := "" }

/-- Example: single integer PK with the user upper boundary `7`. -/
def clampArgsSingle : envarg := { plainArgs 2 with ArgUpperBoundary := ["7"] }

/-- Example: single-PK planner row from 3 to 9. -/
def clampRowSingle : resultRow :=
  { count := 2, leading := [], lb := Value.int 3, ub := Value.int 9, query := "" }

/-- Example: declared PK `(a, b)`, effective sequence `a` only (`-S 1`), two rows
with different `a`, so that every group of `GROUP BY a` has exactly one row. -/
def stallTable : pkTable :=
  { _pkColumns := [intColumn "a" false]
    _pkColumnNames := ["a"]
    _allPKColumns := [intColumn "a" false, intColumn "b" true] }

/-- Source endpoint of the stall-guard example. -/
def stallDB : Endpoint :=
  tableDB ["a", "b"] (intRows [([1, 1], 10), ([2, 1], 20)]) [0] List.sum

/-- Single-row example: a table whose only row has PK 1; the target row differs in
content. -/
def singleRowRun : RunEnv := intRun ["id"] 2 [([1], 10)] [([1], 11)]

/-- Example of two identical tables with a single integer PK. -/
def identicalRun : RunEnv :=
  intRun ["id"] 2 [([1], 10), ([2], 20), ([3], 30)] [([1], 10), ([2], 20), ([3], 30)]

/-- Row-level log line of the differ run directly on the two identical tables. -/
def identicalLine : TableChunkRowsInfo :=
  (identicalRun.t.RunTableRoutineRowLevel identicalRun.marshal identicalRun.env
    identicalRun.dbSrc identicalRun.dbTgt true exampleChunk).getD TableChunkRowsInfo.zero

/-- Arguments of the stall-guard example: chunk size 2 and `-S 1`. -/
def stallArgs : envarg := { plainArgs 2 with ArgPKColumnSequence := ["1"] }

/-! ### Order of the leading columns -/

/-- The leading tuples are equal, column by column, in the order of the database. -/
def leadEq : List Value → List Value → Bool
  | [], [] => true
  | a :: as, b :: bs => sqlEq a b && leadEq as bs
  | _, _ => false

/-- The first leading tuple is strictly below the second in the lexicographic order
of the database. -/
def leadLt : List Value → List Value → Bool
  | a :: as, b :: bs => sqlLt a b || (sqlEq a b && leadLt as bs)
  | _, _ => false

/-- The `WHERE` conjuncts of a lookahead on the leading cells of an answer row: `=`
pins a cell to its bound parameter, `>` puts it strictly above, `>=` at or above. -/
def whereLeading : List String → List Value → List Value → Bool
  | op :: ops, p :: ps, c :: cs =>
    ((decide (op = "=") && sqlEq c p) || (decide (op = ">") && sqlLt p c) ||
        (decide (op = ">=") && sqlLe p c)) &&
      whereLeading ops ps cs
  | _, _, _ => true

/-- Canonical leading tuples of the rows of a lookahead answer. -/
def canonLeading (t : pkTable) : List ubRow → Option (List (List Value))
  | [] => some []
  | r :: rs =>
    match transformLeading t.GetPKColumns r.leading, canonLeading t rs with
    | some l, some ls => some (l :: ls)
    | _, _ => none

/-- The source endpoint honours `WHERE` and `ORDER BY` of the lookahead queries: in
every answer the leading cells of each row satisfy the conjuncts on the leading
columns, and the rows (one per leading group) come in strictly increasing order of
their leading tuples. -/
def HonestLookahead (t : pkTable) (db : Endpoint) : Prop :=
  ∀ ops limit inputs rub leads,
    db.lookahead t.GetPKColumnNames ops limit inputs = some rub →
    canonLeading t rub = some leads →
    (∀ l ∈ leads, whereLeading ops inputs l = true) ∧
    List.Chain' (fun l1 l2 => leadLt l1 l2 = true) leads

/-- Relation between two consecutively emitted chunks `c` and `c1`: the leading
tuple does not decrease; in the same leading group the trailing lower bound of `c1`
is the trailing upper bound of `c`; in a new leading group it is `lowest`. -/
def Consecutive (lowest : Value) (c c1 : tableChunkInfo) : Prop :=
  (leadLt c.LowerBoundary.dropLast c1.LowerBoundary.dropLast = true ∨
    leadEq c1.LowerBoundary.dropLast c.LowerBoundary.dropLast = true) ∧
  (leadEq c1.LowerBoundary.dropLast c.LowerBoundary.dropLast = true →
    c1.LowerBoundary.getLast? = some c.LastPKFieldUpperBoundary) ∧
  (leadEq c1.LowerBoundary.dropLast c.LowerBoundary.dropLast = false →
    c1.LowerBoundary.getLast? = some lowest)

/-- Scenario S4: composite integer PK `(g, id)` with the rows
`(1,1), (1,2), (1,3), (2,1), (2,2)` on both sides, chunk size 2. -/
def compositeRun : RunEnv :=
  intRun ["g", "id"] 2
    [([1, 1], 10), ([1, 2], 20), ([1, 3], 30), ([2, 1], 40), ([2, 2], 50)]
    [([1, 1], 10), ([1, 2], 20), ([1, 3], 30), ([2, 1], 40), ([2, 2], 50)]

/-- The first `n` cells of a leading tuple equal the first `n` bound parameters. -/
def pinned : Nat → List Value → List Value → Bool
  | 0, _, _ => true
  | n + 1, p :: ps, c :: cs => sqlEq c p && pinned n ps cs
  | _ + 1, _, _ => false

/-- The first `n` cells of a leading tuple equal the first `n` bound parameters and
the next cell is strictly above the next parameter. -/
def bumped : Nat → List Value → List Value → Bool
  | 0, p :: _, c :: _ => sqlLt p c
  | n + 1, p :: ps, c :: cs => sqlEq c p && bumped n ps cs
  | _, _, _ => false

/-- Relation between two consecutive rows of a planner resultset: the leading tuple
strictly increases and the later row starts at `lowest`. -/
def RowStep (lowest : Value) (r r1 : resultRow) : Prop :=
  leadLt r.leading r1.leading = true ∧ r1.lb = lowest

/-- Planner row of the leading group of the lower boundary: its leading tuple equals
`Lead` and it starts at the trailing value `tr`. -/
def PinRow (Lead : List Value) (tr : Value) (r : resultRow) : Prop :=
  leadEq r.leading Lead = true ∧ r.lb = tr

/-- Planner row of a leading group entered by unwinding at column `n`: its leading
tuple agrees with `Lead` before column `n`, is strictly above it at column `n`, and
the row starts at `lowest`. -/
def BumpRow (n : Nat) (Lead : List Value) (lowest : Value) (r : resultRow) : Prop :=
  bumped n Lead r.leading = true ∧ r.lb = lowest

/-- Rows produced by unwinding at columns up to `n`, in planner order. -/
def Unwound (n : Nat) (Lead : List Value) (lowest : Value) (rows : List resultRow) : Prop :=
  List.Chain' (RowStep lowest) rows ∧ ∀ r ∈ rows, ∃ m, m ≤ n ∧ BumpRow m Lead lowest r

/-- Shape of a planner resultset for the lower boundary `L`: the leading tuples
strictly increase from row to row, every row but the first starts at `lowest`, and
the first row either stays in the leading group of `L` and starts at the trailing
value of `L`, or lies in a later group and starts at `lowest`. -/
def PlannerShape (L : List Value) (lowest : Value) (rows : List resultRow) : Prop :=
  List.Chain' (RowStep lowest) rows ∧
  (∀ r ∈ rows, r.leading.length + 1 = L.length) ∧
  (∀ r ∈ rows.head?,
    (leadEq r.leading L.dropLast = true ∧ L.getLast? = some r.lb) ∨
    (leadLt L.dropLast r.leading = true ∧ r.lb = lowest))

/-- Relation between an emitted chunk `c` and the planner row `r` that produces the
next chunk. -/
def StepChunkRow (lowest : Value) (c : tableChunkInfo) (r : resultRow) : Prop :=
  (leadLt c.LowerBoundary.dropLast r.leading = true ∨
    leadEq r.leading c.LowerBoundary.dropLast = true) ∧
  (leadEq r.leading c.LowerBoundary.dropLast = true → r.lb = c.LastPKFieldUpperBoundary) ∧
  (leadEq r.leading c.LowerBoundary.dropLast = false → r.lb = lowest)

/-- Invariant of the driver loop between two planner calls: the logged chunks are
pairwise `Consecutive`, the lower boundary has one cell per effective PK column, and
it is the lower boundary of the last logged chunk with the trailing cell promoted to
that chunk's trailing upper bound. -/
def DriverInv (lowest : Value) (k : Nat) (st : RunState) : Prop :=
  List.Chain' (Consecutive lowest) st.chunklog ∧
  st.lowerboundary.length = k ∧
  ∀ c ∈ st.chunklog.getLast?,
    st.lowerboundary.dropLast = c.LowerBoundary.dropLast ∧
    st.lowerboundary.getLast? = some c.LastPKFieldUpperBoundary

/-- All sub-lists of a list. -/
def subLists {α : Type} : List α → List (List α)
  | [] => [[]]
  | a :: l => subLists l ++ (subLists l).map (fun x => a :: x)

/-- Stored source rows of scenario S4 in `ORDER BY g, id` order. -/
def compositeSorted : List DBRow :=
  orderBy [0, 1]
    (intRows [([1, 1], 10), ([1, 2], 20), ([1, 3], 30), ([2, 1], 40), ([2, 2], 50)])

/-- Every element of the list is related to its successor. -/
def chainB {α : Type} (R : α → α → Bool) : List α → Bool
  | [] => true
  | [_] => true
  | a :: b :: l => R a b && chainB R (b :: l)

/-- Invariant of a run on two endpoints that answer alike: every logged chunk
matches and the row-level log is empty. -/
def AllMatch (st : RunState) : Prop :=
  (∀ c ∈ st.chunklog, c.Match = true) ∧ st.rowlog = []

/-- The lower boundary of the state and of every logged chunk has `k` cells. -/
def LenInv (k : Nat) (st : RunState) : Prop :=
  st.lowerboundary.length = k ∧ ∀ c ∈ st.chunklog, c.LowerBoundary.length = k

/-! ## Arguments and table model at the start of a run (`diff.go`, `pktable.go`) -/

/-- Function `strconv.Atoi` with its error dropped: on a 64-bit platform the value
of `strconv.ParseInt(s, 10, 0)`. -/
def Atoi (s : String) : Int := ParseInt s

/-- The loop `t._pkColumns[i] = pkColumns[v]` of `init` over the 0-based column
sequence; an index outside the declared list panics. -/
def selectColumns (pkColumns : List pkColumn) : List Int → Option (List pkColumn)
  | [] => some []
  | v :: vs =>
    if v < 0 then none
    else
      match pkColumns.get? v.toNat, selectColumns pkColumns vs with
      | some c, some cs => some (c :: cs)
      | _, _ => none

/-- Function `pkTable.init`: the effective PK columns are the declared ones when
no column sequence is given, otherwise the declared columns at the given 1-based
positions; the effective names are the names of the effective columns.  The declared
list is kept for `GetAllPKColumns`. -/
def pkTable.init (env : envarg) (pkColumns : List pkColumn) : Option pkTable :=
  let columnsequence : List Int :=
    if env.ArgPKColumnSequence = [""] then (List.range pkColumns.length).map (fun (i : Nat) => (i : Int))
    else env.ArgPKColumnSequence.map (fun seq => Atoi seq - 1)
  (selectColumns pkColumns columnsequence).map (fun cols =>
    { _pkColumns := cols
      _pkColumnNames := cols.map (fun c => c.ColumnName)
      _allPKColumns := pkColumns })

/-- Function `RunTable` from the declared PK columns on: the implementation is
chosen by the number of declared columns and initialised, the stall guard is checked,
and the driver loop runs for at most `fuel` planner iterations.  `none`: the process
dies before the driver loop. -/
def RunTable (env : envarg) (allpkcolumns : List pkColumn) (dbSrc dbTgt : Endpoint)
    (marshal : List Value → String) (srcFirst : Int → Bool) (fuel : Nat) :
    Option (RunState × Outcome) :=
  match pkTable.init env allpkcolumns with
  | none => none
  | some t =>
    match RunTableGuard env t dbSrc allpkcolumns with
    | StartResult.started =>
      some (RunTableRoutine
        { env := env, kind := RunTableKind allpkcolumns, t := t, dbSrc := dbSrc, dbTgt := dbTgt,
          marshal := marshal, srcFirst := srcFirst } fuel)
    | _ => none

/-- The fields of `strings.Split(s, ",")` still to come, with the characters of the
current field in reverse. -/
def splitComma : List Char → List Char → List String
  | [], cur => [String.mk cur.reverse]
  | c :: cs, cur =>
    if c = ',' then String.mk cur.reverse :: splitComma cs [] else splitComma cs (c :: cur)

/-- Call `strings.Split(s, ",")`. -/
def stringsSplit (s : String) : List String := splitComma s.data []

/-- Function `SetArgs`: the command-line arguments are stored in `envArg`; `none`
is `log.Fatalln` on an inconsistent combination. -/
def SetArgs (argDebug argTrace : Bool) (argLowerboundary argUpperboundary argTable argSrcTable
    argTgtTable : String) (argChunksize : Int) (argPKColumnSequence argIgnoreFields
    argAdditionalFilter : String) : Option envarg :=
  let ArgLowerBoundary := stringsSplit argLowerboundary
  let ArgUpperBoundary := stringsSplit argUpperboundary
  let ArgChunksize := if argChunksize ≤ 1 then 2 else argChunksize
  let ArgPKColumnSequence := stringsSplit argPKColumnSequence
  if argLowerboundary ≠ "" ∧ argUpperboundary ≠ "" ∧
      ArgLowerBoundary.length ≠ ArgUpperBoundary.length then none
  else if argPKColumnSequence ≠ "" ∧ argLowerboundary ≠ "" ∧
      ArgLowerBoundary.length ≠ ArgPKColumnSequence.length then none
  else if argPKColumnSequence ≠ "" ∧ argUpperboundary ≠ "" ∧
      ArgUpperBoundary.length ≠ ArgPKColumnSequence.length then none
  else if argTable = "" ∧ argSrcTable = "" ∧ argTgtTable = "" then none
  else if ¬ ((argTable ≠ "" ∧ argSrcTable = "" ∧ argTgtTable = "") ∨
      (argTable = "" ∧ argSrcTable ≠ "" ∧ argTgtTable ≠ "")) then none
  else
    some
      { ArgDebug := argDebug
        ArgTrace := argTrace
        ArgLowerBoundary := ArgLowerBoundary
        ArgUpperBoundary := ArgUpperBoundary
        ArgSrcTable := if argTable ≠ "" then argTable else argSrcTable
        ArgTgtTable := if argTable ≠ "" then argTable else argTgtTable
        ArgChunksize := ArgChunksize
        ArgPKColumnSequence := ArgPKColumnSequence
        ArgIgnoreFields := stringsSplit argIgnoreFields
        ArgAdditionalFilter := argAdditionalFilter }

/-! ## Scenarios -/

/-- Declared key `(a, b)` of the selection example. -/
def selectDeclared : List pkColumn := [intColumn "a" false, intColumn "b" true]

/-- Arguments of the selection example: chunk size 3 and `-S 1`. -/
def selectArgs : envarg := { plainArgs 3 with ArgPKColumnSequence := ["1"] }

/-- Endpoint of the selection example: rows `(1,1), (1,2), (2,1)`, ordered and grouped
by `a`. -/
def selectDB : Endpoint :=
  tableDB ["a", "b"] (intRows [([1, 1], 10), ([1, 2], 20), ([2, 1], 30)]) [0] List.sum

/-- The run of the selection example as the single-PK implementation would do it. -/
def selectSingleRun : RunEnv :=
  { env := selectArgs
    kind := pkKind.single
    t := { _pkColumns := [intColumn "a" false], _pkColumnNames := ["a"],
           _allPKColumns := selectDeclared }
    dbSrc := selectDB
    dbTgt := selectDB
    marshal := marshalInts
    srcFirst := fun _ => true }

/-- Composite key `(g, id)` with the rows `(1,1), (1,2)` on both sides, chunk size 2
and the user lower boundary `-l 2,1`, which lies past the last row. -/
def beyondRun : RunEnv :=
  { intRun ["g", "id"] 2 [([1, 1], 10), ([1, 2], 20)] [([1, 1], 10), ([1, 2], 20)] with
    env := { plainArgs 2 with ArgLowerBoundary := ["2", "1"] } }

/-- Scenario S6 on a composite key `(g, id)`: empty source, non-empty target. -/
def emptyCompositeRun : RunEnv := intRun ["g", "id"] 2 [] [([1, 1], 10)]

/-- Scenario S6 on a single integer key. -/
def emptyIntRun : RunEnv := intRun ["id"] 2 [] [([1], 10)]

/-- Character PK column. -/
def charColumn (name : String) (last : Bool) : pkColumn :=
  { ColumnName := name, DataType := "varchar", FieldType := fieldtypeChar, IsLastField := last }

/-- Scenario S6 on a single character key. -/
def emptyCharRun : RunEnv :=
  { env := plainArgs 2
    kind := pkKind.single
    t := { _pkColumns := [charColumn "name" true], _pkColumnNames := ["name"],
           _allPKColumns := [charColumn "name" true] }
    dbSrc := tableDB ["name"] [] [0] List.sum
    dbTgt := tableDB ["name"] [{ pk := [Value.bytes "x"], crc := 10 }] [0] List.sum
    marshal := marshalInts
    srcFirst := fun _ => true }

/-- Declared key `(a, b, c)` of the group example. -/
def groupDeclared : List pkColumn :=
  [intColumn "a" false, intColumn "b" false, intColumn "c" true]

/-- Arguments of the group example: chunk size 3 and `-S 1,2`. -/
def groupArgs : envarg := { plainArgs 3 with ArgPKColumnSequence := ["1", "2"] }

/-- Source of the group example: the rows `(1,1,1), (1,2,1), (1,2,2)`; under the
effective sequence `(a, b)` the last group has two rows. -/
def coveredSrc : Endpoint :=
  tableDB ["a", "b", "c"] (intRows [([1, 1, 1], 10), ([1, 2, 1], 20), ([1, 2, 2], 30)]) [0, 1]
    List.sum

/-- Target of the group example: the same keys, the last row differs in content. -/
def coveredTgt : Endpoint :=
  tableDB ["a", "b", "c"] (intRows [([1, 1, 1], 10), ([1, 2, 1], 20), ([1, 2, 2], 31)]) [0, 1]
    List.sum

/-- The run of the group example: declared key `(a, b, c)`, `-S 1,2`, chunk size 3. -/
def coveredRun : RunEnv :=
  { env := groupArgs
    kind := RunTableKind groupDeclared
    t := { _pkColumns := [intColumn "a" false, intColumn "b" false],
           _pkColumnNames := ["a", "b"],
           _allPKColumns := groupDeclared }
    dbSrc := coveredSrc
    dbTgt := coveredTgt
    marshal := marshalInts
    srcFirst := fun _ => true }

/-- Second planner row of the group example: the two records of the group `(1, 2)`,
from `b = 2` to `b = 2`. -/
def coveredRow : resultRow :=
  { count := 2, leading := [Value.int 1], lb := Value.int 2, ub := Value.int 2, query := "" }

/-! ## Discovery of the primary key (`diff.go`) -/

/-- The text `s` begins with the characters `p`. -/
def startsWithChars : List Char → List Char → Bool
  | [], _ => true
  | _ :: _, [] => false
  | a :: as, b :: bs => decide (a = b) && startsWithChars as bs

/-- The characters `substr` occur in the text at some position. -/
def containsChars (substr : List Char) : List Char → Bool
  | [] => substr.isEmpty
  | c :: cs => startsWithChars substr (c :: cs) || containsChars substr cs

/-- Call `strings.Contains(s, substr)`. -/
def stringsContains (s substr : String) : Bool := containsChars substr.data s.data

/-- How the process dies: `log.Fatalf` with its message, or a panic. -/
inductive Died where
  | fatal (message : String)
  | panicked
  deriving DecidableEq, Repr

/-- The `if strings.Contains(datatype, ..)` chain of `allPKColumns`, which picks the
handler of a PK column from its data-type string.  The handlers of the time and date
types rest on package `time`; they are parameters here. -/
def allPKColumns.fieldType (fieldtypeTime fieldtypeDate : iFieldType) (datatype : String) :
    Except Died iFieldType :=
  if stringsContains datatype "char" then Except.ok fieldtypeChar
  else if stringsContains datatype "int" then Except.ok fieldtypeInt
  else if stringsContains datatype "time" then Except.ok fieldtypeTime
  else if stringsContains datatype "date" then Except.ok fieldtypeDate
  else Except.error (Died.fatal ("Unsupported data type: " ++ datatype ++ "\n"))

/-- The `for result.Next()` loop of `allPKColumns` over the scanned rows
`(column_name, data_type)`. -/
def allPKColumns.scan (fieldtypeTime fieldtypeDate : iFieldType) :
    List (String × String) → Except Died (List pkColumn)
  | [] => Except.ok []
  | (columnname, datatype) :: rest =>
    match allPKColumns.fieldType fieldtypeTime fieldtypeDate datatype with
    | Except.error e => Except.error e
    | Except.ok ft =>
      match allPKColumns.scan fieldtypeTime fieldtypeDate rest with
      | Except.error e => Except.error e
      | Except.ok cols =>
        Except.ok ({ ColumnName := columnname, DataType := datatype, FieldType := ft,
                     IsLastField := false } :: cols)

/-- Assignment `allpkcolumns[len(allpkcolumns)-1].IsLastField = true`; it panics on
an empty list. -/
def flagLastField : List pkColumn → Except Died (List pkColumn)
  | [] => Except.error Died.panicked
  | [c] => Except.ok [{ c with IsLastField := true }]
  | c :: d :: cols =>
    match flagLastField (d :: cols) with
    | Except.error e => Except.error e
    | Except.ok rest => Except.ok (c :: rest)

/-- Function `allPKColumns` on the answer of the primary-key query (`none`: a driver
error, on which `errorCheck` panics). -/
def allPKColumns (fieldtypeTime fieldtypeDate : iFieldType)
    (result : Option (List (String × String))) : Except Died (List pkColumn) :=
  match result with
  | none => Except.error Died.panicked
  | some rows =>
    match allPKColumns.scan fieldtypeTime fieldtypeDate rows with
    | Except.error e => Except.error e
    | Except.ok cols => flagLastField cols

/-! ## Scenarios of the argument and logging claims -/

/-- Scenario S1 run with `--trace` and without `--debug`. -/
def traceRun : RunEnv := { identicalRun with env := { plainArgs 2 with ArgTrace := true } }

/-- Scenario S1 run with `--debug`. -/
def debugRun : RunEnv := { identicalRun with env := { plainArgs 2 with ArgDebug := true } }

/-- The three SQL text fields of a chunk-log line. -/
def tableChunkInfo.sqlTexts (tci : tableChunkInfo) : String × String × String :=
  (tci.UpperBoundaryQuery, tci.HashQuerySrc, tci.HashQueryTgt)

/-! ## Log files (`diff.go`) -/

/-- The call `regexp.MustCompile("\\.json").ReplaceAllString(s, ".rowlevel.json")`
on the characters of `s`, from left to right; `skip` characters of a match just
replaced are still to be dropped. -/
def replaceDotJson : Nat → List Char → List Char
  | _, [] => []
  | skip + 1, _ :: cs => replaceDotJson skip cs
  | 0, c :: cs =>
    if startsWithChars ".json".data (c :: cs) then
      ".rowlevel.json".data ++ replaceDotJson 4 cs
    else c :: replaceDotJson 0 cs

/-- The row-level log path `rowlevelfile` that `RunTable` derives from the chunk-log
path `outputfile`. -/
def rowlevelfile (outputfile : String) : String :=
  String.mk (replaceDotJson 0 outputfile.data)

/-! ## SQL generation (`query.go`) -/

/-- Go map with string keys; a key that is not present reads as the zero value. -/
abbrev StringMap (α : Type) := List (String × α)

/-- Lookup `m[k]`. -/
def StringMap.get {α : Type} (zero : α) : StringMap α → String → α
  | [], _ => zero
  | (k1, v) :: m, k => if k1 = k then v else StringMap.get zero m k

/-- Assignment `m[k] = v`. -/
def StringMap.set {α : Type} (m : StringMap α) (k : String) (v : α) : StringMap α :=
  (k, v) :: m

/-- Struct `ConsolidateTableRows`; a slice that is still `nil` is `none`. -/
structure ConsolidateTableRows where
  MapPKColumnValuesRows : StringMap (List String)
  MapPKColumnValues : StringMap (List (List Value))
  TableSrc : String
  TableTgt : String
  AllPKColumnNames : Option (List String)
  AllPKColumnQuotes : Option (List String)
  FieldColumnNames : Option (List String)

/-- The two characters that open a line comment in SQL. -/
def sqlLineComment : String := "-" ++ "-"

/-- The map `mapDiffTable` of `prepareSQLStatement`. -/
def mapDiffTable (tableSrc : String) : StringMap String :=
  [("insert", tableSrc ++ "_diff_insert"), ("update", tableSrc ++ "_diff_update"),
   ("delete", tableSrc ++ "_diff_delete")]

/-- The slice `updatefieldnames` of `prepareSQLStatement`: one assignment per table
column, commented out for a PK column. -/
def updatefieldnames (AllPKColumnNames fieldnames : List String) : List String :=
  fieldnames.map (fun fieldname =>
    if fieldname ∈ AllPKColumnNames then
      "  " ++ sqlLineComment ++ " /*PK*/ t." ++ fieldname ++ " = s." ++ fieldname
    else "  t." ++ fieldname ++ " = s." ++ fieldname)

/-- The target statement of the `update` case of `prepareSQLStatement`. -/
def updateStatement (tableTgt diffTable stringAllPKColumnNames : String)
    (AllPKColumnNames fieldnames : List String) : String :=
  "\n\n    " ++ sqlLineComment ++ " target\n    UPDATE /*target*/ " ++ tableTgt ++
    " AS t\n    INNER JOIN /*target*/ " ++ diffTable ++ " AS s\n    USING (" ++
    stringAllPKColumnNames ++ ")\n    SET\n    " ++
    ",\n    ".intercalate (updatefieldnames AllPKColumnNames fieldnames) ++ ";"

/-- Function `prepareSQLStatement`: the SQL text for one crud type.  The database
handle the function opens is not used. -/
def prepareSQLStatement (crudtype : String) (consolidateTableRows : ConsolidateTableRows) :
    String :=
  let tableSrc := consolidateTableRows.TableSrc
  let tableTgt := consolidateTableRows.TableTgt
  let fieldnames := consolidateTableRows.FieldColumnNames.getD []
  let AllPKColumnNames := consolidateTableRows.AllPKColumnNames.getD []
  let stringAllPKColumnNames := ",".intercalate AllPKColumnNames
  let pkColumnValuesRows :=
    (StringMap.get [] consolidateTableRows.MapPKColumnValuesRows crudtype).map
      (fun value => "ROW(" ++ value ++ ")")
  let diffTable := StringMap.get "" (mapDiffTable tableSrc) crudtype
  let query :=
    "\n  " ++ sqlLineComment ++ " source\n  DROP TABLE IF EXISTS " ++ diffTable ++
    ";\n  CREATE TABLE " ++ diffTable ++ " AS SELECT * FROM /*source*/ " ++ tableSrc ++
    " WHERE 1=2;\n  ALTER TABLE " ++ diffTable ++ " ADD PRIMARY KEY (" ++
    stringAllPKColumnNames ++ ");\n  " ++
    "\n  INSERT INTO " ++ diffTable ++ "(\n    " ++ ",\n    ".intercalate fieldnames ++
    ")\n  SELECT\n    s." ++ ",\n    s.".intercalate fieldnames ++
    "\n  FROM /*source*/ " ++ tableSrc ++
    " AS s\n  INNER JOIN (\n    SELECT *\n    FROM (VALUES\n      " ++
    ",\n      ".intercalate pkColumnValuesRows ++ "\n      ) AS d(" ++
    stringAllPKColumnNames ++ ")\n    ) AS dif\n  USING (" ++ stringAllPKColumnNames ++
    ");\n  "
  if crudtype = "insert" then
    query ++ "\n\n    " ++ sqlLineComment ++ " target\n    INSERT INTO /*target*/ " ++
      tableTgt ++ "(\n      " ++ ",\n      ".intercalate fieldnames ++
      ")\n    SELECT\n      s." ++ ",\n      s.".intercalate fieldnames ++
      "\n    FROM /*target*/ " ++ diffTable ++ " AS s"
  else if crudtype = "update" then
    query ++ updateStatement tableTgt diffTable stringAllPKColumnNames AllPKColumnNames fieldnames
  else if crudtype = "delete" then
    "\n\n    " ++ sqlLineComment ++ " target\n    DELETE t\n    FROM /*target*/ " ++ tableTgt ++
      " AS t\n    INNER JOIN (\n      SELECT *\n      FROM (VALUES\n        " ++
      ",\n        ".intercalate pkColumnValuesRows ++ "\n        ) AS d(" ++
      stringAllPKColumnNames ++ ")\n      ) AS dif\n    USING (" ++ stringAllPKColumnNames ++ ");"
  else query

/-- The text outside the line comments of an SQL text: a comment runs from its two
opening characters to the end of the line.  The flag tells whether the position is
inside a comment. -/
def dropLineComments : Bool → List Char → List Char
  | _, [] => []
  | true, c :: cs =>
    if c = '\n' then c :: dropLineComments false cs else dropLineComments true cs
  | false, [c] => [c]
  | false, c :: d :: cs =>
    if c = '-' ∧ d = '-' then dropLineComments true cs
    else c :: dropLineComments false (d :: cs)

/-- The text of an SQL statement outside its line comments. -/
def uncommented (s : String) : String := String.mk (dropLineComments false s.data)

/-- Consolidated rows of a table with the columns `v, id` and the primary key `id`,
with one row to update. -/
def pkLastRows : ConsolidateTableRows :=
  { MapPKColumnValuesRows := [("insert", []), ("update", ["7"]), ("delete", [])]
    MapPKColumnValues := [("insert", []), ("update", [[Value.int 7]]), ("delete", [])]
    TableSrc := "t"
    TableTgt := "t"
    AllPKColumnNames := some ["id"]
    AllPKColumnQuotes := some [""]
    FieldColumnNames := some ["v", "id"] }

/-! ## Scenarios of the clamping claims -/

/-- Some leading value of a planner row, from column index `i` on, is strictly
greater than the corresponding component of the user upper boundary, and all the
leading values before it equal theirs, under the column handlers. -/
def leadingExceedsUser (t : pkTable) (ArgUpperBoundary : List String) : Nat → List Value → Bool
  | _, [] => false
  | i, v :: vs =>
    match t.GetPKColumns.get? i, ArgUpperBoundary.get? i with
    | some col, some userUB =>
      (col.FieldType.equals v (Value.str userUB) == some true &&
          leadingExceedsUser t ArgUpperBoundary (i + 1) vs) ||
        (col.FieldType.equals v (Value.str userUB) == some false &&
          col.FieldType.greaterThan v (Value.str userUB) == some true)
    | _, _ => false

/-- Composite key `(g, id)` with the rows `(1,1), (1,2), (2,1), (2,2)` on both sides,
chunk size 2 and the user upper boundary `-u 1,5`. -/
def beyondUserRun : RunEnv :=
  { intRun ["g", "id"] 2 [([1, 1], 10), ([1, 2], 20), ([2, 1], 30), ([2, 2], 40)]
      [([1, 1], 10), ([1, 2], 20), ([2, 1], 30), ([2, 2], 40)] with
    env := { plainArgs 2 with ArgUpperBoundary := ["1", "5"] } }

/-- Planner row of the leading group `g = 2`, past the user upper boundary `1,5`. -/
def beyondUserRow : resultRow :=
  { count := 1, leading := [Value.int 2], lb := Value.int (-9223372036854775808),
    ub := Value.int 1, query := "" }

/-- Single integer key with the rows 5 and 6 on both sides, chunk size 2, `-l 5` and
`-u 5`. -/
def clampLastRun : RunEnv :=
  { intRun ["id"] 2 [([5], 10), ([6], 20)] [([5], 10), ([6], 20)] with
    env := { plainArgs 2 with ArgLowerBoundary := ["5"], ArgUpperBoundary := ["5"] } }

/-- Single integer key with the rows 3 to 9 on both sides, chunk size 7 and `-u 7`. -/
def clampRun : RunEnv :=
  { intRun ["id"] 7 [([3], 10), ([4], 20), ([5], 30), ([6], 40), ([7], 50), ([8], 60), ([9], 70)]
      [([3], 10), ([4], 20), ([5], 30), ([6], 40), ([7], 50), ([8], 60), ([9], 70)] with
    env := { plainArgs 7 with ArgUpperBoundary := ["7"] } }

/-! ## Consolidation of the row-level log (`query.go`) -/

/-- The `for i` loop of `populate` over the PK values of one row: each value is
printed with the verb `%v` between the quotes of its column; a row with more values
than there are quotes panics. -/
def formatFields (sprintV : Value → String) : List String → List Value → Option (List String)
  | _, [] => some []
  | [], _ :: _ => none
  | q :: qs, v :: vs =>
    (formatFields sprintV qs vs).map (fun fields => (q ++ sprintV v ++ q) :: fields)

/-- The text `stringPKColumnValuesRow` of a PK tuple: its formatted fields joined by
commas. -/
def formatPKValues (sprintV : Value → String) (AllPKColumnQuotes : List String)
    (AllPKColumnValues : List Value) : Option String :=
  (formatFields sprintV AllPKColumnQuotes AllPKColumnValues).map
    (fun fields => ",".intercalate fields)

/-- State of `PopulateConsolidateTableRows`: the struct under construction and, per
crud type, the formatted rows marked in `mapTableRowExists`. -/
structure populateState where
  mapTableRowExists : StringMap (List String)
  consolidateTableRows : ConsolidateTableRows

/-- The closure `populate`: every row of the list whose formatted PK tuple has not
been seen under the crud type is appended to the formatted rows and to the raw PK
tuples of that type. -/
def populate (sprintV : Value → String) (crudtype : String) :
    List TableRow → populateState → Option populateState
  | [], st => some st
  | tr :: tablerows, st =>
    match formatPKValues sprintV (st.consolidateTableRows.AllPKColumnQuotes.getD [])
        tr.AllPKColumnValues with
    | none => none
    | some stringPKColumnValuesRow =>
      if stringPKColumnValuesRow ∈ StringMap.get [] st.mapTableRowExists crudtype then
        populate sprintV crudtype tablerows st
      else
        populate sprintV crudtype tablerows
          { mapTableRowExists :=
              st.mapTableRowExists.set crudtype
                (stringPKColumnValuesRow :: StringMap.get [] st.mapTableRowExists crudtype)
            consolidateTableRows :=
              { st.consolidateTableRows with
                MapPKColumnValuesRows :=
                  st.consolidateTableRows.MapPKColumnValuesRows.set crudtype
                    (StringMap.get [] st.consolidateTableRows.MapPKColumnValuesRows crudtype ++
                      [stringPKColumnValuesRow])
                MapPKColumnValues :=
                  st.consolidateTableRows.MapPKColumnValues.set crudtype
                    (StringMap.get [] st.consolidateTableRows.MapPKColumnValues crudtype ++
                      [tr.AllPKColumnValues]) } }

/-- A slice as Go returns it from an appending loop: `nil` when nothing was
appended. -/
def sliceOrNil (l : List String) : Option (List String) := if l = [] then none else some l

/-- Function `FindAllPKColumnNames`. -/
def FindAllPKColumnNames (fieldtypeTime fieldtypeDate : iFieldType)
    (result : Option (List (String × String))) : Except Died (List String) :=
  match allPKColumns fieldtypeTime fieldtypeDate result with
  | Except.error e => Except.error e
  | Except.ok allpkcolumns => Except.ok (allpkcolumns.map (fun c => c.ColumnName))

/-- Function `FindAllPKColumnQuotes`. -/
def FindAllPKColumnQuotes (fieldtypeTime fieldtypeDate : iFieldType)
    (result : Option (List (String × String))) : Except Died (List String) :=
  match allPKColumns fieldtypeTime fieldtypeDate result with
  | Except.error e => Except.error e
  | Except.ok allpkcolumns =>
    Except.ok (allpkcolumns.map (fun c => if c.FieldType.withQuote then sqlQuote else ""))

/-- The pattern `if x == nil then x = find()` of the loop of
`PopulateConsolidateTableRows`: a slice already set is kept, otherwise it is looked
up. -/
def keepOrFind (current : Option (List String)) (found : Except Died (List String)) :
    Except Died (Option (List String)) :=
  match current with
  | some x => Except.ok (some x)
  | none =>
    match found with
    | Except.error e => Except.error e
    | Except.ok x => Except.ok (some x)

/-- The `for _, input := range textlinebytes` loop of `PopulateConsolidateTableRows`
over the parsed lines of the row-level log.  `columns` answers `GetTableColumns` and
`pkResult` the primary-key query of `allPKColumns` for a table name. -/
def populateLines (sprintV : Value → String) (fieldtypeTime fieldtypeDate : iFieldType)
    (columns : String → List String) (pkResult : String → Option (List (String × String))) :
    List TableChunkRowsInfo → populateState → Except Died populateState
  | [], st => Except.ok st
  | tcri :: rest, st =>
    let c := st.consolidateTableRows
    match keepOrFind c.AllPKColumnNames
        (FindAllPKColumnNames fieldtypeTime fieldtypeDate (pkResult tcri.TableSrc)) with
    | Except.error e => Except.error e
    | Except.ok n =>
      match keepOrFind c.AllPKColumnQuotes
          (FindAllPKColumnQuotes fieldtypeTime fieldtypeDate (pkResult tcri.TableSrc)) with
      | Except.error e => Except.error e
      | Except.ok q =>
        let st1 : populateState :=
          { st with
            consolidateTableRows :=
              { c with
                TableSrc := if c.TableSrc = "" then tcri.TableSrc else c.TableSrc
                TableTgt := if c.TableTgt = "" then tcri.TableTgt else c.TableTgt
                FieldColumnNames :=
                  match c.FieldColumnNames with
                  | some f => some f
                  | none => sliceOrNil (columns tcri.TableSrc)
                AllPKColumnNames := n
                AllPKColumnQuotes := q } }
        match (populate sprintV "insert" tcri.Diff.Insert st1).bind
            (fun st2 => (populate sprintV "update" tcri.Diff.Update st2).bind
              (fun st3 => populate sprintV "delete" tcri.Diff.Delete st3)) with
        | none => Except.error Died.panicked
        | some st4 => populateLines sprintV fieldtypeTime fieldtypeDate columns pkResult rest st4

/-- Function `PopulateConsolidateTableRows` on the parsed lines of the row-level log;
no line at all is fatal. -/
def PopulateConsolidateTableRows (sprintV : Value → String)
    (fieldtypeTime fieldtypeDate : iFieldType) (columns : String → List String)
    (pkResult : String → Option (List (String × String)))
    (textlines : List TableChunkRowsInfo) : Except Died ConsolidateTableRows :=
  if textlines = [] then Except.error (Died.fatal "either -f <file> or pipe is empty")
  else
    match populateLines sprintV fieldtypeTime fieldtypeDate columns pkResult textlines
        { mapTableRowExists := [("insert", []), ("update", []), ("delete", [])]
          consolidateTableRows :=
            { MapPKColumnValuesRows := [("insert", []), ("update", []), ("delete", [])]
              MapPKColumnValues := [("insert", []), ("update", []), ("delete", [])]
              TableSrc := ""
              TableTgt := ""
              AllPKColumnNames := none
              AllPKColumnQuotes := none
              FieldColumnNames := none } } with
    | Except.error e => Except.error e
    | Except.ok st => Except.ok st.consolidateTableRows

/-- The rows listed under a crud type in the `diff` object of a log line. -/
def crudRows (crudtype : String) (d : tableRowCrud) : List TableRow :=
  if crudtype = "insert" then d.Insert
  else if crudtype = "update" then d.Update
  else if crudtype = "delete" then d.Delete
  else []

/-- The elements of a list in the order of their first occurrence, each once. -/
def keepFirst : List String → List String
  | [] => []
  | x :: xs => x :: (keepFirst xs).filter (fun y => decide (y ≠ x))

/-- State of the consolidation for the crud type `k` after the rows `T` of that type
have been processed with the quotes `q`: every row was formatted, the formatted rows
are the first occurrences, the marked rows are the formatted ones, and the raw PK
tuples format to the formatted rows position by position. -/
def Consolidated (sprintV : Value → String) (q : List String) (k : String) (T : List TableRow)
    (st : populateState) : Prop :=
  (∀ tr ∈ T, (formatPKValues sprintV q tr.AllPKColumnValues).isSome = true) ∧
  StringMap.get [] st.consolidateTableRows.MapPKColumnValuesRows k =
    keepFirst (T.filterMap (fun tr => formatPKValues sprintV q tr.AllPKColumnValues)) ∧
  (∀ s, s ∈ StringMap.get [] st.mapTableRowExists k ↔
    s ∈ T.filterMap (fun tr => formatPKValues sprintV q tr.AllPKColumnValues)) ∧
  (StringMap.get [] st.consolidateTableRows.MapPKColumnValues k).map
      (formatPKValues sprintV q) =
    (StringMap.get [] st.consolidateTableRows.MapPKColumnValuesRows k).map some

/-- Two row-level log lines of a table with an integer key: key 2 is listed twice
under update, key 3 under insert and key 5 under delete. -/
def consolidateLines : List TableChunkRowsInfo :=
  [{ TableChunkRowsInfo.zero with
      TableSrc := "t", TableTgt := "t"
      Diff := { Insert := [{ Hash := 30, AllPKColumnValues := [Value.int 3] }]
                Update := [{ Hash := 21, AllPKColumnValues := [Value.int 2] }]
                Delete := [] } },
   { TableChunkRowsInfo.zero with
      TableSrc := "t", TableTgt := "t"
      Diff := { Insert := [{ Hash := 30, AllPKColumnValues := [Value.int 3] },
                           { Hash := 40, AllPKColumnValues := [Value.int 4] }]
                Update := [{ Hash := 21, AllPKColumnValues := [Value.int 2] }]
                Delete := [{ Hash := 50, AllPKColumnValues := [Value.int 5] }] } }]


/-! ## Lookaheads issued by the composite planner (`pktable_multi.go`) -/

/-- What the closure `runUpperBoundary` reports of one lookahead through
`log.Debugf`: the operators and the chunk size its query is built from, the text of
that query as `UpperBoundaryQuery` returns it and `UpperBoundaryResult` prepares it
(the operators, the placeholders and the `LIMIT` reach the database in this text),
the lower boundary bound to its placeholders, and the sum of the counts of its rows
(`none`: the lookahead panicked before that line). -/
structure lookaheadLog where
  operators : List String
  chunksize : Int
  query : String
  lowerboundary : List Value
  rowcntSrc : Option Int
  deriving DecidableEq, Repr

/-- The closure `runUpperBoundary` together with its report. -/
def pkTableMulti.runUpperBoundaryLogged (env : envarg) (t : pkTable) (dbSrc : Endpoint)
    (ft : iFieldType) (pkColumnOperators : List String) (chunksize : Int)
    (LowerBoundary : List Value) : lookaheadLog × Option (Int × List resultRow) :=
  let r := pkTableMulti.runUpperBoundary env t dbSrc ft pkColumnOperators chunksize LowerBoundary
  ({ operators := pkColumnOperators, chunksize := chunksize,
     query := pkTableMulti.UpperBoundaryQuery env t.GetPKColumnNames pkColumnOperators chunksize,
     lowerboundary := LowerBoundary, rowcntSrc := r.map Prod.fst }, r)

/-- The closure `runUpperBoundaryFor2PKFields` together with the reports of its
lookaheads, in the order they are issued. -/
def pkTableMulti.runUpperBoundaryFor2PKFieldsLogged (env : envarg) (t : pkTable)
    (dbSrc : Endpoint) (ft : iFieldType) (pkColumnOperators : List String) (chunksize : Int)
    (LowerBoundary : List Value) : List lookaheadLog × Option (List resultRow) :=
  match pkTableMulti.runUpperBoundaryLogged env t dbSrc ft pkColumnOperators chunksize
      LowerBoundary with
  | (log, none) => ([log], none)
  | (log, some (rowcntSrc, rows)) =>
    if rowcntSrc = chunksize then ([log], some rows)
    else
      match sliceDropLast LowerBoundary with
      | none => ([log], none)
      | some lb1 =>
        match pkTableMulti.runUpperBoundaryLogged env t dbSrc ft [">"] (chunksize - rowcntSrc)
            lb1 with
        | (log1, none) => ([log, log1], none)
        | (log1, some (_, rows1)) => ([log, log1], some (rows ++ rows1))

/-- The closure `runUpperBoundaryFor3PKFields` together with the reports of its
lookaheads. -/
def pkTableMulti.runUpperBoundaryFor3PKFieldsLogged (env : envarg) (t : pkTable)
    (dbSrc : Endpoint) (ft : iFieldType) (pkColumnOperators : List String) (chunksize : Int)
    (LowerBoundary : List Value) : List lookaheadLog × Option (List resultRow) :=
  match pkTableMulti.runUpperBoundaryLogged env t dbSrc ft pkColumnOperators chunksize
      LowerBoundary with
  | (log, none) => ([log], none)
  | (log, some (rowcntSrc, rows)) =>
    if rowcntSrc = chunksize then ([log], some rows)
    else
      match sliceDropLast LowerBoundary with
      | none => ([log], none)
      | some lb1 =>
        match pkTableMulti.runUpperBoundaryFor2PKFieldsLogged env t dbSrc ft ["=", ">"]
            (chunksize - rowcntSrc) lb1 with
        | (logs, none) => (log :: logs, none)
        | (logs, some rows1) => (log :: logs, some (rows ++ rows1))

/-- The closure `runUpperBoundaryFor4PKFields` together with the reports of its
lookaheads. -/
def pkTableMulti.runUpperBoundaryFor4PKFieldsLogged (env : envarg) (t : pkTable)
    (dbSrc : Endpoint) (ft : iFieldType) (pkColumnOperators : List String) (chunksize : Int)
    (LowerBoundary : List Value) : List lookaheadLog × Option (List resultRow) :=
  match pkTableMulti.runUpperBoundaryLogged env t dbSrc ft pkColumnOperators chunksize
      LowerBoundary with
  | (log, none) => ([log], none)
  | (log, some (rowcntSrc, rows)) =>
    if rowcntSrc = chunksize then ([log], some rows)
    else
      match sliceDropLast LowerBoundary with
      | none => ([log], none)
      | some lb1 =>
        match pkTableMulti.runUpperBoundaryFor3PKFieldsLogged env t dbSrc ft ["=", "=", ">"]
            (chunksize - rowcntSrc) lb1 with
        | (logs, none) => (log :: logs, none)
        | (logs, some rows1) => (log :: logs, some (rows ++ rows1))

/-- Function `pkTableMulti.TransformUpperBoundaryResult` together with the reports
of the lookaheads it issues; nothing is issued when the trailing field type cannot
be read or the arity is not 2, 3 or 4. -/
def pkTableMulti.TransformUpperBoundaryResultLogged (env : envarg) (t : pkTable)
    (dbSrc : Endpoint) (LowerBoundary : List Value) :
    List lookaheadLog × Option (List resultRow) :=
  match t.lastPKfieldtype with
  | none => ([], none)
  | some ft =>
    if t.GetPKColumnNames.length = 2 then
      pkTableMulti.runUpperBoundaryFor2PKFieldsLogged env t dbSrc ft ["=", ">="]
        env.ArgChunksize LowerBoundary
    else if t.GetPKColumnNames.length = 3 then
      pkTableMulti.runUpperBoundaryFor3PKFieldsLogged env t dbSrc ft ["=", "=", ">="]
        env.ArgChunksize LowerBoundary
    else if t.GetPKColumnNames.length = 4 then
      pkTableMulti.runUpperBoundaryFor4PKFieldsLogged env t dbSrc ft ["=", "=", "=", ">="]
        env.ArgChunksize LowerBoundary
    else ([], none)

/-- The reports `logs` are those of an unwinding that starts with the operators
`ops`, the chunk size `cs` and the lower boundary `LB`: each lookahead but the last
fell short of its chunk size and is followed by one with the chunk size reduced by
its count, the lower boundary cut by its last element and the operator of the last
kept column relaxed to `>`; the last one panicked, filled its chunk size, or has a
single operator. -/
def UnwindingLog : List lookaheadLog → Int → List Value → List String → Prop
  | [], _, _, _ => False
  | log :: rest, cs, LB, ops =>
    log.operators = ops ∧ log.chunksize = cs ∧ log.lowerboundary = LB ∧
    (rest = [] → log.rowcntSrc = none ∨ log.rowcntSrc = some cs ∨ ops.length = 1) ∧
    (rest ≠ [] → ∃ cnt, log.rowcntSrc = some cnt ∧ cnt ≠ cs ∧ 2 ≤ ops.length ∧
      UnwindingLog rest (cs - cnt) LB.dropLast (List.replicate (ops.length - 2) "=" ++ [">"]))

/-- The answers reported in `logs` make up the resultset `rows`: every lookahead
reported a count, and the counts of the rows add up to the reported counts. -/
def Collected (logs : List lookaheadLog) (rows : List resultRow) : Prop :=
  (∀ l ∈ logs, l.rowcntSrc.isSome = true) ∧
  (rows.map (fun r => r.count)).sum = (logs.map (fun l => l.rowcntSrc.getD 0)).sum

/-- The reports `logs` carry the texts of the queries that were sent, and the rows of
the resultset `res` carry those texts with the bound values plugged in: the text of
each lookahead is the one `UpperBoundaryQuery` builds from the column names, the
operators and the chunk size of that lookahead, and the text kept with each row of
the resultset is the text of one of the lookaheads after `UpperBoundaryResult`
plugged the lower boundary of that lookahead into it. -/
def Issued (env : envarg) (t : pkTable) (logs : List lookaheadLog)
    (res : Option (List resultRow)) : Prop :=
  (∀ l ∈ logs, l.query =
    pkTableMulti.UpperBoundaryQuery env t.GetPKColumnNames l.operators l.chunksize) ∧
  (∀ rows, res = some rows → ∀ r ∈ rows, ∃ l ∈ logs,
    r.query = plugInputs (lookaheadInputQuote t) 0 l.lowerboundary l.query)

/-- Scenario of an unwinding over three key columns: key `(a, b, id)` with the rows
`(1,1,1), (1,1,2), (1,2,1), (2,1,1), (2,1,2)`, chunk size 4. -/
def unwindRun : RunEnv :=
  intRun ["a", "b", "id"] 4
    [([1, 1, 1], 10), ([1, 1, 2], 20), ([1, 2, 1], 30), ([2, 1, 1], 40), ([2, 1, 2], 50)]
    [([1, 1, 1], 10), ([1, 1, 2], 20), ([1, 2, 1], 30), ([2, 1, 1], 40), ([2, 1, 2], 50)]

/-! ## Runs on a table with a single integer key -/

/-- Stored rows of a table with a single integer PK column: one row per pair of a
key and a row checksum. -/
def singleIntRows (src : List (Int × Int)) : List DBRow :=
  src.map (fun r => { pk := [Value.int r.1], crc := r.2 })

/-- Run of the engine on a source table with the single integer PK column `id`; the
arguments, the target endpoint, `json.Marshal` and the arrival order of the hash
results are free. -/
def singleIntRun (env : envarg) (src : List (Int × Int)) (dbTgt : Endpoint)
    (marshal : List Value → String) (srcFirst : Int → Bool) : RunEnv :=
  { env := env
    kind := RunTableKind (intTable ["id"])._allPKColumns
    t := intTable ["id"]
    dbSrc := tableDB ["id"] (singleIntRows src) [0] List.sum
    dbTgt := dbTgt
    marshal := marshal
    srcFirst := srcFirst }

/-! ## Properties -/

/-! ### Go maps -/

theorem GoMap.get?_eq_none_iff (m : GoMap) (k : String) :
    m.get? k = none ↔ k ∉ m.map Prod.fst := by
  induction m with
  | nil => simp [GoMap.get?]
  | cons p rest ih =>
    obtain ⟨k1, v⟩ := p
    by_cases h : k = k1
    · simp [GoMap.get?, h]
    · simp [GoMap.get?, h, ih]

theorem GoMap.get?_append_of_mem (m1 m2 : GoMap) (k : String) (h : k ∈ m1.map Prod.fst) :
    GoMap.get? (m1 ++ m2) k = GoMap.get? m1 k := by
  induction m1 with
  | nil => simp at h
  | cons p rest ih =>
    obtain ⟨k1, v⟩ := p
    by_cases hk : k = k1
    · simp [GoMap.get?, hk]
    · have : k ∈ rest.map Prod.fst := by
        simp only [List.map_cons, List.mem_cons] at h
        rcases h with h | h
        · exact absurd h hk
        · exact h
      simp [GoMap.get?, hk, ih this]

theorem GoMap.get?_append_of_not_mem (m1 m2 : GoMap) (k : String) (h : k ∉ m1.map Prod.fst) :
    GoMap.get? (m1 ++ m2) k = GoMap.get? m2 k := by
  induction m1 with
  | nil => simp
  | cons p rest ih =>
    obtain ⟨k1, v⟩ := p
    simp only [List.map_cons, List.mem_cons, not_or] at h
    simp [GoMap.get?, h.1, ih h.2]

/-- The map built from a row list, newest assignment first. -/
theorem GoMap.get?_rows (marshal : List Value → String) (rows : List TableRow) (tr : TableRow)
    (hmem : tr ∈ rows) (hnd : (rows.map (pkKey marshal)).Nodup) :
    GoMap.get? ((rows.reverse).map (fun r => (pkKey marshal r, r.Hash))) (pkKey marshal tr)
      = some tr.Hash := by
  induction rows with
  | nil => simp at hmem
  | cons r rest ih =>
    simp only [List.map_cons, List.nodup_cons] at hnd
    simp only [List.reverse_cons, List.map_append, List.map_cons, List.map_nil]
    rcases List.mem_cons.1 hmem with h | h
    · subst h
      rw [GoMap.get?_append_of_not_mem]
      · simp [GoMap.get?]
      · simp only [List.map_map, List.map_reverse, List.mem_reverse]
        exact hnd.1
    · rw [GoMap.get?_append_of_mem]
      · exact ih h hnd.2
      · simp only [List.map_map, List.map_reverse, List.mem_reverse]
        exact List.mem_map_of_mem (pkKey marshal) h

/-! ### Row-level differ -/

theorem rowLevelLoop_src (marshal : List Value → String) (t : pkTable)
    (raw : List (Int × List Value)) (tcri tcri1 : TableChunkRowsInfo)
    (h : rowLevelLoop marshal t true raw tcri = some tcri1) :
    ∃ rows, tcri1.TableRowsSrc = tcri.TableRowsSrc ++ rows ∧
      tcri1.MapTableRowsSrc =
        (rows.reverse).map (fun r => (pkKey marshal r, r.Hash)) ++ tcri.MapTableRowsSrc ∧
      tcri1.TableRowsTgt = tcri.TableRowsTgt ∧
      tcri1.MapTableRowsTgt = tcri.MapTableRowsTgt ∧ tcri1.Diff = tcri.Diff := by
  induction raw generalizing tcri with
  | nil =>
    simp only [rowLevelLoop, Option.some.injEq] at h
    subst h
    exact ⟨[], by simp⟩
  | cons r rest ih =>
    obtain ⟨hh, vals⟩ := r
    simp only [rowLevelLoop] at h
    cases hs : scanPKValues t.GetAllPKColumns vals with
    | none => simp [hs] at h
    | some pk =>
      simp only [hs, if_true] at h
      obtain ⟨rows, h1, h2, h3, h4, h5⟩ := ih _ h
      refine ⟨{ Hash := hh, AllPKColumnValues := pk } :: rows, ?_, ?_, h3, h4, h5⟩
      · simp [h1]
      · simp [h2, GoMap.set, pkKey]

theorem rowLevelLoop_tgt (marshal : List Value → String) (t : pkTable)
    (raw : List (Int × List Value)) (tcri tcri1 : TableChunkRowsInfo)
    (h : rowLevelLoop marshal t false raw tcri = some tcri1) :
    ∃ rows, tcri1.TableRowsTgt = tcri.TableRowsTgt ++ rows ∧
      tcri1.MapTableRowsTgt =
        (rows.reverse).map (fun r => (pkKey marshal r, r.Hash)) ++ tcri.MapTableRowsTgt ∧
      tcri1.TableRowsSrc = tcri.TableRowsSrc ∧
      tcri1.MapTableRowsSrc = tcri.MapTableRowsSrc ∧ tcri1.Diff = tcri.Diff := by
  induction raw generalizing tcri with
  | nil =>
    simp only [rowLevelLoop, Option.some.injEq] at h
    subst h
    exact ⟨[], by simp⟩
  | cons r rest ih =>
    obtain ⟨hh, vals⟩ := r
    simp only [rowLevelLoop] at h
    cases hs : scanPKValues t.GetAllPKColumns vals with
    | none => simp [hs] at h
    | some pk =>
      simp only [hs, Bool.false_eq_true, if_false] at h
      obtain ⟨rows, h1, h2, h3, h4, h5⟩ := ih _ h
      refine ⟨{ Hash := hh, AllPKColumnValues := pk } :: rows, ?_, ?_, h3, h4, h5⟩
      · simp [h1]
      · simp [h2, GoMap.set, pkKey]

theorem classifySrc_spec (marshal : List Value → String) (rows : List TableRow)
    (tcri : TableChunkRowsInfo) :
    (classifySrc marshal rows tcri).Diff.Insert =
        tcri.Diff.Insert ++ rows.filter (insertCond marshal tcri.MapTableRowsTgt) ∧
    (classifySrc marshal rows tcri).Diff.Update =
        tcri.Diff.Update ++
          rows.filter (updateCond marshal tcri.MapTableRowsSrc tcri.MapTableRowsTgt) ∧
    (classifySrc marshal rows tcri).Diff.Delete = tcri.Diff.Delete ∧
    (classifySrc marshal rows tcri).TableRowsSrc = tcri.TableRowsSrc ∧
    (classifySrc marshal rows tcri).TableRowsTgt = tcri.TableRowsTgt ∧
    (classifySrc marshal rows tcri).MapTableRowsSrc = tcri.MapTableRowsSrc ∧
    (classifySrc marshal rows tcri).MapTableRowsTgt = tcri.MapTableRowsTgt := by
  induction rows generalizing tcri with
  | nil => simp [classifySrc]
  | cons tr rest ih =>
    simp only [classifySrc]
    cases hg : tcri.MapTableRowsTgt.get? (marshal tr.AllPKColumnValues) with
    | none =>
      simp only []
      obtain ⟨h1, h2, h3, h4, h5, h6, h7⟩ := ih
        { tcri with Diff := { tcri.Diff with Insert := tcri.Diff.Insert ++ [tr] } }
      refine ⟨?_, ?_, h3, h4, h5, h6, h7⟩
      · rw [h1]; simp [List.filter_cons, insertCond, pkKey, hg]
      · rw [h2]; simp [List.filter_cons, updateCond, pkKey, hg]
    | some ht =>
      simp only []
      by_cases hne : tcri.MapTableRowsSrc.get (marshal tr.AllPKColumnValues) ≠
          tcri.MapTableRowsTgt.get (marshal tr.AllPKColumnValues)
      · rw [if_pos hne]
        obtain ⟨h1, h2, h3, h4, h5, h6, h7⟩ := ih
          { tcri with Diff := { tcri.Diff with Update := tcri.Diff.Update ++ [tr] } }
        refine ⟨?_, ?_, h3, h4, h5, h6, h7⟩
        · rw [h1]; simp [List.filter_cons, insertCond, pkKey, hg]
        · rw [h2]; simp [List.filter_cons, updateCond, pkKey, hg, hne]
      · rw [if_neg hne]
        obtain ⟨h1, h2, h3, h4, h5, h6, h7⟩ := ih tcri
        refine ⟨?_, ?_, h3, h4, h5, h6, h7⟩
        · rw [h1]; simp [List.filter_cons, insertCond, pkKey, hg]
        · rw [h2]; simp [List.filter_cons, updateCond, pkKey, hg, hne]

theorem classifyTgt_spec (marshal : List Value → String) (rows : List TableRow)
    (tcri : TableChunkRowsInfo) :
    (classifyTgt marshal rows tcri).Diff.Insert = tcri.Diff.Insert ∧
    (classifyTgt marshal rows tcri).Diff.Update = tcri.Diff.Update ∧
    (classifyTgt marshal rows tcri).Diff.Delete =
        tcri.Diff.Delete ++ rows.filter (insertCond marshal tcri.MapTableRowsSrc) ∧
    (classifyTgt marshal rows tcri).TableRowsSrc = tcri.TableRowsSrc ∧
    (classifyTgt marshal rows tcri).TableRowsTgt = tcri.TableRowsTgt ∧
    (classifyTgt marshal rows tcri).MapTableRowsSrc = tcri.MapTableRowsSrc ∧
    (classifyTgt marshal rows tcri).MapTableRowsTgt = tcri.MapTableRowsTgt := by
  induction rows generalizing tcri with
  | nil => simp [classifyTgt]
  | cons tr rest ih =>
    simp only [classifyTgt]
    cases hg : tcri.MapTableRowsSrc.get? (marshal tr.AllPKColumnValues) with
    | none =>
      simp only []
      obtain ⟨h1, h2, h3, h4, h5, h6, h7⟩ := ih
        { tcri with Diff := { tcri.Diff with Delete := tcri.Diff.Delete ++ [tr] } }
      refine ⟨h1, h2, ?_, h4, h5, h6, h7⟩
      rw [h3]; simp [List.filter_cons, insertCond, pkKey, hg]
    | some ht =>
      simp only []
      obtain ⟨h1, h2, h3, h4, h5, h6, h7⟩ := ih tcri
      refine ⟨h1, h2, ?_, h4, h5, h6, h7⟩
      rw [h3]; simp [List.filter_cons, insertCond, pkKey, hg]

theorem routeRowResult_fields (tcri : TableChunkRowsInfo) (r : tableHashResult) :
    (routeRowResult tcri r).Diff = tcri.Diff ∧
    (routeRowResult tcri r).TableRowsSrc = tcri.TableRowsSrc ∧
    (routeRowResult tcri r).TableRowsTgt = tcri.TableRowsTgt ∧
    (routeRowResult tcri r).MapTableRowsSrc = tcri.MapTableRowsSrc ∧
    (routeRowResult tcri r).MapTableRowsTgt = tcri.MapTableRowsTgt := by
  unfold routeRowResult
  split <;> exact ⟨rfl, rfl, rfl, rfl, rfl⟩

theorem routeRowResult_foldl_fields (rs : List tableHashResult) (tcri : TableChunkRowsInfo) :
    (rs.foldl routeRowResult tcri).Diff = tcri.Diff ∧
    (rs.foldl routeRowResult tcri).TableRowsSrc = tcri.TableRowsSrc ∧
    (rs.foldl routeRowResult tcri).TableRowsTgt = tcri.TableRowsTgt ∧
    (rs.foldl routeRowResult tcri).MapTableRowsSrc = tcri.MapTableRowsSrc ∧
    (rs.foldl routeRowResult tcri).MapTableRowsTgt = tcri.MapTableRowsTgt := by
  induction rs generalizing tcri with
  | nil => simp
  | cons r rest ih =>
    obtain ⟨h1, h2, h3, h4, h5⟩ := routeRowResult_fields tcri r
    obtain ⟨g1, g2, g3, g4, g5⟩ := ih (routeRowResult tcri r)
    simp only [List.foldl_cons]
    exact ⟨g1.trans h1, g2.trans h2, g3.trans h3, g4.trans h4, g5.trans h5⟩

theorem TableResultRowLevel_src (marshal : List Value → String) (env : envarg) (t : pkTable)
    (db : Endpoint) (tcri tcri1 : TableChunkRowsInfo) (r : tableHashResult)
    (h : t.TableResultRowLevel marshal env db true tcri = some (r, tcri1)) :
    ∃ rows : List TableRow, tcri1.TableRowsSrc = tcri.TableRowsSrc ++ rows ∧
      tcri1.MapTableRowsSrc = mapOfRows marshal rows ++ tcri.MapTableRowsSrc ∧
      tcri1.TableRowsTgt = tcri.TableRowsTgt ∧
      tcri1.MapTableRowsTgt = tcri.MapTableRowsTgt ∧ tcri1.Diff = tcri.Diff := by
  unfold pkTable.TableResultRowLevel at h
  simp only [if_true] at h
  split at h
  · exact absurd h (by simp)
  · split at h
    · exact absurd h (by simp)
    · rename_i a _ tcri2 hl
      simp only [Option.some.injEq, Prod.mk.injEq] at h
      obtain ⟨_, h2⟩ := h
      subst h2
      exact (rowLevelLoop_src marshal t _ _ _ hl : _)

theorem TableResultRowLevel_tgt (marshal : List Value → String) (env : envarg) (t : pkTable)
    (db : Endpoint) (tcri tcri1 : TableChunkRowsInfo) (r : tableHashResult)
    (h : t.TableResultRowLevel marshal env db false tcri = some (r, tcri1)) :
    ∃ rows, tcri1.TableRowsTgt = tcri.TableRowsTgt ++ rows ∧
      tcri1.MapTableRowsTgt = mapOfRows marshal rows ++ tcri.MapTableRowsTgt ∧
      tcri1.TableRowsSrc = tcri.TableRowsSrc ∧
      tcri1.MapTableRowsSrc = tcri.MapTableRowsSrc ∧ tcri1.Diff = tcri.Diff := by
  unfold pkTable.TableResultRowLevel at h
  simp only [Bool.false_eq_true, if_false] at h
  split at h
  · exact absurd h (by simp)
  · split at h
    · exact absurd h (by simp)
    · rename_i a _ tcri2 hl
      simp only [Option.some.injEq, Prod.mk.injEq] at h
      obtain ⟨_, h2⟩ := h
      subst h2
      exact (rowLevelLoop_tgt marshal t _ _ _ hl : _)

/-- What the row-level differ leaves in the line it logs: the maps are those of the
two row lists, and the three lists are the filters of the classification loops. -/
theorem RunTableRoutineRowLevel_spec (marshal : List Value → String) (env : envarg)
    (t : pkTable) (dbSrc dbTgt : Endpoint) (srcFirst : Bool) (tci : tableChunkInfo)
    (line : TableChunkRowsInfo)
    (h : t.RunTableRoutineRowLevel marshal env dbSrc dbTgt srcFirst tci = some line) :
    line.Diff.Insert =
      line.TableRowsSrc.filter (insertCond marshal (mapOfRows marshal line.TableRowsTgt)) ∧
    line.Diff.Update =
      line.TableRowsSrc.filter (updateCond marshal (mapOfRows marshal line.TableRowsSrc)
        (mapOfRows marshal line.TableRowsTgt)) ∧
    line.Diff.Delete =
      line.TableRowsTgt.filter (insertCond marshal (mapOfRows marshal line.TableRowsSrc)) := by
  unfold pkTable.RunTableRoutineRowLevel pkTable.TableRoutineRowLevel at h
  simp only [] at h
  split at h
  · exact absurd h (by simp)
  · rename_i rs tcri1 h1
    split at h
    · exact absurd h (by simp)
    · rename_i rt tcri2 h2
      simp only [Option.some.injEq] at h
      obtain ⟨rowsS, a1, a2, a3, a4, a5⟩ := TableResultRowLevel_src _ _ _ _ _ _ _ h1
      obtain ⟨rowsT, b1, b2, b3, b4, b5⟩ := TableResultRowLevel_tgt _ _ _ _ _ _ _ h2
      obtain ⟨c1, c2, c3, c4, c5⟩ :=
        routeRowResult_foldl_fields (arrivalOrder srcFirst rs rt) tcri2
      generalize (arrivalOrder srcFirst rs rt).foldl routeRowResult tcri2 = tcri3 at h c1 c2 c3 c4 c5
      obtain ⟨d1, d2, d3, d4, d5, d6, d7⟩ := classifySrc_spec marshal tcri3.TableRowsSrc tcri3
      generalize classifySrc marshal tcri3.TableRowsSrc tcri3 = tcri4 at h d1 d2 d3 d4 d5 d6 d7
      obtain ⟨e1, e2, e3, e4, e5, e6, e7⟩ := classifyTgt_spec marshal tcri4.TableRowsTgt tcri4
      subst h
      simp only [List.nil_append, List.append_nil] at a1 a2 a3 a4 a5 b1 b2 b3 b4 b5
      have hS : tcri3.TableRowsSrc = rowsS := by rw [c2, b3, a1]
      have hT : tcri3.TableRowsTgt = rowsT := by rw [c3, b1, a3]; simp
      have hMS : tcri3.MapTableRowsSrc = mapOfRows marshal rowsS := by rw [c4, b4, a2]
      have hMT : tcri3.MapTableRowsTgt = mapOfRows marshal rowsT := by rw [c5, b2, a4]; simp
      have hD : tcri3.Diff = { Insert := [], Update := [], Delete := [] } := by
        rw [c1, b5, a5]
      refine ⟨?_, ?_, ?_⟩
      · rw [e1, d1, e4, d4, e5, d5, hS, hT, hMT, hD]; simp
      · rw [e2, d2, e4, d4, e5, d5, hS, hT, hMS, hMT, hD]; simp
      · rw [e3, d3, e4, d4, e5, d5, d6, hS, hT, hMS, hD]; simp

theorem scanPKValues_spec : ∀ (cols : List pkColumn) (vals pk : List Value),
    scanPKValues cols vals = some pk →
    vals.length = cols.length ∧
    List.zipWith (fun (c : pkColumn) (v : Value) => c.FieldType.transformDBResultType v) cols
      vals = pk.map some := by
  intro cols
  induction cols with
  | nil =>
    intro vals pk h
    cases vals with
    | nil =>
      simp only [scanPKValues, Option.some.injEq] at h
      subst h
      exact ⟨rfl, rfl⟩
    | cons v vs => simp [scanPKValues] at h
  | cons c cs ih =>
    intro vals pk h
    cases vals with
    | nil => simp [scanPKValues] at h
    | cons v vs =>
      simp only [scanPKValues] at h
      cases h1 : c.FieldType.transformDBResultType v with
      | none => simp [h1] at h
      | some x =>
        cases h2 : scanPKValues cs vs with
        | none => simp [h1, h2] at h
        | some xs =>
          simp only [h1, h2, Option.some.injEq] at h
          subst h
          obtain ⟨i1, i2⟩ := ih vs xs h2
          exact ⟨by simp [i1], by simp [h1, i2]⟩

/-- The scan loop appends, to the row list of its side, one scanned row per row of
the answer, in the order of the answer, and leaves the other side alone. -/
theorem rowLevelLoop_rows (marshal : List Value → String) (t : pkTable) (issrc : Bool) :
    ∀ (raw : List (Int × List Value)) (tcri tcri1 : TableChunkRowsInfo),
      rowLevelLoop marshal t issrc raw tcri = some tcri1 →
      ∃ rows, List.Forall₂ (ScannedRow t.GetAllPKColumns) raw rows ∧
        tcri1.TableRowsSrc = tcri.TableRowsSrc ++ (if issrc then rows else []) ∧
        tcri1.TableRowsTgt = tcri.TableRowsTgt ++ (if issrc then [] else rows) ∧
        tcri1.LowerBoundary = tcri.LowerBoundary ∧
        tcri1.LastPKFieldUpperBoundary = tcri.LastPKFieldUpperBoundary := by
  intro raw
  induction raw with
  | nil =>
    intro tcri tcri1 h
    simp only [rowLevelLoop, Option.some.injEq] at h
    subst h
    exact ⟨[], List.Forall₂.nil, by simp, by simp, rfl, rfl⟩
  | cons r rest ih =>
    intro tcri tcri1 h
    obtain ⟨hh, vals⟩ := r
    simp only [rowLevelLoop] at h
    cases hs : scanPKValues t.GetAllPKColumns vals with
    | none => simp [hs] at h
    | some pk =>
      obtain ⟨s1, s2⟩ := scanPKValues_spec _ _ _ hs
      simp only [hs] at h
      cases issrc with
      | true =>
        simp only [if_true] at h
        obtain ⟨rows, f, a1, a2, a3, a4⟩ := ih _ _ h
        refine ⟨{ Hash := hh, AllPKColumnValues := pk } :: rows,
          List.Forall₂.cons ⟨rfl, s1, s2⟩ f, ?_, ?_, a3, a4⟩
        · simpa using a1
        · simpa using a2
      | false =>
        simp only [Bool.false_eq_true, if_false] at h
        obtain ⟨rows, f, a1, a2, a3, a4⟩ := ih _ _ h
        refine ⟨{ Hash := hh, AllPKColumnValues := pk } :: rows,
          List.Forall₂.cons ⟨rfl, s1, s2⟩ f, ?_, ?_, a3, a4⟩
        · simpa using a1
        · simpa using a2

theorem TableResultRowLevel_rows (marshal : List Value → String) (env : envarg) (t : pkTable)
    (db : Endpoint) (issrc : Bool) (tcri tcri1 : TableChunkRowsInfo) (r : tableHashResult)
    (h : t.TableResultRowLevel marshal env db issrc tcri = some (r, tcri1)) :
    ∃ rows, QueriedRows env t db issrc tcri.totableChunkInfo rows ∧
      tcri1.TableRowsSrc = tcri.TableRowsSrc ++ (if issrc then rows else []) ∧
      tcri1.TableRowsTgt = tcri.TableRowsTgt ++ (if issrc then [] else rows) ∧
      tcri1.LowerBoundary = tcri.LowerBoundary ∧
      tcri1.LastPKFieldUpperBoundary = tcri.LastPKFieldUpperBoundary := by
  unfold pkTable.TableResultRowLevel at h
  simp only [pkTable.TableHashStmt] at h
  cases ha : db.rowLevel (env.table issrc) t.GetPKColumnNames
      (tcri.LowerBoundary ++ [tcri.LastPKFieldUpperBoundary]) with
  | none => simp [ha] at h
  | some a =>
    simp only [ha] at h
    split at h
    · exact absurd h (by simp)
    · rename_i tcri2 hl
      simp only [Option.some.injEq, Prod.mk.injEq] at h
      obtain ⟨_, h2⟩ := h
      subst h2
      obtain ⟨rows, f, a1, a2, a3, a4⟩ := rowLevelLoop_rows marshal t issrc _ _ _ hl
      refine ⟨rows, ⟨a, ha, f⟩, ?_, ?_, ?_, ?_⟩
      · rw [a1]; cases issrc <;> rfl
      · rw [a2]; cases issrc <;> rfl
      · rw [a3]; cases issrc <;> rfl
      · rw [a4]; cases issrc <;> rfl

/-- The two row lists of the line the row-level differ logs are the rows that the
row-level query of the chunk returned on the source and on the target. -/
theorem RunTableRoutineRowLevel_rows (marshal : List Value → String) (env : envarg)
    (t : pkTable) (dbSrc dbTgt : Endpoint) (srcFirst : Bool) (tci : tableChunkInfo)
    (line : TableChunkRowsInfo)
    (h : t.RunTableRoutineRowLevel marshal env dbSrc dbTgt srcFirst tci = some line) :
    QueriedRows env t dbSrc true tci line.TableRowsSrc ∧
    QueriedRows env t dbTgt false tci line.TableRowsTgt := by
  unfold pkTable.RunTableRoutineRowLevel pkTable.TableRoutineRowLevel at h
  simp only [] at h
  split at h
  · exact absurd h (by simp)
  · rename_i rs tcri1 h1
    split at h
    · exact absurd h (by simp)
    · rename_i rt tcri2 h2
      simp only [Option.some.injEq] at h
      obtain ⟨rowsS, qS, a1, a2, a3, a4⟩ := TableResultRowLevel_rows _ _ _ _ _ _ _ _ h1
      obtain ⟨rowsT, qT, b1, b2, b3, b4⟩ := TableResultRowLevel_rows _ _ _ _ _ _ _ _ h2
      obtain ⟨c1, c2, c3, c4, c5⟩ :=
        routeRowResult_foldl_fields (arrivalOrder srcFirst rs rt) tcri2
      generalize (arrivalOrder srcFirst rs rt).foldl routeRowResult tcri2 = tcri3 at h c1 c2 c3 c4 c5
      obtain ⟨d1, d2, d3, d4, d5, d6, d7⟩ := classifySrc_spec marshal tcri3.TableRowsSrc tcri3
      generalize classifySrc marshal tcri3.TableRowsSrc tcri3 = tcri4 at h d1 d2 d3 d4 d5 d6 d7
      obtain ⟨e1, e2, e3, e4, e5, e6, e7⟩ := classifyTgt_spec marshal tcri4.TableRowsTgt tcri4
      subst h
      simp only [if_true, Bool.false_eq_true, if_false, List.nil_append, List.append_nil]
        at a1 a2 b1 b2
      have hS : (classifyTgt marshal tcri4.TableRowsTgt tcri4).TableRowsSrc = rowsS := by
        rw [e4, d4, c2, b1, a1]
      have hT : (classifyTgt marshal tcri4.TableRowsTgt tcri4).TableRowsTgt = rowsT := by
        rw [e5, d5, c3, b2, a2]; simp
      rw [hS, hT]
      obtain ⟨a, ha, fa⟩ := qS
      obtain ⟨b, hb, fb⟩ := qT
      refine ⟨⟨a, ha, fa⟩, ⟨b, ?_, fb⟩⟩
      rw [a3, a4] at hb
      exact hb

theorem insertCond_mapOfRows (marshal : List Value → String) (rows : List TableRow)
    (tr : TableRow) :
    insertCond marshal (mapOfRows marshal rows) tr =
      decide (pkKey marshal tr ∉ rows.map (pkKey marshal)) := by
  unfold insertCond
  rw [Bool.eq_iff_iff]
  simp only [Option.isNone_iff_eq_none, decide_eq_true_eq]
  rw [GoMap.get?_eq_none_iff]
  simp [mapOfRows, List.map_reverse]

theorem mapOfRows_get (marshal : List Value → String) (rows : List TableRow) (tr : TableRow)
    (hmem : tr ∈ rows) (hnd : (rows.map (pkKey marshal)).Nodup) :
    (mapOfRows marshal rows).get (pkKey marshal tr) = tr.Hash := by
  unfold GoMap.get mapOfRows
  rw [GoMap.get?_rows marshal rows tr hmem hnd]
  rfl

theorem nodup_keys_of_nodup_pk (marshal : List Value → String) (rows all : List TableRow)
    (hsub : ∀ r ∈ rows, r ∈ all) (hinj : EncodingInjOn marshal all)
    (hnd : (rows.map (fun r => r.AllPKColumnValues)).Nodup) :
    (rows.map (pkKey marshal)).Nodup := by
  induction rows with
  | nil => simp
  | cons r rest ih =>
    simp only [List.map_cons, List.nodup_cons, List.mem_map, not_exists, not_and] at hnd ⊢
    refine ⟨?_, ih (fun x hx => hsub x (List.mem_cons_of_mem _ hx)) hnd.2⟩
    intro x hx hk
    exact hnd.1 x hx (hinj x (hsub x (List.mem_cons_of_mem _ hx)) r
      (hsub r (List.mem_cons_self _ _)) hk)

theorem key_mem_iff_pk_mem (marshal : List Value → String) (rows all : List TableRow)
    (tr : TableRow) (htr : tr ∈ all) (hsub : ∀ r ∈ rows, r ∈ all)
    (hinj : EncodingInjOn marshal all) :
    pkKey marshal tr ∈ rows.map (pkKey marshal) ↔
      tr.AllPKColumnValues ∈ rows.map (fun r => r.AllPKColumnValues) := by
  simp only [List.mem_map]
  constructor
  · rintro ⟨x, hx, hk⟩
    exact ⟨x, hx, hinj x (hsub x hx) tr htr hk⟩
  · rintro ⟨x, hx, hk⟩
    exact ⟨x, hx, by simp [pkKey, hk]⟩

theorem updateCond_mapOfRows (marshal : List Value → String) (src tgt : List TableRow)
    (tr : TableRow) (htr : tr ∈ src) (hinj : EncodingInjOn marshal (src ++ tgt))
    (hndS : (src.map (fun r => r.AllPKColumnValues)).Nodup)
    (hndT : (tgt.map (fun r => r.AllPKColumnValues)).Nodup) :
    updateCond marshal (mapOfRows marshal src) (mapOfRows marshal tgt) tr =
      tgt.any (fun tt => decide (tt.AllPKColumnValues = tr.AllPKColumnValues) &&
        decide (tr.Hash ≠ tt.Hash)) := by
  have hkS : (src.map (pkKey marshal)).Nodup :=
    nodup_keys_of_nodup_pk marshal src (src ++ tgt) (fun r hr => List.mem_append_left _ hr)
      hinj hndS
  have hkT : (tgt.map (pkKey marshal)).Nodup :=
    nodup_keys_of_nodup_pk marshal tgt (src ++ tgt) (fun r hr => List.mem_append_right _ hr)
      hinj hndT
  have hgS := mapOfRows_get marshal src tr htr hkS
  have hsome : (GoMap.get? (mapOfRows marshal tgt) (pkKey marshal tr)).isSome = true ↔
      pkKey marshal tr ∈ tgt.map (pkKey marshal) := by
    have h := insertCond_mapOfRows marshal tgt tr
    unfold insertCond at h
    cases hg : GoMap.get? (mapOfRows marshal tgt) (pkKey marshal tr) with
    | none =>
      rw [hg] at h
      simp only [Option.isNone_none, Option.isSome_none, Bool.false_eq_true, false_iff] at h ⊢
      simpa using h.symm
    | some v =>
      rw [hg] at h
      simp only [Option.isNone_some, Option.isSome_some, true_iff] at h ⊢
      by_contra hc
      simp [hc] at h
  rw [Bool.eq_iff_iff]
  unfold updateCond
  simp only [Bool.and_eq_true, decide_eq_true_eq, List.any_eq_true, hsome, hgS]
  constructor
  · rintro ⟨hk, hne⟩
    obtain ⟨tt, htt, hkk⟩ := List.mem_map.1 hk
    have hgT := mapOfRows_get marshal tgt tt htt hkT
    rw [hkk] at hgT
    refine ⟨tt, htt, ?_, ?_⟩
    · exact hinj tt (List.mem_append_right _ htt) tr (List.mem_append_left _ htr) hkk
    · rw [hgT] at hne
      exact hne
  · rintro ⟨tt, htt, hpk, hne⟩
    have hkk : pkKey marshal tt = pkKey marshal tr := by simp [pkKey, hpk]
    have hgT := mapOfRows_get marshal tgt tt htt hkT
    rw [hkk] at hgT
    refine ⟨?_, ?_⟩
    · rw [← hkk]
      exact List.mem_map_of_mem _ htt
    · rw [hgT]
      exact hne

theorem length_filter_mem_eq_card (rows other : List TableRow)
    (hnd : (rows.map (fun r => r.AllPKColumnValues)).Nodup) :
    (rows.filter (fun r => decide (r.AllPKColumnValues ∈
        other.map (fun x => x.AllPKColumnValues)))).length =
      ((rows.map (fun r => r.AllPKColumnValues)).toFinset ∩
        (other.map (fun r => r.AllPKColumnValues)).toFinset).card := by
  have h1 : (rows.filter (fun r => decide (r.AllPKColumnValues ∈
        other.map (fun x => x.AllPKColumnValues)))).length =
      ((rows.map (fun r => r.AllPKColumnValues)).filter
        (fun k => decide (k ∈ other.map (fun x => x.AllPKColumnValues)))).length := by
    rw [List.filter_map, List.length_map]
    rfl
  rw [h1, ← List.toFinset_card_of_nodup (hnd.filter _), List.toFinset_filter]
  congr 1
  ext k
  simp

theorem exampleLine_eq :
    exampleRun.t.RunTableRoutineRowLevel exampleRun.marshal exampleRun.env exampleRun.dbSrc
      exampleRun.dbTgt true exampleChunk = some exampleLine := by
  rfl

theorem update_eq_filter_any (marshal : List Value → String) (line : TableChunkRowsInfo)
    (hU : line.Diff.Update =
      line.TableRowsSrc.filter (updateCond marshal (mapOfRows marshal line.TableRowsSrc)
        (mapOfRows marshal line.TableRowsTgt)))
    (hinj : EncodingInjOn marshal (line.TableRowsSrc ++ line.TableRowsTgt))
    (hndS : (line.TableRowsSrc.map (fun r => r.AllPKColumnValues)).Nodup)
    (hndT : (line.TableRowsTgt.map (fun r => r.AllPKColumnValues)).Nodup) :
    line.Diff.Update =
      line.TableRowsSrc.filter (fun tr => line.TableRowsTgt.any (fun tt =>
        decide (tt.AllPKColumnValues = tr.AllPKColumnValues) && decide (tr.Hash ≠ tt.Hash))) := by
  rw [hU]
  apply List.filter_congr
  intro tr htr
  exact updateCond_mapOfRows marshal _ _ tr htr hinj hndS hndT

/-! ### Claims on the chunk hasher and the row-level differ -/

/-- C4: for the results `(count, crc)` of the two endpoints, in either arrival
order, the chunk descriptor has `Match = true` exactly when the counts are equal and
the CRCs are equal; the row-level differ runs exactly when `Match` is false (with a
match no row-level line is produced, with a mismatch the outcome is that of the
row-level differ on the same descriptor). -/
theorem C4_match_iff_equal_counts_and_crc (marshal : List Value → String) (env : envarg)
    (t : pkTable) (dbSrc dbTgt : Endpoint) (srcFirst : Bool) (tci : tableChunkInfo)
    (a b : hashAnswer (Int × Int))
    (hs : dbSrc.chunkHash (env.table true) t.GetPKColumnNames
      (tci.LowerBoundary ++ [tci.LastPKFieldUpperBoundary]) = some a)
    (ht : dbTgt.chunkHash (env.table false) t.GetPKColumnNames
      (tci.LowerBoundary ++ [tci.LastPKFieldUpperBoundary]) = some b) :
    ∃ tci3 : tableChunkInfo,
      (tci3.Match = true ↔ a.data.1 = b.data.1 ∧ a.data.2 = b.data.2) ∧
      tci3.RowcntSrc = a.data.1 ∧ tci3.HashSrc = a.data.2 ∧
      tci3.RowcntTgt = b.data.1 ∧ tci3.HashTgt = b.data.2 ∧
      tci3.LowerBoundary = tci.LowerBoundary ∧
      tci3.LastPKFieldUpperBoundary = tci.LastPKFieldUpperBoundary ∧
      t.TableRoutineChunkLevel marshal env dbSrc dbTgt srcFirst tci =
        if tci3.Match = false then
          (t.RunTableRoutineRowLevel marshal env dbSrc dbTgt srcFirst tci3).map
            (fun line => (tci3, some line))
        else some (tci3, none) := by
  refine ⟨setMatch ((arrivalOrder srcFirst
      { issrc := true, rowcnt := a.data.1, hash := a.data.2, ts := a.ts,
        elapsedms := a.elapsedms }
      { issrc := false, rowcnt := b.data.1, hash := b.data.2, ts := b.ts,
        elapsedms := b.elapsedms }).foldl routeChunkResult
      { tci with
        HashQuerySrc :=
          (t.TableHashStmt tci.HashQuerySrc tci.LowerBoundary tci.LastPKFieldUpperBoundary).2
        HashQueryTgt :=
          (t.TableHashStmt tci.HashQueryTgt tci.LowerBoundary tci.LastPKFieldUpperBoundary).2 }),
    ?_, ?_, ?_, ?_, ?_, ?_, ?_, ?_⟩
  · cases srcFirst <;> simp [arrivalOrder, routeChunkResult, setMatch]
  · cases srcFirst <;> simp [arrivalOrder, routeChunkResult, setMatch]
  · cases srcFirst <;> simp [arrivalOrder, routeChunkResult, setMatch]
  · cases srcFirst <;> simp [arrivalOrder, routeChunkResult, setMatch]
  · cases srcFirst <;> simp [arrivalOrder, routeChunkResult, setMatch]
  · cases srcFirst <;> simp [arrivalOrder, routeChunkResult, setMatch]
  · cases srcFirst <;> simp [arrivalOrder, routeChunkResult, setMatch]
  · unfold pkTable.TableRoutineChunkLevel pkTable.TableResultChunkLevel
    simp only [pkTable.TableHashStmt, if_true, Bool.false_eq_true, if_false, hs, ht]
    split <;> rename_i hm
    · simp only [Bool.not_eq_true'] at hm
      rw [if_pos hm]
      cases t.RunTableRoutineRowLevel marshal env dbSrc dbTgt srcFirst _ <;> rfl
    · simp only [Bool.not_eq_true', Bool.not_eq_false] at hm
      rw [if_neg (by simp [hm])]

/-- C5: the source rows and the target rows of the logged line are the rows that the
row-level query of the chunk returned on the source and on the target, one for one
and in the order of the answers, and `Diff.Insert` is exactly the sub-list of the
source rows, in source order, whose encoded PK tuple does not occur among the encoded
PK tuples of the target rows. -/
theorem C5_insert_is_source_rows_absent_in_target (marshal : List Value → String)
    (env : envarg) (t : pkTable) (dbSrc dbTgt : Endpoint) (srcFirst : Bool)
    (tci : tableChunkInfo) (line : TableChunkRowsInfo)
    (h : t.RunTableRoutineRowLevel marshal env dbSrc dbTgt srcFirst tci = some line) :
    QueriedRows env t dbSrc true tci line.TableRowsSrc ∧
    QueriedRows env t dbTgt false tci line.TableRowsTgt ∧
    line.Diff.Insert =
      line.TableRowsSrc.filter (fun tr =>
        decide (marshal tr.AllPKColumnValues ∉
          line.TableRowsTgt.map (fun tt => marshal tt.AllPKColumnValues))) := by
  obtain ⟨qS, qT⟩ := RunTableRoutineRowLevel_rows marshal env t dbSrc dbTgt srcFirst tci line h
  refine ⟨qS, qT, ?_⟩
  rw [(RunTableRoutineRowLevel_spec marshal env t dbSrc dbTgt srcFirst tci line h).1]
  apply List.filter_congr
  intro tr _
  exact insertCond_mapOfRows marshal line.TableRowsTgt tr

/-- C7: the source rows and the target rows of the logged line are the rows that the
row-level query of the chunk returned on the source and on the target, one for one
and in the order of the answers, and `Diff.Delete` is exactly the sub-list of the
target rows, in target order, whose encoded PK tuple does not occur among the encoded
PK tuples of the source rows. -/
theorem C7_delete_is_target_rows_absent_in_source (marshal : List Value → String)
    (env : envarg) (t : pkTable) (dbSrc dbTgt : Endpoint) (srcFirst : Bool)
    (tci : tableChunkInfo) (line : TableChunkRowsInfo)
    (h : t.RunTableRoutineRowLevel marshal env dbSrc dbTgt srcFirst tci = some line) :
    QueriedRows env t dbSrc true tci line.TableRowsSrc ∧
    QueriedRows env t dbTgt false tci line.TableRowsTgt ∧
    line.Diff.Delete =
      line.TableRowsTgt.filter (fun tt =>
        decide (marshal tt.AllPKColumnValues ∉
          line.TableRowsSrc.map (fun tr => marshal tr.AllPKColumnValues))) := by
  obtain ⟨qS, qT⟩ := RunTableRoutineRowLevel_rows marshal env t dbSrc dbTgt srcFirst tci line h
  refine ⟨qS, qT, ?_⟩
  rw [(RunTableRoutineRowLevel_spec marshal env t dbSrc dbTgt srcFirst tci line h).2.2]
  apply List.filter_congr
  intro tr _
  exact insertCond_mapOfRows marshal line.TableRowsSrc tr

/-- C6: the source rows and the target rows of the logged line are the rows that the
row-level query of the chunk returned on the source and on the target, one for one
and in the order of the answers.  With unique PK tuples on each side (and an encoding
that separates the PK tuples at hand), `Diff.Update` is the sub-list of the source
rows, in source order,
for which a target row has the same PK tuple and another hash; so a source row is in
`Diff.Update` exactly when its PK tuple is on both sides with differing hashes, and
no row is in both `Diff.Insert` and `Diff.Update`. -/
theorem C6_update_iff_common_pk_and_hash_differs (marshal : List Value → String)
    (env : envarg) (t : pkTable) (dbSrc dbTgt : Endpoint) (srcFirst : Bool)
    (tci : tableChunkInfo) (line : TableChunkRowsInfo)
    (h : t.RunTableRoutineRowLevel marshal env dbSrc dbTgt srcFirst tci = some line)
    (hinj : EncodingInjOn marshal (line.TableRowsSrc ++ line.TableRowsTgt))
    (hndS : (line.TableRowsSrc.map (fun r => r.AllPKColumnValues)).Nodup)
    (hndT : (line.TableRowsTgt.map (fun r => r.AllPKColumnValues)).Nodup) :
    QueriedRows env t dbSrc true tci line.TableRowsSrc ∧
    QueriedRows env t dbTgt false tci line.TableRowsTgt ∧
    line.Diff.Update =
      line.TableRowsSrc.filter (fun tr => line.TableRowsTgt.any (fun tt =>
        decide (tt.AllPKColumnValues = tr.AllPKColumnValues) && decide (tr.Hash ≠ tt.Hash))) ∧
    (∀ tr, tr ∈ line.Diff.Update ↔
      tr ∈ line.TableRowsSrc ∧ ∃ tt ∈ line.TableRowsTgt,
        tt.AllPKColumnValues = tr.AllPKColumnValues ∧ tr.Hash ≠ tt.Hash) ∧
    (∀ tr, tr ∈ line.Diff.Insert → tr ∉ line.Diff.Update) := by
  obtain ⟨qS, qT⟩ := RunTableRoutineRowLevel_rows marshal env t dbSrc dbTgt srcFirst tci line h
  obtain ⟨hI, hU, _⟩ := RunTableRoutineRowLevel_spec marshal env t dbSrc dbTgt srcFirst tci line h
  have hfilter := update_eq_filter_any marshal line hU hinj hndS hndT
  refine ⟨qS, qT, hfilter, ?_, ?_⟩
  · intro tr
    rw [hfilter, List.mem_filter]
    simp only [List.any_eq_true, Bool.and_eq_true, decide_eq_true_eq]
  · intro tr hi hu
    rw [hI, List.mem_filter] at hi
    rw [hU, List.mem_filter] at hu
    have h1 := hi.2
    have h2 := hu.2
    unfold insertCond at h1
    unfold updateCond at h2
    simp only [Bool.and_eq_true] at h2
    cases hg : GoMap.get? (mapOfRows marshal line.TableRowsTgt) (pkKey marshal tr) with
    | none => rw [hg] at h2; simp at h2
    | some v => rw [hg] at h1; simp at h1

/-- C8: the source rows and the target rows of the logged line are the rows that the
row-level query of the chunk returned on the source and on the target, one for one,
so their numbers are the numbers of rows of the two answers.  With unique PK tuples
on each side (and an encoding that separates the PK tuples at hand) and `common` the
number of PK tuples present on both sides,
`|Diff.Insert| = |source rows| - common`, `|Diff.Delete| = |target rows| - common`
and `|Diff.Update| <= common`; `common` exceeds neither row count. -/
theorem C8_mismatch_decomposes (marshal : List Value → String)
    (env : envarg) (t : pkTable) (dbSrc dbTgt : Endpoint) (srcFirst : Bool)
    (tci : tableChunkInfo) (line : TableChunkRowsInfo)
    (h : t.RunTableRoutineRowLevel marshal env dbSrc dbTgt srcFirst tci = some line)
    (hinj : EncodingInjOn marshal (line.TableRowsSrc ++ line.TableRowsTgt))
    (hndS : (line.TableRowsSrc.map (fun r => r.AllPKColumnValues)).Nodup)
    (hndT : (line.TableRowsTgt.map (fun r => r.AllPKColumnValues)).Nodup) :
    QueriedRows env t dbSrc true tci line.TableRowsSrc ∧
    QueriedRows env t dbTgt false tci line.TableRowsTgt ∧
    line.Diff.Insert.length =
      line.TableRowsSrc.length - commonPK line.TableRowsSrc line.TableRowsTgt ∧
    line.Diff.Delete.length =
      line.TableRowsTgt.length - commonPK line.TableRowsSrc line.TableRowsTgt ∧
    line.Diff.Update.length ≤ commonPK line.TableRowsSrc line.TableRowsTgt ∧
    commonPK line.TableRowsSrc line.TableRowsTgt ≤ line.TableRowsSrc.length ∧
    commonPK line.TableRowsSrc line.TableRowsTgt ≤ line.TableRowsTgt.length := by
  obtain ⟨hI, hU, hD⟩ := RunTableRoutineRowLevel_spec marshal env t dbSrc dbTgt srcFirst tci line h
  have hinj2 : EncodingInjOn marshal (line.TableRowsTgt ++ line.TableRowsSrc) := by
    intro a ha b hb
    exact hinj a (by simpa [or_comm] using ha) b (by simpa [or_comm] using hb)
  have hcS := length_filter_mem_eq_card line.TableRowsSrc line.TableRowsTgt hndS
  have hcT := length_filter_mem_eq_card line.TableRowsTgt line.TableRowsSrc hndT
  rw [Finset.inter_comm] at hcT
  have hIf : line.Diff.Insert = line.TableRowsSrc.filter (fun r =>
      !(decide (r.AllPKColumnValues ∈ line.TableRowsTgt.map (fun x => x.AllPKColumnValues)))) := by
    rw [hI]
    apply List.filter_congr
    intro tr htr
    rw [insertCond_mapOfRows, Bool.eq_iff_iff]
    simp only [decide_eq_true_eq, Bool.not_eq_true', decide_eq_false_iff_not]
    rw [key_mem_iff_pk_mem marshal line.TableRowsTgt _ tr (List.mem_append_left _ htr)
      (fun r hr => List.mem_append_right _ hr) hinj]
  have hDf : line.Diff.Delete = line.TableRowsTgt.filter (fun r =>
      !(decide (r.AllPKColumnValues ∈ line.TableRowsSrc.map (fun x => x.AllPKColumnValues)))) := by
    rw [hD]
    apply List.filter_congr
    intro tr htr
    rw [insertCond_mapOfRows, Bool.eq_iff_iff]
    simp only [decide_eq_true_eq, Bool.not_eq_true', decide_eq_false_iff_not]
    rw [key_mem_iff_pk_mem marshal line.TableRowsSrc _ tr (List.mem_append_left _ htr)
      (fun r hr => List.mem_append_right _ hr) hinj2]
  have hsumS := List.length_eq_length_filter_add (l := line.TableRowsSrc) (fun r =>
      decide (r.AllPKColumnValues ∈ line.TableRowsTgt.map (fun x => x.AllPKColumnValues)))
  have hsumT := List.length_eq_length_filter_add (l := line.TableRowsTgt) (fun r =>
      decide (r.AllPKColumnValues ∈ line.TableRowsSrc.map (fun x => x.AllPKColumnValues)))
  have hUle : line.Diff.Update.length ≤ (line.TableRowsSrc.filter (fun r =>
      decide (r.AllPKColumnValues ∈ line.TableRowsTgt.map (fun x => x.AllPKColumnValues)))).length := by
    rw [update_eq_filter_any marshal line hU hinj hndS hndT]
    apply List.Sublist.length_le
    apply List.monotone_filter_right
    intro tr htr
    simp only [List.any_eq_true, Bool.and_eq_true, decide_eq_true_eq] at htr
    obtain ⟨tt, htt, hpk, _⟩ := htr
    simp only [decide_eq_true_eq, List.mem_map]
    exact ⟨tt, htt, hpk⟩
  obtain ⟨qS, qT⟩ := RunTableRoutineRowLevel_rows marshal env t dbSrc dbTgt srcFirst tci line h
  refine ⟨qS, qT, ?_⟩
  unfold commonPK
  rw [hIf, hDf]
  omega

/-- Witness of C4 on the example chunk: the source answers 4 rows, the target 3. -/
theorem C4_match_iff_equal_counts_and_crc_witness :
    exampleRun.dbSrc.chunkHash (exampleRun.env.table true) exampleRun.t.GetPKColumnNames
        (exampleChunk.LowerBoundary ++ [exampleChunk.LastPKFieldUpperBoundary]) =
      some { data := (4, 101), ts := 0, elapsedms := 0 } ∧
    exampleRun.dbTgt.chunkHash (exampleRun.env.table false) exampleRun.t.GetPKColumnNames
        (exampleChunk.LowerBoundary ++ [exampleChunk.LastPKFieldUpperBoundary]) =
      some { data := (3, 80), ts := 0, elapsedms := 0 } ∧
    ∃ tci3 : tableChunkInfo,
      (tci3.Match = true ↔ (4 : Int) = 3 ∧ (101 : Int) = 80) ∧
      tci3.RowcntSrc = 4 ∧ tci3.HashSrc = 101 ∧ tci3.RowcntTgt = 3 ∧ tci3.HashTgt = 80 ∧
      tci3.LowerBoundary = exampleChunk.LowerBoundary ∧
      tci3.LastPKFieldUpperBoundary = exampleChunk.LastPKFieldUpperBoundary ∧
      exampleRun.t.TableRoutineChunkLevel exampleRun.marshal exampleRun.env exampleRun.dbSrc
          exampleRun.dbTgt true exampleChunk =
        if tci3.Match = false then
          (exampleRun.t.RunTableRoutineRowLevel exampleRun.marshal exampleRun.env
            exampleRun.dbSrc exampleRun.dbTgt true tci3).map (fun line => (tci3, some line))
        else some (tci3, none) :=
  ⟨by rfl, by rfl,
    C4_match_iff_equal_counts_and_crc exampleRun.marshal exampleRun.env exampleRun.t
      exampleRun.dbSrc exampleRun.dbTgt true exampleChunk
      { data := (4, 101), ts := 0, elapsedms := 0 } { data := (3, 80), ts := 0, elapsedms := 0 }
      (by rfl) (by rfl)⟩

/-- Witness of C5 on the example chunk: rows 3 and 4 are the inserts. -/
theorem C5_insert_is_source_rows_absent_in_target_witness :
    exampleLine.Diff.Insert.map (fun r => r.AllPKColumnValues) =
      [[Value.int 3], [Value.int 4]] ∧
    QueriedRows exampleRun.env exampleRun.t exampleRun.dbSrc true exampleChunk
      exampleLine.TableRowsSrc ∧
    QueriedRows exampleRun.env exampleRun.t exampleRun.dbTgt false exampleChunk
      exampleLine.TableRowsTgt ∧
    exampleLine.Diff.Insert =
      exampleLine.TableRowsSrc.filter (fun tr =>
        decide (exampleRun.marshal tr.AllPKColumnValues ∉
          exampleLine.TableRowsTgt.map (fun tt => exampleRun.marshal tt.AllPKColumnValues))) :=
  ⟨by decide,
    C5_insert_is_source_rows_absent_in_target exampleRun.marshal exampleRun.env exampleRun.t
      exampleRun.dbSrc exampleRun.dbTgt true exampleChunk exampleLine exampleLine_eq⟩

/-- Witness of C7 on the example chunk: row 5 is the delete. -/
theorem C7_delete_is_target_rows_absent_in_source_witness :
    exampleLine.Diff.Delete.map (fun r => r.AllPKColumnValues) = [[Value.int 5]] ∧
    QueriedRows exampleRun.env exampleRun.t exampleRun.dbSrc true exampleChunk
      exampleLine.TableRowsSrc ∧
    QueriedRows exampleRun.env exampleRun.t exampleRun.dbTgt false exampleChunk
      exampleLine.TableRowsTgt ∧
    exampleLine.Diff.Delete =
      exampleLine.TableRowsTgt.filter (fun tt =>
        decide (exampleRun.marshal tt.AllPKColumnValues ∉
          exampleLine.TableRowsSrc.map (fun tr => exampleRun.marshal tr.AllPKColumnValues))) :=
  ⟨by decide,
    C7_delete_is_target_rows_absent_in_source exampleRun.marshal exampleRun.env exampleRun.t
      exampleRun.dbSrc exampleRun.dbTgt true exampleChunk exampleLine exampleLine_eq⟩

theorem exampleLine_inj :
    EncodingInjOn exampleRun.marshal (exampleLine.TableRowsSrc ++ exampleLine.TableRowsTgt) := by
  unfold EncodingInjOn
  decide

theorem exampleLine_nodup :
    (exampleLine.TableRowsSrc.map (fun r => r.AllPKColumnValues)).Nodup ∧
    (exampleLine.TableRowsTgt.map (fun r => r.AllPKColumnValues)).Nodup := by
  decide

/-- Witness of C6 on the example chunk: row 2 is the update. -/
theorem C6_update_iff_common_pk_and_hash_differs_witness :
    exampleLine.Diff.Update.map (fun r => r.AllPKColumnValues) = [[Value.int 2]] ∧
    (QueriedRows exampleRun.env exampleRun.t exampleRun.dbSrc true exampleChunk
      exampleLine.TableRowsSrc ∧
    QueriedRows exampleRun.env exampleRun.t exampleRun.dbTgt false exampleChunk
      exampleLine.TableRowsTgt ∧
    exampleLine.Diff.Update =
      exampleLine.TableRowsSrc.filter (fun tr => exampleLine.TableRowsTgt.any (fun tt =>
        decide (tt.AllPKColumnValues = tr.AllPKColumnValues) && decide (tr.Hash ≠ tt.Hash))) ∧
    (∀ tr, tr ∈ exampleLine.Diff.Update ↔
      tr ∈ exampleLine.TableRowsSrc ∧ ∃ tt ∈ exampleLine.TableRowsTgt,
        tt.AllPKColumnValues = tr.AllPKColumnValues ∧ tr.Hash ≠ tt.Hash) ∧
    (∀ tr, tr ∈ exampleLine.Diff.Insert → tr ∉ exampleLine.Diff.Update)) :=
  ⟨by decide,
    C6_update_iff_common_pk_and_hash_differs exampleRun.marshal exampleRun.env exampleRun.t
      exampleRun.dbSrc exampleRun.dbTgt true exampleChunk exampleLine exampleLine_eq
      exampleLine_inj exampleLine_nodup.1 exampleLine_nodup.2⟩

/-- Witness of C8 on the example chunk: 4 source rows, 3 target rows, 2 common PK
tuples, 2 inserts, 1 delete, 1 update. -/
theorem C8_mismatch_decomposes_witness :
    (exampleLine.TableRowsSrc.length = 4 ∧ exampleLine.TableRowsTgt.length = 3 ∧
      commonPK exampleLine.TableRowsSrc exampleLine.TableRowsTgt = 2) ∧
    (QueriedRows exampleRun.env exampleRun.t exampleRun.dbSrc true exampleChunk
      exampleLine.TableRowsSrc ∧
    QueriedRows exampleRun.env exampleRun.t exampleRun.dbTgt false exampleChunk
      exampleLine.TableRowsTgt ∧
    exampleLine.Diff.Insert.length =
      exampleLine.TableRowsSrc.length - commonPK exampleLine.TableRowsSrc exampleLine.TableRowsTgt ∧
    exampleLine.Diff.Delete.length =
      exampleLine.TableRowsTgt.length - commonPK exampleLine.TableRowsSrc exampleLine.TableRowsTgt ∧
    exampleLine.Diff.Update.length ≤ commonPK exampleLine.TableRowsSrc exampleLine.TableRowsTgt ∧
    commonPK exampleLine.TableRowsSrc exampleLine.TableRowsTgt ≤ exampleLine.TableRowsSrc.length ∧
    commonPK exampleLine.TableRowsSrc exampleLine.TableRowsTgt ≤ exampleLine.TableRowsTgt.length) :=
  ⟨by decide,
    C8_mismatch_decomposes exampleRun.marshal exampleRun.env exampleRun.t
      exampleRun.dbSrc exampleRun.dbTgt true exampleChunk exampleLine exampleLine_eq
      exampleLine_inj exampleLine_nodup.1 exampleLine_nodup.2⟩

/-! ### Upper-bound clamp -/

theorem fieldtypeInt_orderLaws : fieldtypeInt.OrderLaws where
  eq_not_gt := by
    intro a b h
    simp only [fieldtypeInt, Option.some.injEq, decide_eq_true_eq] at h
    simp only [fieldtypeInt, Option.some.injEq, decide_eq_false_iff_not, gt_iff_lt, not_lt]
    omega
  gt_irrefl := by
    intro a b _
    simp [fieldtypeInt]

theorem fieldtypeChar_orderLaws : fieldtypeChar.OrderLaws where
  eq_not_gt := by
    intro a b h
    cases a <;> cases b <;> simp [fieldtypeChar, assertString] at h ⊢
    subst h
    exact le_refl _
  gt_irrefl := by
    intro a b h
    cases a <;> cases b <;> simp [fieldtypeChar, assertString] at h ⊢

theorem clampTrailing_not_greater (env : envarg) (t : pkTable) (ft : iFieldType) (u : String)
    (userUB v ub : Value) (stop : Bool)
    (hft : t.lastPKfieldtype = some ft) (hlaw : ft.OrderLaws)
    (hu : env.ArgUpperBoundary.getLast? = some u)
    (huser : ft.transformFieldType (Value.str u) = some userUB)
    (h : clampTrailing env t v = some (stop, ub)) :
    ft.greaterThan ub userUB = some false := by
  unfold clampTrailing at h
  simp only [hft, hu, huser] at h
  cases he : ft.equals v userUB with
  | none => simp [he] at h
  | some b =>
    cases b with
    | true =>
      simp only [he, Option.some.injEq, Prod.mk.injEq] at h
      rw [← h.2]
      exact hlaw.eq_not_gt _ _ he
    | false =>
      simp only [he] at h
      cases hg : ft.greaterThan v userUB with
      | none => simp [hg] at h
      | some g =>
        cases g with
        | true =>
          simp only [hg, Option.some.injEq, Prod.mk.injEq] at h
          rw [← h.2]
          exact hlaw.gt_irrefl v userUB (by simp [hg])
        | false =>
          simp only [hg, Option.some.injEq, Prod.mk.injEq] at h
          rw [← h.2]
          exact hg

theorem compareLeading_of_leadingEqualUser (t : pkTable) (ub : List String) (vs : List Value)
    (i m : Nat) (h : leadingEqualUser t ub i vs = true) :
    compareLeading t ub i m vs = some false := by
  induction vs generalizing i m with
  | nil => rfl
  | cons v rest ih =>
    unfold leadingEqualUser at h
    rw [Bool.and_eq_true] at h
    obtain ⟨h1, h2⟩ := h
    unfold compareLeading
    cases hc : t.GetPKColumns.get? i with
    | none => rw [hc] at h1; exact absurd h1 (by simp)
    | some col =>
      cases hu : ub.get? i with
      | none => rw [hc, hu] at h1; exact absurd h1 (by simp)
      | some u =>
        rw [hc, hu] at h1
        simp only [beq_iff_eq] at h1
        simp only [h1]
        exact ih (i + 1) (m + 1) h2

/-- C3, as stated, fails: with the user upper boundary `1,5` on a composite PK
`(g, id)`, the planner row of the earlier leading group `g = 0` keeps its trailing
upper bound 9, which is greater than the user's trailing value 5. -/
theorem C3_counterexample_trailing_upper_exceeds_user :
    ResetLowerboundaryUpperboundary pkKind.multi clampArgs (intTable ["g", "id"]) clampRow
        [Value.int 0, Value.int 3] =
      some (false, Value.int 9, [Value.int 0, Value.int 3]) ∧
    fieldtypeInt.transformFieldType (Value.str "5") = some (Value.int 5) ∧
    fieldtypeInt.greaterThan (Value.int 9) (Value.int 5) = some true := by
  decide

/-- C3 (amended): with a user trailing upper value set, the trailing upper bound
returned by `ResetLowerboundaryUpperboundary` is not greater than the user's
trailing upper value under the trailing column's field type, for every single-PK
planner row and for every composite-PK planner row whose leading columns all equal
the user's leading upper values. -/
theorem C3_clamp_trailing_upper (kind : pkKind) (env : envarg) (t : pkTable) (ft : iFieldType)
    (row : resultRow) (lowerboundary : List Value) (u : String) (userUB : Value)
    (stop : Bool) (ub : Value) (lb1 : List Value)
    (hft : t.lastPKfieldtype = some ft) (hlaw : ft.OrderLaws)
    (hu : env.ArgUpperBoundary.getLast? = some u) (hne : u ≠ "")
    (huser : ft.transformFieldType (Value.str u) = some userUB)
    (hlead : kind = pkKind.single ∨
      leadingEqualUser t env.ArgUpperBoundary 0 row.leading = true)
    (h : ResetLowerboundaryUpperboundary kind env t row lowerboundary = some (stop, ub, lb1)) :
    ft.greaterThan ub userUB = some false := by
  have hclamp : ∀ r : Bool × Value, clampTrailing env t row.ub = some r →
      ft.greaterThan r.2 userUB = some false := fun r hr =>
    clampTrailing_not_greater env t ft u userUB row.ub r.2 r.1 hft hlaw hu huser hr
  cases kind with
  | single =>
    simp only [ResetLowerboundaryUpperboundary,
      pkTableSingle.ResetLowerboundaryUpperboundary, hu, if_neg hne] at h
    cases ha : assignLowerboundary (row.leading ++ [row.lb]) lowerboundary with
    | none => simp [ha] at h
    | some l =>
      simp only [ha] at h
      cases hc : clampTrailing env t row.ub with
      | none => simp [hc] at h
      | some r =>
        simp only [hc, Option.map_some', Option.some.injEq, Prod.mk.injEq] at h
        rw [← h.2.1]
        exact hclamp r hc
  | multi =>
    rcases hlead with hk | hl
    · exact absurd hk (by decide)
    · have hnot : env.ArgUpperBoundary ≠ [""] := by
        intro he
        rw [he] at hu
        simp only [List.getLast?_singleton, Option.some.injEq] at hu
        exact hne hu.symm
      simp only [ResetLowerboundaryUpperboundary,
        pkTableMulti.ResetLowerboundaryUpperboundary, if_neg hnot,
        compareLeading_of_leadingEqualUser t env.ArgUpperBoundary row.leading 0 0 hl] at h
      cases ha : assignLowerboundary (row.leading ++ [row.lb]) lowerboundary with
      | none => simp [ha] at h
      | some l =>
        simp only [ha] at h
        cases hc : clampTrailing env t row.ub with
        | none => simp [hc] at h
        | some r =>
          simp only [hc, Option.map_some', Option.some.injEq, Prod.mk.injEq] at h
          rw [← h.2.1]
          exact hclamp r hc

/-- Witness of C3 (amended): a single-PK planner row from 3 to 9 under the user
upper boundary 7 is clamped to 7. -/
theorem C3_clamp_trailing_upper_witness :
    ResetLowerboundaryUpperboundary pkKind.single clampArgsSingle (intTable ["id"])
        clampRowSingle [Value.int 3] = some (true, Value.int 7, [Value.int 3]) ∧
    fieldtypeInt.greaterThan (Value.int 7) (Value.int 7) = some false :=
  ⟨by decide,
    C3_clamp_trailing_upper pkKind.single clampArgsSingle (intTable ["id"]) fieldtypeInt
      clampRowSingle [Value.int 3] "7" (Value.int 7) true (Value.int 7) [Value.int 3]
      (by rfl) fieldtypeInt_orderLaws (by decide) (by decide) (by decide)
      (Or.inl rfl) (by decide)⟩

/-- The clamp on a composite PK: a planner row of the leading group `g = 1` under
the user upper boundary `1,5` is clamped to 5. -/
theorem clamp_composite_example :
    leadingEqualUser (intTable ["g", "id"]) clampArgs.ArgUpperBoundary 0 [Value.int 1] = true ∧
    ResetLowerboundaryUpperboundary pkKind.multi clampArgs (intTable ["g", "id"])
        { clampRow with leading := [Value.int 1] } [Value.int 1, Value.int 3] =
      some (true, Value.int 5, [Value.int 1, Value.int 3]) := by
  decide

/-! ### Stall guard -/

/-- When the group-count query returns a row, the guard refuses to start exactly
when the chunk size is at most that count. -/
theorem RunTableGuard_of_count (env : envarg) (t : pkTable) (dbSrc : Endpoint)
    (allpkcolumns : List pkColumn) (m : Int) (rest : List Int)
    (hshort : t.GetPKColumnNames.length < allpkcolumns.length)
    (hq : dbSrc.maxGroupCount env.ArgSrcTable t.GetPKColumnNames = some (m :: rest)) :
    (RunTableGuard env t dbSrc allpkcolumns = StartResult.fatal ↔ env.ArgChunksize ≤ m) ∧
    (RunTableGuard env t dbSrc allpkcolumns = StartResult.started ↔ m < env.ArgChunksize) := by
  unfold RunTableGuard pkTable.PKColumnMaxGroupCount
  simp only [if_pos hshort, hq]
  by_cases hc : env.ArgChunksize ≤ m
  · rw [if_pos hc]
    refine ⟨⟨fun _ => hc, fun _ => rfl⟩, ⟨fun h => absurd h (by decide), fun h => ?_⟩⟩
    omega
  · rw [if_neg hc]
    refine ⟨⟨fun h => absurd h (by decide), fun h => absurd h hc⟩, ⟨fun _ => ?_, fun _ => rfl⟩⟩
    omega

/-- C10, failing input: declared PK `(a, b)`, effective sequence `a` (`-S 1`), rows
`(1,1)` and `(2,1)`, chunk size 2.  Every group of `GROUP BY a` has exactly one row,
so the chunk size exceeds the largest group; yet the run does not start: the
`HAVING COUNT(1) > 1` query has no row and scanning it panics. -/
theorem C10_guard_panics_when_all_groups_have_one_row :
    stallTable.GetPKColumnNames.length < stallTable._allPKColumns.length ∧
    groupCounts [0] (intRows [([1, 1], 10), ([2, 1], 20)]) = [1, 1] ∧
    stallArgs.ArgChunksize = 2 ∧
    stallDB.maxGroupCount stallArgs.ArgSrcTable stallTable.GetPKColumnNames = some [] ∧
    RunTableGuard stallArgs stallTable stallDB stallTable._allPKColumns =
      StartResult.panicked := by
  decide

/-! ### Coverage -/

/-- C1, failing input: a source table whose only row has PK 1, chunk size 2, no
user boundary.  The first planner row has lower bound 1 and upper bound 1, the run
stops with "last record" before dispatching it, and no chunk is ever hashed: the row
is in no chunk range although the target row differs. -/
theorem C1_single_row_table_is_never_hashed (fuel : Nat) :
    singleRowRun.dbSrc.firstRow "t" ["id"] = some [[Value.int 1]] ∧
    (TransformUpperBoundaryResult singleRowRun.kind singleRowRun.env singleRowRun.t
        singleRowRun.dbSrc [Value.int 1]).map
        (fun rs => rs.map (fun r => (r.count, r.lb, r.ub))) =
      some [(1, Value.int 1, Value.int 1)] ∧
    (singleRowRun.dbSrc.chunkHash "t" ["id"] [Value.int 1, Value.int 1]).map (fun a => a.data) =
      some (1, 10) ∧
    (singleRowRun.dbTgt.chunkHash "t" ["id"] [Value.int 1, Value.int 1]).map (fun a => a.data) =
      some (1, 11) ∧
    RunTableRoutine singleRowRun (fuel + 1) =
      ({ chunkidx := 0, lowerboundary := [Value.int 1], chunklog := [], rowlog := [] },
        Outcome.stop) := by
  refine ⟨by decide, by decide, by decide, by decide, by rfl⟩

/-! ### Idempotence -/

theorem RunTableRoutineChunkLevel_identical (w : RunEnv) (srcFirst : Bool)
    (tci tci2 : tableChunkInfo) (line : Option TableChunkRowsInfo)
    (hsame : ∀ inputs,
      (w.dbSrc.chunkHash w.env.ArgSrcTable w.t.GetPKColumnNames inputs).map (fun a => a.data) =
      (w.dbTgt.chunkHash w.env.ArgTgtTable w.t.GetPKColumnNames inputs).map (fun a => a.data))
    (h : w.t.RunTableRoutineChunkLevel w.marshal w.env w.dbSrc w.dbTgt srcFirst tci =
      some (tci2, line)) :
    tci2.Match = true ∧ line = none := by
  have hs := hsame (tci.LowerBoundary ++ [tci.LastPKFieldUpperBoundary])
  unfold pkTable.RunTableRoutineChunkLevel pkTable.TableRoutineChunkLevel
    pkTable.TableResultChunkLevel at h
  simp only [pkTable.TableHashStmt, envarg.table, if_true, Bool.false_eq_true, if_false] at h
  cases ha : w.dbSrc.chunkHash w.env.ArgSrcTable w.t.GetPKColumnNames
      (tci.LowerBoundary ++ [tci.LastPKFieldUpperBoundary]) with
  | none => simp [ha] at h
  | some a =>
    cases hb : w.dbTgt.chunkHash w.env.ArgTgtTable w.t.GetPKColumnNames
        (tci.LowerBoundary ++ [tci.LastPKFieldUpperBoundary]) with
    | none => simp [ha, hb] at h
    | some b =>
      rw [ha, hb] at hs
      simp only [Option.map_some', Option.some.injEq] at hs
      have hm : (setMatch ((arrivalOrder srcFirst
          { issrc := true, rowcnt := a.data.1, hash := a.data.2, ts := a.ts,
            elapsedms := a.elapsedms }
          { issrc := false, rowcnt := b.data.1, hash := b.data.2, ts := b.ts,
            elapsedms := b.elapsedms }).foldl routeChunkResult
          { tci with
            HashQuerySrc :=
              (plugInputs (hashInputQuote w.t) 0
                (tci.LowerBoundary ++ [tci.LastPKFieldUpperBoundary]) tci.HashQuerySrc)
            HashQueryTgt :=
              (plugInputs (hashInputQuote w.t) 0
                (tci.LowerBoundary ++ [tci.LastPKFieldUpperBoundary]) tci.HashQueryTgt) })).Match
          = true := by
        cases srcFirst <;> simp [arrivalOrder, routeChunkResult, setMatch, hs]
      simp only [ha, hb, hm, Bool.not_true, Bool.false_eq_true, if_false] at h
      split at h
      · simp only [Option.some.injEq, Prod.mk.injEq] at h
        exact ⟨by rw [← h.1], h.2.symm⟩
      · simp only [Option.some.injEq, Prod.mk.injEq] at h
        exact ⟨by rw [← h.1]; exact hm, h.2.symm⟩

theorem RunTableChunkLoop_allMatch (w : RunEnv) (ft : iFieldType) (qs qt : String)
    (hsame : ∀ inputs,
      (w.dbSrc.chunkHash w.env.ArgSrcTable w.t.GetPKColumnNames inputs).map (fun a => a.data) =
      (w.dbTgt.chunkHash w.env.ArgTgtTable w.t.GetPKColumnNames inputs).map (fun a => a.data))
    (rows : List resultRow) (tci : tableChunkInfo) (st : RunState) (hst : AllMatch st) :
    AllMatch (RunTableChunkLoop w ft qs qt rows tci st).1 := by
  induction rows generalizing tci st with
  | nil => exact hst
  | cons row rest ih =>
    unfold RunTableChunkLoop
    split
    · exact hst
    · rename_i stopAfterRun ub lowerboundary _
      simp only []
      split
      · exact hst
      · exact hst
      · split
        · exact hst
        · rename_i tci2 line hcl
          obtain ⟨hm, hl⟩ := RunTableRoutineChunkLevel_identical w _ _ tci2 line hsame hcl
          have hst2 : AllMatch
              { chunkidx := st.chunkidx + 1, lowerboundary := lowerboundary,
                chunklog := st.chunklog ++ [tci2], rowlog := st.rowlog ++ line.toList } := by
            refine ⟨?_, ?_⟩
            · intro c hc
              simp only [List.mem_append, List.mem_singleton] at hc
              rcases hc with hc | hc
              · exact hst.1 c hc
              · rw [hc]; exact hm
            · simp [hl, hst.2]
          split
          · exact hst2
          · exact ih _ _ hst2

theorem RunTableRoutineLoop_allMatch (w : RunEnv)
    (hsame : ∀ inputs,
      (w.dbSrc.chunkHash w.env.ArgSrcTable w.t.GetPKColumnNames inputs).map (fun a => a.data) =
      (w.dbTgt.chunkHash w.env.ArgTgtTable w.t.GetPKColumnNames inputs).map (fun a => a.data))
    (fuel : Nat) (st : RunState) (hst : AllMatch st) :
    AllMatch (RunTableRoutineLoop w fuel st).1 := by
  induction fuel generalizing st with
  | zero => exact hst
  | succ n ih =>
    unfold RunTableRoutineLoop
    split
    · exact hst
    · rename_i resultset _
      have hchunk : AllMatch (RunTableChunk w (initialChunkInfo w) resultset st).1 := by
        unfold RunTableChunk
        split
        · exact hst
        · exact RunTableChunkLoop_allMatch w _ _ _ hsame resultset _ st hst
      split
      · rename_i st1 heq
        rw [heq] at hchunk
        exact ih st1 hchunk
      · exact hchunk

theorem diff_empty_of_identical_rows (marshal : List Value → String) (env : envarg)
    (t : pkTable) (dbSrc dbTgt : Endpoint) (srcFirst : Bool) (tci : tableChunkInfo)
    (line : TableChunkRowsInfo)
    (h : t.RunTableRoutineRowLevel marshal env dbSrc dbTgt srcFirst tci = some line)
    (hrows : line.TableRowsSrc = line.TableRowsTgt) :
    line.Diff = { Insert := [], Update := [], Delete := [] } := by
  obtain ⟨hI, hU, hD⟩ := RunTableRoutineRowLevel_spec marshal env t dbSrc dbTgt srcFirst tci line h
  have h1 : line.Diff.Insert = [] := by
    rw [hI, List.filter_eq_nil_iff]
    intro tr htr
    rw [insertCond_mapOfRows]
    simp only [decide_eq_true_eq, not_not]
    rw [← hrows]
    exact List.mem_map_of_mem _ htr
  have h2 : line.Diff.Update = [] := by
    rw [hU, List.filter_eq_nil_iff]
    intro tr _
    rw [hrows]
    simp [updateCond]
  have h3 : line.Diff.Delete = [] := by
    rw [hD, List.filter_eq_nil_iff]
    intro tr htr
    rw [insertCond_mapOfRows]
    simp only [decide_eq_true_eq, not_not]
    rw [hrows]
    exact List.mem_map_of_mem _ htr
  cases hd : line.Diff with
  | mk i u d =>
    rw [hd] at h1 h2 h3
    simp only at h1 h2 h3
    rw [h1, h2, h3]

/-- C9: when the two endpoints give the same `(count, crc)` answer to every chunk
hash query, every descriptor written to the chunk log has `Match = true` and no line
is written to the row-level log, however long the run goes on; and the row-level
differ gives empty insert, update and delete lists on identical source and target
row lists. -/
theorem C9_identical_tables_all_match (w : RunEnv)
    (hsame : ∀ inputs,
      (w.dbSrc.chunkHash w.env.ArgSrcTable w.t.GetPKColumnNames inputs).map (fun a => a.data) =
      (w.dbTgt.chunkHash w.env.ArgTgtTable w.t.GetPKColumnNames inputs).map (fun a => a.data)) :
    (∀ fuel, (∀ c ∈ (RunTableRoutine w fuel).1.chunklog, c.Match = true) ∧
      (RunTableRoutine w fuel).1.rowlog = []) ∧
    (∀ srcFirst tci line,
      w.t.RunTableRoutineRowLevel w.marshal w.env w.dbSrc w.dbTgt srcFirst tci = some line →
      line.TableRowsSrc = line.TableRowsTgt →
      line.Diff = { Insert := [], Update := [], Delete := [] }) := by
  refine ⟨?_, ?_⟩
  · intro fuel
    unfold RunTableRoutine
    split
    · exact ⟨by simp, rfl⟩
    · exact RunTableRoutineLoop_allMatch w hsame fuel _ ⟨by simp, rfl⟩
  · intro srcFirst tci line h hrows
    exact diff_empty_of_identical_rows _ _ _ _ _ _ _ _ h hrows

theorem identicalLine_eq :
    identicalRun.t.RunTableRoutineRowLevel identicalRun.marshal identicalRun.env
      identicalRun.dbSrc identicalRun.dbTgt true exampleChunk = some identicalLine := by
  rfl

/-- Witness of C9 on two identical three-row tables: two chunks are logged, both
match, and the row-level differ finds nothing. -/
theorem C9_identical_tables_all_match_witness :
    ((RunTableRoutine identicalRun 5).1.chunklog.map (fun c => (c.ChunkIdx, c.Match)) =
      [(1, true), (2, true)] ∧
      (RunTableRoutine identicalRun 5).2 = Outcome.stop ∧
      identicalLine.TableRowsSrc.length = 3) ∧
    ((∀ fuel, (∀ c ∈ (RunTableRoutine identicalRun fuel).1.chunklog, c.Match = true) ∧
      (RunTableRoutine identicalRun fuel).1.rowlog = []) ∧
    (∀ srcFirst tci line,
      identicalRun.t.RunTableRoutineRowLevel identicalRun.marshal identicalRun.env
        identicalRun.dbSrc identicalRun.dbTgt srcFirst tci = some line →
      line.TableRowsSrc = line.TableRowsTgt →
      line.Diff = { Insert := [], Update := [], Delete := [] })) ∧
    (identicalLine.TableRowsSrc = identicalLine.TableRowsTgt ∧
      identicalLine.Diff = { Insert := [], Update := [], Delete := [] }) :=
  ⟨by decide, C9_identical_tables_all_match identicalRun (fun _ => rfl), by decide,
    (C9_identical_tables_all_match identicalRun (fun _ => rfl)).2 true exampleChunk
      identicalLine identicalLine_eq (by decide)⟩

/-! ### Boundary monotonicity -/

/-- C2, as stated, fails on scenario S4: the third emitted chunk is
`g = 1, id in [3, 3]` and the fourth, entered by unwinding into the group `g = 2`,
starts at the lowest integer, so the trailing upper bound 3 of the third is not the
trailing lower bound of the fourth. -/
theorem C2_counterexample_trailing_bounds_differ :
    (RunTableRoutine compositeRun 10).1.chunklog.map
        (fun c => (c.LowerBoundary, c.LastPKFieldUpperBoundary)) =
      [([Value.int 1, Value.int 1], Value.int 2),
       ([Value.int 1, Value.int 2], Value.int 3),
       ([Value.int 1, Value.int 3], Value.int 3),
       ([Value.int 2, Value.int (-9223372036854775808)], Value.int 1),
       ([Value.int 2, Value.int 1], Value.int 2)] ∧
    (RunTableRoutine compositeRun 10).2 = Outcome.stop ∧
    Value.int 3 ≠ Value.int (-9223372036854775808) := by
  decide

theorem sqlEq_symm (a b : Value) (h : sqlEq a b = true) : sqlEq b a = true := by
  cases a <;> cases b <;> simp [sqlEq, Value.text?] at h ⊢ <;> exact h.symm

theorem sqlEq_trans (a b c : Value) (h1 : sqlEq a b = true) (h2 : sqlEq b c = true) :
    sqlEq a c = true := by
  cases a <;> cases b <;> simp [sqlEq, Value.text?] at h1 <;>
    cases c <;> simp [sqlEq, Value.text?] at h2 ⊢ <;> exact h1.trans h2

theorem sqlLt_of_eq_of_lt (a b c : Value) (h1 : sqlEq a b = true) (h2 : sqlLt b c = true) :
    sqlLt a c = true := by
  cases a <;> cases b <;> simp [sqlEq, Value.text?] at h1 <;>
    cases c <;> simp [sqlLt, Value.text?] at h2 ⊢ <;> (subst h1; exact h2)

theorem sqlEq_false_of_lt (a b : Value) (h : sqlLt a b = true) : sqlEq b a = false := by
  cases a <;> cases b <;> simp [sqlEq, sqlLt, Value.text?] at h ⊢
  · omega
  all_goals (intro he; subst he; exact absurd h (lt_irrefl _))

theorem leadEq_symm (a b : List Value) (h : leadEq a b = true) : leadEq b a = true := by
  induction a generalizing b with
  | nil => cases b <;> simp [leadEq] at h ⊢
  | cons x xs ih =>
    cases b with
    | nil => simp [leadEq] at h
    | cons y ys =>
      simp only [leadEq, Bool.and_eq_true] at h ⊢
      exact ⟨sqlEq_symm _ _ h.1, ih ys h.2⟩

theorem leadEq_trans (a b c : List Value) (h1 : leadEq a b = true) (h2 : leadEq b c = true) :
    leadEq a c = true := by
  induction a generalizing b c with
  | nil =>
    cases b with
    | nil => exact h2
    | cons y ys => simp [leadEq] at h1
  | cons x xs ih =>
    cases b with
    | nil => simp [leadEq] at h1
    | cons y ys =>
      cases c with
      | nil => simp [leadEq] at h2
      | cons z zs =>
        simp only [leadEq, Bool.and_eq_true] at h1 h2 ⊢
        exact ⟨sqlEq_trans _ _ _ h1.1 h2.1, ih ys zs h1.2 h2.2⟩

theorem leadEq_false_of_leadLt (a b : List Value) (h : leadLt a b = true) :
    leadEq b a = false := by
  induction a generalizing b with
  | nil => simp [leadLt] at h
  | cons x xs ih =>
    cases b with
    | nil => simp [leadLt] at h
    | cons y ys =>
      simp only [leadLt, Bool.or_eq_true, Bool.and_eq_true] at h
      simp only [leadEq, Bool.and_eq_false_iff]
      rcases h with h | h
      · exact Or.inl (sqlEq_false_of_lt _ _ h)
      · exact Or.inr (ih ys h.2)

theorem leadLt_of_leadEq_of_leadLt (a b c : List Value) (h1 : leadEq a b = true)
    (h2 : leadLt b c = true) : leadLt a c = true := by
  induction a generalizing b c with
  | nil =>
    cases b with
    | nil => exact h2
    | cons y ys => simp [leadEq] at h1
  | cons x xs ih =>
    cases b with
    | nil => simp [leadEq] at h1
    | cons y ys =>
      cases c with
      | nil => simp [leadLt] at h2
      | cons z zs =>
        simp only [leadEq, Bool.and_eq_true] at h1
        simp only [leadLt, Bool.or_eq_true, Bool.and_eq_true] at h2 ⊢
        rcases h2 with h2 | h2
        · exact Or.inl (sqlLt_of_eq_of_lt _ _ _ h1.1 h2)
        · exact Or.inr ⟨sqlEq_trans _ _ _ h1.1 h2.1, ih ys zs h1.2 h2.2⟩

theorem pinned_of_bumped (m j : Nat) (L l : List Value) (h : bumped m L l = true)
    (hj : j ≤ m) : pinned j L l = true := by
  induction j generalizing m L l with
  | zero => simp [pinned]
  | succ j ih =>
    cases m with
    | zero => omega
    | succ m =>
      cases L with
      | nil => simp [bumped] at h
      | cons p ps =>
        cases l with
        | nil => simp [bumped] at h
        | cons c cs =>
          simp only [bumped, Bool.and_eq_true] at h
          simp only [pinned, Bool.and_eq_true]
          exact ⟨h.1, ih m ps cs h.2 (by omega)⟩

theorem leadLt_of_pinned_of_bumped (n : Nat) (L x y : List Value)
    (hx : pinned (n + 1) L x = true) (hy : bumped n L y = true) : leadLt x y = true := by
  induction n generalizing L x y with
  | zero =>
    cases L with
    | nil => simp [pinned] at hx
    | cons p ps =>
      cases x with
      | nil => simp [pinned] at hx
      | cons c cs =>
        cases y with
        | nil => simp [bumped] at hy
        | cons d ds =>
          simp only [pinned, Bool.and_eq_true] at hx
          simp only [bumped] at hy
          simp only [leadLt, Bool.or_eq_true]
          exact Or.inl (sqlLt_of_eq_of_lt _ _ _ hx.1 hy)
  | succ n ih =>
    cases L with
    | nil => simp [pinned] at hx
    | cons p ps =>
      cases x with
      | nil => simp [pinned] at hx
      | cons c cs =>
        cases y with
        | nil => simp [bumped] at hy
        | cons d ds =>
          simp only [pinned, Bool.and_eq_true] at hx
          simp only [bumped, Bool.and_eq_true] at hy
          simp only [leadLt, Bool.or_eq_true, Bool.and_eq_true]
          exact Or.inr ⟨sqlEq_trans _ _ _ hx.1 (sqlEq_symm _ _ hy.1), ih ps cs ds hx.2 hy.2⟩

theorem leadLt_of_bumped (n : Nat) (L l : List Value) (h : bumped n L l = true) :
    leadLt L l = true := by
  induction n generalizing L l with
  | zero =>
    cases L with
    | nil => simp [bumped] at h
    | cons p ps =>
      cases l with
      | nil => simp [bumped] at h
      | cons c cs =>
        simp only [bumped] at h
        simp [leadLt, h]
  | succ n ih =>
    cases L with
    | nil => simp [bumped] at h
    | cons p ps =>
      cases l with
      | nil => simp [bumped] at h
      | cons c cs =>
        simp only [bumped, Bool.and_eq_true] at h
        simp only [leadLt, Bool.or_eq_true, Bool.and_eq_true]
        exact Or.inr ⟨sqlEq_symm _ _ h.1, ih ps cs h.2⟩

theorem leadLt_of_bumped_of_bumped (m n : Nat) (L x y : List Value)
    (hx : bumped m L x = true) (hy : bumped n L y = true) (hnm : n < m) :
    leadLt x y = true :=
  leadLt_of_pinned_of_bumped n L x y (pinned_of_bumped m (n + 1) L x hx hnm) hy

theorem pinned_of_whereLeading (n : Nat) (rest : List String) (ps cs : List Value)
    (h : whereLeading (List.replicate n "=" ++ rest) ps cs = true)
    (hp : n ≤ ps.length) (hc : n ≤ cs.length) : pinned n ps cs = true := by
  induction n generalizing ps cs with
  | zero => simp [pinned]
  | succ n ih =>
    cases ps with
    | nil => simp at hp
    | cons p ps =>
      cases cs with
      | nil => simp at hc
      | cons c cs =>
        simp only [List.replicate_succ, List.cons_append, whereLeading, decide_True,
          Bool.true_and, Bool.and_eq_true, Bool.or_eq_true] at h
        simp only [List.length_cons, Nat.add_le_add_iff_right] at hp hc
        simp only [pinned, Bool.and_eq_true]
        refine ⟨?_, ih ps cs h.2 hp hc⟩
        rcases h.1 with (h1 | h1) | h1
        · exact h1
        · exact absurd h1.1 (by decide)
        · exact absurd h1.1 (by decide)

theorem bumped_of_whereLeading (n : Nat) (ps cs : List Value)
    (h : whereLeading (List.replicate n "=" ++ [">"]) ps cs = true)
    (hp : n + 1 ≤ ps.length) (hc : n + 1 ≤ cs.length) : bumped n ps cs = true := by
  induction n generalizing ps cs with
  | zero =>
    cases ps with
    | nil => simp at hp
    | cons p ps =>
      cases cs with
      | nil => simp at hc
      | cons c cs =>
        simp only [List.replicate_zero, List.nil_append, whereLeading, Bool.and_eq_true,
          Bool.or_eq_true, decide_eq_true_eq] at h
        simp only [bumped]
        rcases h.1 with (h1 | h1) | h1
        · exact absurd h1.1 (by decide)
        · exact h1.2
        · exact absurd h1.1 (by decide)
  | succ n ih =>
    cases ps with
    | nil => simp at hp
    | cons p ps =>
      cases cs with
      | nil => simp at hc
      | cons c cs =>
        simp only [List.replicate_succ, List.cons_append, whereLeading, decide_True,
          Bool.true_and, Bool.and_eq_true, Bool.or_eq_true] at h
        simp only [List.length_cons, Nat.add_le_add_iff_right] at hp hc
        simp only [bumped, Bool.and_eq_true]
        refine ⟨?_, ih ps cs h.2 hp hc⟩
        rcases h.1 with (h1 | h1) | h1
        · exact h1
        · exact absurd h1.1 (by decide)
        · exact absurd h1.1 (by decide)

theorem bumped_dropLast (n : Nat) (L l : List Value) (h : bumped n L.dropLast l = true) :
    bumped n L l = true := by
  induction n generalizing L l with
  | zero =>
    cases L with
    | nil => simp [bumped] at h
    | cons p ps =>
      cases ps with
      | nil => simp [bumped] at h
      | cons q qs =>
        cases l with
        | nil => simp [bumped] at h
        | cons c cs =>
          simp only [List.dropLast_cons₂, bumped] at h
          simp [bumped, h]
  | succ n ih =>
    cases L with
    | nil => simp [bumped] at h
    | cons p ps =>
      cases ps with
      | nil => simp [bumped] at h
      | cons q qs =>
        cases l with
        | nil => simp [bumped] at h
        | cons c cs =>
          simp only [List.dropLast_cons₂, bumped, Bool.and_eq_true] at h
          simp only [bumped, Bool.and_eq_true]
          exact ⟨h.1, ih (q :: qs) cs h.2⟩

theorem leadEq_dropLast_of_pinned (n : Nat) (L cs : List Value) (h : pinned n L cs = true)
    (hc : cs.length = n) (hL : L.length = n + 1) : leadEq cs L.dropLast = true := by
  induction n generalizing L cs with
  | zero =>
    cases cs with
    | nil =>
      cases L with
      | nil => simp at hL
      | cons p ps =>
        cases ps with
        | nil => simp [leadEq]
        | cons q qs => simp at hL
    | cons c cs => simp at hc
  | succ n ih =>
    cases cs with
    | nil => simp at hc
    | cons c cs =>
      cases L with
      | nil => simp at hL
      | cons p ps =>
        cases ps with
        | nil => simp at hL
        | cons q qs =>
          simp only [pinned, Bool.and_eq_true] at h
          simp only [List.dropLast_cons₂, leadEq, Bool.and_eq_true]
          refine ⟨h.1, ih (q :: qs) cs h.2 ?_ ?_⟩
          · simpa using hc
          · simpa using hL

theorem transformLeading_length (cols : List pkColumn) (vs l : List Value)
    (h : transformLeading cols vs = some l) : l.length = vs.length := by
  induction vs generalizing cols l with
  | nil =>
    cases cols <;> simp [transformLeading] at h <;> subst h <;> rfl
  | cons v vs ih =>
    cases cols with
    | nil => simp [transformLeading] at h
    | cons c cs =>
      simp only [transformLeading] at h
      cases h1 : c.FieldType.transformDBResultType v with
      | none => simp [h1] at h
      | some x =>
        cases h2 : transformLeading cs vs with
        | none => simp [h1, h2] at h
        | some xs =>
          simp only [h1, h2, Option.some.injEq] at h
          subst h
          simp [ih cs xs h2]

theorem populateResultset_spec (t : pkTable) (ft : iFieldType) (L : List Value) (q : String)
    (rub : List ubRow) (cnt : Int) (rows : List resultRow)
    (h : pkTableMulti.populateResultset t ft L q rub = some (cnt, rows)) :
    canonLeading t rub = some (rows.map (fun r => r.leading)) ∧
    (∀ r ∈ rows, trailingLowerBoundary t ft L = some r.lb) ∧
    List.Forall₂ (fun (o : ubRow) (r : resultRow) => r.leading.length = o.leading.length)
      rub rows := by
  induction rub generalizing cnt rows with
  | nil =>
    simp only [pkTableMulti.populateResultset, Option.some.injEq, Prod.mk.injEq] at h
    obtain ⟨_, h2⟩ := h
    subst h2
    simp [canonLeading]
  | cons o rest ih =>
    simp only [pkTableMulti.populateResultset] at h
    cases h1 : transformLeading t.GetPKColumns o.leading with
    | none => simp [h1] at h
    | some leading =>
      cases h2 : trailingLowerBoundary t ft L with
      | none => simp [h1, h2] at h
      | some lb =>
        cases h3 : ft.transformDBResultType o.maxTrailing with
        | none => simp [h1, h2, h3] at h
        | some ub =>
          cases h4 : pkTableMulti.populateResultset t ft L q rest with
          | none => simp [h1, h2, h3, h4] at h
          | some res =>
            obtain ⟨cnt1, rows1⟩ := res
            simp only [h1, h2, h3, h4, Option.some.injEq, Prod.mk.injEq] at h
            obtain ⟨_, hr⟩ := h
            subst hr
            obtain ⟨i1, i2, i3⟩ := ih cnt1 rows1 h4
            refine ⟨?_, ?_, ?_⟩
            · simp [canonLeading, h1, i1]
            · intro r hr
              simp only [List.mem_cons] at hr
              rcases hr with hr | hr
              · subst hr; rfl
              · rw [← h2]; exact i2 r hr
            · exact List.Forall₂.cons (transformLeading_length _ _ _ h1) i3

theorem forall₂_mem_right {α β : Type} (R : α → β → Prop) (as : List α) (bs : List β)
    (h : List.Forall₂ R as bs) : ∀ b ∈ bs, ∃ a ∈ as, R a b := by
  induction h with
  | nil => intro b hb; simp at hb
  | cons hab _ ih =>
    intro b hb
    simp only [List.mem_cons] at hb
    rcases hb with hb | hb
    · subst hb
      exact ⟨_, List.mem_cons_self _ _, hab⟩
    · obtain ⟨a, ha, hr⟩ := ih b hb
      exact ⟨a, List.mem_cons_of_mem _ ha, hr⟩

/-- What an honest endpoint guarantees about the rows of one lookahead. -/
theorem runUpperBoundary_spec (env : envarg) (t : pkTable) (db : Endpoint) (ft : iFieldType)
    (ops : List String) (cs : Int) (L : List Value) (cnt : Int) (rows : List resultRow)
    (hh : HonestLookahead t db)
    (h : pkTableMulti.runUpperBoundary env t db ft ops cs L = some (cnt, rows)) :
    (∀ r ∈ rows, whereLeading ops L r.leading = true) ∧
    List.Chain' (fun r r1 : resultRow => leadLt r.leading r1.leading = true) rows ∧
    (∀ r ∈ rows, r.leading.length + 1 = t.GetPKColumnNames.length) ∧
    (∀ r ∈ rows, trailingLowerBoundary t ft L = some r.lb) := by
  unfold pkTableMulti.runUpperBoundary pkTable.UpperBoundaryResult at h
  simp only [] at h
  cases hl : db.lookahead t.GetPKColumnNames ops cs L with
  | none => simp [hl] at h
  | some rub =>
    by_cases hall : (rub.all fun r =>
        decide (r.leading.length + 1 = t.GetPKColumnNames.length)) = true
    · simp only [hl, hall, if_true] at h
      obtain ⟨p1, p2, p3⟩ := populateResultset_spec t ft L _ rub cnt rows h
      obtain ⟨q1, q2⟩ := hh ops cs L rub _ hl p1
      refine ⟨?_, ?_, ?_, p2⟩
      · intro r hr
        exact q1 r.leading (List.mem_map_of_mem _ hr)
      · exact (List.chain'_map _).1 q2
      · intro r hr
        obtain ⟨o, ho, hlen⟩ := forall₂_mem_right _ _ _ p3 r hr
        rw [hlen]
        have := List.all_eq_true.1 hall o ho
        simpa using this
    · simp only [hl, hall] at h
      exact absurd h (by simp)

theorem chain_append_of_cross {α : Type} (R : α → α → Prop) (A B : List α)
    (hA : List.Chain' R A) (hB : List.Chain' R B) (hAB : ∀ x ∈ A, ∀ y ∈ B, R x y) :
    List.Chain' R (A ++ B) :=
  List.chain'_append.2 ⟨hA, hB, fun x hx y hy =>
    hAB x (List.mem_of_mem_getLast? hx) y (List.mem_of_mem_head? hy)⟩

theorem chain_and_right {α : Type} (R : α → α → Prop) (P : α → Prop) (l : List α)
    (h : List.Chain' R l) (hP : ∀ x ∈ l, P x) : List.Chain' (fun a b => R a b ∧ P b) l := by
  induction l with
  | nil => exact List.chain'_nil
  | cons a rest ih =>
    cases rest with
    | nil => exact List.chain'_singleton a
    | cons b rest2 =>
      rw [List.chain'_cons] at h ⊢
      exact ⟨⟨h.1, hP b (by simp)⟩, ih h.2 (fun x hx => hP x (List.mem_cons_of_mem _ hx))⟩

theorem pin_block (Lead : List Value) (tr lowest : Value) (rows : List resultRow)
    (hc : List.Chain' (fun r r1 : resultRow => leadLt r.leading r1.leading = true) rows)
    (hp : ∀ r ∈ rows, PinRow Lead tr r) : List.Chain' (RowStep lowest) rows := by
  cases rows with
  | nil => exact List.chain'_nil
  | cons a rest =>
    cases rest with
    | nil => exact List.chain'_singleton a
    | cons b rest2 =>
      rw [List.chain'_cons] at hc
      have ha := (hp a (by simp)).1
      have hb := (hp b (by simp)).1
      have he := leadEq_trans _ _ _ hb (leadEq_symm _ _ ha)
      rw [leadEq_false_of_leadLt _ _ hc.1] at he
      exact absurd he (by decide)

theorem unwound_block (n : Nat) (Lead : List Value) (lowest : Value) (rows : List resultRow)
    (hc : List.Chain' (fun r r1 : resultRow => leadLt r.leading r1.leading = true) rows)
    (hb : ∀ r ∈ rows, BumpRow n Lead lowest r) : Unwound n Lead lowest rows :=
  ⟨chain_and_right _ (fun r : resultRow => r.lb = lowest) rows hc (fun r hr => (hb r hr).2),
    fun r hr => ⟨n, le_refl n, hb r hr⟩⟩

theorem unwound_append (m n : Nat) (Lead : List Value) (lowest : Value)
    (A B : List resultRow)
    (hc : List.Chain' (fun r r1 : resultRow => leadLt r.leading r1.leading = true) A)
    (hA : ∀ r ∈ A, BumpRow m Lead lowest r) (hB : Unwound n Lead lowest B) (hnm : n < m) :
    Unwound m Lead lowest (A ++ B) := by
  refine ⟨chain_append_of_cross _ A B (unwound_block m Lead lowest A hc hA).1 hB.1 ?_, ?_⟩
  · intro x hx y hy
    obtain ⟨j, hj, hy1, hy2⟩ := hB.2 y hy
    exact ⟨leadLt_of_bumped_of_bumped m j Lead _ _ (hA x hx).1 hy1 (by omega), hy2⟩
  · intro r hr
    rcases List.mem_append.1 hr with hr | hr
    · exact ⟨m, le_refl m, hA r hr⟩
    · obtain ⟨j, hj, hy⟩ := hB.2 r hr
      exact ⟨j, by omega, hy⟩

theorem shape_of_pin_unwound (n : Nat) (L : List Value) (tr lowest : Value)
    (A B : List resultRow) (htr : L.getLast? = some tr)
    (hc : List.Chain' (fun r r1 : resultRow => leadLt r.leading r1.leading = true) A)
    (hA : ∀ r ∈ A, PinRow L.dropLast tr r) (hB : Unwound n L.dropLast lowest B)
    (hlen : ∀ r ∈ A ++ B, r.leading.length + 1 = L.length) :
    PlannerShape L lowest (A ++ B) := by
  refine ⟨chain_append_of_cross _ A B (pin_block L.dropLast tr lowest A hc hA) hB.1 ?_,
    hlen, ?_⟩
  · intro x hx y hy
    obtain ⟨j, _, hy1, hy2⟩ := hB.2 y hy
    exact ⟨leadLt_of_leadEq_of_leadLt _ _ _ (hA x hx).1 (leadLt_of_bumped j _ _ hy1), hy2⟩
  · intro r hr
    have hmem := List.mem_of_mem_head? hr
    cases A with
    | nil =>
      simp only [List.nil_append] at hmem
      obtain ⟨j, _, hy1, hy2⟩ := hB.2 r hmem
      exact Or.inr ⟨leadLt_of_bumped j _ _ hy1, hy2⟩
    | cons a rest =>
      simp only [List.cons_append, List.head?_cons, Option.mem_def, Option.some.injEq] at hr
      subst hr
      obtain ⟨h1, h2⟩ := hA a (by simp)
      exact Or.inl ⟨h1, by rw [htr, h2]⟩

theorem trailingLowerBoundary_short (t : pkTable) (ft : iFieldType) (inp : List Value)
    (v : Value) (hk : inp.length < t.GetPKColumnNames.length)
    (h : trailingLowerBoundary t ft inp = some v) : v = ft.lowestFieldData := by
  unfold trailingLowerBoundary at h
  rw [if_pos hk] at h
  exact (Option.some.inj h).symm

theorem trailingLowerBoundary_full (t : pkTable) (ft : iFieldType) (L : List Value)
    (v : Value) (hk : L.length = t.GetPKColumnNames.length)
    (h : trailingLowerBoundary t ft L = some v) : L.getLast? = some v := by
  unfold trailingLowerBoundary at h
  rw [if_neg (by omega)] at h
  rw [List.getLast?_eq_getElem?, hk, ← List.get?_eq_getElem?]
  exact h

/-- Rows of an unwinding lookahead `[=, .., =, >]` with `n` pinned columns. -/
theorem bump_query (env : envarg) (t : pkTable) (db : Endpoint) (ft : iFieldType)
    (hh : HonestLookahead t db) (n : Nat) (cs : Int) (inp Lead : List Value) (cnt : Int)
    (B : List resultRow)
    (hq : pkTableMulti.runUpperBoundary env t db ft (List.replicate n "=" ++ [">"]) cs inp =
      some (cnt, B))
    (hlen : inp.length = n + 1) (hk : n + 1 < t.GetPKColumnNames.length)
    (hlift : ∀ l, bumped n inp l = true → bumped n Lead l = true) :
    List.Chain' (fun r r1 : resultRow => leadLt r.leading r1.leading = true) B ∧
    ∀ r ∈ B, BumpRow n Lead ft.lowestFieldData r := by
  obtain ⟨h1, h2, h3, h4⟩ := runUpperBoundary_spec env t db ft _ cs inp cnt B hh hq
  refine ⟨h2, fun r hr => ⟨?_, ?_⟩⟩
  · apply hlift
    apply bumped_of_whereLeading n inp r.leading (h1 r hr)
    · omega
    · have := h3 r hr
      omega
  · exact trailingLowerBoundary_short t ft inp r.lb (by omega) (h4 r hr)

/-- Rows of the first lookahead `[=, .., =, >=]`. -/
theorem pin_query (env : envarg) (t : pkTable) (db : Endpoint) (ft : iFieldType)
    (hh : HonestLookahead t db) (n : Nat) (cs : Int) (L : List Value) (tr : Value) (cnt : Int)
    (A : List resultRow)
    (hq : pkTableMulti.runUpperBoundary env t db ft (List.replicate n "=" ++ [">="]) cs L =
      some (cnt, A))
    (hlen : L.length = n + 1) (hk : t.GetPKColumnNames.length = n + 1)
    (htr : L.getLast? = some tr) :
    List.Chain' (fun r r1 : resultRow => leadLt r.leading r1.leading = true) A ∧
    (∀ r ∈ A, PinRow L.dropLast tr r) ∧
    (∀ r ∈ A, r.leading.length + 1 = L.length) := by
  obtain ⟨h1, h2, h3, h4⟩ := runUpperBoundary_spec env t db ft _ cs L cnt A hh hq
  refine ⟨h2, fun r hr => ⟨?_, ?_⟩, fun r hr => by rw [h3 r hr, hk, hlen]⟩
  · have hl := h3 r hr
    apply leadEq_dropLast_of_pinned n L r.leading _ (by omega) hlen
    exact pinned_of_whereLeading n [">="] L r.leading (h1 r hr) (by omega) (by omega)
  · have := trailingLowerBoundary_full t ft L r.lb (by omega) (h4 r hr)
    rw [htr] at this
    exact (Option.some.inj this).symm

theorem For2_split (env : envarg) (t : pkTable) (db : Endpoint) (ft : iFieldType)
    (ops : List String) (cs : Int) (inp : List Value) (rows : List resultRow)
    (h : pkTableMulti.runUpperBoundaryFor2PKFields env t db ft ops cs inp = some rows) :
    ∃ cntA A B, rows = A ++ B ∧
      pkTableMulti.runUpperBoundary env t db ft ops cs inp = some (cntA, A) ∧
      (B = [] ∨ ∃ cntB, inp ≠ [] ∧
        pkTableMulti.runUpperBoundary env t db ft [">"] (cs - cntA) inp.dropLast =
          some (cntB, B)) := by
  unfold pkTableMulti.runUpperBoundaryFor2PKFields at h
  cases hA : pkTableMulti.runUpperBoundary env t db ft ops cs inp with
  | none => simp [hA] at h
  | some res =>
    obtain ⟨cntA, A⟩ := res
    simp only [hA] at h
    by_cases hc : cntA = cs
    · simp only [hc, if_true, Option.some.injEq] at h
      exact ⟨cntA, A, [], by simp [h], rfl, Or.inl rfl⟩
    · simp only [hc, if_false] at h
      unfold sliceDropLast at h
      by_cases he : inp = []
      · simp [he] at h
      · simp only [he, if_false] at h
        cases hB : pkTableMulti.runUpperBoundary env t db ft [">"] (cs - cntA) inp.dropLast with
        | none => simp [hB] at h
        | some res =>
          obtain ⟨cntB, B⟩ := res
          simp only [hB, Option.some.injEq] at h
          exact ⟨cntA, A, B, h.symm, rfl, Or.inr ⟨cntB, he, hB⟩⟩

theorem For3_split (env : envarg) (t : pkTable) (db : Endpoint) (ft : iFieldType)
    (ops : List String) (cs : Int) (inp : List Value) (rows : List resultRow)
    (h : pkTableMulti.runUpperBoundaryFor3PKFields env t db ft ops cs inp = some rows) :
    ∃ cntA A B, rows = A ++ B ∧
      pkTableMulti.runUpperBoundary env t db ft ops cs inp = some (cntA, A) ∧
      (B = [] ∨ (inp ≠ [] ∧
        pkTableMulti.runUpperBoundaryFor2PKFields env t db ft ["=", ">"] (cs - cntA)
          inp.dropLast = some B)) := by
  unfold pkTableMulti.runUpperBoundaryFor3PKFields at h
  cases hA : pkTableMulti.runUpperBoundary env t db ft ops cs inp with
  | none => simp [hA] at h
  | some res =>
    obtain ⟨cntA, A⟩ := res
    simp only [hA] at h
    by_cases hc : cntA = cs
    · simp only [hc, if_true, Option.some.injEq] at h
      exact ⟨cntA, A, [], by simp [h], rfl, Or.inl rfl⟩
    · simp only [hc, if_false] at h
      unfold sliceDropLast at h
      by_cases he : inp = []
      · simp [he] at h
      · simp only [he, if_false] at h
        cases hB : pkTableMulti.runUpperBoundaryFor2PKFields env t db ft ["=", ">"]
            (cs - cntA) inp.dropLast with
        | none => simp [hB] at h
        | some B =>
          simp only [hB, Option.some.injEq] at h
          exact ⟨cntA, A, B, h.symm, rfl, Or.inr ⟨he, hB⟩⟩

theorem For4_split (env : envarg) (t : pkTable) (db : Endpoint) (ft : iFieldType)
    (ops : List String) (cs : Int) (inp : List Value) (rows : List resultRow)
    (h : pkTableMulti.runUpperBoundaryFor4PKFields env t db ft ops cs inp = some rows) :
    ∃ cntA A B, rows = A ++ B ∧
      pkTableMulti.runUpperBoundary env t db ft ops cs inp = some (cntA, A) ∧
      (B = [] ∨ (inp ≠ [] ∧
        pkTableMulti.runUpperBoundaryFor3PKFields env t db ft ["=", "=", ">"] (cs - cntA)
          inp.dropLast = some B)) := by
  unfold pkTableMulti.runUpperBoundaryFor4PKFields at h
  cases hA : pkTableMulti.runUpperBoundary env t db ft ops cs inp with
  | none => simp [hA] at h
  | some res =>
    obtain ⟨cntA, A⟩ := res
    simp only [hA] at h
    by_cases hc : cntA = cs
    · simp only [hc, if_true, Option.some.injEq] at h
      exact ⟨cntA, A, [], by simp [h], rfl, Or.inl rfl⟩
    · simp only [hc, if_false] at h
      unfold sliceDropLast at h
      by_cases he : inp = []
      · simp [he] at h
      · simp only [he, if_false] at h
        cases hB : pkTableMulti.runUpperBoundaryFor3PKFields env t db ft ["=", "=", ">"]
            (cs - cntA) inp.dropLast with
        | none => simp [hB] at h
        | some B =>
          simp only [hB, Option.some.injEq] at h
          exact ⟨cntA, A, B, h.symm, rfl, Or.inr ⟨he, hB⟩⟩

theorem unwound_nil (n : Nat) (Lead : List Value) (lowest : Value) :
    Unwound n Lead lowest [] :=
  ⟨List.chain'_nil, fun r hr => absurd hr (List.not_mem_nil r)⟩

theorem unwound_mono (m n : Nat) (Lead : List Value) (lowest : Value) (rows : List resultRow)
    (h : Unwound m Lead lowest rows) (hmn : m ≤ n) : Unwound n Lead lowest rows :=
  ⟨h.1, fun r hr => by
    obtain ⟨j, hj, hb⟩ := h.2 r hr
    exact ⟨j, by omega, hb⟩⟩

/-- Rows of the last unwinding step `[>]`. -/
theorem last_unwound (env : envarg) (t : pkTable) (db : Endpoint) (ft : iFieldType)
    (hh : HonestLookahead t db) (cs : Int) (inp Lead : List Value) (cnt : Int)
    (B : List resultRow)
    (hq : pkTableMulti.runUpperBoundary env t db ft [">"] cs inp = some (cnt, B))
    (hlen : inp.length = 1) (hk : 1 < t.GetPKColumnNames.length)
    (hlift : ∀ l, bumped 0 inp l = true → bumped 0 Lead l = true) :
    Unwound 0 Lead ft.lowestFieldData B := by
  obtain ⟨h1, h2⟩ := bump_query env t db ft hh 0 cs inp Lead cnt B hq hlen hk hlift
  exact unwound_block 0 Lead _ B h1 h2

/-- Rows of the unwinding steps `[=, >]`, `[>]`. -/
theorem For2_unwound (env : envarg) (t : pkTable) (db : Endpoint) (ft : iFieldType)
    (hh : HonestLookahead t db) (cs : Int) (inp Lead : List Value) (rows : List resultRow)
    (h : pkTableMulti.runUpperBoundaryFor2PKFields env t db ft ["=", ">"] cs inp = some rows)
    (hlen : inp.length = 2) (hk : 2 < t.GetPKColumnNames.length)
    (hlift : ∀ n l, bumped n inp l = true → bumped n Lead l = true) :
    Unwound 1 Lead ft.lowestFieldData rows := by
  obtain ⟨cntA, A, B, hrows, hA, hB⟩ := For2_split env t db ft _ cs inp rows h
  obtain ⟨a1, a2⟩ := bump_query env t db ft hh 1 cs inp Lead cntA A hA hlen hk (hlift 1)
  subst hrows
  have hBu : Unwound 0 Lead ft.lowestFieldData B := by
    rcases hB with hB | ⟨cntB, _, hB⟩
    · subst hB; exact unwound_nil _ _ _
    · exact last_unwound env t db ft hh _ inp.dropLast Lead cntB B hB
        (by simp [hlen]) (by omega) (fun l hl => hlift 0 l (bumped_dropLast 0 inp l hl))
  exact unwound_append 1 0 Lead _ A B a1 a2 hBu (by omega)

/-- Rows of the unwinding steps `[=, =, >]`, `[=, >]`, `[>]`. -/
theorem For3_unwound (env : envarg) (t : pkTable) (db : Endpoint) (ft : iFieldType)
    (hh : HonestLookahead t db) (cs : Int) (inp Lead : List Value) (rows : List resultRow)
    (h : pkTableMulti.runUpperBoundaryFor3PKFields env t db ft ["=", "=", ">"] cs inp =
      some rows)
    (hlen : inp.length = 3) (hk : 3 < t.GetPKColumnNames.length)
    (hlift : ∀ n l, bumped n inp l = true → bumped n Lead l = true) :
    Unwound 2 Lead ft.lowestFieldData rows := by
  obtain ⟨cntA, A, B, hrows, hA, hB⟩ := For3_split env t db ft _ cs inp rows h
  obtain ⟨a1, a2⟩ := bump_query env t db ft hh 2 cs inp Lead cntA A hA hlen hk (hlift 2)
  subst hrows
  have hBu : Unwound 1 Lead ft.lowestFieldData B := by
    rcases hB with hB | ⟨_, hB⟩
    · subst hB; exact unwound_nil _ _ _
    · exact For2_unwound env t db ft hh _ inp.dropLast Lead B hB
        (by simp [hlen]) (by omega) (fun n l hl => hlift n l (bumped_dropLast n inp l hl))
  exact unwound_append 2 1 Lead _ A B a1 a2 hBu (by omega)

theorem For2_lengths (env : envarg) (t : pkTable) (db : Endpoint) (ft : iFieldType)
    (hh : HonestLookahead t db) (ops : List String) (cs : Int) (inp : List Value)
    (rows : List resultRow)
    (h : pkTableMulti.runUpperBoundaryFor2PKFields env t db ft ops cs inp = some rows) :
    ∀ r ∈ rows, r.leading.length + 1 = t.GetPKColumnNames.length := by
  obtain ⟨cntA, A, B, hrows, hA, hB⟩ := For2_split env t db ft ops cs inp rows h
  subst hrows
  intro r hr
  rcases List.mem_append.1 hr with hr | hr
  · exact (runUpperBoundary_spec env t db ft _ cs inp cntA A hh hA).2.2.1 r hr
  · rcases hB with hB | ⟨cntB, _, hB⟩
    · subst hB; simp at hr
    · exact (runUpperBoundary_spec env t db ft _ _ _ cntB B hh hB).2.2.1 r hr

theorem For3_lengths (env : envarg) (t : pkTable) (db : Endpoint) (ft : iFieldType)
    (hh : HonestLookahead t db) (ops : List String) (cs : Int) (inp : List Value)
    (rows : List resultRow)
    (h : pkTableMulti.runUpperBoundaryFor3PKFields env t db ft ops cs inp = some rows) :
    ∀ r ∈ rows, r.leading.length + 1 = t.GetPKColumnNames.length := by
  obtain ⟨cntA, A, B, hrows, hA, hB⟩ := For3_split env t db ft ops cs inp rows h
  subst hrows
  intro r hr
  rcases List.mem_append.1 hr with hr | hr
  · exact (runUpperBoundary_spec env t db ft _ cs inp cntA A hh hA).2.2.1 r hr
  · rcases hB with hB | ⟨_, hB⟩
    · subst hB; simp at hr
    · exact For2_lengths env t db ft hh _ _ _ B hB r hr

theorem For4_lengths (env : envarg) (t : pkTable) (db : Endpoint) (ft : iFieldType)
    (hh : HonestLookahead t db) (ops : List String) (cs : Int) (inp : List Value)
    (rows : List resultRow)
    (h : pkTableMulti.runUpperBoundaryFor4PKFields env t db ft ops cs inp = some rows) :
    ∀ r ∈ rows, r.leading.length + 1 = t.GetPKColumnNames.length := by
  obtain ⟨cntA, A, B, hrows, hA, hB⟩ := For4_split env t db ft ops cs inp rows h
  subst hrows
  intro r hr
  rcases List.mem_append.1 hr with hr | hr
  · exact (runUpperBoundary_spec env t db ft _ cs inp cntA A hh hA).2.2.1 r hr
  · rcases hB with hB | ⟨_, hB⟩
    · subst hB; simp at hr
    · exact For3_lengths env t db ft hh _ _ _ B hB r hr

theorem getLast?_of_length_pos (L : List Value) (h : 0 < L.length) :
    ∃ tr, L.getLast? = some tr := by
  cases hl : L.getLast? with
  | none =>
    rw [List.getLast?_eq_none_iff] at hl
    subst hl
    simp at h
  | some tr => exact ⟨tr, rfl⟩

/-- Shape of the composite-PK planner resultset. -/
theorem multi_planner_shape (env : envarg) (t : pkTable) (db : Endpoint) (ft : iFieldType)
    (L : List Value) (rows : List resultRow)
    (hft : t.lastPKfieldtype = some ft) (hh : HonestLookahead t db)
    (hL : L.length = t.GetPKColumnNames.length)
    (h : pkTableMulti.TransformUpperBoundaryResult env t db L = some rows) :
    PlannerShape L ft.lowestFieldData rows := by
  unfold pkTableMulti.TransformUpperBoundaryResult at h
  simp only [hft] at h
  by_cases h2 : t.GetPKColumnNames.length = 2
  · simp only [h2, if_true] at h
    obtain ⟨tr, htr⟩ := getLast?_of_length_pos L (by omega)
    have hlen := For2_lengths env t db ft hh _ _ _ rows h
    obtain ⟨cntA, A, B, hrows, hA, hB⟩ := For2_split env t db ft _ _ L rows h
    obtain ⟨a1, a2, _⟩ := pin_query env t db ft hh 1 _ L tr cntA A hA (by omega) h2 htr
    subst hrows
    have hBu : Unwound 0 L.dropLast ft.lowestFieldData B := by
      rcases hB with hB | ⟨cntB, _, hB⟩
      · subst hB; exact unwound_nil _ _ _
      · exact last_unwound env t db ft hh _ L.dropLast L.dropLast cntB B hB
          (by simp; omega) (by omega) (fun l hl => hl)
    exact shape_of_pin_unwound 0 L tr _ A B htr a1 a2 hBu (fun r hr => by rw [hlen r hr, hL])
  · by_cases h3 : t.GetPKColumnNames.length = 3
    · simp only [h3, if_true] at h
      simp only [show ¬ (3 = 2) by decide, if_false] at h
      obtain ⟨tr, htr⟩ := getLast?_of_length_pos L (by omega)
      have hlen := For3_lengths env t db ft hh _ _ _ rows h
      obtain ⟨cntA, A, B, hrows, hA, hB⟩ := For3_split env t db ft _ _ L rows h
      obtain ⟨a1, a2, _⟩ := pin_query env t db ft hh 2 _ L tr cntA A hA (by omega) h3 htr
      subst hrows
      have hBu : Unwound 1 L.dropLast ft.lowestFieldData B := by
        rcases hB with hB | ⟨_, hB⟩
        · subst hB; exact unwound_nil _ _ _
        · exact For2_unwound env t db ft hh _ L.dropLast L.dropLast B hB
            (by simp; omega) (by omega) (fun n l hl => hl)
      exact shape_of_pin_unwound 1 L tr _ A B htr a1 a2 hBu (fun r hr => by rw [hlen r hr, hL])
    · by_cases h4 : t.GetPKColumnNames.length = 4
      · simp only [h4, if_true] at h
        simp only [show ¬ (4 = 2) by decide, show ¬ (4 = 3) by decide, if_false] at h
        obtain ⟨tr, htr⟩ := getLast?_of_length_pos L (by omega)
        have hlen := For4_lengths env t db ft hh _ _ _ rows h
        obtain ⟨cntA, A, B, hrows, hA, hB⟩ := For4_split env t db ft _ _ L rows h
        obtain ⟨a1, a2, _⟩ := pin_query env t db ft hh 3 _ L tr cntA A hA (by omega) h4 htr
        subst hrows
        have hBu : Unwound 2 L.dropLast ft.lowestFieldData B := by
          rcases hB with hB | ⟨_, hB⟩
          · subst hB; exact unwound_nil _ _ _
          · exact For3_unwound env t db ft hh _ L.dropLast L.dropLast B hB
              (by simp; omega) (by omega) (fun n l hl => hl)
        exact shape_of_pin_unwound 2 L tr _ A B htr a1 a2 hBu
          (fun r hr => by rw [hlen r hr, hL])
      · simp only [h2, h3, h4, if_false] at h
        exact absurd h (by simp)

/-- Shape of the single-PK planner resultset. -/
theorem single_planner_shape (env : envarg) (t : pkTable) (db : Endpoint) (lowest : Value)
    (L : List Value) (rows : List resultRow)
    (hL : L.length = t.GetPKColumnNames.length)
    (h : pkTableSingle.TransformUpperBoundaryResult env t db L = some rows) :
    PlannerShape L lowest rows := by
  unfold pkTableSingle.TransformUpperBoundaryResult at h
  cases hft : t.lastPKfieldtype with
  | none => simp [hft] at h
  | some ft =>
    cases hq : pkTableSingle.UpperBoundaryQuery env t.GetPKColumnNames [">="]
        env.ArgChunksize with
    | none => simp [hft, hq] at h
    | some q =>
      simp only [hft, hq] at h
      unfold pkTable.UpperBoundaryResult at h
      cases hl : db.lookahead t.GetPKColumnNames [">="] env.ArgChunksize L with
      | none => simp [hl] at h
      | some rub =>
        by_cases hall : (rub.all fun r =>
            decide (r.leading.length + 1 = t.GetPKColumnNames.length)) = true
        · simp only [hl, hall, if_true] at h
          unfold pkTableSingle.populateResultset at h
          cases rub with
          | nil => simp at h
          | cons o rest =>
            cases L with
            | nil => simp at h
            | cons lb0 Lrest =>
              simp only [hft] at h
              by_cases ho : o.leading = []
              · simp only [ho, ne_eq, not_true_eq_false, if_false] at h
                have hk : t.GetPKColumnNames.length = 1 := by
                  have := List.all_eq_true.1 hall o (by simp)
                  simp only [ho, List.length_nil, zero_add, decide_eq_true_eq] at this
                  exact this.symm
                have hLr : Lrest = [] := by
                  rw [hk] at hL
                  simpa using hL
                subst hLr
                cases hu : ft.transformDBResultType o.maxTrailing with
                | none => simp [hu] at h
                | some ub =>
                  simp only [hu, Option.map_some', Option.some.injEq] at h
                  subst h
                  refine ⟨List.chain'_singleton _, ?_, ?_⟩
                  · intro r hr
                    simp only [List.mem_singleton] at hr
                    subst hr
                    rfl
                  · intro r hr
                    simp only [List.head?_cons, Option.mem_def, Option.some.injEq] at hr
                    subst hr
                    exact Or.inl ⟨rfl, rfl⟩
              · simp only [ho, ne_eq, not_false_eq_true, if_true] at h
                exact absurd h (by simp)
        · simp only [hl, hall] at h
          exact absurd h (by simp)

/-- Shape of a planner resultset, for both implementations. -/
theorem planner_shape (kind : pkKind) (env : envarg) (t : pkTable) (db : Endpoint)
    (ft : iFieldType) (L : List Value) (rows : List resultRow)
    (hft : t.lastPKfieldtype = some ft) (hh : HonestLookahead t db)
    (hL : L.length = t.GetPKColumnNames.length)
    (h : TransformUpperBoundaryResult kind env t db L = some rows) :
    PlannerShape L ft.lowestFieldData rows := by
  cases kind with
  | single => exact single_planner_shape env t db _ L rows hL h
  | multi => exact multi_planner_shape env t db ft L rows hft hh hL h

theorem routeChunkResult_bounds (tci : tableChunkInfo) (r : tableHashResult) :
    (routeChunkResult tci r).LowerBoundary = tci.LowerBoundary ∧
    (routeChunkResult tci r).LastPKFieldUpperBoundary = tci.LastPKFieldUpperBoundary := by
  unfold routeChunkResult
  split <;> exact ⟨rfl, rfl⟩

theorem TableResultChunkLevel_bounds (env : envarg) (t : pkTable) (db : Endpoint)
    (issrc : Bool) (tci tci1 : tableChunkInfo) (r : tableHashResult)
    (h : t.TableResultChunkLevel env db issrc tci = some (r, tci1)) :
    tci1.LowerBoundary = tci.LowerBoundary ∧
    tci1.LastPKFieldUpperBoundary = tci.LastPKFieldUpperBoundary := by
  unfold pkTable.TableResultChunkLevel at h
  simp only [] at h
  split at h
  · exact absurd h (by simp)
  · simp only [Option.some.injEq, Prod.mk.injEq] at h
    rw [← h.2]
    cases issrc <;> exact ⟨rfl, rfl⟩

theorem TableRoutineChunkLevel_bounds (marshal : List Value → String) (env : envarg)
    (t : pkTable) (dbSrc dbTgt : Endpoint) (srcFirst : Bool) (tci tci2 : tableChunkInfo)
    (line : Option TableChunkRowsInfo)
    (h : t.TableRoutineChunkLevel marshal env dbSrc dbTgt srcFirst tci = some (tci2, line)) :
    tci2.LowerBoundary = tci.LowerBoundary ∧
    tci2.LastPKFieldUpperBoundary = tci.LastPKFieldUpperBoundary := by
  unfold pkTable.TableRoutineChunkLevel at h
  cases hs : t.TableResultChunkLevel env dbSrc true tci with
  | none => simp [hs] at h
  | some res1 =>
    obtain ⟨rs, tci1⟩ := res1
    cases ht : t.TableResultChunkLevel env dbTgt false tci1 with
    | none => simp [hs, ht] at h
    | some res2 =>
      obtain ⟨rt, tci2a⟩ := res2
      simp only [hs, ht] at h
      obtain ⟨a1, a2⟩ := TableResultChunkLevel_bounds env t dbSrc true tci tci1 rs hs
      obtain ⟨b1, b2⟩ := TableResultChunkLevel_bounds env t dbTgt false tci1 tci2a rt ht
      have hfold : (setMatch ((arrivalOrder srcFirst rs rt).foldl routeChunkResult
            tci2a)).LowerBoundary = tci.LowerBoundary ∧
          (setMatch ((arrivalOrder srcFirst rs rt).foldl routeChunkResult
            tci2a)).LastPKFieldUpperBoundary = tci.LastPKFieldUpperBoundary := by
        cases srcFirst
        · simp only [arrivalOrder, Bool.false_eq_true, if_false, List.foldl_cons,
            List.foldl_nil, setMatch]
          obtain ⟨c1, c2⟩ := routeChunkResult_bounds tci2a rt
          obtain ⟨d1, d2⟩ := routeChunkResult_bounds (routeChunkResult tci2a rt) rs
          exact ⟨by rw [d1, c1, b1, a1], by rw [d2, c2, b2, a2]⟩
        · simp only [arrivalOrder, if_true, List.foldl_cons, List.foldl_nil, setMatch]
          obtain ⟨c1, c2⟩ := routeChunkResult_bounds tci2a rs
          obtain ⟨d1, d2⟩ := routeChunkResult_bounds (routeChunkResult tci2a rs) rt
          exact ⟨by rw [d1, c1, b1, a1], by rw [d2, c2, b2, a2]⟩
      split at h
      · split at h
        · exact absurd h (by simp)
        · simp only [Option.some.injEq, Prod.mk.injEq] at h
          rw [← h.1]
          exact hfold
      · simp only [Option.some.injEq, Prod.mk.injEq] at h
        rw [← h.1]
        exact hfold

theorem RunTableRoutineChunkLevel_bounds (marshal : List Value → String) (env : envarg)
    (t : pkTable) (dbSrc dbTgt : Endpoint) (srcFirst : Bool) (tci tci2 : tableChunkInfo)
    (line : Option TableChunkRowsInfo)
    (h : t.RunTableRoutineChunkLevel marshal env dbSrc dbTgt srcFirst tci =
      some (tci2, line)) :
    tci2.LowerBoundary = tci.LowerBoundary ∧
    tci2.LastPKFieldUpperBoundary = tci.LastPKFieldUpperBoundary := by
  unfold pkTable.RunTableRoutineChunkLevel at h
  cases hc : t.TableRoutineChunkLevel marshal env dbSrc dbTgt srcFirst tci with
  | none => simp [hc] at h
  | some res =>
    obtain ⟨tci1, line1⟩ := res
    obtain ⟨a1, a2⟩ := TableRoutineChunkLevel_bounds marshal env t dbSrc dbTgt srcFirst tci
      tci1 line1 hc
    simp only [hc] at h
    split at h
    · simp only [Option.some.injEq, Prod.mk.injEq] at h
      rw [← h.1]
      exact ⟨a1, a2⟩
    · simp only [Option.some.injEq, Prod.mk.injEq] at h
      rw [← h.1]
      exact ⟨a1, a2⟩

theorem assignLowerboundary_full (vals lb : List Value) (h : vals.length = lb.length) :
    assignLowerboundary vals lb = some vals := by
  induction vals generalizing lb with
  | nil =>
    cases lb with
    | nil => rfl
    | cons b bs => simp at h
  | cons v vs ih =>
    cases lb with
    | nil => simp at h
    | cons b bs =>
      simp only [assignLowerboundary]
      rw [ih bs (by simpa using h)]
      rfl

theorem Reset_lowerboundary (kind : pkKind) (env : envarg) (t : pkTable) (row : resultRow)
    (lb : List Value) (stop : Bool) (ub : Value) (lb1 : List Value)
    (h : ResetLowerboundaryUpperboundary kind env t row lb = some (stop, ub, lb1)) :
    assignLowerboundary (row.leading ++ [row.lb]) lb = some lb1 := by
  cases ha : assignLowerboundary (row.leading ++ [row.lb]) lb with
  | none =>
    cases kind <;>
      simp [ResetLowerboundaryUpperboundary, pkTableSingle.ResetLowerboundaryUpperboundary,
        pkTableMulti.ResetLowerboundaryUpperboundary, ha] at h
  | some l =>
    cases kind with
    | single =>
      simp only [ResetLowerboundaryUpperboundary,
        pkTableSingle.ResetLowerboundaryUpperboundary, ha] at h
      split at h
      · exact absurd h (by simp)
      · split at h
        · simp only [Option.some.injEq, Prod.mk.injEq] at h
          rw [h.2.2]
        · cases hc : clampTrailing env t row.ub with
          | none => simp [hc] at h
          | some r =>
            simp only [hc, Option.map_some', Option.some.injEq, Prod.mk.injEq] at h
            rw [h.2.2]
    | multi =>
      simp only [ResetLowerboundaryUpperboundary,
        pkTableMulti.ResetLowerboundaryUpperboundary, ha] at h
      split at h
      · simp only [Option.some.injEq, Prod.mk.injEq] at h
        rw [h.2.2]
      · split at h
        · exact absurd h (by simp)
        · simp only [Option.some.injEq, Prod.mk.injEq] at h
          rw [h.2.2]
        · cases hc : clampTrailing env t row.ub with
          | none => simp [hc] at h
          | some r =>
            simp only [hc, Option.map_some', Option.some.injEq, Prod.mk.injEq] at h
            rw [h.2.2]

theorem consecutive_of_step (lowest : Value) (c tci2 : tableChunkInfo) (row : resultRow)
    (hstep : StepChunkRow lowest c row)
    (hlb : tci2.LowerBoundary = row.leading ++ [row.lb]) :
    Consecutive lowest c tci2 := by
  have hd : tci2.LowerBoundary.dropLast = row.leading := by rw [hlb]; simp
  have hl : tci2.LowerBoundary.getLast? = some row.lb := by rw [hlb]; simp
  unfold Consecutive
  rw [hd, hl]
  obtain ⟨s1, s2, s3⟩ := hstep
  exact ⟨s1, fun h => by rw [s2 h], fun h => by rw [s3 h]⟩

theorem chain_concat {α : Type} (R : α → α → Prop) (l : List α) (a : α)
    (h : List.Chain' R l) (hl : ∀ c ∈ l.getLast?, R c a) : List.Chain' R (l ++ [a]) :=
  List.chain'_append.2 ⟨h, List.chain'_singleton a, fun x hx y hy => by
    simp only [List.head?_cons, Option.mem_def, Option.some.injEq] at hy
    subst hy
    exact hl x hx⟩

/-- The row loop of `RunTableChunk` keeps the logged chunks pairwise `Consecutive`
and, when it runs to its end, re-establishes the driver invariant. -/
theorem RunTableChunkLoop_inv (w : RunEnv) (ft0 : iFieldType) (qs qt : String)
    (lowest : Value) (k : Nat) (rows : List resultRow) (tci : tableChunkInfo) (st : RunState)
    (hinv : DriverInv lowest k st)
    (hchain : List.Chain' (RowStep lowest) rows)
    (hlen : ∀ r ∈ rows, r.leading.length + 1 = k)
    (hhead : ∀ c ∈ st.chunklog.getLast?, ∀ r ∈ rows.head?, StepChunkRow lowest c r) :
    List.Chain' (Consecutive lowest) (RunTableChunkLoop w ft0 qs qt rows tci st).1.chunklog ∧
    ((RunTableChunkLoop w ft0 qs qt rows tci st).2 = Outcome.more →
      DriverInv lowest k (RunTableChunkLoop w ft0 qs qt rows tci st).1) := by
  induction rows generalizing tci st with
  | nil => exact ⟨hinv.1, fun _ => hinv⟩
  | cons row rest ih =>
    have hk : row.leading.length + 1 = k := hlen row (by simp)
    cases hr : ResetLowerboundaryUpperboundary w.kind w.env w.t row st.lowerboundary with
    | none =>
      simp only [RunTableChunkLoop, hr]
      exact ⟨hinv.1, fun h => absurd h (by simp)⟩
    | some res =>
      obtain ⟨stop, ub, lb1⟩ := res
      have hlb1 : lb1 = row.leading ++ [row.lb] := by
        have h1 := Reset_lowerboundary _ _ _ _ _ _ _ _ hr
        rw [assignLowerboundary_full _ _ (by simp [hinv.2.1, hk])] at h1
        exact (Option.some.inj h1).symm
      subst hlb1
      simp only [RunTableChunkLoop, hr]
      split
      · exact ⟨hinv.1, fun h => absurd h (by simp)⟩
      · exact ⟨hinv.1, fun h => absurd h (by simp)⟩
      · split
        · exact ⟨hinv.1, fun h => absurd h (by simp)⟩
        · rename_i tci2 line hcl
          obtain ⟨b1, b2⟩ := RunTableRoutineChunkLevel_bounds _ _ _ _ _ _ _ tci2 line hcl
          simp only [] at b1 b2
          have hcons : ∀ c ∈ st.chunklog.getLast?, Consecutive lowest c tci2 := fun c hc =>
            consecutive_of_step lowest c tci2 row (hhead c hc row (by simp)) b1
          have hch : List.Chain' (Consecutive lowest) (st.chunklog ++ [tci2]) :=
            chain_concat _ _ _ hinv.1 hcons
          split
          · exact ⟨hch, fun h => absurd h (by simp)⟩
          · apply ih
            · refine ⟨hch, ?_, ?_⟩
              · simp only [setLast, List.length_append, List.length_dropLast,
                  List.length_singleton, Nat.add_sub_cancel]
                omega
              · intro c hc
                simp only [List.getLast?_concat, Option.mem_def, Option.some.injEq] at hc
                subst hc
                rw [b1]
                simp [setLast]
            · exact (List.chain'_cons'.1 hchain).2
            · intro r hr
              exact hlen r (List.mem_cons_of_mem _ hr)
            · intro c hc r hr
              simp only [List.getLast?_concat, Option.mem_def, Option.some.injEq] at hc
              subst hc
              have hstep := (List.chain'_cons'.1 hchain).1 r hr
              unfold StepChunkRow
              rw [b1]
              simp only [List.dropLast_concat]
              refine ⟨Or.inl hstep.1, fun h => ?_, fun _ => hstep.2⟩
              rw [leadEq_false_of_leadLt _ _ hstep.1] at h
              exact absurd h (by decide)

theorem userLowerboundary_length (cols : List pkColumn) (args : List String) (l : List Value)
    (h : userLowerboundary cols args = some l) : l.length = cols.length := by
  induction cols generalizing args l with
  | nil =>
    simp only [userLowerboundary, Option.some.injEq] at h
    subst h
    rfl
  | cons c cs ih =>
    cases args with
    | nil => simp [userLowerboundary] at h
    | cons a as =>
      simp only [userLowerboundary] at h
      split at h
      · rename_i v vs _ hvs
        simp only [Option.some.injEq] at h
        subst h
        simp [ih as vs hvs]
      · exact absurd h (by simp)

theorem FindInitial_length (w : RunEnv) (lb : List Value)
    (h : FindInitialPKFieldLowerboundary w = some lb) :
    lb.length = w.t.GetPKColumnNames.length := by
  unfold FindInitialPKFieldLowerboundary at h
  split at h
  · exact absurd h (by simp)
  · split at h
    · split at h
      · rename_i hlen
        rw [userLowerboundary_length _ _ _ h, hlen]
      · exact absurd h (by simp)
    · split at h
      · exact absurd h (by simp)
      · simp only [Option.some.injEq] at h
        subst h
        simp
      · split at h
        · rename_i hlen
          rw [transformLeading_length _ _ _ h, hlen]
        · exact absurd h (by simp)

theorem step_of_shape (lowest : Value) (L : List Value) (c : tableChunkInfo) (r : resultRow)
    (hd : L.dropLast = c.LowerBoundary.dropLast)
    (hl : L.getLast? = some c.LastPKFieldUpperBoundary)
    (hshape : (leadEq r.leading L.dropLast = true ∧ L.getLast? = some r.lb) ∨
      (leadLt L.dropLast r.leading = true ∧ r.lb = lowest)) :
    StepChunkRow lowest c r := by
  unfold StepChunkRow
  rw [← hd]
  rcases hshape with ⟨h1, h2⟩ | ⟨h1, h2⟩
  · refine ⟨Or.inr h1, fun _ => ?_, fun h => ?_⟩
    · rw [hl] at h2
      exact (Option.some.inj h2).symm
    · rw [h1] at h
      exact absurd h (by decide)
  · refine ⟨Or.inl h1, fun h => ?_, fun _ => h2⟩
    rw [leadEq_false_of_leadLt _ _ h1] at h
    exact absurd h (by decide)

/-- The driver loop keeps the logged chunks pairwise `Consecutive`. -/
theorem RunTableRoutineLoop_chain (w : RunEnv) (ft : iFieldType)
    (hft : w.t.lastPKfieldtype = some ft) (hh : HonestLookahead w.t w.dbSrc)
    (fuel : Nat) (st : RunState)
    (hinv : DriverInv ft.lowestFieldData w.t.GetPKColumnNames.length st) :
    List.Chain' (Consecutive ft.lowestFieldData) (RunTableRoutineLoop w fuel st).1.chunklog := by
  induction fuel generalizing st with
  | zero => exact hinv.1
  | succ n ih =>
    unfold RunTableRoutineLoop
    cases hp : TransformUpperBoundaryResult w.kind w.env w.t w.dbSrc st.lowerboundary with
    | none => exact hinv.1
    | some resultset =>
      simp only []
      obtain ⟨s1, s2, s3⟩ := planner_shape w.kind w.env w.t w.dbSrc ft st.lowerboundary
        resultset hft hh hinv.2.1 hp
      have hloop := RunTableChunkLoop_inv w ft
        (w.t.TableHashQueryChunkLevel w.env w.dbSrc w.env.ArgSrcTable)
        (w.t.TableHashQueryChunkLevel w.env w.dbTgt w.env.ArgTgtTable)
        ft.lowestFieldData w.t.GetPKColumnNames.length resultset (initialChunkInfo w) st hinv s1
        (fun r hr => by rw [s2 r hr, hinv.2.1])
        (fun c hc r hr => step_of_shape _ _ c r (hinv.2.2 c hc).1 (hinv.2.2 c hc).2 (s3 r hr))
      have hchunk : RunTableChunk w (initialChunkInfo w) resultset st =
          RunTableChunkLoop w ft
            (w.t.TableHashQueryChunkLevel w.env w.dbSrc w.env.ArgSrcTable)
            (w.t.TableHashQueryChunkLevel w.env w.dbTgt w.env.ArgTgtTable) resultset
            (initialChunkInfo w) st := by
        unfold RunTableChunk
        rw [hft]
      rw [hchunk]
      split
      · rename_i st1 heq
        rw [heq] at hloop
        exact ih st1 (hloop.2 rfl)
      · exact hloop.1

theorem RunTableChunkLoop_len (w : RunEnv) (ft0 : iFieldType) (qs qt : String) (k : Nat)
    (rows : List resultRow) (tci : tableChunkInfo) (st : RunState)
    (hinv : LenInv k st) (hlen : ∀ r ∈ rows, r.leading.length + 1 = k) :
    LenInv k (RunTableChunkLoop w ft0 qs qt rows tci st).1 := by
  induction rows generalizing tci st with
  | nil => exact hinv
  | cons row rest ih =>
    have hk : row.leading.length + 1 = k := hlen row (by simp)
    cases hr : ResetLowerboundaryUpperboundary w.kind w.env w.t row st.lowerboundary with
    | none =>
      simp only [RunTableChunkLoop, hr]
      exact hinv
    | some res =>
      obtain ⟨stop, ub, lb1⟩ := res
      have hlb1 : lb1 = row.leading ++ [row.lb] := by
        have h1 := Reset_lowerboundary _ _ _ _ _ _ _ _ hr
        rw [assignLowerboundary_full _ _ (by simp [hinv.1, hk])] at h1
        exact (Option.some.inj h1).symm
      subst hlb1
      have hl : (row.leading ++ [row.lb]).length = k := by simp [hk]
      simp only [RunTableChunkLoop, hr]
      split
      · exact ⟨hl, hinv.2⟩
      · exact ⟨hl, hinv.2⟩
      · split
        · exact ⟨hl, hinv.2⟩
        · rename_i tci2 line hcl
          obtain ⟨b1, _⟩ := RunTableRoutineChunkLevel_bounds _ _ _ _ _ _ _ tci2 line hcl
          simp only [] at b1
          have hlog : ∀ c ∈ st.chunklog ++ [tci2], c.LowerBoundary.length = k := by
            intro c hc
            simp only [List.mem_append, List.mem_singleton] at hc
            rcases hc with hc | hc
            · exact hinv.2 c hc
            · rw [hc, b1]; exact hl
          split
          · exact ⟨hl, hlog⟩
          · apply ih
            · refine ⟨?_, hlog⟩
              simp only [setLast, List.length_append, List.length_dropLast,
                List.length_singleton]
              omega
            · intro r hr
              exact hlen r (List.mem_cons_of_mem _ hr)

theorem RunTableRoutineLoop_len (w : RunEnv) (ft : iFieldType)
    (hft : w.t.lastPKfieldtype = some ft) (hh : HonestLookahead w.t w.dbSrc)
    (fuel : Nat) (st : RunState) (hinv : LenInv w.t.GetPKColumnNames.length st) :
    LenInv w.t.GetPKColumnNames.length (RunTableRoutineLoop w fuel st).1 := by
  induction fuel generalizing st with
  | zero => exact hinv
  | succ n ih =>
    unfold RunTableRoutineLoop
    cases hp : TransformUpperBoundaryResult w.kind w.env w.t w.dbSrc st.lowerboundary with
    | none => exact hinv
    | some resultset =>
      simp only []
      obtain ⟨_, s2, _⟩ := planner_shape w.kind w.env w.t w.dbSrc ft st.lowerboundary
        resultset hft hh hinv.1 hp
      have hloop := RunTableChunkLoop_len w ft
        (w.t.TableHashQueryChunkLevel w.env w.dbSrc w.env.ArgSrcTable)
        (w.t.TableHashQueryChunkLevel w.env w.dbTgt w.env.ArgTgtTable)
        w.t.GetPKColumnNames.length resultset (initialChunkInfo w) st hinv
        (fun r hr => by rw [s2 r hr, hinv.1])
      have hchunk : RunTableChunk w (initialChunkInfo w) resultset st =
          RunTableChunkLoop w ft
            (w.t.TableHashQueryChunkLevel w.env w.dbSrc w.env.ArgSrcTable)
            (w.t.TableHashQueryChunkLevel w.env w.dbTgt w.env.ArgTgtTable) resultset
            (initialChunkInfo w) st := by
        unfold RunTableChunk
        rw [hft]
      rw [hchunk]
      split
      · rename_i st1 heq
        rw [heq] at hloop
        exact ih st1 hloop
      · exact hloop

/-- C2 (amended): for any two consecutively emitted chunks (single-PK or
composite-PK) of a run on a source endpoint that honours the lookahead queries, the
leading-column values of the later chunk are greater than or equal to those of the
earlier one in lexicographic order; when the two chunks have the same leading-column
values (always so for single-PK, where the lower bound has the trailing cell only) the
trailing lower bound of the later chunk equals the trailing upper bound of the earlier
one; when the later chunk enters a new leading group its trailing lower bound is the
lowest value of the trailing field type.  Every recorded lower bound has one cell per
effective PK column. -/
theorem C2_boundary_monotonicity (w : RunEnv) (ft : iFieldType)
    (hft : w.t.lastPKfieldtype = some ft) (hh : HonestLookahead w.t w.dbSrc) (fuel : Nat) :
    List.Chain' (Consecutive ft.lowestFieldData) (RunTableRoutine w fuel).1.chunklog ∧
    ∀ c ∈ (RunTableRoutine w fuel).1.chunklog,
      c.LowerBoundary.length = w.t.GetPKColumnNames.length := by
  unfold RunTableRoutine
  cases hi : FindInitialPKFieldLowerboundary w with
  | none => exact ⟨List.chain'_nil, fun c hc => absurd hc (List.not_mem_nil c)⟩
  | some lb =>
    refine ⟨?_, ?_⟩
    · apply RunTableRoutineLoop_chain w ft hft hh fuel
      refine ⟨List.chain'_nil, FindInitial_length w lb hi, ?_⟩
      intro c hc
      simp at hc
    · exact (RunTableRoutineLoop_len w ft hft hh fuel _
        ⟨FindInitial_length w lb hi, fun c hc => absurd hc (List.not_mem_nil c)⟩).2

/-- For a single effective PK column, consecutive chunks share their boundary: the
lower bound of the later chunk is the upper bound of the earlier one. -/
theorem single_column_chunks_share_boundary (lowest : Value) (c c1 : tableChunkInfo)
    (h : Consecutive lowest c c1) (hc : c.LowerBoundary.length = 1)
    (hc1 : c1.LowerBoundary.length = 1) :
    c1.LowerBoundary = [c.LastPKFieldUpperBoundary] := by
  obtain ⟨a, ha⟩ := List.length_eq_one.1 hc
  obtain ⟨b, hb⟩ := List.length_eq_one.1 hc1
  have h2 := h.2.1
  rw [ha, hb] at h2
  simp only [List.dropLast_single, leadEq, List.getLast?_singleton, Option.some.injEq,
    true_implies] at h2
  rw [hb, h2]

/-! ### The table endpoint of scenario S4 honours the lookahead queries -/

theorem mem_subLists_of_sublist {α : Type} (s l : List α) (h : s.Sublist l) :
    s ∈ subLists l := by
  induction h with
  | slnil => simp [subLists]
  | cons a _ ih =>
    simp only [subLists, List.mem_append]
    exact Or.inl ih
  | cons₂ a _ ih =>
    simp only [subLists, List.mem_append, List.mem_map]
    exact Or.inr ⟨_, ih, rfl⟩

theorem groupLeading_leading_mem (keys : List (List Value)) :
    ∀ g ∈ groupLeading keys, ∃ k ∈ keys, g.leading = k.dropLast := by
  induction keys with
  | nil => intro g hg; simp [groupLeading] at hg
  | cons k ks ih =>
    intro g hg
    simp only [groupLeading] at hg
    cases hgl : groupLeading ks with
    | nil =>
      simp only [hgl, List.mem_singleton] at hg
      subst hg
      exact ⟨k, by simp, rfl⟩
    | cons g0 gs =>
      simp only [hgl] at hg
      split at hg
      · simp only [List.mem_cons] at hg
        rcases hg with hg | hg
        · subst hg
          obtain ⟨k1, hk1, he⟩ := ih g0 (by simp [hgl])
          exact ⟨k1, List.mem_cons_of_mem _ hk1, he⟩
        · obtain ⟨k1, hk1, he⟩ := ih g (by simp [hgl, hg])
          exact ⟨k1, List.mem_cons_of_mem _ hk1, he⟩
      · simp only [List.mem_cons] at hg
        rcases hg with hg | hg | hg
        · subst hg
          exact ⟨k, by simp, rfl⟩
        · subst hg
          obtain ⟨k1, hk1, he⟩ := ih g (by simp [hgl])
          exact ⟨k1, List.mem_cons_of_mem _ hk1, he⟩
        · obtain ⟨k1, hk1, he⟩ := ih g (by simp [hgl, hg])
          exact ⟨k1, List.mem_cons_of_mem _ hk1, he⟩

theorem whereLeading_of_whereLookahead (ops : List String) (ps k : List Value)
    (h : whereLookahead ops ps (k.take ops.length) = some true) :
    whereLeading ops ps k.dropLast = true := by
  induction ops generalizing ps k with
  | nil => cases ps <;> cases k.dropLast <;> simp [whereLeading]
  | cons op ops ih =>
    cases ps with
    | nil => cases k.dropLast <;> simp [whereLeading]
    | cons p ps =>
      cases k with
      | nil => simp [whereLookahead] at h
      | cons c k1 =>
        cases k1 with
        | nil => simp [whereLeading]
        | cons d k2 =>
          simp only [List.length_cons, List.take_succ_cons, whereLookahead] at h
          cases ho : whereOp op c p with
          | none => simp [ho] at h
          | some b =>
            cases hw : whereLookahead ops ps ((d :: k2).take ops.length) with
            | none => simp [ho, hw] at h
            | some bs =>
              simp only [ho, hw, Option.some.injEq, Bool.and_eq_true] at h
              obtain ⟨hb, hbs⟩ := h
              subst hb hbs
              simp only [List.dropLast_cons₂, whereLeading, Bool.and_eq_true, Bool.or_eq_true,
                decide_eq_true_eq]
              refine ⟨?_, ih ps (d :: k2) hw⟩
              unfold whereOp at ho
              by_cases h1 : op = "="
              · simp only [h1, if_true, Option.some.injEq] at ho
                exact Or.inl (Or.inl ⟨h1, ho⟩)
              · by_cases h2 : op = ">"
                · simp only [h2, if_true, Option.some.injEq] at ho
                  simp only [show ¬ (">" = "=") by decide, if_false] at ho
                  exact Or.inl (Or.inr ⟨h2, Option.some.inj ho⟩)
                · by_cases h3 : op = ">="
                  · simp only [h3, if_true, Option.some.injEq] at ho
                    simp only [show ¬ (">=" = "=") by decide, show ¬ (">=" = ">") by decide,
                      if_false] at ho
                    exact Or.inr ⟨h3, Option.some.inj ho⟩
                  · simp [h1, h2, h3] at ho

theorem canonLeading_of_identity (t : pkTable)
    (hid : ∀ c ∈ t.GetPKColumns, ∀ v, c.FieldType.transformDBResultType v = some v)
    (rub : List ubRow) (leads : List (List Value)) (h : canonLeading t rub = some leads) :
    leads = rub.map (fun r => r.leading) := by
  have htl : ∀ (cols : List pkColumn) (vs l : List Value),
      (∀ c ∈ cols, ∀ v, c.FieldType.transformDBResultType v = some v) →
      transformLeading cols vs = some l → l = vs := by
    intro cols vs
    induction vs generalizing cols with
    | nil =>
      intro l _ h
      cases cols <;> simp [transformLeading] at h <;> exact h
    | cons v vs ih =>
      intro l hc h
      cases cols with
      | nil => simp [transformLeading] at h
      | cons c cs =>
        simp only [transformLeading, hc c (by simp)] at h
        cases h2 : transformLeading cs vs with
        | none => simp [h2] at h
        | some xs =>
          simp only [h2, Option.some.injEq] at h
          rw [← h, ih cs xs (fun c1 hc1 => hc c1 (List.mem_cons_of_mem _ hc1)) h2]
  induction rub generalizing leads with
  | nil =>
    simp only [canonLeading, Option.some.injEq] at h
    subst h
    rfl
  | cons r rs ih =>
    simp only [canonLeading] at h
    cases h1 : transformLeading t.GetPKColumns r.leading with
    | none => simp [h1] at h
    | some l =>
      cases h2 : canonLeading t rs with
      | none => simp [h1, h2] at h
      | some ls =>
        simp only [h1, h2, Option.some.injEq] at h
        subst h
        simp [htl _ _ _ hid h1, ih ls h2]

theorem chain_of_chainB {α : Type} (R : α → α → Bool) (l : List α) (h : chainB R l = true) :
    List.Chain' (fun a b => R a b = true) l := by
  induction l with
  | nil => exact List.chain'_nil
  | cons a rest ih =>
    cases rest with
    | nil => exact List.chain'_singleton a
    | cons b rest2 =>
      simp only [chainB, Bool.and_eq_true] at h
      exact List.chain'_cons.2 ⟨h.1, ih h.2⟩

theorem compositeSorted_groups_increase :
    (subLists compositeSorted).all (fun S =>
      chainB leadLt ((groupLeading (S.map (fun r => r.key [0, 1]))).map (fun g => g.leading))) =
      true := by
  decide

theorem compositeRun_honest : HonestLookahead compositeRun.t compositeRun.dbSrc := by
  intro ops limit inputs rub leads hl hc
  have hid : ∀ c ∈ compositeRun.t.GetPKColumns, ∀ v,
      c.FieldType.transformDBResultType v = some v := by
    intro c hc v
    have : c = intColumn "g" false ∨ c = intColumn "id" false := by
      simpa [compositeRun, intRun, intTable, pkTable.GetPKColumns] using hc
    rcases this with h | h <;> subst h <;> rfl
  have hleads := canonLeading_of_identity compositeRun.t hid rub leads hc
  subst hleads
  change tableLookahead
    (intRows [([1, 1], 10), ([1, 2], 20), ([1, 3], 30), ([2, 1], 40), ([2, 2], 50)])
    [0, 1] ops limit inputs = some rub at hl
  unfold tableLookahead at hl
  split at hl
  · exact absurd hl (by simp)
  · split at hl
    · exact absurd hl (by simp)
    · simp only [List.length_cons, List.length_nil, zero_add, Nat.reduceAdd,
        show ¬ (2 = 1) by decide, if_false, Option.some.injEq] at hl
      subst hl
      refine ⟨?_, ?_⟩
      · intro l hl
        obtain ⟨g, hg, rfl⟩ := List.mem_map.1 hl
        obtain ⟨k, hk, hgk⟩ := groupLeading_leading_mem _ g hg
        obtain ⟨r, hr, rfl⟩ := List.mem_map.1 hk
        have hr2 := List.mem_of_mem_take hr
        rw [List.mem_filter] at hr2
        rw [hgk]
        apply whereLeading_of_whereLookahead
        simpa using hr2.2
      · apply chain_of_chainB
        have hsub : (List.take limit.toNat (List.filter
            (fun r => decide (whereLookahead ops inputs
              (List.take ops.length (DBRow.key [0, 1] r)) = some true))
            compositeSorted)).Sublist compositeSorted :=
          (List.take_sublist _ _).trans (List.filter_sublist _)
        have hall := List.all_eq_true.1 compositeSorted_groups_increase _
          (mem_subLists_of_sublist _ _ hsub)
        exact hall

/-- Witness of C2 (amended) on scenario S4: the five emitted chunks are pairwise
consecutive in the amended sense; the fourth enters the group `g = 2` at the lowest
integer. -/
theorem C2_boundary_monotonicity_witness :
    compositeRun.t.lastPKfieldtype = some fieldtypeInt ∧
    HonestLookahead compositeRun.t compositeRun.dbSrc ∧
    (RunTableRoutine compositeRun 10).1.chunklog.length = 5 ∧
    (List.Chain' (Consecutive fieldtypeInt.lowestFieldData)
      (RunTableRoutine compositeRun 10).1.chunklog ∧
    ∀ c ∈ (RunTableRoutine compositeRun 10).1.chunklog,
      c.LowerBoundary.length = compositeRun.t.GetPKColumnNames.length) :=
  ⟨by rfl, compositeRun_honest, by decide,
    C2_boundary_monotonicity compositeRun fieldtypeInt (by rfl) compositeRun_honest 10⟩

/-! ### Chunk size -/

/-- C20: for every integer chunk-size argument `c`, the chunk size stored by `SetArgs`
is `max c 2`: it is at least 2 and equals `c` whenever `c` is at least 2. -/
theorem C20_chunk_size_is_max_with_two (argDebug argTrace : Bool)
    (argLowerboundary argUpperboundary argTable argSrcTable argTgtTable : String)
    (argChunksize : Int) (argPKColumnSequence argIgnoreFields argAdditionalFilter : String)
    (env : envarg)
    (h : SetArgs argDebug argTrace argLowerboundary argUpperboundary argTable argSrcTable
      argTgtTable argChunksize argPKColumnSequence argIgnoreFields argAdditionalFilter =
        some env) :
    env.ArgChunksize = max argChunksize 2 ∧ 2 ≤ env.ArgChunksize ∧
      (2 ≤ argChunksize → env.ArgChunksize = argChunksize) := by
  have hc : env.ArgChunksize = if argChunksize ≤ 1 then 2 else argChunksize := by
    unfold SetArgs at h
    simp only at h
    split_ifs at h <;> first | (cases h; done) | (cases h; simp [*])
  rw [hc]
  split_ifs with h1
  · refine ⟨?_, le_refl _, fun h2 => ?_⟩ <;> omega
  · refine ⟨?_, ?_, fun _ => rfl⟩ <;> omega

/-- Witness of C20: `-c 1` on table `t` is stored as chunk size 2, `-c 1000` as 1000,
and a negative size as 2. -/
theorem C20_chunk_size_is_max_with_two_witness :
    (SetArgs false false "" "" "t" "" "" 1 "" "" "" = some (plainArgs 2) ∧
      (plainArgs 2).ArgChunksize = max 1 2 ∧ 2 ≤ (plainArgs 2).ArgChunksize ∧
      ((2 : Int) ≤ 1 → (plainArgs 2).ArgChunksize = 1)) ∧
    (SetArgs false false "" "" "t" "" "" 1000 "" "" "").map (fun e => e.ArgChunksize) =
      some 1000 ∧
    (SetArgs false false "" "" "t" "" "" (-5) "" "" "").map (fun e => e.ArgChunksize) =
      some 2 :=
  ⟨⟨by rfl, C20_chunk_size_is_max_with_two false false "" "" "t" "" "" 1 "" "" ""
      (plainArgs 2) (by rfl)⟩, by rfl, by rfl⟩

/-! ### Decimal rendering and parsing -/

theorem digitChar_isDigit (m : Nat) (h : m < 10) :
    (Nat.digitChar m).isDigit = true ∧ (Nat.digitChar m).toNat - 48 = m := by
  interval_cases m <;> exact ⟨by decide, by decide⟩

theorem isDigit_not_sign (c : Char) (h : c.isDigit = true) : c ≠ '+' ∧ c ≠ '-' := by
  constructor <;> (intro hc; subst hc; revert h; decide)

/-- The digit loop of `ParseUint` reads a decimal digit `d` after the value `k`. -/
theorem parseUintLoop_digit (k d : Nat) (hd : d < 10) (hk : k * 10 + d ≤ maxUint64)
    (rest : List Char) :
    parseUintLoop (Nat.digitChar d :: rest) k = parseUintLoop rest (k * 10 + d) := by
  obtain ⟨hd1, hd2⟩ := digitChar_isDigit d hd
  have h1 : ¬ (maxUint64 / 10 + 1 ≤ k) := by
    unfold maxUint64 at hk ⊢
    omega
  have h2 : ¬ (maxUint64 < k * 10 + d) := by omega
  simp [parseUintLoop, hd1, hd2, h1, h2]

/-- Reading back what `toDigitsCore` writes in front of an accumulator: the digit
loop of `ParseUint`, started at 0, arrives at the accumulator with the value `n`. -/
theorem parseUintLoop_toDigitsCore (fuel : Nat) (rest : List Char) :
    ∀ (n : Nat) (acc : List Char), n < fuel → n ≤ maxUint64 →
      parseUintLoop (Nat.toDigitsCore 10 fuel n acc ++ rest) 0 =
        parseUintLoop (acc ++ rest) n := by
  induction fuel with
  | zero => intro n acc h; omega
  | succ fuel ih =>
    intro n acc h hle
    have hm : n % 10 < 10 := Nat.mod_lt _ (by decide)
    by_cases h0 : n / 10 = 0
    · have hn : n % 10 = n := by omega
      have hstep := parseUintLoop_digit 0 (n % 10) hm (by omega) (acc ++ rest)
      simp only [Nat.toDigitsCore, h0, if_true, List.cons_append]
      rw [hstep, Nat.zero_mul, Nat.zero_add, hn]
    · have hstep := parseUintLoop_digit (n / 10) (n % 10) hm (by omega) (acc ++ rest)
      have hle1 : n / 10 ≤ maxUint64 := le_trans (Nat.div_le_self _ _) hle
      have hval : n / 10 * 10 + n % 10 = n := by omega
      simp only [Nat.toDigitsCore, h0, if_false]
      rw [ih (n / 10) (Nat.digitChar (n % 10) :: acc) (by omega) hle1, List.cons_append, hstep,
        hval]

/-- Whatever `toDigitsCore` writes are decimal digits, when the accumulator holds
decimal digits only. -/
theorem toDigitsCore_isDigit (fuel : Nat) :
    ∀ (n : Nat) (acc : List Char), (∀ c ∈ acc, c.isDigit = true) →
      ∀ c ∈ Nat.toDigitsCore 10 fuel n acc, c.isDigit = true := by
  induction fuel with
  | zero => intro n acc h; simpa [Nat.toDigitsCore] using h
  | succ fuel ih =>
    intro n acc h
    have hm : n % 10 < 10 := Nat.mod_lt _ (by decide)
    have hacc : ∀ c ∈ Nat.digitChar (n % 10) :: acc, c.isDigit = true := by
      intro c hc
      rcases List.mem_cons.1 hc with rfl | hc
      · exact (digitChar_isDigit (n % 10) hm).1
      · exact h c hc
    by_cases h0 : n / 10 = 0
    · simpa [Nat.toDigitsCore, h0] using hacc
    · simp only [Nat.toDigitsCore, h0, if_false]
      exact ih _ _ hacc

/-- With some fuel `toDigitsCore` writes at least one character. -/
theorem toDigitsCore_ne_nil (fuel : Nat) :
    ∀ (n : Nat) (acc : List Char), (0 < fuel ∨ acc ≠ []) →
      Nat.toDigitsCore 10 fuel n acc ≠ [] := by
  induction fuel with
  | zero =>
    intro n acc h
    rcases h with h | h
    · omega
    · simpa [Nat.toDigitsCore] using h
  | succ fuel ih =>
    intro n acc _
    by_cases h0 : n / 10 = 0
    · simp [Nat.toDigitsCore, h0]
    · simp only [Nat.toDigitsCore, h0, if_false]
      exact ih _ _ (Or.inr (List.cons_ne_nil _ _))

/-- The digits of `n`: a non-empty run of decimal digits that the digit loop of
`ParseUint` reads back as `n`. -/
theorem toDigits_parse (n : Nat) :
    Nat.toDigits 10 n ≠ [] ∧ (∀ c ∈ Nat.toDigits 10 n, c.isDigit = true) ∧
      (n ≤ maxUint64 → parseUintLoop (Nat.toDigits 10 n) 0 = UintResult.ok n) := by
  unfold Nat.toDigits
  refine ⟨toDigitsCore_ne_nil _ _ _ (Or.inl (Nat.succ_pos n)),
    toDigitsCore_isDigit _ _ _ (fun c hc => absurd hc (List.not_mem_nil c)), fun h => ?_⟩
  have := parseUintLoop_toDigitsCore (n + 1) [] n [] (Nat.lt_succ_self n) h
  simpa [parseUintLoop] using this

/-- Round trip: parsing the decimal rendering of a 64-bit integer gives it back. -/
theorem ParseInt_fmtInt (n : Int) (h1 : -(2 ^ 63) ≤ n) (h2 : n ≤ 2 ^ 63 - 1) :
    ParseInt (fmtInt n) = n := by
  cases n with
  | ofNat m =>
    obtain ⟨e1, e2, e3⟩ := toDigits_parse m
    have h2c : (m : Int) ≤ 2 ^ 63 - 1 := h2
    have hm : m ≤ 2 ^ 63 - 1 := by omega
    have e4 := e3 (by unfold maxUint64; omega)
    unfold ParseInt fmtInt
    simp only
    cases hd : Nat.toDigits 10 m with
    | nil => exact absurd hd e1
    | cons c cs =>
      rw [hd] at e2 e4
      obtain ⟨s1, s2⟩ := isDigit_not_sign c (e2 c (List.mem_cons_self _ _))
      simp only [s1, s2, or_self, if_false, e4, decide_False, Bool.not_false, Bool.true_and,
        Bool.false_and]
      have : ¬ (m ≥ 2 ^ 63) := by omega
      simp only [this, decide_False, Bool.false_eq_true, if_false]
      rfl
  | negSucc m =>
    obtain ⟨e1, e2, e3⟩ := toDigits_parse (m + 1)
    have hm : m + 1 ≤ 2 ^ 63 := by
      rw [Int.negSucc_eq] at h1
      omega
    have e4 := e3 (by unfold maxUint64; omega)
    unfold ParseInt fmtInt
    simp only
    cases hd : Nat.toDigits 10 (m + 1) with
    | nil => exact absurd hd e1
    | cons c cs =>
      rw [hd] at e4
      simp only [or_true, if_true, e4, decide_True, Bool.not_true, Bool.false_and, Bool.true_and]
      have : ¬ (m + 1 > 2 ^ 63) := by omega
      simp only [this, decide_False, Bool.false_eq_true, if_false]
      rw [Int.negSucc_eq]
      push_cast
      rfl

/-- Every value of `ParseInt` is a 64-bit integer. -/
theorem ParseInt_range (s : String) : -(2 ^ 63) ≤ ParseInt s ∧ ParseInt s ≤ 2 ^ 63 - 1 := by
  unfold ParseInt
  split
  · constructor <;> norm_num
  · simp only
    split
    · constructor <;> norm_num
    · split
      · constructor <;> norm_num
      · split <;> constructor <;> norm_num
      · rename_i un _
        split_ifs with a b c
        · constructor <;> norm_num
        · constructor <;> norm_num
        · simp only [Bool.and_eq_true, decide_eq_true_eq, Bool.not_eq_true', not_and] at a b
          have : (un : Int) ≤ 2 ^ 63 := by
            have := b (by simpa using c)
            push_neg at this
            exact_mod_cast this
          constructor <;> omega
        · simp only [Bool.and_eq_true, decide_eq_true_eq, Bool.not_eq_true', not_and] at a b
          have hc : ¬ (un ≥ 2 ^ 63) := a (by simpa using c)
          have : (un : Int) < 2 ^ 63 := by
            push_neg at hc
            exact_mod_cast hc
          constructor <;> omega

/-! ### Type round trip -/

/-- C16: for the Int handler and every input value `x` (numeric or not, in range or
not), canonicalising the printed canonical form of `x` gives the canonical form of `x`
again, and the canonical form equals itself; for the Char handler the same holds for
every string. -/
theorem C16_type_round_trip :
    (∀ x : Value, ∃ y, fieldtypeInt.transformFieldType x = some y ∧
      fieldtypeInt.transformFieldType (Value.str (fmtSprint y)) = some y ∧
      fieldtypeInt.equals y y = some true) ∧
    (∀ s : String, ∃ y, fieldtypeChar.transformFieldType (Value.str s) = some y ∧
      fieldtypeChar.transformFieldType (Value.str (fmtSprint y)) = some y ∧
      fieldtypeChar.equals y y = some true) := by
  constructor
  · intro x
    obtain ⟨h1, h2⟩ := ParseInt_range (fmtSprint x)
    refine ⟨Value.int (ParseInt (fmtSprint x)), rfl, ?_, ?_⟩
    · show some (Value.int (ParseInt (fmtInt (ParseInt (fmtSprint x))))) = _
      rw [ParseInt_fmtInt _ h1 h2]
    · simp [fieldtypeInt]
  · intro s
    exact ⟨Value.str s, rfl, rfl, by simp [fieldtypeChar, assertString]⟩

/-! ### Effective PK sequence -/

theorem selectColumns_nat (l : List pkColumn) : ∀ idxs : List Nat, (∀ i ∈ idxs, i < l.length) →
    ∃ cols, selectColumns l (idxs.map (fun (i : Nat) => (i : Int))) = some cols ∧
      cols.length = idxs.length ∧ ∀ j i, idxs.get? j = some i → cols.get? j = l.get? i := by
  intro idxs
  induction idxs with
  | nil => intro _; exact ⟨[], rfl, rfl, fun j i h => by simp at h⟩
  | cons a idxs ih =>
    intro h
    obtain ⟨cols, e1, e2, e3⟩ := ih (fun i hi => h i (List.mem_cons_of_mem _ hi))
    have ha : a < l.length := h a (List.mem_cons_self _ _)
    obtain ⟨c, hc⟩ : ∃ c, l.get? a = some c := ⟨l.get ⟨a, ha⟩, List.get?_eq_get ha⟩
    refine ⟨c :: cols, ?_, by simp [e2], ?_⟩
    · have hneg : ¬ ((a : Int) < 0) := by omega
      simp only [List.map_cons, selectColumns, hneg, if_false, Int.toNat_ofNat, hc, e1]
    · intro j i hj
      cases j with
      | zero =>
        simp only [List.get?_cons_zero, Option.some.injEq] at hj
        subst hj
        rw [List.get?_cons_zero, hc]
      | succ j =>
        simp only [List.get?_cons_succ] at hj ⊢
        exact e3 j i hj

theorem fmtInt_ne_empty (p : Nat) : fmtInt (p : Int) ≠ "" := by
  intro h
  have h1 : (fmtInt (p : Int)).data = [] := by rw [h]
  exact (toDigits_parse p).1 h1

theorem Atoi_fmtInt_pred (p : Nat) (h1 : 1 ≤ p) (h2 : p < 2 ^ 63) :
    Atoi (fmtInt (p : Int)) - 1 = ((p - 1 : Nat) : Int) := by
  unfold Atoi
  rw [ParseInt_fmtInt _ (by omega) (by omega)]
  omega

/-- C12: without a column sequence the effective PK columns are the declared ones;
with a vector `s` of 1-based positions, each between 1 and the declared arity, the
`i`-th effective column is the declared column at position `s[i]`; in both cases the
effective names are the names of the effective columns. -/
theorem C12_init_effective_sequence (env : envarg) (pkColumns : List pkColumn)
    (hlen : pkColumns.length < 2 ^ 63) :
    (env.ArgPKColumnSequence = [""] →
      ∃ t, pkTable.init env pkColumns = some t ∧ t.GetPKColumns = pkColumns ∧
        t.GetPKColumnNames = t.GetPKColumns.map (fun c => c.ColumnName)) ∧
    (∀ s : List Nat, (∀ p ∈ s, 1 ≤ p ∧ p ≤ pkColumns.length) →
      env.ArgPKColumnSequence = s.map (fun (p : Nat) => fmtInt (p : Int)) →
      ∃ t, pkTable.init env pkColumns = some t ∧
        t.GetPKColumns.length = s.length ∧
        (∀ i p, s.get? i = some p → t.GetPKColumns.get? i = pkColumns.get? (p - 1)) ∧
        t.GetPKColumnNames = t.GetPKColumns.map (fun c => c.ColumnName)) := by
  constructor
  · intro hs
    obtain ⟨cols, e1, e2, e3⟩ := selectColumns_nat pkColumns (List.range pkColumns.length)
      (fun i hi => List.mem_range.1 hi)
    have hcols : cols = pkColumns := by
      apply List.ext_get?
      intro j
      by_cases hj : j < pkColumns.length
      · exact e3 j j (by rw [List.get?_eq_getElem?, List.getElem?_range hj])
      · have h1 : cols.get? j = none := List.get?_eq_none.2 (by simp at e2; omega)
        have h2 : pkColumns.get? j = none := List.get?_eq_none.2 (by omega)
        rw [h1, h2]
    refine ⟨{ _pkColumns := cols, _pkColumnNames := cols.map (fun c => c.ColumnName),
              _allPKColumns := pkColumns }, ?_, hcols, rfl⟩
    simp only [pkTable.init, hs, if_true, e1, Option.map_some']
  · intro s hs hseq
    have hne1 : s.map (fun (p : Nat) => fmtInt (p : Int)) ≠ [""] := by
      intro h
      cases s with
      | nil => simp at h
      | cons p s =>
        simp only [List.map_cons, List.cons.injEq] at h
        exact fmtInt_ne_empty p h.1
    have hmap : (s.map (fun (p : Nat) => fmtInt (p : Int))).map (fun seq => Atoi seq - 1) =
        (s.map (fun (p : Nat) => p - 1)).map (fun (i : Nat) => (i : Int)) := by
      rw [List.map_map, List.map_map]
      apply List.map_congr_left
      intro p hp
      exact Atoi_fmtInt_pred p (hs p hp).1 (by have := (hs p hp).2; omega)
    obtain ⟨cols, e1, e2, e3⟩ := selectColumns_nat pkColumns (s.map (fun (p : Nat) => p - 1))
      (fun i hi => by
        obtain ⟨p, hp, rfl⟩ := List.mem_map.1 hi
        have := hs p hp
        omega)
    refine ⟨{ _pkColumns := cols, _pkColumnNames := cols.map (fun c => c.ColumnName),
              _allPKColumns := pkColumns }, ?_, by simpa using e2, ?_, rfl⟩
    · simp only [pkTable.init, hseq, hne1, if_false, hmap, e1, Option.map_some']
    · intro i p hi
      exact e3 i (p - 1) (by rw [List.get?_eq_getElem?, List.getElem?_map,
        ← List.get?_eq_getElem?, hi]; rfl)

/-- Witness of C12 on a declared key `(a, b, c)`: without `-S` the effective columns
are `a, b, c`; with `-S 3,1` they are `c, a`. -/
theorem C12_init_effective_sequence_witness :
    ([intColumn "a" false, intColumn "b" false, intColumn "c" true] ≠ [] ∧
      [intColumn "a" false, intColumn "b" false, intColumn "c" true].length < 2 ^ 63) ∧
    ((pkTable.init { plainArgs 2 with ArgPKColumnSequence := ["3", "1"] }
        [intColumn "a" false, intColumn "b" false, intColumn "c" true]).map
        (fun t => t.GetPKColumnNames) = some ["c", "a"] ∧
      (pkTable.init (plainArgs 2)
        [intColumn "a" false, intColumn "b" false, intColumn "c" true]).map
        (fun t => t.GetPKColumnNames) = some ["a", "b", "c"]) ∧
    ∃ t, pkTable.init { plainArgs 2 with ArgPKColumnSequence := ["3", "1"] }
        [intColumn "a" false, intColumn "b" false, intColumn "c" true] = some t ∧
      t.GetPKColumns.length = [3, 1].length ∧
      (∀ i p, [3, 1].get? i = some p → t.GetPKColumns.get? i =
        [intColumn "a" false, intColumn "b" false, intColumn "c" true].get? (p - 1)) ∧
      t.GetPKColumnNames = t.GetPKColumns.map (fun c => c.ColumnName) :=
  ⟨⟨by simp, by simp⟩, ⟨by rfl, by rfl⟩,
    (C12_init_effective_sequence { plainArgs 2 with ArgPKColumnSequence := ["3", "1"] }
      [intColumn "a" false, intColumn "b" false, intColumn "c" true] (by simp)).2
      [3, 1] (by decide) (by rfl)⟩

/-! ### Selection of the implementation -/

/-- C11, failing input: declared key `(a, b)` with the rows `(1,1), (1,2), (2,1)`,
`-S 1`, chunk size 3.  The effective sequence has exactly one element, but `RunTable`
chooses by the number of declared columns, so the composite implementation is taken;
its planner knows the arities 2, 3 and 4 only and the run dies on the first planner
call without a chunk.  The single-PK implementation handles the same input: one chunk
from 1 to 2 over the three rows, then the last record. -/
theorem C11_one_column_of_composite_key_goes_to_composite_planner :
    (∀ allpkcolumns, RunTableKind allpkcolumns = pkKind.single ↔ allpkcolumns.length = 1) ∧
    (pkTable.init selectArgs selectDeclared).map (fun t => t.GetPKColumnNames) = some ["a"] ∧
    RunTableKind selectDeclared = pkKind.multi ∧
    (∀ t db lb, pkTable.init selectArgs selectDeclared = some t →
      TransformUpperBoundaryResult (RunTableKind selectDeclared) selectArgs t db lb = none) ∧
    (∀ fuel, RunTable selectArgs selectDeclared selectDB selectDB marshalInts (fun _ => true)
        (fuel + 1) =
      some ({ chunkidx := 0, lowerboundary := [Value.int 1], chunklog := [], rowlog := [] },
        Outcome.abort)) ∧
    (∀ fuel, ((RunTableRoutine selectSingleRun (fuel + 2)).1.chunklog.map
        (fun c => (c.LowerBoundary, c.LastPKFieldUpperBoundary, c.Match, c.RowcntSrc,
          c.RowcntTgt)) = [([Value.int 1], Value.int 2, true, 3, 3)]) ∧
      (RunTableRoutine selectSingleRun (fuel + 2)).2 = Outcome.stop) := by
  refine ⟨?_, by rfl, by rfl, ?_, fun fuel => by rfl, fun fuel => ⟨by rfl, by rfl⟩⟩
  · intro allpkcolumns
    unfold RunTableKind
    split_ifs with h <;> simp [h]
  · intro t db lb ht
    have h2 : pkTable.init selectArgs selectDeclared = some selectSingleRun.t := by rfl
    have h1 : t = selectSingleRun.t := by
      rw [h2] at ht
      exact (Option.some.inj ht).symm
    subst h1
    rfl

/-! ### Termination of the driver loop -/

theorem RunTableChunk_nil (w : RunEnv) (ft : iFieldType) (hft : w.t.lastPKfieldtype = some ft)
    (tci : tableChunkInfo) (st : RunState) :
    RunTableChunk w tci [] st = (st, Outcome.more) := by
  unfold RunTableChunk
  rw [hft]
  rfl

theorem RunTableRoutineLoop_of_empty (w : RunEnv) (ft : iFieldType)
    (hft : w.t.lastPKfieldtype = some ft) (st : RunState)
    (hp : TransformUpperBoundaryResult w.kind w.env w.t w.dbSrc st.lowerboundary = some []) :
    ∀ fuel, RunTableRoutineLoop w fuel st = (st, Outcome.more) := by
  intro fuel
  induction fuel with
  | zero => rfl
  | succ fuel ih =>
    simp only [RunTableRoutineLoop, hp, RunTableChunk_nil w ft hft, ih]

/-- C13, what the code does: when the planner returns a resultset with no rows,
`RunTableChunk` returns `stoprun = false` with the state unchanged, so the loop of
`RunTableRoutine` asks the planner again from the same lower boundary and is still
running after any number of iterations. -/
theorem C13_empty_resultset_does_not_stop (w : RunEnv) (ft : iFieldType)
    (hft : w.t.lastPKfieldtype = some ft) (tci : tableChunkInfo) (st : RunState)
    (hp : TransformUpperBoundaryResult w.kind w.env w.t w.dbSrc st.lowerboundary = some []) :
    RunTableChunk w tci [] st = (st, Outcome.more) ∧
      ∀ fuel, RunTableRoutineLoop w fuel st = (st, Outcome.more) :=
  ⟨RunTableChunk_nil w ft hft tci st, RunTableRoutineLoop_of_empty w ft hft st hp⟩

/-- C13, failing input: composite key `(g, id)` with the rows `(1,1), (1,2)`, chunk
size 2 and `-l 2,1`.  The planner finds no row at or after the lower boundary and the
run never stops. -/
theorem C13_empty_resultset_does_not_stop_witness :
    FindInitialPKFieldLowerboundary beyondRun = some [Value.int 2, Value.int 1] ∧
    beyondRun.t.lastPKfieldtype = some fieldtypeInt ∧
    TransformUpperBoundaryResult beyondRun.kind beyondRun.env beyondRun.t beyondRun.dbSrc
      [Value.int 2, Value.int 1] = some [] ∧
    (RunTableChunk beyondRun (initialChunkInfo beyondRun) []
        { chunkidx := 0, lowerboundary := [Value.int 2, Value.int 1], chunklog := [],
          rowlog := [] } =
      ({ chunkidx := 0, lowerboundary := [Value.int 2, Value.int 1], chunklog := [],
         rowlog := [] }, Outcome.more) ∧
      ∀ fuel, RunTableRoutineLoop beyondRun fuel
        { chunkidx := 0, lowerboundary := [Value.int 2, Value.int 1], chunklog := [],
          rowlog := [] } =
        ({ chunkidx := 0, lowerboundary := [Value.int 2, Value.int 1], chunklog := [],
           rowlog := [] }, Outcome.more)) :=
  ⟨by rfl, by rfl, by rfl,
    C13_empty_resultset_does_not_stop beyondRun fieldtypeInt (by rfl) (initialChunkInfo beyondRun)
      { chunkidx := 0, lowerboundary := [Value.int 2, Value.int 1], chunklog := [],
        rowlog := [] } (by rfl)⟩

/-- C15, failing inputs: an empty source table.  With a composite key `(g, id)` the
initial probe has no row, the lower boundary is `nil, nil`, every planner call has no
row and the run is still running after any number of iterations (no chunk, no log
line, no end).  With a single character key the run dies on the first planner call,
canonicalising the `NULL` maximum.  With a single integer key it stops at once. -/
theorem C15_empty_composite_source_never_terminates :
    emptyCompositeRun.dbSrc.firstRow "t" ["g", "id"] = some [] ∧
    (∀ fuel, RunTableRoutine emptyCompositeRun fuel =
      ({ chunkidx := 0, lowerboundary := [Value.null, Value.null], chunklog := [],
         rowlog := [] }, Outcome.more)) ∧
    emptyCharRun.dbSrc.firstRow "t" ["name"] = some [] ∧
    (∀ fuel, RunTableRoutine emptyCharRun (fuel + 1) =
      ({ chunkidx := 0, lowerboundary := [Value.null], chunklog := [], rowlog := [] },
        Outcome.abort)) ∧
    emptyIntRun.dbSrc.firstRow "t" ["id"] = some [] ∧
    (∀ fuel, RunTableRoutine emptyIntRun (fuel + 1) =
      ({ chunkidx := 0, lowerboundary := [Value.null], chunklog := [], rowlog := [] },
        Outcome.stop)) := by
  refine ⟨by rfl, ?_, by rfl, fun fuel => by rfl, by rfl, fun fuel => by rfl⟩
  intro fuel
  have h : FindInitialPKFieldLowerboundary emptyCompositeRun =
      some [Value.null, Value.null] := by rfl
  unfold RunTableRoutine
  rw [h]
  exact RunTableRoutineLoop_of_empty emptyCompositeRun fieldtypeInt (by rfl) _ (by rfl) fuel

/-! ### Last record -/

/-- The chunk log only grows while `RunTableChunk` processes a resultset. -/
theorem RunTableChunkLoop_chunklog_length (w : RunEnv) (ft : iFieldType) (qs qt : String) :
    ∀ (rows : List resultRow) (tci : tableChunkInfo) (st : RunState),
      st.chunklog.length ≤ (RunTableChunkLoop w ft qs qt rows tci st).1.chunklog.length := by
  intro rows
  induction rows with
  | nil => intro tci st; exact le_refl _
  | cons row rest ih =>
    intro tci st
    unfold RunTableChunkLoop
    cases hr : ResetLowerboundaryUpperboundary w.kind w.env w.t row st.lowerboundary with
    | none => exact le_refl _
    | some r =>
      obtain ⟨stopAfterRun, ub, lb1⟩ := r
      simp only
      split
      · exact le_refl _
      · exact le_refl _
      · split
        · exact le_refl _
        · rename_i tci2 line _
          split_ifs
          · simp
          · refine le_trans ?_ (ih _ _)
            simp

/-- C14, as stated, fails: declared key `(a, b, c)` with the rows
`(1,1,1), (1,2,1), (1,2,2)`, `-S 1,2`, chunk size 3.  The first chunk, from `(1,1)` to
`b = 2`, is hashed with all three rows.  The second planner call returns one row that
counts the two records of the group `(1,2)`, from `b = 2` to `b = 2`; it is the last
row and its bounds are equal, so the run stops with "last record" without dispatching
it, although its count is not one. -/
theorem C14_counterexample_last_record_after_covering_chunk :
    RunTable groupArgs groupDeclared coveredSrc coveredTgt marshalInts (fun _ => true) 1 =
      some (RunTableRoutine coveredRun 1) ∧
    ((RunTableRoutine coveredRun 1).1.chunklog.map
        (fun c => (c.LowerBoundary, c.LastPKFieldUpperBoundary, c.RowcntSrc)) =
      [([Value.int 1, Value.int 1], Value.int 2, 3)] ∧
      (RunTableRoutine coveredRun 1).1.lowerboundary = [Value.int 1, Value.int 2] ∧
      (RunTableRoutine coveredRun 1).2 = Outcome.more) ∧
    (TransformUpperBoundaryResult coveredRun.kind coveredRun.env coveredRun.t coveredRun.dbSrc
        [Value.int 1, Value.int 2]).map
        (fun rs => rs.map (fun r => (r.count, r.leading, r.lb, r.ub))) =
      some [(2, [Value.int 1], Value.int 2, Value.int 2)] ∧
    ((RunTableRoutine coveredRun 2).1.chunkidx = 1 ∧
      (RunTableRoutine coveredRun 2).1.chunklog = (RunTableRoutine coveredRun 1).1.chunklog ∧
      (RunTableRoutine coveredRun 2).2 = Outcome.stop) ∧
    (2 : Int) ≠ 1 := by
  refine ⟨by rfl, ⟨by rfl, by rfl, by rfl⟩, by rfl, ⟨by rfl, by rfl, by rfl⟩, by decide⟩

/-- C14 (amended): for a planner row that starts where the chunk emitted last ended
(the reset lower boundary has the leading values of that chunk and its trailing cell
is the trailing upper bound of that chunk), `RunTableChunk` stops at the row with
"last record", the chunk index and the logs left as they are and only the lower
boundary reset to the row, exactly when the row is the last row of the resultset and
the trailing cell of the reset lower boundary equals the row's (clamped) trailing
upper bound under the trailing field type.  The record count of the row is not
looked at.  The range of a row stopped in this way is the single trailing value at
which the chunk emitted last ended, in the leading group of that chunk. -/
theorem C14_last_record_stop (w : RunEnv) (ft : iFieldType) (qs qt : String)
    (row : resultRow) (rest : List resultRow) (tci : tableChunkInfo) (st : RunState)
    (stopAfterRun : Bool) (ub : Value) (lb1 : List Value) (lbLast : Value)
    (c : tableChunkInfo)
    (hr : ResetLowerboundaryUpperboundary w.kind w.env w.t row st.lowerboundary =
      some (stopAfterRun, ub, lb1))
    (hl : lb1.getLast? = some lbLast)
    (hprev : st.chunklog.getLast? = some c)
    (hlead : lb1.dropLast = c.LowerBoundary.dropLast)
    (hcov : lbLast = c.LastPKFieldUpperBoundary) :
    (RunTableChunkLoop w ft qs qt (row :: rest) tci st =
        ({ st with lowerboundary := lb1 }, Outcome.stop) ↔
      (rest = [] ∧ ft.equals lbLast ub = some true)) ∧
    (RunTableChunkLoop w ft qs qt (row :: rest) tci st =
        ({ st with lowerboundary := lb1 }, Outcome.stop) →
      ∃ c1, st.chunklog.getLast? = some c1 ∧
        lb1 = c1.LowerBoundary.dropLast ++ [c1.LastPKFieldUpperBoundary] ∧
        ft.equals c1.LastPKFieldUpperBoundary ub = some true) := by
  have main : RunTableChunkLoop w ft qs qt (row :: rest) tci st =
        ({ st with lowerboundary := lb1 }, Outcome.stop) ↔
      (rest = [] ∧ ft.equals lbLast ub = some true) := by
    unfold RunTableChunkLoop
    simp only [hr, hl]
    have key : ∀ (tci1 : tableChunkInfo),
        (match w.t.RunTableRoutineChunkLevel w.marshal w.env w.dbSrc w.dbTgt
              (w.srcFirst (st.chunkidx + 1)) tci1 with
          | none => ((⟨st.chunkidx + 1, lb1, st.chunklog, st.rowlog⟩ : RunState), Outcome.abort)
          | some (tci2, line) =>
            if stopAfterRun = true then
              ((⟨st.chunkidx + 1, lb1, st.chunklog ++ [tci2], st.rowlog ++ line.toList⟩ :
                  RunState), Outcome.stop)
            else
              RunTableChunkLoop w ft qs qt rest tci2
                ⟨st.chunkidx + 1, setLast lb1 tci2.LastPKFieldUpperBoundary,
                  st.chunklog ++ [tci2], st.rowlog ++ line.toList⟩) ≠
          ((⟨st.chunkidx, lb1, st.chunklog, st.rowlog⟩ : RunState), Outcome.stop) := by
      intro tci1 h
      split at h
      · exact Outcome.noConfusion (congrArg Prod.snd h)
      · rename_i tci2 line _
        split_ifs at h
        · have h1 := congrArg (fun r => r.1.chunkidx) h
          simp only at h1
          omega
        · have h1 := congrArg (fun r => r.1.chunklog.length) h
          have h2 := RunTableChunkLoop_chunklog_length w ft qs qt rest tci2
            ⟨st.chunkidx + 1, setLast lb1 tci2.LastPKFieldUpperBoundary,
              st.chunklog ++ [tci2], st.rowlog ++ line.toList⟩
          simp only at h1
          rw [h1] at h2
          simp at h2
    cases rest with
    | nil =>
      simp only [List.isEmpty_nil, if_true, true_and]
      cases he : ft.equals lbLast ub with
      | none => simp
      | some e =>
        cases e with
        | true => simp
        | false =>
          simp only [Option.some.injEq, Bool.false_eq_true, iff_false]
          exact key _
    | cons r1 rest1 =>
      simp only [List.isEmpty_cons, Bool.false_eq_true, if_false, false_and, iff_false,
        reduceCtorEq]
      exact key _
  refine ⟨main, fun h => ?_⟩
  obtain ⟨_, he⟩ := main.mp h
  refine ⟨c, hprev, ?_, by rw [← hcov]; exact he⟩
  have hne : lb1 ≠ [] := by
    intro e
    rw [e] at hl
    simp at hl
  have hlast : lb1.getLast hne = lbLast := by
    rw [List.getLast?_eq_getLast lb1 hne] at hl
    exact Option.some.inj hl
  rw [← List.dropLast_append_getLast hne, hlast, hlead, hcov]

/-- Witness of C14 (amended): in the group example the second planner row starts at
`(1, 2)`, where the first chunk ended, and as the only row of its resultset it stops
the run by "last record". -/
theorem C14_last_record_stop_witness :
    (ResetLowerboundaryUpperboundary coveredRun.kind coveredRun.env coveredRun.t coveredRow
        (RunTableRoutine coveredRun 1).1.lowerboundary =
        some (false, Value.int 2, [Value.int 1, Value.int 2]) ∧
      ((RunTableRoutine coveredRun 1).1.chunklog.getLast?.map
        (fun c => (c.LowerBoundary, c.LastPKFieldUpperBoundary))) =
        some ([Value.int 1, Value.int 1], Value.int 2)) ∧
    RunTableChunkLoop coveredRun fieldtypeInt "" "" [coveredRow] tableChunkInfo.zero
        (RunTableRoutine coveredRun 1).1 =
      ({ (RunTableRoutine coveredRun 1).1 with lowerboundary := [Value.int 1, Value.int 2] },
        Outcome.stop) :=
  ⟨⟨by rfl, by rfl⟩,
    (C14_last_record_stop coveredRun fieldtypeInt "" "" coveredRow [] tableChunkInfo.zero
      (RunTableRoutine coveredRun 1).1 false (Value.int 2) [Value.int 1, Value.int 2]
      (Value.int 2)
      (((RunTableRoutine coveredRun 1).1.chunklog.getLast?).getD tableChunkInfo.zero)
      (by rfl) (by rfl) (by rfl) (by rfl) (by rfl)).1.mpr ⟨rfl, by rfl⟩⟩

/-! ### Handler of a PK column -/

/-- C17: the character, integer, time and date types get the handlers the claim
names, and a data-type string is fatal exactly when it contains none of `char`, `int`,
`time`, `date`.  Failing input: the type `point` is none of the four kinds, yet it
contains `int`, so it gets the Int handler instead of being rejected. -/
theorem C17_point_type_gets_int_handler (fieldtypeTime fieldtypeDate : iFieldType) :
    (∀ d ∈ ["char", "varchar"],
      allPKColumns.fieldType fieldtypeTime fieldtypeDate d = Except.ok fieldtypeChar) ∧
    (∀ d ∈ ["tinyint", "smallint", "mediumint", "int", "bigint"],
      allPKColumns.fieldType fieldtypeTime fieldtypeDate d = Except.ok fieldtypeInt) ∧
    (∀ d ∈ ["time", "datetime", "timestamp"],
      allPKColumns.fieldType fieldtypeTime fieldtypeDate d = Except.ok fieldtypeTime) ∧
    allPKColumns.fieldType fieldtypeTime fieldtypeDate "date" = Except.ok fieldtypeDate ∧
    (∀ d, (∃ m, allPKColumns.fieldType fieldtypeTime fieldtypeDate d =
        Except.error (Died.fatal m)) ↔
      (stringsContains d "char" = false ∧ stringsContains d "int" = false ∧
        stringsContains d "time" = false ∧ stringsContains d "date" = false)) ∧
    allPKColumns.fieldType fieldtypeTime fieldtypeDate "year" =
      Except.error (Died.fatal "Unsupported data type: year\n") ∧
    allPKColumns.fieldType fieldtypeTime fieldtypeDate "point" = Except.ok fieldtypeInt ∧
    allPKColumns fieldtypeTime fieldtypeDate (some [("p", "point")]) =
      Except.ok [{ ColumnName := "p", DataType := "point", FieldType := fieldtypeInt,
                   IsLastField := true }] := by
  refine ⟨?_, ?_, ?_, by rfl, ?_, by rfl, by rfl, by rfl⟩
  · intro d hd
    simp only [List.mem_cons, List.mem_singleton, List.not_mem_nil, or_false] at hd
    rcases hd with rfl | rfl <;> rfl
  · intro d hd
    simp only [List.mem_cons, List.mem_singleton, List.not_mem_nil, or_false] at hd
    rcases hd with rfl | rfl | rfl | rfl | rfl <;> rfl
  · intro d hd
    simp only [List.mem_cons, List.mem_singleton, List.not_mem_nil, or_false] at hd
    rcases hd with rfl | rfl | rfl <;> rfl
  · intro d
    unfold allPKColumns.fieldType
    cases h1 : stringsContains d "char" <;> cases h2 : stringsContains d "int" <;>
      cases h3 : stringsContains d "time" <;> cases h4 : stringsContains d "date" <;> simp

/-! ### Scenarios S1 and S4 -/

/-- C18, as stated, fails: in scenario S1 the second chunk, from 2 to 3, counts two
rows on each side (the rows 2 and 3), not one. -/
theorem C18_counterexample_second_chunk_counts_two_rows :
    (RunTableRoutine identicalRun 3).1.chunklog.map
        (fun c => (c.LowerBoundary, c.LastPKFieldUpperBoundary, c.Match, c.RowcntSrc,
          c.RowcntTgt)) ≠
      [([Value.int 1], Value.int 2, true, 2, 2), ([Value.int 2], Value.int 3, true, 1, 1)] ∧
    (identicalRun.dbSrc.chunkHash "t" ["id"] [Value.int 2, Value.int 3]).map
        (fun a => a.data.1) = some 2 := by
  decide

/-- C18 (amended): scenario S1, a single integer PK with the rows 1, 2, 3 on both
sides and chunk size 2.  The run emits exactly two chunks, the first from 1 to 2 and
the second from 2 to 3, both matching and both with two rows on each side; nothing is
written to the row-level log and the run stops at the third planner call. -/
theorem C18_scenario_single_int_identical (fuel : Nat) :
    (RunTableRoutine identicalRun (fuel + 3)).1.chunklog.map
        (fun c => (c.LowerBoundary, c.LastPKFieldUpperBoundary, c.Match, c.RowcntSrc,
          c.RowcntTgt)) =
      [([Value.int 1], Value.int 2, true, 2, 2), ([Value.int 2], Value.int 3, true, 2, 2)] ∧
    (RunTableRoutine identicalRun (fuel + 3)).1.rowlog = [] ∧
    (RunTableRoutine identicalRun (fuel + 3)).2 = Outcome.stop :=
  ⟨by rfl, by rfl, by rfl⟩

/-- C19, as stated, fails: in scenario S4 the run emits five chunks, not the three of
the claim; between `g = 1, id` from 2 to 3 and `g = 2, id` from 1 to 2 it emits
`g = 1, id` from 3 to 3 and `g = 2, id` from the lowest integer to 1. -/
theorem C19_counterexample_five_chunks_not_three :
    (RunTableRoutine compositeRun 5).1.chunklog.map
        (fun c => (c.LowerBoundary, c.LastPKFieldUpperBoundary)) ≠
      [([Value.int 1, Value.int 1], Value.int 2),
       ([Value.int 1, Value.int 2], Value.int 3),
       ([Value.int 2, Value.int 1], Value.int 2)] ∧
    (RunTableRoutine compositeRun 5).1.chunklog.length = 5 ∧
    (RunTableRoutine compositeRun 5).2 = Outcome.stop := by
  decide

/-- C19 (amended): scenario S4, a composite PK `(g, id)` with the rows
`(1,1), (1,2), (1,3), (2,1), (2,2)` on both sides and chunk size 2.  The run emits
five chunks: `g = 1` with `id` from 1 to 2, from 2 to 3 and from 3 to 3, then, after
crossing to `g = 2`, `id` from the lowest integer to 1 and from 1 to 2.  All match,
nothing is written to the row-level log, and the run ends by "last record" at `(2, 2)`
in the fifth planner call. -/
theorem C19_scenario_composite_group_crossing (fuel : Nat) :
    (RunTableRoutine compositeRun (fuel + 5)).1.chunklog.map
        (fun c => (c.LowerBoundary, c.LastPKFieldUpperBoundary, c.Match, c.RowcntSrc,
          c.RowcntTgt)) =
      [([Value.int 1, Value.int 1], Value.int 2, true, 2, 2),
       ([Value.int 1, Value.int 2], Value.int 3, true, 2, 2),
       ([Value.int 1, Value.int 3], Value.int 3, true, 1, 1),
       ([Value.int 2, Value.int (-9223372036854775808)], Value.int 1, true, 1, 1),
       ([Value.int 2, Value.int 1], Value.int 2, true, 2, 2)] ∧
    (RunTableRoutine compositeRun (fuel + 5)).1.rowlog = [] ∧
    (RunTableRoutine compositeRun (fuel + 5)).1.lowerboundary = [Value.int 2, Value.int 2] ∧
    (RunTableRoutine compositeRun (fuel + 5)).2 = Outcome.stop ∧
    (RunTableRoutine compositeRun 4).2 = Outcome.more :=
  ⟨by rfl, by rfl, by rfl, by rfl, by rfl⟩

/-! ### Argument validation -/

theorem splitComma_length (cs cur : List Char) :
    (splitComma cs cur).length = cs.count ',' + 1 := by
  induction cs generalizing cur with
  | nil => simp [splitComma]
  | cons c cs ih =>
    unfold splitComma
    by_cases h : c = ','
    · subst h
      simp [ih]
    · have h1 : ¬ (',' = c) := fun e => h e.symm
      simp [h, ih, List.count_cons, h1]

/-- C21: `SetArgs` ends in `log.Fatalln` whenever `-l` and `-u` are both given with
different numbers of comma-separated elements, or `-S` is given and its number of
elements differs from that of a given `-l` or a given `-u`; with valid table flags it
accepts every other combination and stores the split lists.  The number of elements of
a list is one more than the number of its commas. -/
theorem C21_SetArgs_arity_validation (argDebug argTrace : Bool)
    (argLowerboundary argUpperboundary argTable argSrcTable argTgtTable : String)
    (argChunksize : Int) (argPKColumnSequence argIgnoreFields argAdditionalFilter : String)
    (htable : (argTable ≠ "" ∧ argSrcTable = "" ∧ argTgtTable = "") ∨
      (argTable = "" ∧ argSrcTable ≠ "" ∧ argTgtTable ≠ "")) :
    (SetArgs argDebug argTrace argLowerboundary argUpperboundary argTable argSrcTable
        argTgtTable argChunksize argPKColumnSequence argIgnoreFields argAdditionalFilter =
          none ↔
      ((argLowerboundary ≠ "" ∧ argUpperboundary ≠ "" ∧
          (stringsSplit argLowerboundary).length ≠ (stringsSplit argUpperboundary).length) ∨
        (argPKColumnSequence ≠ "" ∧ argLowerboundary ≠ "" ∧
          (stringsSplit argLowerboundary).length ≠
            (stringsSplit argPKColumnSequence).length) ∨
        (argPKColumnSequence ≠ "" ∧ argUpperboundary ≠ "" ∧
          (stringsSplit argUpperboundary).length ≠
            (stringsSplit argPKColumnSequence).length))) ∧
    (∀ env, SetArgs argDebug argTrace argLowerboundary argUpperboundary argTable argSrcTable
        argTgtTable argChunksize argPKColumnSequence argIgnoreFields argAdditionalFilter =
          some env →
      env.ArgLowerBoundary = stringsSplit argLowerboundary ∧
      env.ArgUpperBoundary = stringsSplit argUpperboundary ∧
      env.ArgPKColumnSequence = stringsSplit argPKColumnSequence) ∧
    (∀ s : String, (stringsSplit s).length = s.data.count ',' + 1) := by
  refine ⟨?_, ?_, fun s => splitComma_length s.data []⟩
  · unfold SetArgs
    simp only
    have h4 : ¬ (argTable = "" ∧ argSrcTable = "" ∧ argTgtTable = "") := by
      rcases htable with h | h
      · exact fun g => h.1 g.1
      · exact fun g => h.2.1 g.2.1
    have h5 : ¬ ¬ ((argTable ≠ "" ∧ argSrcTable = "" ∧ argTgtTable = "") ∨
        (argTable = "" ∧ argSrcTable ≠ "" ∧ argTgtTable ≠ "")) := fun g => g htable
    split_ifs with h1 h2 h3
    · simp [h1]
    · simp [h2]
    · simp [h3]
    · simp only [reduceCtorEq, false_iff]
      intro g
      rcases g with g | g | g
      · exact h1 g
      · exact h2 g
      · exact h3 g
  · intro env h
    unfold SetArgs at h
    simp only at h
    split_ifs at h <;> first | (cases h; done) | (cases h; exact ⟨rfl, rfl, rfl⟩)

/-- Witness of C21 on table `t`: `-l 1,2 -u 3` is rejected, and so is `-S 1 -l 1,2`,
while `-l 1,2 -u 3,4 -S 2,1` is accepted. -/
theorem C21_SetArgs_arity_validation_witness :
    SetArgs false false "1,2" "3" "t" "" "" 10 "" "" "" = none ∧
    SetArgs false false "1,2" "" "t" "" "" 10 "1" "" "" = none ∧
    (SetArgs false false "1,2" "3,4" "t" "" "" 10 "2,1" "" "").map
        (fun e => (e.ArgLowerBoundary, e.ArgUpperBoundary, e.ArgPKColumnSequence)) =
      some (["1", "2"], ["3", "4"], ["2", "1"]) ∧
    (SetArgs false false "1,2" "3" "t" "" "" 10 "" "" "" = none ↔
      ((("1,2" : String) ≠ "" ∧ ("3" : String) ≠ "" ∧
          (stringsSplit "1,2").length ≠ (stringsSplit "3").length) ∨
        (("" : String) ≠ "" ∧ ("1,2" : String) ≠ "" ∧
          (stringsSplit "1,2").length ≠ (stringsSplit "").length) ∨
        (("" : String) ≠ "" ∧ ("3" : String) ≠ "" ∧
          (stringsSplit "3").length ≠ (stringsSplit "").length))) :=
  ⟨by rfl, by rfl, by rfl,
    (C21_SetArgs_arity_validation false false "1,2" "3" "t" "" "" 10 "" "" ""
      (Or.inl ⟨by decide, rfl, rfl⟩)).1⟩

/-! ### Routing of the two results -/

/-- C22: a source result and a target result folded into the chunk descriptor in
the order (source, target) and in the order (target, source) give the same descriptor;
in either order the row count, hash, elapsed time and timestamp of the source result
are in the source fields and those of the target result in the target fields. -/
theorem C22_routing_by_is_source_tag (tci : tableChunkInfo) (rs rt : tableHashResult)
    (hs : rs.issrc = true) (ht : rt.issrc = false) :
    [rs, rt].foldl routeChunkResult tci = [rt, rs].foldl routeChunkResult tci ∧
    ∀ srcFirst : Bool,
      ((arrivalOrder srcFirst rs rt).foldl routeChunkResult tci).RowcntSrc = rs.rowcnt ∧
      ((arrivalOrder srcFirst rs rt).foldl routeChunkResult tci).HashSrc = rs.hash ∧
      ((arrivalOrder srcFirst rs rt).foldl routeChunkResult tci).ElapsedMsSrc = rs.elapsedms ∧
      ((arrivalOrder srcFirst rs rt).foldl routeChunkResult tci).TimestampSrc = rs.ts ∧
      ((arrivalOrder srcFirst rs rt).foldl routeChunkResult tci).RowcntTgt = rt.rowcnt ∧
      ((arrivalOrder srcFirst rs rt).foldl routeChunkResult tci).HashTgt = rt.hash ∧
      ((arrivalOrder srcFirst rs rt).foldl routeChunkResult tci).ElapsedMsTgt = rt.elapsedms ∧
      ((arrivalOrder srcFirst rs rt).foldl routeChunkResult tci).TimestampTgt = rt.ts := by
  constructor
  · simp [routeChunkResult, hs, ht]
  · intro srcFirst
    cases srcFirst <;> simp [arrivalOrder, routeChunkResult, hs, ht]

/-- Witness of C22: the results of the two endpoints of the example run for the
chunk from 1 to 5 (four source rows, three target rows). -/
theorem C22_routing_by_is_source_tag_witness :
    ((exampleRun.t.TableResultChunkLevel exampleRun.env exampleRun.dbSrc true exampleChunk).map
        (fun r => (r.1.issrc, r.1.rowcnt)) = some (true, 4) ∧
      (exampleRun.t.TableResultChunkLevel exampleRun.env exampleRun.dbTgt false exampleChunk).map
        (fun r => (r.1.issrc, r.1.rowcnt)) = some (false, 3)) ∧
    ([({ issrc := true, rowcnt := 4, hash := 101, ts := 0, elapsedms := 0 } : tableHashResult),
        { issrc := false, rowcnt := 3, hash := 80, ts := 0, elapsedms := 0 }].foldl
          routeChunkResult exampleChunk =
      [({ issrc := false, rowcnt := 3, hash := 80, ts := 0, elapsedms := 0 } : tableHashResult),
        { issrc := true, rowcnt := 4, hash := 101, ts := 0, elapsedms := 0 }].foldl
          routeChunkResult exampleChunk) :=
  ⟨⟨by rfl, by rfl⟩,
    (C22_routing_by_is_source_tag exampleChunk
      { issrc := true, rowcnt := 4, hash := 101, ts := 0, elapsedms := 0 }
      { issrc := false, rowcnt := 3, hash := 80, ts := 0, elapsedms := 0 } rfl rfl).1⟩

/-! ### Blanking of the SQL texts -/

/-- C23, as stated, fails: with `--trace` and without `--debug` the three SQL text
fields of every chunk-log line of scenario S1 are blank, while with `--debug` they
are not. -/
theorem C23_counterexample_trace_alone_blanks_sql_texts :
    traceRun.env.ArgTrace = true ∧ traceRun.env.ArgDebug = false ∧
    (RunTableRoutine traceRun 3).1.chunklog.map tableChunkInfo.sqlTexts =
      [("", "", ""), ("", "", "")] ∧
    (∀ c ∈ (RunTableRoutine debugRun 3).1.chunklog,
      c.UpperBoundaryQuery ≠ "" ∧ c.HashQuerySrc ≠ "" ∧ c.HashQueryTgt ≠ "") := by
  decide

/-- C23 (amended): the chunk-log line is the descriptor left by the chunk hasher with
its three SQL text fields blanked when debug is off, and that descriptor unchanged
when debug is on; the trace flag plays no part. -/
theorem C23_sql_texts_blanked_iff_debug_off (marshal : List Value → String) (env : envarg)
    (t : pkTable) (dbSrc dbTgt : Endpoint) (srcFirst : Bool) (tci tci2 : tableChunkInfo)
    (line : Option TableChunkRowsInfo)
    (h : t.RunTableRoutineChunkLevel marshal env dbSrc dbTgt srcFirst tci =
      some (tci2, line)) :
    ∃ tci1, t.TableRoutineChunkLevel marshal env dbSrc dbTgt srcFirst tci = some (tci1, line) ∧
      (env.ArgDebug = false →
        tci2 = { tci1 with UpperBoundaryQuery := "", HashQuerySrc := "", HashQueryTgt := "" } ∧
        tci2.sqlTexts = ("", "", "")) ∧
      (env.ArgDebug = true → tci2 = tci1) ∧
      t.RunTableRoutineChunkLevel marshal { env with ArgTrace := !env.ArgTrace } dbSrc dbTgt
        srcFirst tci =
        (t.TableRoutineChunkLevel marshal { env with ArgTrace := !env.ArgTrace } dbSrc dbTgt
          srcFirst tci).map (fun r =>
            (if env.ArgDebug then r.1
              else { r.1 with UpperBoundaryQuery := "", HashQuerySrc := "", HashQueryTgt := "" },
             r.2)) := by
  unfold pkTable.RunTableRoutineChunkLevel at h ⊢
  cases hc : t.TableRoutineChunkLevel marshal env dbSrc dbTgt srcFirst tci with
  | none => simp [hc] at h
  | some res =>
    obtain ⟨tci1, line1⟩ := res
    simp only [hc] at h
    refine ⟨tci1, ?_, ?_, ?_, ?_⟩
    · cases hd : env.ArgDebug <;> simp [hd] at h <;> rw [h.2]
    · intro hd
      simp [hd] at h
      rw [← h.1]
      exact ⟨rfl, rfl⟩
    · intro hd
      simp [hd] at h
      exact h.1.symm
    · cases hx : t.TableRoutineChunkLevel marshal { env with ArgTrace := !env.ArgTrace } dbSrc
          dbTgt srcFirst tci with
      | none => rfl
      | some r =>
        cases hd : env.ArgDebug <;> simp [hd]

/-- C23 witness: with `--trace` alone, the chunk-log line of the example chunk of
scenario S1 has its three SQL text fields blank. -/
theorem C23_sql_texts_blanked_iff_debug_off_witness :
    ∃ tci2 line,
      traceRun.t.RunTableRoutineChunkLevel traceRun.marshal traceRun.env traceRun.dbSrc
        traceRun.dbTgt true exampleChunk = some (tci2, line) ∧
      traceRun.env.ArgTrace = true ∧ traceRun.env.ArgDebug = false ∧
      tci2.sqlTexts = ("", "", "") := by
  refine ⟨_, _, rfl, rfl, rfl, ?_⟩
  obtain ⟨_, _, hb, _⟩ := C23_sql_texts_blanked_iff_debug_off traceRun.marshal traceRun.env
    traceRun.t traceRun.dbSrc traceRun.dbTgt true exampleChunk _ _ rfl
  exact (hb rfl).2

/-! ### Path of the row-level log -/

theorem replaceDotJson_length (l : List Char) :
    ∀ k, l.length ≤ (replaceDotJson k l).length + k := by
  induction l with
  | nil => intro k; simp [replaceDotJson]
  | cons c cs ih =>
    intro k
    cases k with
    | zero =>
      unfold replaceDotJson
      split_ifs
      · have := ih 4
        simp only [List.length_append, List.length_cons]
        have h14 : ".rowlevel.json".data.length = 14 := by decide
        omega
      · have := ih 0
        simp only [List.length_cons]
        omega
    | succ k =>
      unfold replaceDotJson
      have := ih k
      simp only [List.length_cons]
      omega

theorem replaceDotJson_of_not_contains (l : List Char)
    (h : containsChars ".json".data l = false) : replaceDotJson 0 l = l := by
  induction l with
  | nil => rfl
  | cons c cs ih =>
    unfold containsChars at h
    rw [Bool.or_eq_false_iff] at h
    unfold replaceDotJson
    simp only [h.1, Bool.false_eq_true, if_false]
    rw [ih h.2]

theorem replaceDotJson_of_contains (l : List Char)
    (h : containsChars ".json".data l = true) : l.length < (replaceDotJson 0 l).length := by
  induction l with
  | nil => revert h; decide
  | cons c cs ih =>
    unfold containsChars at h
    unfold replaceDotJson
    by_cases h1 : startsWithChars ".json".data (c :: cs) = true
    · simp only [h1, if_true, List.length_append, List.length_cons]
      have := replaceDotJson_length cs 4
      have h14 : ".rowlevel.json".data.length = 14 := by decide
      omega
    · have h2 : containsChars ".json".data cs = true := by
        rcases Bool.or_eq_true_iff.1 h with h | h
        · exact absurd h h1
        · exact h
      have h3 : startsWithChars ".json".data (c :: cs) = false := by simpa using h1
      simp only [h3, Bool.false_eq_true, if_false, List.length_cons]
      have := ih h2
      omega

/-- C24: the row-level log path is the chunk-log path with every `.json` replaced by
`.rowlevel.json`, and it differs from the chunk-log path exactly when that path
contains `.json`.  Failing input: `-o out.log`, for which the two paths are the same
file. -/
theorem C24_output_path_without_json_is_its_own_rowlevel_path :
    rowlevelfile "log.json" = "log.rowlevel.json" ∧
    rowlevelfile "out.log" = "out.log" ∧
    (∀ outputfile : String,
      rowlevelfile outputfile ≠ outputfile ↔ stringsContains outputfile ".json" = true) := by
  refine ⟨by decide, by decide, ?_⟩
  intro outputfile
  unfold rowlevelfile stringsContains
  constructor
  · intro h
    by_contra hc
    rw [Bool.not_eq_true] at hc
    apply h
    rw [replaceDotJson_of_not_contains _ hc]
  · intro h heq
    have h1 := replaceDotJson_of_contains _ h
    have h2 := congrArg (fun s => s.data.length) heq
    simp only at h2
    omega

/-! ### The UPDATE statement -/

/-- C30, failing input: a table with the columns `v, id` and the primary key `id`.
The assignment of the last column is commented out, so outside the line comments the
UPDATE statement ends with the comma after `t.v = s.v` and has no terminating `;`:
the `;` is inside the comment.  With the columns in the order `id, v` the statement
is well formed. -/
theorem C30_update_statement_with_trailing_pk_column :
    updatefieldnames ["id"] ["v", "id"] =
      ["  t.v = s.v", "  " ++ sqlLineComment ++ " /*PK*/ t.id = s.id"] ∧
    (∃ source : String, prepareSQLStatement "update" pkLastRows =
      source ++ updateStatement "t" "t_diff_update" "id" ["id"] ["v", "id"]) ∧
    uncommented (updateStatement "t" "t_diff_update" "id" ["id"] ["v", "id"]) =
      "\n\n    \n    UPDATE /*target*/ t AS t\n    INNER JOIN /*target*/ t_diff_update AS s" ++
      "\n    USING (id)\n    SET\n      t.v = s.v,\n      " ∧
    ';' ∉ (uncommented (updateStatement "t" "t_diff_update" "id" ["id"] ["v", "id"])).data ∧
    uncommented (updateStatement "t" "t_diff_update" "id" ["id"] ["id", "v"]) =
      "\n\n    \n    UPDATE /*target*/ t AS t\n    INNER JOIN /*target*/ t_diff_update AS s" ++
      "\n    USING (id)\n    SET\n      \n      t.v = s.v;" := by
  refine ⟨by decide, ⟨_, rfl⟩, by decide, by decide, by decide⟩

/-! ### Clamping against the user upper boundary -/

theorem compareLeading_of_leadingExceedsUser (t : pkTable) (ub : List String)
    (vs : List Value) (i : Nat) (h : leadingExceedsUser t ub i vs = true) :
    compareLeading t ub i i vs = some true := by
  induction vs generalizing i with
  | nil => exact absurd h (by simp [leadingExceedsUser])
  | cons v rest ih =>
    unfold leadingExceedsUser at h
    unfold compareLeading
    cases hc : t.GetPKColumns.get? i with
    | none => rw [hc] at h; exact absurd h (by simp)
    | some col =>
      cases hu : ub.get? i with
      | none => rw [hc, hu] at h; exact absurd h (by simp)
      | some userUB =>
        rw [hc, hu] at h
        simp only at h ⊢
        cases he : col.FieldType.equals v (Value.str userUB) with
        | none => rw [he] at h; exact absurd h (by simp)
        | some e =>
          rw [he] at h
          cases e with
          | true =>
            have h1 : leadingExceedsUser t ub (i + 1) rest = true := by simpa using h
            simp only
            exact ih (i + 1) h1
          | false =>
            have h1 : col.FieldType.greaterThan v (Value.str userUB) = some true := by
              simpa using h
            simp only [h1, if_true]

/-- C25: a composite planner row with a leading value strictly greater than the
user's component, all earlier leading values being equal to theirs, makes
`ResetLowerboundaryUpperboundary` return early with `stopAfterRun = false` and the
planner's trailing upper bound.  Failing input: key `(g, id)`, rows
`(1,1), (1,2), (2,1), (2,2)`, chunk size 2, `-u 1,5`: the rows of the group `g = 2`
are past the user upper boundary, yet two chunks of that group are hashed and logged
and the run goes on to the last record of the table. -/
theorem C25_row_beyond_user_bound_is_dispatched :
    (∀ (env : envarg) (t : pkTable) (row : resultRow) (lowerboundary lb1 : List Value),
      env.ArgUpperBoundary ≠ [""] →
      leadingExceedsUser t env.ArgUpperBoundary 0 row.leading = true →
      assignLowerboundary (row.leading ++ [row.lb]) lowerboundary = some lb1 →
      ResetLowerboundaryUpperboundary pkKind.multi env t row lowerboundary =
        some (false, row.ub, lb1)) ∧
    leadingExceedsUser beyondUserRun.t beyondUserRun.env.ArgUpperBoundary 0
      beyondUserRow.leading = true ∧
    ResetLowerboundaryUpperboundary beyondUserRun.kind beyondUserRun.env beyondUserRun.t
        beyondUserRow [Value.int 1, Value.int 2] =
      some (false, Value.int 1, [Value.int 2, Value.int (-9223372036854775808)]) ∧
    (∀ fuel, (RunTableRoutine beyondUserRun (fuel + 4)).1.chunklog.map
        (fun c => (c.LowerBoundary, c.LastPKFieldUpperBoundary, c.RowcntSrc)) =
      [([Value.int 1, Value.int 1], Value.int 2, 2),
       ([Value.int 1, Value.int 2], Value.int 2, 1),
       ([Value.int 2, Value.int (-9223372036854775808)], Value.int 1, 1),
       ([Value.int 2, Value.int 1], Value.int 2, 2)]) ∧
    (∀ fuel, (RunTableRoutine beyondUserRun (fuel + 4)).1.lowerboundary =
      [Value.int 2, Value.int 2]) := by
  refine ⟨?_, by rfl, by rfl, fun fuel => by rfl, fun fuel => by rfl⟩
  intro env t row lowerboundary lb1 hne hex ha
  simp only [ResetLowerboundaryUpperboundary, pkTableMulti.ResetLowerboundaryUpperboundary, ha,
    hne, if_false, compareLeading_of_leadingExceedsUser t env.ArgUpperBoundary row.leading 0 hex]

theorem clampTrailing_spec (env : envarg) (t : pkTable) (ft : iFieldType) (u : String)
    (userUB v ub : Value) (stop : Bool)
    (hft : t.lastPKfieldtype = some ft) (hlaw : ft.OrderLaws)
    (hu : env.ArgUpperBoundary.getLast? = some u)
    (huser : ft.transformFieldType (Value.str u) = some userUB)
    (h : clampTrailing env t v = some (stop, ub)) :
    (stop = true ↔
      (ft.equals v userUB = some true ∨ ft.greaterThan v userUB = some true)) ∧
    ub = (if ft.greaterThan v userUB = some true then userUB else v) := by
  unfold clampTrailing at h
  simp only [hft, hu, huser] at h
  cases he : ft.equals v userUB with
  | none => simp [he] at h
  | some e =>
    cases e with
    | true =>
      have hg := hlaw.eq_not_gt v userUB he
      simp only [he, Option.some.injEq, Prod.mk.injEq] at h
      simp [← h.1, ← h.2, hg]
    | false =>
      simp only [he] at h
      cases hg : ft.greaterThan v userUB with
      | none => simp [hg] at h
      | some g =>
        cases g <;> simp only [hg, Option.some.injEq, Prod.mk.injEq] at h <;>
          simp [← h.1, ← h.2]

/-- With `-u` set, on a single-PK row and on a composite row whose leading values
equal the user's, `ResetLowerboundaryUpperboundary` returns what the trailing clamp
returns. -/
theorem Reset_is_clampTrailing (kind : pkKind) (env : envarg) (t : pkTable) (row : resultRow)
    (lowerboundary : List Value) (u : String) (stop : Bool) (ub : Value) (lb1 : List Value)
    (hu : env.ArgUpperBoundary.getLast? = some u) (hne : u ≠ "")
    (hlead : kind = pkKind.single ∨
      leadingEqualUser t env.ArgUpperBoundary 0 row.leading = true)
    (h : ResetLowerboundaryUpperboundary kind env t row lowerboundary = some (stop, ub, lb1)) :
    clampTrailing env t row.ub = some (stop, ub) := by
  have hnot : env.ArgUpperBoundary ≠ [""] := by
    intro he
    rw [he] at hu
    simp only [List.getLast?_singleton, Option.some.injEq] at hu
    exact hne hu.symm
  have hcmp : kind = pkKind.multi →
      compareLeading t env.ArgUpperBoundary 0 0 row.leading = some false := by
    intro hk
    rcases hlead with hs | hl
    · rw [hs] at hk
      exact absurd hk (by decide)
    · exact compareLeading_of_leadingEqualUser t env.ArgUpperBoundary row.leading 0 0 hl
  cases ha : assignLowerboundary (row.leading ++ [row.lb]) lowerboundary with
  | none =>
    cases kind <;>
      simp [ResetLowerboundaryUpperboundary, pkTableSingle.ResetLowerboundaryUpperboundary,
        pkTableMulti.ResetLowerboundaryUpperboundary, ha] at h
  | some l =>
    cases hc : clampTrailing env t row.ub with
    | none =>
      cases kind with
      | single =>
        simp [ResetLowerboundaryUpperboundary, pkTableSingle.ResetLowerboundaryUpperboundary,
          ha, hu, hne, hc] at h
      | multi =>
        simp [ResetLowerboundaryUpperboundary, pkTableMulti.ResetLowerboundaryUpperboundary,
          ha, hnot, hcmp rfl, hc] at h
    | some r =>
      cases kind with
      | single =>
        simp only [ResetLowerboundaryUpperboundary,
          pkTableSingle.ResetLowerboundaryUpperboundary, ha, hu, if_neg hne, hc,
          Option.map_some', Option.some.injEq, Prod.mk.injEq] at h
        rw [← h.1, ← h.2.1]
      | multi =>
        simp only [ResetLowerboundaryUpperboundary,
          pkTableMulti.ResetLowerboundaryUpperboundary, ha, if_neg hnot, hcmp rfl, hc,
          Option.map_some', Option.some.injEq, Prod.mk.injEq] at h
        rw [← h.1, ← h.2.1]

/-- With `-u` set, for a single-PK planner row and for a composite row
whose leading values all equal the user's, `ResetLowerboundaryUpperboundary` returns
stop-after-run exactly when the planner's trailing upper equals or is greater than
the user's, and returns the user's trailing upper when the planner's is greater and
the planner's otherwise.  After a row with stop-after-run that is not stopped as
"last record" (it is followed by another row, or the trailing cell of its lower
boundary differs from the returned trailing upper), `RunTableChunk` hashes and logs
the chunk and stops, the lower boundary staying at the row's. -/
theorem trailing_clamp_spec (w : RunEnv) (ft : iFieldType) (row : resultRow) (st : RunState)
    (u : String) (userUB : Value) (stop : Bool) (ub : Value) (lb1 : List Value)
    (hft : w.t.lastPKfieldtype = some ft) (hlaw : ft.OrderLaws)
    (hu : w.env.ArgUpperBoundary.getLast? = some u) (hne : u ≠ "")
    (huser : ft.transformFieldType (Value.str u) = some userUB)
    (hlead : w.kind = pkKind.single ∨
      leadingEqualUser w.t w.env.ArgUpperBoundary 0 row.leading = true)
    (h : ResetLowerboundaryUpperboundary w.kind w.env w.t row st.lowerboundary =
      some (stop, ub, lb1)) :
    (stop = true ↔
      (ft.equals row.ub userUB = some true ∨ ft.greaterThan row.ub userUB = some true)) ∧
    ub = (if ft.greaterThan row.ub userUB = some true then userUB else row.ub) ∧
    ∀ (qs qt : String) (rest : List resultRow) (tci tci2 : tableChunkInfo)
      (line : Option TableChunkRowsInfo) (lbLast : Value),
      stop = true → lb1.getLast? = some lbLast →
      (rest ≠ [] ∨ ft.equals lbLast ub = some false) →
      w.t.RunTableRoutineChunkLevel w.marshal w.env w.dbSrc w.dbTgt
          (w.srcFirst (st.chunkidx + 1))
          { tci with
            ChunkIdx := st.chunkidx + 1
            LastPKFieldUpperBoundary := ub
            LowerBoundary := lb1
            UpperBoundaryQuery := row.query
            HashQuerySrc := qs
            HashQueryTgt := qt } = some (tci2, line) →
      RunTableChunkLoop w ft qs qt (row :: rest) tci st =
        ({ chunkidx := st.chunkidx + 1, lowerboundary := lb1,
           chunklog := st.chunklog ++ [tci2], rowlog := st.rowlog ++ line.toList },
          Outcome.stop) := by
  have hc := Reset_is_clampTrailing w.kind w.env w.t row st.lowerboundary u stop ub lb1 hu hne
    hlead h
  obtain ⟨h1, h2⟩ := clampTrailing_spec w.env w.t ft u userUB row.ub ub stop hft hlaw hu huser hc
  refine ⟨h1, h2, ?_⟩
  intro qs qt rest tci tci2 line lbLast hstop hl hnl hd
  unfold RunTableChunkLoop
  simp only [h, hl]
  have hlr : (if rest.isEmpty = true then ft.equals lbLast ub else some false) = some false := by
    rcases hnl with hr | he
    · cases rest with
      | nil => exact absurd rfl hr
      | cons r rs => rfl
    · cases rest with
      | nil => simpa using he
      | cons r rs => rfl
  simp only [hlr, hd, hstop, if_true]

/-- C26: with `-u` set, for a single-PK planner row and for a composite row whose
leading values all equal the user's, `ResetLowerboundaryUpperboundary` returns
stop-after-run exactly when the planner's trailing upper equals or is greater than
the user's, and returns the smaller of the two trailing uppers; a row with
stop-after-run that gets past the "last record" guard is hashed and logged, and the
run stops with the lower boundary at the row's (keys 3 to 9, chunk size 7, `-u 7`:
the chunk from 3 to 7 is hashed with its five rows).  Failing input: single integer
key with the rows 5 and 6, chunk size 2, `-l 5 -u 5`.  The planner row runs from 5 to
6 and the clamp returns stop-after-run with the trailing upper 5; the row is the
last of its resultset and its lower bound now equals its upper bound, so the "last
record" guard stops the run before the dispatch: no chunk is hashed or logged,
although the source has a row with the key 5 in the range from 5 to 5. -/
theorem C26_clamped_first_row_is_never_hashed :
    (∀ (w : RunEnv) (ft : iFieldType) (row : resultRow) (st : RunState) (u : String)
      (userUB : Value) (stop : Bool) (ub : Value) (lb1 : List Value),
      w.t.lastPKfieldtype = some ft → ft.OrderLaws →
      w.env.ArgUpperBoundary.getLast? = some u → u ≠ "" →
      ft.transformFieldType (Value.str u) = some userUB →
      (w.kind = pkKind.single ∨
        leadingEqualUser w.t w.env.ArgUpperBoundary 0 row.leading = true) →
      ResetLowerboundaryUpperboundary w.kind w.env w.t row st.lowerboundary =
        some (stop, ub, lb1) →
      (stop = true ↔
        (ft.equals row.ub userUB = some true ∨ ft.greaterThan row.ub userUB = some true)) ∧
      ub = (if ft.greaterThan row.ub userUB = some true then userUB else row.ub) ∧
      ∀ (qs qt : String) (rest : List resultRow) (tci tci2 : tableChunkInfo)
        (line : Option TableChunkRowsInfo) (lbLast : Value),
        stop = true → lb1.getLast? = some lbLast →
        (rest ≠ [] ∨ ft.equals lbLast ub = some false) →
        w.t.RunTableRoutineChunkLevel w.marshal w.env w.dbSrc w.dbTgt
            (w.srcFirst (st.chunkidx + 1))
            { tci with
              ChunkIdx := st.chunkidx + 1
              LastPKFieldUpperBoundary := ub
              LowerBoundary := lb1
              UpperBoundaryQuery := row.query
              HashQuerySrc := qs
              HashQueryTgt := qt } = some (tci2, line) →
        RunTableChunkLoop w ft qs qt (row :: rest) tci st =
          ({ chunkidx := st.chunkidx + 1, lowerboundary := lb1,
             chunklog := st.chunklog ++ [tci2], rowlog := st.rowlog ++ line.toList },
            Outcome.stop)) ∧
    (ResetLowerboundaryUpperboundary clampRun.kind clampRun.env clampRun.t
        { count := 7, leading := [], lb := Value.int 3, ub := Value.int 9, query := "" }
        [Value.int 3] = some (true, Value.int 7, [Value.int 3]) ∧
      (RunTableRoutine clampRun 1).1.chunklog.map
        (fun c => (c.LowerBoundary, c.LastPKFieldUpperBoundary, c.RowcntSrc)) =
        [([Value.int 3], Value.int 7, 5)] ∧
      (RunTableRoutine clampRun 1).1.lowerboundary = [Value.int 3] ∧
      (RunTableRoutine clampRun 1).2 = Outcome.stop) ∧
    ((TransformUpperBoundaryResult clampLastRun.kind clampLastRun.env clampLastRun.t
        clampLastRun.dbSrc [Value.int 5]).map
        (fun rs => rs.map (fun r => (r.count, r.lb, r.ub))) =
      some [(2, Value.int 5, Value.int 6)] ∧
      ResetLowerboundaryUpperboundary clampLastRun.kind clampLastRun.env clampLastRun.t
        { count := 2, leading := [], lb := Value.int 5, ub := Value.int 6, query := "" }
        [Value.int 5] = some (true, Value.int 5, [Value.int 5]) ∧
      RunTableRoutine clampLastRun 1 =
        ({ chunkidx := 0, lowerboundary := [Value.int 5], chunklog := [], rowlog := [] },
          Outcome.stop) ∧
      (clampLastRun.dbSrc.chunkHash (clampLastRun.env.table true)
        clampLastRun.t.GetPKColumnNames [Value.int 5, Value.int 5]).map
        (fun a => a.data.1) = some 1) :=
  ⟨fun w ft row st u userUB stop ub lb1 hft hlaw hu hne huser hlead h =>
      trailing_clamp_spec w ft row st u userUB stop ub lb1 hft hlaw hu hne huser hlead h,
    ⟨by rfl, by rfl, by rfl, by rfl⟩, ⟨by rfl, by rfl, by rfl, by rfl⟩⟩

/-! ### Consolidation of the row-level log -/

theorem StringMap.get_set {α : Type} (zero : α) (m : StringMap α) (k k1 : String) (v : α) :
    StringMap.get zero (m.set k v) k1 = if k = k1 then v else StringMap.get zero m k1 := by
  simp [StringMap.set, StringMap.get]

theorem mem_keepFirst (x : String) (l : List String) : x ∈ keepFirst l ↔ x ∈ l := by
  induction l with
  | nil => simp [keepFirst]
  | cons a l ih =>
    simp only [keepFirst, List.mem_cons, List.mem_filter, ih, decide_eq_true_eq]
    constructor
    · rintro (h | h)
      · exact Or.inl h
      · exact Or.inr h.1
    · rintro (h | h)
      · exact Or.inl h
      · by_cases hx : x = a
        · exact Or.inl hx
        · exact Or.inr ⟨h, hx⟩

theorem nodup_keepFirst (l : List String) : (keepFirst l).Nodup := by
  induction l with
  | nil => simp [keepFirst]
  | cons a l ih =>
    simp only [keepFirst, List.nodup_cons, List.mem_filter, decide_eq_true_eq, ne_eq,
      not_true_eq_false, and_false, not_false_eq_true, true_and]
    exact ih.filter _

theorem keepFirst_concat (l : List String) (x : String) :
    keepFirst (l ++ [x]) = if x ∈ l then keepFirst l else keepFirst l ++ [x] := by
  induction l with
  | nil => simp [keepFirst]
  | cons a l ih =>
    have e1 : keepFirst (a :: l ++ [x]) =
        a :: (keepFirst (l ++ [x])).filter (fun y => decide (y ≠ a)) := rfl
    have e2 : keepFirst (a :: l) = a :: (keepFirst l).filter (fun y => decide (y ≠ a)) := rfl
    rw [e1, ih, e2]
    by_cases hxa : x = a
    · subst hxa
      by_cases hxl : x ∈ l
      · simp [hxl]
      · simp [hxl, List.filter_append]
    · by_cases hxl : x ∈ l
      · simp [hxl, hxa]
      · simp [hxl, hxa, List.filter_append]

/-- One call of `populate` for the crud type `crudtype` keeps the quotes and extends
the consolidation of that type by the rows of the call; the other types are left as
they are. -/
theorem populate_step (sprintV : Value → String) (q : List String) (crudtype : String) :
    ∀ (tablerows : List TableRow) (st st1 : populateState),
      populate sprintV crudtype tablerows st = some st1 →
      st.consolidateTableRows.AllPKColumnQuotes.getD [] = q →
      st1.consolidateTableRows.AllPKColumnQuotes =
          st.consolidateTableRows.AllPKColumnQuotes ∧
      ∀ (k : String) (T : List TableRow), Consolidated sprintV q k T st →
        Consolidated sprintV q k (T ++ (if crudtype = k then tablerows else [])) st1 := by
  unfold Consolidated
  intro tablerows
  induction tablerows with
  | nil =>
    intro st st1 h _
    simp only [populate, Option.some.injEq] at h
    subst h
    refine ⟨rfl, fun k T hI => ?_⟩
    simpa using hI
  | cons tr rest ih =>
    intro st st1 h hq
    unfold populate at h
    rw [hq] at h
    cases hf : formatPKValues sprintV q tr.AllPKColumnValues with
    | none => simp [hf] at h
    | some s =>
      simp only [hf] at h
      by_cases hmem : s ∈ StringMap.get [] st.mapTableRowExists crudtype
      · simp only [hmem, if_true] at h
        obtain ⟨hq1, hstep⟩ := ih st st1 h hq
        refine ⟨hq1, fun k T hI => ?_⟩
        by_cases hk : crudtype = k
        · subst hk
          have hI1 := hstep crudtype (T ++ [tr]) (by
            obtain ⟨i1, i2, i3, i4⟩ := hI
            have hsT : s ∈ T.filterMap
                (fun tr => formatPKValues sprintV q tr.AllPKColumnValues) := (i3 s).1 hmem
            refine ⟨?_, ?_, ?_, i4⟩
            · intro x hx
              rcases List.mem_append.1 hx with hx | hx
              · exact i1 x hx
              · simp only [List.mem_singleton] at hx
                rw [hx, hf]; rfl
            · rw [List.filterMap_append, i2]
              simp only [List.filterMap_cons, hf, List.filterMap_nil]
              rw [keepFirst_concat, if_pos hsT]
            · intro x
              rw [List.filterMap_append, i3 x]
              simp only [List.filterMap_cons, hf, List.filterMap_nil, List.mem_append,
                List.mem_singleton]
              constructor
              · exact fun hx => Or.inl hx
              · rintro (hx | hx)
                · exact hx
                · rw [hx]; exact hsT)
          simpa using hI1
        · have hI1 := hstep k T hI
          simpa [hk] using hI1
      · simp only [hmem, if_false] at h
        obtain ⟨hq1, hstep⟩ := ih _ st1 h hq
        refine ⟨hq1, fun k T hI => ?_⟩
        by_cases hk : crudtype = k
        · subst hk
          have hI1 := hstep crudtype (T ++ [tr]) (by
            obtain ⟨i1, i2, i3, i4⟩ := hI
            have hsT : s ∉ T.filterMap
                (fun tr => formatPKValues sprintV q tr.AllPKColumnValues) :=
              fun hx => hmem ((i3 s).2 hx)
            simp only [StringMap.get_set, if_true]
            refine ⟨?_, ?_, ?_, ?_⟩
            · intro x hx
              rcases List.mem_append.1 hx with hx | hx
              · exact i1 x hx
              · simp only [List.mem_singleton] at hx
                rw [hx, hf]; rfl
            · rw [List.filterMap_append, i2]
              simp only [List.filterMap_cons, hf, List.filterMap_nil]
              rw [keepFirst_concat, if_neg hsT]
            · intro x
              rw [List.filterMap_append]
              simp only [List.filterMap_cons, hf, List.filterMap_nil, List.mem_append,
                List.mem_singleton, List.mem_cons, i3 x, List.not_mem_nil, or_false]
              exact or_comm
            · rw [List.map_append, List.map_append, i4]
              simp [hf])
          simpa using hI1
        · have hI1 := hstep k T (by
            simp only [StringMap.get_set, if_neg hk]
            exact hI)
          simpa [hk] using hI1

theorem keepOrFind_ok (current : Option (List String)) (found : Except Died (List String))
    (r : Option (List String)) (h : keepOrFind current found = Except.ok r) :
    ∃ x, r = some x ∧ ∀ c, current = some c → x = c := by
  unfold keepOrFind at h
  cases current with
  | some c =>
    simp only [Except.ok.injEq] at h
    exact ⟨c, h.symm, fun c1 hc => (Option.some.inj hc)⟩
  | none =>
    cases found with
    | error e => simp at h
    | ok x =>
      simp only [Except.ok.injEq] at h
      exact ⟨x, h.symm, fun c hc => by simp at hc⟩

theorem crudRows_eq (k : String) (d : tableRowCrud) :
    (((if "insert" = k then d.Insert else []) ++ (if "update" = k then d.Update else [])) ++
      (if "delete" = k then d.Delete else [])) = crudRows k d := by
  unfold crudRows
  by_cases h1 : k = "insert"
  · subst h1; simp
  · by_cases h2 : k = "update"
    · subst h2; simp
    · by_cases h3 : k = "delete"
      · subst h3; simp
      · have e1 : ¬ ("insert" = k) := fun e => h1 e.symm
        have e2 : ¬ ("update" = k) := fun e => h2 e.symm
        have e3 : ¬ ("delete" = k) := fun e => h3 e.symm
        simp [h1, h2, h3, e1, e2, e3]

/-- The loop over the log lines keeps quotes that are set, sets them at the first
line, and extends the consolidation of every crud type by the rows of that type in
the lines, in order. -/
theorem populateLines_inv (sprintV : Value → String) (fieldtypeTime fieldtypeDate : iFieldType)
    (columns : String → List String) (pkResult : String → Option (List (String × String))) :
    ∀ (lines : List TableChunkRowsInfo) (st st1 : populateState),
      populateLines sprintV fieldtypeTime fieldtypeDate columns pkResult lines st =
        Except.ok st1 →
      (∀ q0, st.consolidateTableRows.AllPKColumnQuotes = some q0 →
        st1.consolidateTableRows.AllPKColumnQuotes = some q0) ∧
      ∀ (k : String) (T : List TableRow),
        Consolidated sprintV (st1.consolidateTableRows.AllPKColumnQuotes.getD []) k T st →
        Consolidated sprintV (st1.consolidateTableRows.AllPKColumnQuotes.getD []) k
          (T ++ (lines.map (fun l => crudRows k l.Diff)).flatten) st1 := by
  intro lines
  induction lines with
  | nil =>
    intro st st1 h
    simp only [populateLines, Except.ok.injEq] at h
    subst h
    exact ⟨fun q0 hq => hq, fun k T hI => by simpa using hI⟩
  | cons tcri rest ih =>
    intro st st1 h
    unfold populateLines at h
    simp only at h
    cases hn : keepOrFind st.consolidateTableRows.AllPKColumnNames
        (FindAllPKColumnNames fieldtypeTime fieldtypeDate (pkResult tcri.TableSrc)) with
    | error e => simp [hn] at h
    | ok n =>
      cases hq : keepOrFind st.consolidateTableRows.AllPKColumnQuotes
          (FindAllPKColumnQuotes fieldtypeTime fieldtypeDate (pkResult tcri.TableSrc)) with
      | error e => simp [hn, hq] at h
      | ok q =>
        obtain ⟨qh, hqh, hkeep⟩ := keepOrFind_ok _ _ _ hq
        subst hqh
        simp only [hn, hq] at h
        generalize hst0 : ({ st with
            consolidateTableRows :=
              { st.consolidateTableRows with
                TableSrc := if st.consolidateTableRows.TableSrc = "" then tcri.TableSrc
                  else st.consolidateTableRows.TableSrc
                TableTgt := if st.consolidateTableRows.TableTgt = "" then tcri.TableTgt
                  else st.consolidateTableRows.TableTgt
                FieldColumnNames :=
                  match st.consolidateTableRows.FieldColumnNames with
                  | some f => some f
                  | none => sliceOrNil (columns tcri.TableSrc)
                AllPKColumnNames := n
                AllPKColumnQuotes := some qh } } : populateState) = st0 at h
        have hq0 : st0.consolidateTableRows.AllPKColumnQuotes = some qh := by rw [← hst0]
        have hmaps : ∀ k T q1, Consolidated sprintV q1 k T st → Consolidated sprintV q1 k T st0 := by
          intro k T q1 hI
          rw [← hst0]
          exact hI
        cases h2 : populate sprintV "insert" tcri.Diff.Insert st0 with
        | none => simp [h2] at h
        | some st2 =>
          cases h3 : populate sprintV "update" tcri.Diff.Update st2 with
          | none => simp [h2, h3] at h
          | some st3 =>
            cases h4 : populate sprintV "delete" tcri.Diff.Delete st3 with
            | none => simp [h2, h3, h4] at h
            | some st4 =>
              simp only [h2, h3, h4, Option.some_bind] at h
              obtain ⟨p2, s2⟩ := populate_step sprintV qh "insert" _ st0 st2 h2 (by rw [hq0]; rfl)
              obtain ⟨p3, s3⟩ := populate_step sprintV qh "update" _ st2 st3 h3
                (by rw [p2, hq0]; rfl)
              obtain ⟨p4, s4⟩ := populate_step sprintV qh "delete" _ st3 st4 h4
                (by rw [p3, p2, hq0]; rfl)
              obtain ⟨k1, k2⟩ := ih st4 st1 h
              have hfin : st1.consolidateTableRows.AllPKColumnQuotes = some qh :=
                k1 qh (by rw [p4, p3, p2, hq0])
              refine ⟨fun q0 hq0s => ?_, fun k T hI => ?_⟩
              · rw [hfin, hkeep q0 hq0s]
              · rw [hfin] at hI ⊢
                simp only [Option.getD_some] at hI ⊢
                have hI4 := s4 k _ (s3 k _ (s2 k T (hmaps k T qh hI)))
                rw [List.append_assoc, List.append_assoc, ← List.append_assoc
                  (if "insert" = k then tcri.Diff.Insert else []), crudRows_eq] at hI4
                have hI5 := k2 k _ (by rw [hfin]; exact hI4)
                rw [hfin] at hI5
                simpa [List.append_assoc] using hI5

theorem formatFields_isSome (sprintV : Value → String) :
    ∀ (q : List String) (vs : List Value), vs.length ≤ q.length →
      (formatFields sprintV q vs).isSome = true := by
  intro q
  induction q with
  | nil =>
    intro vs h
    cases vs with
    | nil => rfl
    | cons v vs => simp at h
  | cons a q ih =>
    intro vs h
    cases vs with
    | nil => rfl
    | cons v vs =>
      have h1 : vs.length ≤ q.length := by simpa using h
      have h2 := ih vs h1
      simp only [formatFields, Option.isSome_map']
      exact h2

theorem formatPKValues_isSome (sprintV : Value → String) (q : List String) (vs : List Value)
    (h : vs.length ≤ q.length) : (formatPKValues sprintV q vs).isSome = true := by
  unfold formatPKValues
  rw [Option.isSome_map']
  exact formatFields_isSome sprintV q vs h

/-- The closure `populate` returns when every row has at most as many PK values as
there are quotes, and it leaves the names and the quotes alone. -/
theorem populate_ok (sprintV : Value → String) (crudtype : String) (q : List String) :
    ∀ (tablerows : List TableRow) (st : populateState),
      st.consolidateTableRows.AllPKColumnQuotes = some q →
      (∀ tr ∈ tablerows, tr.AllPKColumnValues.length ≤ q.length) →
      ∃ st1, populate sprintV crudtype tablerows st = some st1 ∧
        st1.consolidateTableRows.AllPKColumnQuotes = some q ∧
        st1.consolidateTableRows.AllPKColumnNames =
          st.consolidateTableRows.AllPKColumnNames := by
  intro tablerows
  induction tablerows with
  | nil =>
    intro st hq _
    exact ⟨st, rfl, hq, rfl⟩
  | cons tr rest ih =>
    intro st hq hlen
    have h1 := formatPKValues_isSome sprintV q tr.AllPKColumnValues
      (hlen tr (List.mem_cons_self _ _))
    obtain ⟨s, hs⟩ := Option.isSome_iff_exists.mp h1
    have hrest : ∀ tr ∈ rest, tr.AllPKColumnValues.length ≤ q.length :=
      fun x hx => hlen x (List.mem_cons_of_mem _ hx)
    unfold populate
    rw [hq]
    simp only [Option.getD_some, hs]
    split
    · exact ih st hq hrest
    · exact ih _ hq hrest

/-- The loop over the log lines returns when the key columns of the table of the
first line can be looked up and no row has more PK values than that key has
columns. -/
theorem populateLines_ok (sprintV : Value → String) (fieldtypeTime fieldtypeDate : iFieldType)
    (columns : String → List String) (pkResult : String → Option (List (String × String)))
    (q : List String) :
    ∀ (lines : List TableChunkRowsInfo) (st : populateState),
      (∀ l ∈ lines, ∀ k, ∀ tr ∈ crudRows k l.Diff, tr.AllPKColumnValues.length ≤ q.length) →
      (∀ l, lines.head? = some l →
        (∃ n, keepOrFind st.consolidateTableRows.AllPKColumnNames
          (FindAllPKColumnNames fieldtypeTime fieldtypeDate (pkResult l.TableSrc)) =
            Except.ok (some n)) ∧
        keepOrFind st.consolidateTableRows.AllPKColumnQuotes
          (FindAllPKColumnQuotes fieldtypeTime fieldtypeDate (pkResult l.TableSrc)) =
            Except.ok (some q)) →
      ∃ st1, populateLines sprintV fieldtypeTime fieldtypeDate columns pkResult lines st =
        Except.ok st1 := by
  intro lines
  induction lines with
  | nil =>
    intro st _ _
    exact ⟨st, rfl⟩
  | cons tcri rest ih =>
    intro st hlen hfind
    obtain ⟨⟨n, hn⟩, hq⟩ := hfind tcri rfl
    unfold populateLines
    simp only [hn, hq]
    have hI := hlen tcri (List.mem_cons_self _ _) "insert"
    have hU := hlen tcri (List.mem_cons_self _ _) "update"
    have hD := hlen tcri (List.mem_cons_self _ _) "delete"
    simp only [crudRows] at hI hU hD
    have key : ∀ st0 : populateState,
        st0.consolidateTableRows.AllPKColumnQuotes = some q →
        st0.consolidateTableRows.AllPKColumnNames = some n →
        ∃ st1, (match (populate sprintV "insert" tcri.Diff.Insert st0).bind
            (fun st2 => (populate sprintV "update" tcri.Diff.Update st2).bind
              (fun st3 => populate sprintV "delete" tcri.Diff.Delete st3)) with
          | none => Except.error Died.panicked
          | some st4 =>
            populateLines sprintV fieldtypeTime fieldtypeDate columns pkResult rest st4) =
          Except.ok st1 := by
      intro st0 q0 n0
      obtain ⟨st2, e2, q2, n2⟩ := populate_ok sprintV "insert" q tcri.Diff.Insert st0 q0 hI
      obtain ⟨st3, e3, q3, n3⟩ := populate_ok sprintV "update" q tcri.Diff.Update st2 q2
        (by simpa using hU)
      obtain ⟨st4, e4, q4, n4⟩ := populate_ok sprintV "delete" q tcri.Diff.Delete st3 q3
        (by simpa using hD)
      rw [e2, Option.some_bind, e3, Option.some_bind, e4]
      simp only
      refine ih st4 (fun l hl => hlen l (List.mem_cons_of_mem _ hl)) (fun l _ => ?_)
      rw [q4, n4, n3, n2, n0]
      exact ⟨⟨n, rfl⟩, rfl⟩
    exact key _ rfl rfl

theorem StringMap.get_crud_nil {α : Type} (k : String) :
    StringMap.get ([] : List α) [("insert", []), ("update", []), ("delete", [])] k = [] := by
  simp only [StringMap.get]
  split_ifs <;> rfl

/-- C28. Query-mode consolidation.  Whenever `PopulateConsolidateTableRows` returns a
struct, then for each of insert, update and delete the formatted PK rows have no
duplicates, contain the formatted tuple of every row listed under that type in any
line, are those formatted tuples in the order of their first occurrence, and line
up with the raw PK tuples: same length, and the tuple at each position formats to
the row at that position.  It does return for at least one line when the key
columns of the table of the first line can be looked up and no row has more PK
values than that key has columns. -/
theorem C28_consolidation_is_deduplicated_ordered_and_aligned (sprintV : Value → String)
    (fieldtypeTime fieldtypeDate : iFieldType) (columns : String → List String)
    (pkResult : String → Option (List (String × String)))
    (textlines : List TableChunkRowsInfo) :
    (∀ c, PopulateConsolidateTableRows sprintV fieldtypeTime fieldtypeDate columns pkResult
          textlines = Except.ok c →
      ∀ k ∈ ["insert", "update", "delete"],
        (StringMap.get [] c.MapPKColumnValuesRows k).Nodup ∧
        (∀ l ∈ textlines, ∀ tr ∈ crudRows k l.Diff,
          ∃ s, formatPKValues sprintV (c.AllPKColumnQuotes.getD []) tr.AllPKColumnValues =
              some s ∧ s ∈ StringMap.get [] c.MapPKColumnValuesRows k) ∧
        StringMap.get [] c.MapPKColumnValuesRows k =
          keepFirst (((textlines.map (fun l => crudRows k l.Diff)).flatten).filterMap
            (fun tr => formatPKValues sprintV (c.AllPKColumnQuotes.getD [])
              tr.AllPKColumnValues)) ∧
        (StringMap.get [] c.MapPKColumnValues k).length =
          (StringMap.get [] c.MapPKColumnValuesRows k).length ∧
        (StringMap.get [] c.MapPKColumnValues k).map
            (formatPKValues sprintV (c.AllPKColumnQuotes.getD [])) =
          (StringMap.get [] c.MapPKColumnValuesRows k).map some) ∧
    (∀ l rest cols, textlines = l :: rest →
      allPKColumns fieldtypeTime fieldtypeDate (pkResult l.TableSrc) = Except.ok cols →
      (∀ l1 ∈ textlines, ∀ k, ∀ tr ∈ crudRows k l1.Diff,
        tr.AllPKColumnValues.length ≤ cols.length) →
      ∃ c, PopulateConsolidateTableRows sprintV fieldtypeTime fieldtypeDate columns pkResult
        textlines = Except.ok c) := by
  constructor
  · intro c h k _
    unfold PopulateConsolidateTableRows at h
    split at h
    · cases h
    · split at h
      · cases h
      · rename_i st1 hst
        simp only [Except.ok.injEq] at h
        subst h
        obtain ⟨_, hinv⟩ := populateLines_inv sprintV fieldtypeTime fieldtypeDate columns
          pkResult textlines _ st1 hst
        have h0 := hinv k [] (by
          unfold Consolidated
          refine ⟨fun tr htr => absurd htr (List.not_mem_nil _), ?_, ?_, ?_⟩
          · rw [StringMap.get_crud_nil]; rfl
          · intro s
            rw [StringMap.get_crud_nil]
            simp
          · rw [StringMap.get_crud_nil, StringMap.get_crud_nil]; rfl)
        rw [List.nil_append] at h0
        obtain ⟨hfmt, hrows, _, hval⟩ := h0
        refine ⟨?_, ?_, hrows, ?_, hval⟩
        · rw [hrows]
          exact nodup_keepFirst _
        · intro l hl tr htr
          have hmem : tr ∈ (textlines.map (fun l => crudRows k l.Diff)).flatten :=
            List.mem_flatten.mpr ⟨_, List.mem_map.mpr ⟨l, hl, rfl⟩, htr⟩
          obtain ⟨s, hs⟩ := Option.isSome_iff_exists.mp (hfmt tr hmem)
          refine ⟨s, hs, ?_⟩
          rw [hrows, mem_keepFirst]
          exact List.mem_filterMap.mpr ⟨tr, hmem, hs⟩
        · have := congrArg List.length hval
          simpa using this
  · intro l rest cols hlines hcols hlen
    unfold PopulateConsolidateTableRows
    rw [if_neg (by rw [hlines]; exact List.cons_ne_nil _ _)]
    obtain ⟨st1, hst⟩ := populateLines_ok sprintV fieldtypeTime fieldtypeDate columns pkResult
      (cols.map (fun c => if c.FieldType.withQuote then sqlQuote else "")) textlines
      { mapTableRowExists := [("insert", []), ("update", []), ("delete", [])]
        consolidateTableRows :=
          { MapPKColumnValuesRows := [("insert", []), ("update", []), ("delete", [])]
            MapPKColumnValues := [("insert", []), ("update", []), ("delete", [])]
            TableSrc := ""
            TableTgt := ""
            AllPKColumnNames := none
            AllPKColumnQuotes := none
            FieldColumnNames := none } }
      (by simpa using hlen)
      (by
        intro l0 hl0
        rw [hlines] at hl0
        simp only [List.head?_cons, Option.some.injEq] at hl0
        subst hl0
        simp only [keepOrFind, FindAllPKColumnNames, FindAllPKColumnQuotes, hcols]
        exact ⟨⟨_, rfl⟩, trivial⟩)
    rw [hst]
    exact ⟨_, rfl⟩

/-- C28 witness: the two log lines of `consolidateLines`, in which key 2 is listed
twice under update and key 3 twice under insert, consolidate to the rows 3, 4 under
insert, 2 under update and 5 under delete, each once. -/
theorem C28_consolidation_is_deduplicated_ordered_and_aligned_witness :
    (∃ c, PopulateConsolidateTableRows fmtSprint fieldtypeInt fieldtypeInt
        (fun _ => ["id", "v"]) (fun _ => some [("id", "int")]) consolidateLines =
          Except.ok c ∧
      StringMap.get [] c.MapPKColumnValuesRows "insert" = ["3", "4"] ∧
      StringMap.get [] c.MapPKColumnValuesRows "update" = ["2"] ∧
      StringMap.get [] c.MapPKColumnValuesRows "delete" = ["5"] ∧
      StringMap.get [] c.MapPKColumnValues "insert" = [[Value.int 3], [Value.int 4]]) ∧
    ∀ c, PopulateConsolidateTableRows fmtSprint fieldtypeInt fieldtypeInt
        (fun _ => ["id", "v"]) (fun _ => some [("id", "int")]) consolidateLines =
          Except.ok c →
      (StringMap.get [] c.MapPKColumnValuesRows "insert").Nodup :=
  ⟨⟨_, rfl, by decide, by decide, by decide, by decide⟩,
    fun c h => ((C28_consolidation_is_deduplicated_ordered_and_aligned fmtSprint fieldtypeInt
      fieldtypeInt (fun _ => ["id", "v"]) (fun _ => some [("id", "int")])
      consolidateLines).1 c h "insert" (by decide)).1⟩

/-! ### Lookaheads issued by the composite planner -/

theorem populateResultset_count (t : pkTable) (ft : iFieldType) (L : List Value) (q : String) :
    ∀ (rub : List ubRow) (cnt : Int) (rows : List resultRow),
      pkTableMulti.populateResultset t ft L q rub = some (cnt, rows) →
      (rows.map (fun r => r.count)).sum = cnt := by
  intro rub
  induction rub with
  | nil =>
    intro cnt rows h
    simp only [pkTableMulti.populateResultset, Option.some.injEq, Prod.mk.injEq] at h
    obtain ⟨h1, h2⟩ := h
    subst h1 h2
    rfl
  | cons o rest ih =>
    intro cnt rows h
    simp only [pkTableMulti.populateResultset] at h
    cases h1 : transformLeading t.GetPKColumns o.leading with
    | none => simp [h1] at h
    | some leading =>
      cases h2 : trailingLowerBoundary t ft L with
      | none => simp [h1, h2] at h
      | some lb =>
        cases h3 : ft.transformDBResultType o.maxTrailing with
        | none => simp [h1, h2, h3] at h
        | some ub =>
          cases h4 : pkTableMulti.populateResultset t ft L q rest with
          | none => simp [h1, h2, h3, h4] at h
          | some res =>
            obtain ⟨cnt1, rows1⟩ := res
            simp only [h1, h2, h3, h4, Option.some.injEq, Prod.mk.injEq] at h
            obtain ⟨hc, hr⟩ := h
            subst hc hr
            simp [ih cnt1 rows1 h4]

theorem runUpperBoundary_count (env : envarg) (t : pkTable) (db : Endpoint) (ft : iFieldType)
    (ops : List String) (cs : Int) (L : List Value) (cnt : Int) (rows : List resultRow)
    (h : pkTableMulti.runUpperBoundary env t db ft ops cs L = some (cnt, rows)) :
    (rows.map (fun r => r.count)).sum = cnt := by
  unfold pkTableMulti.runUpperBoundary at h
  simp only [] at h
  split at h
  · cases h
  · exact populateResultset_count t ft L _ _ cnt rows h

theorem runUpperBoundaryFor2PKFieldsLogged_spec (env : envarg) (t : pkTable) (db : Endpoint)
    (ft : iFieldType) (ops : List String) (cs : Int) (LB : List Value)
    (hops : ops.length = 2) (hLB : LB ≠ []) :
    (pkTableMulti.runUpperBoundaryFor2PKFieldsLogged env t db ft ops cs LB).2 =
      pkTableMulti.runUpperBoundaryFor2PKFields env t db ft ops cs LB ∧
    UnwindingLog (pkTableMulti.runUpperBoundaryFor2PKFieldsLogged env t db ft ops cs LB).1
      cs LB ops ∧
    ∀ rows, (pkTableMulti.runUpperBoundaryFor2PKFieldsLogged env t db ft ops cs LB).2 =
        some rows →
      Collected (pkTableMulti.runUpperBoundaryFor2PKFieldsLogged env t db ft ops cs LB).1
        rows := by
  unfold pkTableMulti.runUpperBoundaryFor2PKFieldsLogged
    pkTableMulti.runUpperBoundaryFor2PKFields pkTableMulti.runUpperBoundaryLogged
  have hs : sliceDropLast LB = some LB.dropLast := by simp [sliceDropLast, hLB]
  cases hA : pkTableMulti.runUpperBoundary env t db ft ops cs LB with
  | none => simp [UnwindingLog]
  | some res =>
    obtain ⟨cnt, rows⟩ := res
    have hcA := runUpperBoundary_count env t db ft ops cs LB cnt rows hA
    by_cases hfull : cnt = cs
    · subst hfull
      simp [UnwindingLog, Collected, hcA]
    · simp only [hfull, if_false, hs, Option.map_some']
      cases hB : pkTableMulti.runUpperBoundary env t db ft [">"] (cs - cnt) LB.dropLast with
      | none => simp [UnwindingLog, hfull, hops]
      | some res1 =>
        obtain ⟨cnt1, rows1⟩ := res1
        have hcB := runUpperBoundary_count env t db ft [">"] (cs - cnt) LB.dropLast cnt1 rows1 hB
        simp [UnwindingLog, Collected, hfull, hops, hcA, hcB]

theorem UnwindingLog_ne_nil (logs : List lookaheadLog) (cs : Int) (LB : List Value)
    (ops : List String) (h : UnwindingLog logs cs LB ops) : logs ≠ [] := by
  cases logs with
  | nil => simp [UnwindingLog] at h
  | cons l rest => exact List.cons_ne_nil _ _

theorem dropLast_ne_nil_of_length (LB : List Value) (n : Nat) (h : LB.length = n + 2) :
    LB.dropLast ≠ [] := by
  intro e
  have := congrArg List.length e
  simp [h] at this

theorem runUpperBoundaryFor3PKFieldsLogged_spec (env : envarg) (t : pkTable) (db : Endpoint)
    (ft : iFieldType) (ops : List String) (cs : Int) (LB : List Value)
    (hops : ops.length = 3) (hLB : LB.length = 3) :
    (pkTableMulti.runUpperBoundaryFor3PKFieldsLogged env t db ft ops cs LB).2 =
      pkTableMulti.runUpperBoundaryFor3PKFields env t db ft ops cs LB ∧
    UnwindingLog (pkTableMulti.runUpperBoundaryFor3PKFieldsLogged env t db ft ops cs LB).1
      cs LB ops ∧
    ∀ rows, (pkTableMulti.runUpperBoundaryFor3PKFieldsLogged env t db ft ops cs LB).2 =
        some rows →
      Collected (pkTableMulti.runUpperBoundaryFor3PKFieldsLogged env t db ft ops cs LB).1
        rows := by
  unfold pkTableMulti.runUpperBoundaryFor3PKFieldsLogged
    pkTableMulti.runUpperBoundaryFor3PKFields pkTableMulti.runUpperBoundaryLogged
  have hne : LB ≠ [] := by
    intro e
    rw [e] at hLB
    simp at hLB
  have hs : sliceDropLast LB = some LB.dropLast := by simp [sliceDropLast, hne]
  cases hA : pkTableMulti.runUpperBoundary env t db ft ops cs LB with
  | none => simp [UnwindingLog]
  | some res =>
    obtain ⟨cnt, rows⟩ := res
    have hcA := runUpperBoundary_count env t db ft ops cs LB cnt rows hA
    by_cases hfull : cnt = cs
    · subst hfull
      simp [UnwindingLog, Collected, hcA]
    · simp only [hfull, if_false, hs, Option.map_some']
      obtain ⟨e2, u2, c2⟩ := runUpperBoundaryFor2PKFieldsLogged_spec env t db ft ["=", ">"]
        (cs - cnt) LB.dropLast rfl (dropLast_ne_nil_of_length LB 1 hLB)
      have hne2 := UnwindingLog_ne_nil _ _ _ _ u2
      rw [← e2]
      cases hB : pkTableMulti.runUpperBoundaryFor2PKFieldsLogged env t db ft ["=", ">"]
          (cs - cnt) LB.dropLast with
      | mk logs res2 =>
        rw [hB] at u2 c2 hne2
        simp only at u2 c2 hne2
        cases res2 with
        | none =>
          simp only [UnwindingLog, true_and, hne2, false_implies, not_false_eq_true,
            forall_true_left, hops, and_true]
          exact ⟨fun _ => ⟨cnt, rfl, hfull, by omega, u2⟩, fun rows h => by simp at h⟩
        | some rows1 =>
          obtain ⟨c2a, c2b⟩ := c2 rows1 rfl
          simp only [UnwindingLog, true_and, hne2, false_implies, not_false_eq_true,
            forall_true_left, hops, and_true]
          refine ⟨fun _ => ⟨cnt, rfl, hfull, by omega, u2⟩, ?_⟩
          intro rows0 h
          simp only [Option.some.injEq] at h
          subst h
          refine ⟨?_, ?_⟩
          · intro l hl
            simp only [List.mem_cons] at hl
            rcases hl with hl | hl
            · subst hl; rfl
            · exact c2a l hl
          · simp [hcA, c2b]

theorem runUpperBoundaryFor4PKFieldsLogged_spec (env : envarg) (t : pkTable) (db : Endpoint)
    (ft : iFieldType) (ops : List String) (cs : Int) (LB : List Value)
    (hops : ops.length = 4) (hLB : LB.length = 4) :
    (pkTableMulti.runUpperBoundaryFor4PKFieldsLogged env t db ft ops cs LB).2 =
      pkTableMulti.runUpperBoundaryFor4PKFields env t db ft ops cs LB ∧
    UnwindingLog (pkTableMulti.runUpperBoundaryFor4PKFieldsLogged env t db ft ops cs LB).1
      cs LB ops ∧
    ∀ rows, (pkTableMulti.runUpperBoundaryFor4PKFieldsLogged env t db ft ops cs LB).2 =
        some rows →
      Collected (pkTableMulti.runUpperBoundaryFor4PKFieldsLogged env t db ft ops cs LB).1
        rows := by
  unfold pkTableMulti.runUpperBoundaryFor4PKFieldsLogged
    pkTableMulti.runUpperBoundaryFor4PKFields pkTableMulti.runUpperBoundaryLogged
  have hne : LB ≠ [] := by
    intro e
    rw [e] at hLB
    simp at hLB
  have hs : sliceDropLast LB = some LB.dropLast := by simp [sliceDropLast, hne]
  cases hA : pkTableMulti.runUpperBoundary env t db ft ops cs LB with
  | none => simp [UnwindingLog]
  | some res =>
    obtain ⟨cnt, rows⟩ := res
    have hcA := runUpperBoundary_count env t db ft ops cs LB cnt rows hA
    by_cases hfull : cnt = cs
    · subst hfull
      simp [UnwindingLog, Collected, hcA]
    · simp only [hfull, if_false, hs, Option.map_some']
      obtain ⟨e2, u2, c2⟩ := runUpperBoundaryFor3PKFieldsLogged_spec env t db ft ["=", "=", ">"]
        (cs - cnt) LB.dropLast rfl (by simp [hLB])
      have hne2 := UnwindingLog_ne_nil _ _ _ _ u2
      rw [← e2]
      cases hB : pkTableMulti.runUpperBoundaryFor3PKFieldsLogged env t db ft ["=", "=", ">"]
          (cs - cnt) LB.dropLast with
      | mk logs res2 =>
        rw [hB] at u2 c2 hne2
        simp only at u2 c2 hne2
        cases res2 with
        | none =>
          simp only [UnwindingLog, true_and, hne2, false_implies, not_false_eq_true,
            forall_true_left, hops, and_true]
          exact ⟨fun _ => ⟨cnt, rfl, hfull, by omega, u2⟩, fun rows h => by simp at h⟩
        | some rows1 =>
          obtain ⟨c2a, c2b⟩ := c2 rows1 rfl
          simp only [UnwindingLog, true_and, hne2, false_implies, not_false_eq_true,
            forall_true_left, hops, and_true]
          refine ⟨fun _ => ⟨cnt, rfl, hfull, by omega, u2⟩, ?_⟩
          intro rows0 h
          simp only [Option.some.injEq] at h
          subst h
          refine ⟨?_, ?_⟩
          · intro l hl
            simp only [List.mem_cons] at hl
            rcases hl with hl | hl
            · subst hl; rfl
            · exact c2a l hl
          · simp [hcA, c2b]

/-- Closed form of the reports of an unwinding that starts with `m` operators `=`
followed by `op`. -/
theorem UnwindingLog_closed :
    ∀ (logs : List lookaheadLog) (cs : Int) (LB : List Value) (m : Nat) (op : String),
      UnwindingLog logs cs LB (List.replicate m "=" ++ [op]) → LB.length = m + 1 →
      logs.length ≤ m + 1 ∧
      ∀ (i : Nat) (l : lookaheadLog), logs[i]? = some l →
        l.operators =
          (if i = 0 then List.replicate m "=" ++ [op] else List.replicate (m - i) "=" ++ [">"]) ∧
        l.lowerboundary = LB.take (m + 1 - i) ∧
        l.chunksize = cs - ((logs.take i).map (fun x => x.rowcntSrc.getD 0)).sum ∧
        (i + 1 < logs.length → ∃ cnt, l.rowcntSrc = some cnt ∧ cnt ≠ l.chunksize) ∧
        (i + 1 = logs.length →
          l.rowcntSrc = none ∨ l.rowcntSrc = some l.chunksize ∨ i = m) := by
  intro logs
  induction logs with
  | nil =>
    intro cs LB m op h _
    simp [UnwindingLog] at h
  | cons l0 rest ih =>
    intro cs LB m op h hLB
    obtain ⟨h1, h2, h3, h4, h5⟩ := h
    cases rest with
    | nil =>
      refine ⟨by simp, ?_⟩
      intro i l hi
      cases i with
      | zero =>
        simp only [List.getElem?_cons_zero, Option.some.injEq] at hi
        subst hi
        refine ⟨by simpa using h1, ?_, by simpa using h2, by simp, ?_⟩
        · rw [h3]
          simp [List.take_of_length_le, hLB]
        · intro _
          rcases h4 rfl with h | h | h
          · exact Or.inl h
          · exact Or.inr (Or.inl (by rw [h, h2]))
          · right; right
            simp at h
            exact h.symm
      | succ j => simp at hi
    | cons l1 rest1 =>
      obtain ⟨cnt, hc1, hc2, hc3, hc4⟩ := h5 (List.cons_ne_nil _ _)
      have hm : 1 ≤ m := by
        simp at hc3
        omega
      have hops : List.replicate ((List.replicate m "=" ++ [op]).length - 2) "=" ++ [">"] =
          List.replicate (m - 1) "=" ++ [">"] := by
        simp
      rw [hops] at hc4
      have hLB1 : LB.dropLast.length = (m - 1) + 1 := by
        simp [hLB]
        omega
      obtain ⟨ih1, ih2⟩ := ih (cs - cnt) LB.dropLast (m - 1) ">" hc4 hLB1
      refine ⟨by simp only [List.length_cons] at ih1 ⊢; omega, ?_⟩
      intro i l hi
      cases i with
      | zero =>
        simp only [List.getElem?_cons_zero, Option.some.injEq] at hi
        subst hi
        refine ⟨by simpa using h1, ?_, by simpa using h2, ?_, ?_⟩
        · rw [h3]
          simp [List.take_of_length_le, hLB]
        · intro _
          exact ⟨cnt, hc1, by rw [h2]; exact hc2⟩
        · intro h
          simp at h
      | succ j =>
        simp only [List.getElem?_cons_succ] at hi
        obtain ⟨g1, g2, g3, g4, g5⟩ := ih2 j l hi
        have hj : j < (l1 :: rest1).length := by
          by_contra hcon
          have := List.getElem?_eq_none (Nat.le_of_not_lt hcon)
          rw [this] at hi
          cases hi
        refine ⟨?_, ?_, ?_, ?_, ?_⟩
        · rw [g1]
          cases j with
          | zero => simp
          | succ j1 =>
            simp only [Nat.succ_ne_zero, if_false, Nat.add_eq_zero, and_false]
            congr 2
            omega
        · rw [g2, List.dropLast_eq_take, List.take_take, hLB]
          congr 1
          have e1 : min (m - 1 + 1 - j) (m + 1 - 1) = m + 1 - (j + 1) := by
            clear ih ih2 h4 h5 g4 g5 hc4
            omega
          exact e1
        · rw [g3]
          simp only [List.take_succ_cons, List.map_cons, List.sum_cons, hc1, Option.getD_some]
          generalize ((List.take j (l1 :: rest1)).map (fun x => x.rowcntSrc.getD 0)).sum = s
          clear ih ih2 h4 h5 g4 g5 hc4
          omega
        · intro h
          have e2 : j + 1 < (l1 :: rest1).length := by
            simp only [List.length_cons] at h ⊢
            clear ih ih2 h4 h5 g4 g5 hc4
            omega
          exact g4 e2
        · intro h
          have e3 : j + 1 = (l1 :: rest1).length := by
            simp only [List.length_cons] at h ⊢
            clear ih ih2 h4 h5 g4 g5 hc4
            omega
          rcases g5 e3 with g | g | g
          · exact Or.inl g
          · exact Or.inr (Or.inl g)
          · right; right
            clear ih ih2 h4 h5 g4 g5 hc4
            omega

/-- When every lookahead counted at most its chunk size, the counts reported in an
unwinding add up to at most the chunk size it started with. -/
theorem UnwindingLog_sum :
    ∀ (logs : List lookaheadLog) (cs : Int) (LB : List Value) (ops : List String),
      UnwindingLog logs cs LB ops →
      (∀ l ∈ logs, ∀ c, l.rowcntSrc = some c → c ≤ l.chunksize) →
      (∀ l ∈ logs, l.rowcntSrc.isSome = true) →
      (logs.map (fun l => l.rowcntSrc.getD 0)).sum ≤ cs := by
  intro logs
  induction logs with
  | nil =>
    intro cs LB ops h
    simp [UnwindingLog] at h
  | cons l0 rest ih =>
    intro cs LB ops h hle hsome
    obtain ⟨_, h2, _, _, h5⟩ := h
    obtain ⟨c0, hc0⟩ := Option.isSome_iff_exists.mp (hsome l0 (List.mem_cons_self _ _))
    have hle0 := hle l0 (List.mem_cons_self _ _) c0 hc0
    cases rest with
    | nil =>
      simp only [List.map_cons, List.map_nil, List.sum_cons, List.sum_nil, hc0,
        Option.getD_some]
      omega
    | cons l1 rest1 =>
      obtain ⟨cnt, hc1, _, _, hc4⟩ := h5 (List.cons_ne_nil _ _)
      rw [hc0] at hc1
      cases hc1
      have := ih (cs - c0) _ _ hc4 (fun l hl => hle l (List.mem_cons_of_mem _ hl))
        (fun l hl => hsome l (List.mem_cons_of_mem _ hl))
      simp only [List.map_cons, List.sum_cons, hc0, Option.getD_some] at this ⊢
      omega

/-- The reports of an unwinding over `k` columns that starts with the operators
`[=, .., =, >=]`, in closed form. -/
theorem UnwindingLog_arity (logs : List lookaheadLog) (cs : Int) (LB : List Value) (k : Nat)
    (hk : 1 ≤ k) (hu : UnwindingLog logs cs LB (List.replicate (k - 1) "=" ++ [">="]))
    (hL : LB.length = k) :
    logs ≠ [] ∧ logs.length ≤ k ∧
    (∀ (i : Nat) (l : lookaheadLog), logs[i]? = some l →
      l.operators =
        (if i = 0 then List.replicate (k - 1) "=" ++ [">="]
          else List.replicate (k - 1 - i) "=" ++ [">"]) ∧
      l.lowerboundary = LB.take (k - i) ∧
      l.lowerboundary.length = l.operators.length ∧
      l.chunksize = cs - ((logs.take i).map (fun x => x.rowcntSrc.getD 0)).sum ∧
      (i + 1 < logs.length → ∃ cnt, l.rowcntSrc = some cnt ∧ cnt ≠ l.chunksize) ∧
      (i + 1 = logs.length →
        l.rowcntSrc = none ∨ l.rowcntSrc = some l.chunksize ∨ i + 1 = k)) ∧
    (∀ rows, Collected logs rows →
      (∀ l ∈ logs, ∀ c, l.rowcntSrc = some c → c ≤ l.chunksize) →
      (rows.map (fun r => r.count)).sum ≤ cs) := by
  have hL1 : LB.length = (k - 1) + 1 := by omega
  obtain ⟨c1, c2⟩ := UnwindingLog_closed logs cs LB (k - 1) ">=" hu hL1
  refine ⟨UnwindingLog_ne_nil _ _ _ _ hu, by omega, ?_, ?_⟩
  · intro i l hi
    obtain ⟨g1, g2, g3, g4, g5⟩ := c2 i l hi
    have hi1 : i < logs.length := by
      by_contra hcon
      have := List.getElem?_eq_none (Nat.le_of_not_lt hcon)
      rw [this] at hi
      cases hi
    have e1 : k - 1 + 1 - i = k - i := by omega
    rw [e1] at g2
    refine ⟨g1, g2, ?_, g3, g4, ?_⟩
    · rw [g1, g2, List.length_take, hL]
      by_cases h0 : i = 0
      · subst h0
        simp
        omega
      · simp only [h0, if_false, List.length_append, List.length_replicate, List.length_singleton]
        omega
    · intro h
      rcases g5 h with g | g | g
      · exact Or.inl g
      · exact Or.inr (Or.inl g)
      · right; right
        omega
  · intro rows hc hle
    rw [hc.2]
    exact UnwindingLog_sum logs cs LB _ hu hle hc.1

theorem lookaheadWhere_eq_zipWith : ∀ (names ops : List String),
    lookaheadWhere names ops =
      List.zipWith (fun (n : String) (o : String) => n ++ o ++ "?") names ops := by
  intro names
  induction names with
  | nil =>
    intro ops
    cases ops <;> rfl
  | cons n ns ih =>
    intro ops
    cases ops with
    | nil => rfl
    | cons o os => simp [lookaheadWhere, ih]

/-- The text of a composite lookahead: its `WHERE` clause has one conjunct
`name op ?` per operator, on the leading columns in their order, and its `LIMIT` is
the chunk size. -/
theorem UpperBoundaryQuery_text (env : envarg) (names ops : List String) (cs : Int) :
    ∃ pre post, pkTableMulti.UpperBoundaryQuery env names ops cs =
      pre ++ "\n      WHERE " ++
        " AND ".intercalate
          (List.zipWith (fun (n : String) (o : String) => n ++ o ++ "?") names ops) ++
        additionalfilterstmt env ++ "\n      ORDER BY " ++ ",".intercalate names ++
        "\n      LIMIT " ++ fmtInt cs ++ post := by
  refine ⟨"\n    SELECT SQL_NO_CACHE\n\t\t\tCOUNT(1) AS rowcnt," ++
      ",".intercalate names.dropLast ++ ",MAX(" ++ names.getLastD "" ++
      ")\n    FROM (\n      SELECT " ++ ",".intercalate names ++ "\n      FROM " ++
      env.ArgSrcTable,
    ") AS A\n    GROUP BY " ++ ",".intercalate names.dropLast ++ "\n    ORDER BY " ++
      ",".intercalate names.dropLast ++ "\n    ", ?_⟩
  simp only [pkTableMulti.UpperBoundaryQuery, String.append_assoc, lookaheadWhere_eq_zipWith]

theorem populateResultset_query (t : pkTable) (ft : iFieldType) (L : List Value) (q : String) :
    ∀ (rub : List ubRow) (cnt : Int) (rows : List resultRow),
      pkTableMulti.populateResultset t ft L q rub = some (cnt, rows) →
      ∀ r ∈ rows, r.query = q := by
  intro rub
  induction rub with
  | nil =>
    intro cnt rows h
    simp only [pkTableMulti.populateResultset, Option.some.injEq, Prod.mk.injEq] at h
    obtain ⟨_, h2⟩ := h
    subst h2
    intro r hr
    simp at hr
  | cons o rest ih =>
    intro cnt rows h
    simp only [pkTableMulti.populateResultset] at h
    cases h1 : transformLeading t.GetPKColumns o.leading with
    | none => simp [h1] at h
    | some leading =>
      cases h2 : trailingLowerBoundary t ft L with
      | none => simp [h1, h2] at h
      | some lb =>
        cases h3 : ft.transformDBResultType o.maxTrailing with
        | none => simp [h1, h2, h3] at h
        | some ub =>
          cases h4 : pkTableMulti.populateResultset t ft L q rest with
          | none => simp [h1, h2, h3, h4] at h
          | some res =>
            obtain ⟨cnt1, rows1⟩ := res
            simp only [h1, h2, h3, h4, Option.some.injEq, Prod.mk.injEq] at h
            obtain ⟨_, hr⟩ := h
            subst hr
            intro r hr
            simp only [List.mem_cons] at hr
            rcases hr with hr | hr
            · subst hr; rfl
            · exact ih cnt1 rows1 h4 r hr

theorem runUpperBoundary_query (env : envarg) (t : pkTable) (db : Endpoint) (ft : iFieldType)
    (ops : List String) (cs : Int) (L : List Value) (cnt : Int) (rows : List resultRow)
    (h : pkTableMulti.runUpperBoundary env t db ft ops cs L = some (cnt, rows)) :
    ∀ r ∈ rows, r.query = plugInputs (lookaheadInputQuote t) 0 L
      (pkTableMulti.UpperBoundaryQuery env t.GetPKColumnNames ops cs) := by
  unfold pkTableMulti.runUpperBoundary pkTable.UpperBoundaryResult at h
  simp only [] at h
  cases hl : db.lookahead t.GetPKColumnNames ops cs L with
  | none => simp [hl] at h
  | some rub =>
    by_cases hall : (rub.all fun r =>
        decide (r.leading.length + 1 = t.GetPKColumnNames.length)) = true
    · simp only [hl, hall, if_true] at h
      exact populateResultset_query t ft L _ _ cnt rows h
    · simp [hl, hall] at h

theorem Issued_single (env : envarg) (t : pkTable) (db : Endpoint) (ft : iFieldType)
    (ops : List String) (cs : Int) (L : List Value) (rc : Option Int)
    (res : Option (List resultRow))
    (h : ∀ rows, res = some rows →
      ∃ cnt, pkTableMulti.runUpperBoundary env t db ft ops cs L = some (cnt, rows)) :
    Issued env t
      [{ operators := ops, chunksize := cs,
         query := pkTableMulti.UpperBoundaryQuery env t.GetPKColumnNames ops cs,
         lowerboundary := L, rowcntSrc := rc }] res := by
  refine ⟨?_, ?_⟩
  · intro l hl
    simp only [List.mem_singleton] at hl
    subst hl
    rfl
  · intro rows hr r hmem
    obtain ⟨cnt, hc⟩ := h rows hr
    exact ⟨_, List.mem_singleton.mpr rfl,
      runUpperBoundary_query env t db ft ops cs L cnt rows hc r hmem⟩

theorem Issued_cons (env : envarg) (t : pkTable) (db : Endpoint) (ft : iFieldType)
    (ops : List String) (cs : Int) (L : List Value) (rc : Option Int) (cnt : Int)
    (rows : List resultRow) (logs : List lookaheadLog) (res : Option (List resultRow))
    (h : pkTableMulti.runUpperBoundary env t db ft ops cs L = some (cnt, rows))
    (hi : Issued env t logs res) :
    Issued env t
      ({ operators := ops, chunksize := cs,
         query := pkTableMulti.UpperBoundaryQuery env t.GetPKColumnNames ops cs,
         lowerboundary := L, rowcntSrc := rc } :: logs)
      (res.map (fun rows1 => rows ++ rows1)) := by
  refine ⟨?_, ?_⟩
  · intro l hl
    simp only [List.mem_cons] at hl
    rcases hl with hl | hl
    · subst hl; rfl
    · exact hi.1 l hl
  · intro rows0 hr r hmem
    cases res with
    | none => simp at hr
    | some rows1 =>
      simp only [Option.map_some', Option.some.injEq] at hr
      subst hr
      simp only [List.mem_append] at hmem
      rcases hmem with hm | hm
      · exact ⟨_, List.mem_cons_self _ _,
          runUpperBoundary_query env t db ft ops cs L cnt rows h r hm⟩
      · obtain ⟨l, hl, e⟩ := hi.2 rows1 rfl r hm
        exact ⟨l, List.mem_cons_of_mem _ hl, e⟩

theorem runUpperBoundaryFor2PKFieldsLogged_issued (env : envarg) (t : pkTable) (db : Endpoint)
    (ft : iFieldType) (ops : List String) (cs : Int) (LB : List Value) :
    Issued env t (pkTableMulti.runUpperBoundaryFor2PKFieldsLogged env t db ft ops cs LB).1
      (pkTableMulti.runUpperBoundaryFor2PKFieldsLogged env t db ft ops cs LB).2 := by
  unfold pkTableMulti.runUpperBoundaryFor2PKFieldsLogged pkTableMulti.runUpperBoundaryLogged
  cases hA : pkTableMulti.runUpperBoundary env t db ft ops cs LB with
  | none =>
    exact Issued_single env t db ft ops cs LB _ none (fun rows h => by simp at h)
  | some resA =>
    obtain ⟨cnt, rows⟩ := resA
    simp only
    split
    · exact Issued_single env t db ft ops cs LB _ (some rows)
        (fun rows0 h => ⟨cnt, by rw [hA]; simp at h; rw [h]⟩)
    · cases hs : sliceDropLast LB with
      | none =>
        exact Issued_single env t db ft ops cs LB _ none (fun rows h => by simp at h)
      | some lb1 =>
        simp only
        cases hB : pkTableMulti.runUpperBoundary env t db ft [">"] (cs - cnt) lb1 with
        | none =>
          exact Issued_cons env t db ft ops cs LB _ cnt rows _ none hA
            (Issued_single env t db ft [">"] (cs - cnt) lb1 _ none
              (fun rows h => by simp at h))
        | some resB =>
          obtain ⟨cnt1, rows1⟩ := resB
          exact Issued_cons env t db ft ops cs LB _ cnt rows _ (some rows1) hA
            (Issued_single env t db ft [">"] (cs - cnt) lb1 _ (some rows1)
              (fun rows0 h => ⟨cnt1, by rw [hB]; simp at h; rw [h]⟩))

theorem runUpperBoundaryFor3PKFieldsLogged_issued (env : envarg) (t : pkTable) (db : Endpoint)
    (ft : iFieldType) (ops : List String) (cs : Int) (LB : List Value) :
    Issued env t (pkTableMulti.runUpperBoundaryFor3PKFieldsLogged env t db ft ops cs LB).1
      (pkTableMulti.runUpperBoundaryFor3PKFieldsLogged env t db ft ops cs LB).2 := by
  unfold pkTableMulti.runUpperBoundaryFor3PKFieldsLogged pkTableMulti.runUpperBoundaryLogged
  cases hA : pkTableMulti.runUpperBoundary env t db ft ops cs LB with
  | none =>
    exact Issued_single env t db ft ops cs LB _ none (fun rows h => by simp at h)
  | some resA =>
    obtain ⟨cnt, rows⟩ := resA
    simp only
    split
    · exact Issued_single env t db ft ops cs LB _ (some rows)
        (fun rows0 h => ⟨cnt, by rw [hA]; simp at h; rw [h]⟩)
    · cases hs : sliceDropLast LB with
      | none =>
        exact Issued_single env t db ft ops cs LB _ none (fun rows h => by simp at h)
      | some lb1 =>
        simp only
        have hi := runUpperBoundaryFor2PKFieldsLogged_issued env t db ft ["=", ">"] (cs - cnt)
          lb1
        cases hB : pkTableMulti.runUpperBoundaryFor2PKFieldsLogged env t db ft ["=", ">"]
            (cs - cnt) lb1 with
        | mk logs res2 =>
          rw [hB] at hi
          cases res2 with
          | none => exact Issued_cons env t db ft ops cs LB _ cnt rows logs none hA hi
          | some rows1 =>
            exact Issued_cons env t db ft ops cs LB _ cnt rows logs (some rows1) hA hi

theorem runUpperBoundaryFor4PKFieldsLogged_issued (env : envarg) (t : pkTable) (db : Endpoint)
    (ft : iFieldType) (ops : List String) (cs : Int) (LB : List Value) :
    Issued env t (pkTableMulti.runUpperBoundaryFor4PKFieldsLogged env t db ft ops cs LB).1
      (pkTableMulti.runUpperBoundaryFor4PKFieldsLogged env t db ft ops cs LB).2 := by
  unfold pkTableMulti.runUpperBoundaryFor4PKFieldsLogged pkTableMulti.runUpperBoundaryLogged
  cases hA : pkTableMulti.runUpperBoundary env t db ft ops cs LB with
  | none =>
    exact Issued_single env t db ft ops cs LB _ none (fun rows h => by simp at h)
  | some resA =>
    obtain ⟨cnt, rows⟩ := resA
    simp only
    split
    · exact Issued_single env t db ft ops cs LB _ (some rows)
        (fun rows0 h => ⟨cnt, by rw [hA]; simp at h; rw [h]⟩)
    · cases hs : sliceDropLast LB with
      | none =>
        exact Issued_single env t db ft ops cs LB _ none (fun rows h => by simp at h)
      | some lb1 =>
        simp only
        have hi := runUpperBoundaryFor3PKFieldsLogged_issued env t db ft ["=", "=", ">"]
          (cs - cnt) lb1
        cases hB : pkTableMulti.runUpperBoundaryFor3PKFieldsLogged env t db ft ["=", "=", ">"]
            (cs - cnt) lb1 with
        | mk logs res2 =>
          rw [hB] at hi
          cases res2 with
          | none => exact Issued_cons env t db ft ops cs LB _ cnt rows logs none hA hi
          | some rows1 =>
            exact Issued_cons env t db ft ops cs LB _ cnt rows logs (some rows1) hA hi

/-- The texts of the lookaheads of an unwinding over `k` columns, and the texts kept
with the rows of its resultset. -/
theorem Issued_text (env : envarg) (t : pkTable) (logs : List lookaheadLog)
    (res : Option (List resultRow)) (hi : Issued env t logs res) :
    (∀ l ∈ logs, ∃ pre post, l.query =
      pre ++ "\n      WHERE " ++
        " AND ".intercalate
          (List.zipWith (fun (n : String) (o : String) => n ++ o ++ "?") t.GetPKColumnNames
            l.operators) ++
        additionalfilterstmt env ++ "\n      ORDER BY " ++
        ",".intercalate t.GetPKColumnNames ++ "\n      LIMIT " ++ fmtInt l.chunksize ++ post) ∧
    (∀ rows, res = some rows → ∀ r ∈ rows, ∃ l ∈ logs,
      r.query = plugInputs (lookaheadInputQuote t) 0 l.lowerboundary l.query) := by
  refine ⟨fun l hl => ?_, hi.2⟩
  rw [hi.1 l hl]
  exact UpperBoundaryQuery_text env t.GetPKColumnNames l.operators l.chunksize

/-- In an unwinding over `k` columns from a lower boundary of `k` values, the text of
each lookahead has one placeholder per bound value, and the texts kept with the rows
of the resultset are those of the lookaheads. -/
theorem Issued_placeholders (env : envarg) (t : pkTable) (logs : List lookaheadLog)
    (res : Option (List resultRow)) (LB : List Value) (k : Nat)
    (hnames : t.GetPKColumnNames.length = k) (hL : LB.length = k)
    (hi : Issued env t logs res)
    (hlog : ∀ (i : Nat) (l : lookaheadLog), logs[i]? = some l →
      l.lowerboundary = LB.take (k - i) ∧ l.lowerboundary.length = l.operators.length) :
    (∀ l ∈ logs,
      (∃ pre post, l.query =
        pre ++ "\n      WHERE " ++
          " AND ".intercalate
            (List.zipWith (fun (n : String) (o : String) => n ++ o ++ "?") t.GetPKColumnNames
              l.operators) ++
          additionalfilterstmt env ++ "\n      ORDER BY " ++
          ",".intercalate t.GetPKColumnNames ++ "\n      LIMIT " ++ fmtInt l.chunksize ++
          post) ∧
      (List.zipWith (fun (n : String) (o : String) => n ++ o ++ "?") t.GetPKColumnNames
        l.operators).length = l.lowerboundary.length) ∧
    (∀ rows, res = some rows → ∀ r ∈ rows, ∃ l ∈ logs,
      r.query = plugInputs (lookaheadInputQuote t) 0 l.lowerboundary l.query) := by
  obtain ⟨t1, t2⟩ := Issued_text env t logs res hi
  refine ⟨fun l hl => ⟨t1 l hl, ?_⟩, t2⟩
  obtain ⟨i, hi1⟩ := List.mem_iff_getElem?.mp hl
  obtain ⟨g1, g2⟩ := hlog i l hi1
  have hlen : l.lowerboundary.length ≤ k := by
    rw [g1, List.length_take, hL]
    omega
  rw [List.length_zipWith, hnames, ← g2]
  omega

/-- C27. Composite planner unwinding.  For an effective key of `k` columns, `k` being
2, 3 or 4, and a lower boundary of `k` values, the lookaheads issued by
`TransformUpperBoundaryResult` are at least one and at most `k`; the first has the
operators `[=, .., =, >=]` of length `k` and the one at position `i > 0` the
operators `[=, .., =, >]` of length `k - i`; each binds the first `k - i` values of
the lower boundary, as many as it has operators; its `LIMIT` is the configured chunk
size minus the counts of the lookaheads before it; every lookahead but the last fell
short of its `LIMIT`, and the last one panicked, filled its `LIMIT`, or is the
`k`-th.  Hence, when every lookahead counted at most its `LIMIT`, the counts of the
rows of the returned resultset add up to at most the configured chunk size.  The
text of each lookahead, as it is prepared on the database, has in its `WHERE` clause
one conjunct `name op ?` per operator, on the leading columns in their order and with
as many placeholders as values are bound, and has the chunk size of the lookahead
after `LIMIT`; the text kept with each row of the returned resultset is the text of
one of these lookaheads with its bound values plugged in. -/
theorem C27_composite_planner_unwinding (env : envarg) (t : pkTable) (dbSrc : Endpoint)
    (LowerBoundary : List Value) (k : Nat) (hk : k = 2 ∨ k = 3 ∨ k = 4)
    (hnames : t.GetPKColumnNames.length = k) (hcols : t.GetPKColumns ≠ [])
    (hL : LowerBoundary.length = k) :
    (pkTableMulti.TransformUpperBoundaryResultLogged env t dbSrc LowerBoundary).2 =
      pkTableMulti.TransformUpperBoundaryResult env t dbSrc LowerBoundary ∧
    (pkTableMulti.TransformUpperBoundaryResultLogged env t dbSrc LowerBoundary).1 ≠ [] ∧
    (pkTableMulti.TransformUpperBoundaryResultLogged env t dbSrc LowerBoundary).1.length ≤ k ∧
    (∀ (i : Nat) (l : lookaheadLog),
      (pkTableMulti.TransformUpperBoundaryResultLogged env t dbSrc LowerBoundary).1[i]? =
        some l →
      l.operators =
        (if i = 0 then List.replicate (k - 1) "=" ++ [">="]
          else List.replicate (k - 1 - i) "=" ++ [">"]) ∧
      l.lowerboundary = LowerBoundary.take (k - i) ∧
      l.lowerboundary.length = l.operators.length ∧
      l.chunksize = env.ArgChunksize -
        (((pkTableMulti.TransformUpperBoundaryResultLogged env t dbSrc LowerBoundary).1.take
          i).map (fun x => x.rowcntSrc.getD 0)).sum ∧
      (i + 1 <
          (pkTableMulti.TransformUpperBoundaryResultLogged env t dbSrc LowerBoundary).1.length →
        ∃ cnt, l.rowcntSrc = some cnt ∧ cnt ≠ l.chunksize) ∧
      (i + 1 =
          (pkTableMulti.TransformUpperBoundaryResultLogged env t dbSrc LowerBoundary).1.length →
        l.rowcntSrc = none ∨ l.rowcntSrc = some l.chunksize ∨ i + 1 = k)) ∧
    (∀ rows, pkTableMulti.TransformUpperBoundaryResult env t dbSrc LowerBoundary = some rows →
      (∀ l ∈ (pkTableMulti.TransformUpperBoundaryResultLogged env t dbSrc LowerBoundary).1,
        ∀ c, l.rowcntSrc = some c → c ≤ l.chunksize) →
      (rows.map (fun r => r.count)).sum ≤ env.ArgChunksize) ∧
    (∀ l ∈ (pkTableMulti.TransformUpperBoundaryResultLogged env t dbSrc LowerBoundary).1,
      (∃ pre post, l.query =
        pre ++ "\n      WHERE " ++
          " AND ".intercalate
            (List.zipWith (fun (n : String) (o : String) => n ++ o ++ "?") t.GetPKColumnNames
              l.operators) ++
          additionalfilterstmt env ++ "\n      ORDER BY " ++
          ",".intercalate t.GetPKColumnNames ++ "\n      LIMIT " ++ fmtInt l.chunksize ++
          post) ∧
      (List.zipWith (fun (n : String) (o : String) => n ++ o ++ "?") t.GetPKColumnNames
        l.operators).length = l.lowerboundary.length) ∧
    (∀ rows, pkTableMulti.TransformUpperBoundaryResult env t dbSrc LowerBoundary = some rows →
      ∀ r ∈ rows,
        ∃ l ∈ (pkTableMulti.TransformUpperBoundaryResultLogged env t dbSrc LowerBoundary).1,
          r.query = plugInputs (lookaheadInputQuote t) 0 l.lowerboundary l.query) := by
  obtain ⟨ft, hft⟩ : ∃ ft, t.lastPKfieldtype = some ft := by
    unfold pkTable.lastPKfieldtype
    cases hg : t.GetPKColumns.getLast? with
    | none => exact absurd (List.getLast?_eq_none_iff.mp hg) hcols
    | some c => exact ⟨_, rfl⟩
  rcases hk with hk | hk | hk
  · subst hk
    obtain ⟨s1, s2, s3⟩ := runUpperBoundaryFor2PKFieldsLogged_spec env t dbSrc ft
      ["=", ">="] env.ArgChunksize LowerBoundary rfl (by intro e; rw [e] at hL; simp at hL)
    have e1 : pkTableMulti.TransformUpperBoundaryResultLogged env t dbSrc LowerBoundary =
        pkTableMulti.runUpperBoundaryFor2PKFieldsLogged env t dbSrc ft ["=", ">="]
          env.ArgChunksize LowerBoundary := by
      simp [pkTableMulti.TransformUpperBoundaryResultLogged, hft, hnames]
    have e2 : pkTableMulti.TransformUpperBoundaryResult env t dbSrc LowerBoundary =
        pkTableMulti.runUpperBoundaryFor2PKFields env t dbSrc ft ["=", ">="]
          env.ArgChunksize LowerBoundary := by
      simp [pkTableMulti.TransformUpperBoundaryResult, hft, hnames]
    rw [e1, e2]
    obtain ⟨a1, a2, a3, a4⟩ := UnwindingLog_arity _ env.ArgChunksize LowerBoundary 2
      (by omega) s2 hL
    obtain ⟨t1, t2⟩ := Issued_placeholders env t _ _ LowerBoundary 2 hnames hL
      (runUpperBoundaryFor2PKFieldsLogged_issued env t dbSrc ft ["=", ">="] env.ArgChunksize
        LowerBoundary)
      (fun i l h => ⟨(a3 i l h).2.1, (a3 i l h).2.2.1⟩)
    exact ⟨s1, a1, a2, a3, fun rows hr hle => a4 rows (s3 rows (by rw [s1, hr])) hle, t1,
      fun rows hr => t2 rows (by rw [s1, hr])⟩
  · subst hk
    obtain ⟨s1, s2, s3⟩ := runUpperBoundaryFor3PKFieldsLogged_spec env t dbSrc ft
      ["=", "=", ">="] env.ArgChunksize LowerBoundary rfl hL
    have e1 : pkTableMulti.TransformUpperBoundaryResultLogged env t dbSrc LowerBoundary =
        pkTableMulti.runUpperBoundaryFor3PKFieldsLogged env t dbSrc ft ["=", "=", ">="]
          env.ArgChunksize LowerBoundary := by
      simp [pkTableMulti.TransformUpperBoundaryResultLogged, hft, hnames]
    have e2 : pkTableMulti.TransformUpperBoundaryResult env t dbSrc LowerBoundary =
        pkTableMulti.runUpperBoundaryFor3PKFields env t dbSrc ft ["=", "=", ">="]
          env.ArgChunksize LowerBoundary := by
      simp [pkTableMulti.TransformUpperBoundaryResult, hft, hnames]
    rw [e1, e2]
    obtain ⟨a1, a2, a3, a4⟩ := UnwindingLog_arity _ env.ArgChunksize LowerBoundary 3
      (by omega) s2 hL
    obtain ⟨t1, t2⟩ := Issued_placeholders env t _ _ LowerBoundary 3 hnames hL
      (runUpperBoundaryFor3PKFieldsLogged_issued env t dbSrc ft ["=", "=", ">="] env.ArgChunksize
        LowerBoundary)
      (fun i l h => ⟨(a3 i l h).2.1, (a3 i l h).2.2.1⟩)
    exact ⟨s1, a1, a2, a3, fun rows hr hle => a4 rows (s3 rows (by rw [s1, hr])) hle, t1,
      fun rows hr => t2 rows (by rw [s1, hr])⟩
  · subst hk
    obtain ⟨s1, s2, s3⟩ := runUpperBoundaryFor4PKFieldsLogged_spec env t dbSrc ft
      ["=", "=", "=", ">="] env.ArgChunksize LowerBoundary rfl hL
    have e1 : pkTableMulti.TransformUpperBoundaryResultLogged env t dbSrc LowerBoundary =
        pkTableMulti.runUpperBoundaryFor4PKFieldsLogged env t dbSrc ft ["=", "=", "=", ">="]
          env.ArgChunksize LowerBoundary := by
      simp [pkTableMulti.TransformUpperBoundaryResultLogged, hft, hnames]
    have e2 : pkTableMulti.TransformUpperBoundaryResult env t dbSrc LowerBoundary =
        pkTableMulti.runUpperBoundaryFor4PKFields env t dbSrc ft ["=", "=", "=", ">="]
          env.ArgChunksize LowerBoundary := by
      simp [pkTableMulti.TransformUpperBoundaryResult, hft, hnames]
    rw [e1, e2]
    obtain ⟨a1, a2, a3, a4⟩ := UnwindingLog_arity _ env.ArgChunksize LowerBoundary 4
      (by omega) s2 hL
    obtain ⟨t1, t2⟩ := Issued_placeholders env t _ _ LowerBoundary 4 hnames hL
      (runUpperBoundaryFor4PKFieldsLogged_issued env t dbSrc ft ["=", "=", "=", ">="] env.ArgChunksize
        LowerBoundary)
      (fun i l h => ⟨(a3 i l h).2.1, (a3 i l h).2.2.1⟩)
    exact ⟨s1, a1, a2, a3, fun rows hr hle => a4 rows (s3 rows (by rw [s1, hr])) hle, t1,
      fun rows hr => t2 rows (by rw [s1, hr])⟩

/-- C27 witness: on the three-column table of `unwindRun` with chunk size 4 and the
lower boundary `(1,1,1)`, the lookaheads are `[=,=,>=]` with `LIMIT` 4 counting 2,
`[=,>]` with `LIMIT` 2 counting 1, and `[>]` with `LIMIT` 1 counting 1; they bind 3,
2 and 1 values, their texts read `WHERE a=? AND b=? AND id>=?` with `LIMIT 4`,
`WHERE a=? AND b>?` with `LIMIT 2` and `WHERE a>?` with `LIMIT 1`, and the counts of
the resultset add up to 4. -/
theorem C27_composite_planner_unwinding_witness :
    unwindRun.t.GetPKColumnNames.length = 3 ∧
    (pkTableMulti.TransformUpperBoundaryResultLogged unwindRun.env unwindRun.t unwindRun.dbSrc
        [Value.int 1, Value.int 1, Value.int 1]).1.map
      (fun l => (l.operators, l.chunksize, l.lowerboundary.length, l.rowcntSrc)) =
      [(["=", "=", ">="], 4, 3, some 2), (["=", ">"], 2, 2, some 1), ([">"], 1, 1, some 1)] ∧
    (pkTableMulti.TransformUpperBoundaryResultLogged unwindRun.env unwindRun.t unwindRun.dbSrc
        [Value.int 1, Value.int 1, Value.int 1]).1.map
      (fun l =>
        (stringsContains l.query "\n      WHERE a=? AND b=? AND id>=?\n      ORDER BY a,b,id",
         stringsContains l.query "\n      WHERE a=? AND b>?\n      ORDER BY a,b,id",
         stringsContains l.query "\n      WHERE a>?\n      ORDER BY a,b,id",
         stringsContains l.query "\n      LIMIT 4)",
         stringsContains l.query "\n      LIMIT 2)",
         stringsContains l.query "\n      LIMIT 1)")) =
      [(true, false, false, true, false, false), (false, true, false, false, true, false),
       (false, false, true, false, false, true)] ∧
    (pkTableMulti.TransformUpperBoundaryResult unwindRun.env unwindRun.t unwindRun.dbSrc
        [Value.int 1, Value.int 1, Value.int 1]).map
      (fun rows => (rows.map (fun r => r.count)).sum) = some 4 ∧
    (pkTableMulti.TransformUpperBoundaryResultLogged unwindRun.env unwindRun.t unwindRun.dbSrc
        [Value.int 1, Value.int 1, Value.int 1]).1.length ≤ 3 :=
  ⟨by decide, by decide, by decide, by decide,
    (C27_composite_planner_unwinding unwindRun.env unwindRun.t unwindRun.dbSrc
      [Value.int 1, Value.int 1, Value.int 1] 3 (Or.inr (Or.inl rfl)) (by decide)
      (by simp [unwindRun, intRun, intTable, pkTable.GetPKColumns]) (by decide)).2.2.1⟩

/-! ### Termination of the main loop on a single integer key -/

theorem foldl_maxValue_int (P : Int → Prop) :
    ∀ (L : List Value) (acc : Value),
      (∀ v ∈ L, ∃ x, v = Value.int x ∧ P x) →
      (acc = Value.null ∨ ∃ x, acc = Value.int x ∧ P x) →
      (L ≠ [] ∨ acc ≠ Value.null) →
      ∃ b, L.foldl maxValue acc = Value.int b ∧ P b := by
  intro L
  induction L with
  | nil =>
    intro acc _ hacc hne
    rcases hacc with h | h
    · rcases hne with h1 | h1
      · exact absurd rfl h1
      · exact absurd h h1
    · simpa using h
  | cons v rest ih =>
    intro acc hL hacc _
    obtain ⟨x, hx, hPx⟩ := hL v (List.mem_cons_self _ _)
    simp only [List.foldl_cons]
    apply ih
    · intro u hu
      exact hL u (List.mem_cons_of_mem _ hu)
    · right
      subst hx
      unfold maxValue
      split
      · exact ⟨x, rfl, hPx⟩
      · rcases hacc with h | ⟨y, hy, hPy⟩
        · subst h
          rename_i hlt
          exact absurd (rfl : orderLt Value.null (Value.int x) = true) hlt
        · exact ⟨y, hy, hPy⟩
    · right
      subst hx
      unfold maxValue
      split
      · simp
      · rcases hacc with h | ⟨y, hy, _⟩
        · subst h
          rename_i hlt
          exact absurd (rfl : orderLt Value.null (Value.int x) = true) hlt
        · rw [hy]
          simp

theorem mem_singleIntRows (src : List (Int × Int)) (r : DBRow) (h : r ∈ singleIntRows src) :
    ∃ x, x ∈ src.map Prod.fst ∧ r.key [0] = [Value.int x] := by
  unfold singleIntRows at h
  obtain ⟨p, hp, rfl⟩ := List.mem_map.mp h
  exact ⟨p.1, List.mem_map_of_mem _ hp, rfl⟩

theorem mem_orderBy (seq : List Nat) (rows : List DBRow) (r : DBRow) :
    r ∈ orderBy seq rows ↔ r ∈ rows :=
  (List.perm_insertionSort _ rows).mem_iff

/-- Answer of the single-PK lookahead from the key `a` on a table of integer keys:
`MAX` is a key of the table that is not below `a`. -/
theorem singleInt_lookahead (src : List (Int × Int)) (c : Int) (a : Int) (hc : 1 ≤ c)
    (ha : a ∈ src.map Prod.fst) :
    ∃ cnt b, tableLookahead (singleIntRows src) [0] [">="] c [Value.int a] =
        some [{ count := cnt, leading := [], maxTrailing := Value.int b }] ∧
      a ≤ b ∧ b ∈ src.map Prod.fst := by
  unfold tableLookahead
  simp only [List.length_singleton, ne_eq, not_true_eq_false, Nat.lt_irrefl, or_self,
    if_false]
  rw [if_neg (by decide)]
  simp only [if_true]
  have hwin : ∀ k ∈ (List.map (fun r => DBRow.key [0] r)
      (List.take c.toNat
        (List.filter
          (fun r => decide (whereLookahead [">="] [Value.int a]
            (List.take 1 (DBRow.key [0] r)) = some true))
          (orderBy [0] (singleIntRows src))))).map (fun k => k.getLastD Value.null),
      ∃ x, k = Value.int x ∧ (a ≤ x ∧ x ∈ src.map Prod.fst) := by
    intro k hk
    obtain ⟨key, hkey, rfl⟩ := List.mem_map.mp hk
    obtain ⟨r, hr, rfl⟩ := List.mem_map.mp hkey
    have hr1 := List.mem_of_mem_take hr
    obtain ⟨hr2, hr3⟩ := List.mem_filter.mp hr1
    obtain ⟨x, hx, hkx⟩ := mem_singleIntRows src r ((mem_orderBy _ _ _).mp hr2)
    rw [hkx] at hr3 ⊢
    refine ⟨x, rfl, ?_, hx⟩
    simp [whereLookahead, whereOp, sqlLe, sqlEq, sqlLt] at hr3
    omega
  have hne : (List.map (fun r => DBRow.key [0] r)
      (List.take c.toNat
        (List.filter
          (fun r => decide (whereLookahead [">="] [Value.int a]
            (List.take 1 (DBRow.key [0] r)) = some true))
          (orderBy [0] (singleIntRows src))))).map (fun k => k.getLastD Value.null) ≠ [] := by
    obtain ⟨p, hp, hpa⟩ := List.mem_map.mp ha
    have hmem : ({ pk := [Value.int p.1], crc := p.2 } : DBRow) ∈
        List.filter
          (fun r => decide (whereLookahead [">="] [Value.int a]
            (List.take 1 (DBRow.key [0] r)) = some true))
          (orderBy [0] (singleIntRows src)) := by
      apply List.mem_filter.mpr
      refine ⟨(mem_orderBy _ _ _).mpr (List.mem_map.mpr ⟨p, hp, rfl⟩), ?_⟩
      simp [whereLookahead, whereOp, sqlLe, sqlEq, sqlLt, DBRow.key, hpa]
    intro hnil
    simp only [List.map_eq_nil_iff, List.take_eq_nil_iff] at hnil
    rcases hnil with h | h
    · omega
    · rw [h] at hmem
      simp at hmem
  obtain ⟨b, hb, hab, hbk⟩ := foldl_maxValue_int (fun x => a ≤ x ∧ x ∈ src.map Prod.fst) _
    Value.null hwin (Or.inl rfl) (Or.inl hne)
  exact ⟨_, b, by rw [hb], hab, hbk⟩

/-- The planner resultset of a run on a single integer key from the key `a`: one row
that starts at `a` and ends at a key of the table that is not below `a`. -/
theorem singleInt_planner (env : envarg) (src : List (Int × Int)) (a : Int)
    (hc : 1 ≤ env.ArgChunksize) (ha : a ∈ src.map Prod.fst) :
    ∃ row b, pkTableSingle.TransformUpperBoundaryResult env (intTable ["id"])
        (tableDB ["id"] (singleIntRows src) [0] List.sum) [Value.int a] = some [row] ∧
      row.leading = [] ∧ row.lb = Value.int a ∧ row.ub = Value.int b ∧
      a ≤ b ∧ b ∈ src.map Prod.fst := by
  obtain ⟨cnt, b, hlk, hab, hbk⟩ := singleInt_lookahead src env.ArgChunksize a hc ha
  have hft : (intTable ["id"]).lastPKfieldtype = some fieldtypeInt := rfl
  have hn : (intTable ["id"]).GetPKColumnNames = ["id"] := rfl
  have hl : (tableDB ["id"] (singleIntRows src) [0] List.sum).lookahead ["id"] [">="]
      env.ArgChunksize [Value.int a] =
      some [{ count := cnt, leading := [], maxTrailing := Value.int b }] := hlk
  unfold pkTableSingle.TransformUpperBoundaryResult
  rw [hft, hn]
  simp only [pkTableSingle.UpperBoundaryQuery]
  unfold pkTable.UpperBoundaryResult
  rw [hl]
  simp only [List.all_cons, List.all_nil, List.length_nil, List.length_singleton, zero_add,
    decide_True, Bool.and_self, if_true, pkTableSingle.populateResultset, hft, ne_eq,
    not_true_eq_false, if_false, fieldtypeInt, Option.map_some']
  exact ⟨_, b, rfl, rfl, rfl, rfl, hab, hbk⟩

theorem singleInt_reset (env : envarg) (src : List (Int × Int)) (dbTgt : Endpoint)
    (marshal : List Value → String) (srcFirst : Int → Bool) (row : resultRow) (a : Int)
    (hu : env.ArgUpperBoundary = [""]) (hlead : row.leading = []) (hlb : row.lb = Value.int a) :
    ResetLowerboundaryUpperboundary (singleIntRun env src dbTgt marshal srcFirst).kind
        (singleIntRun env src dbTgt marshal srcFirst).env
        (singleIntRun env src dbTgt marshal srcFirst).t row [Value.int a] =
      some (false, row.ub, [Value.int a]) := by
  have hk : (singleIntRun env src dbTgt marshal srcFirst).kind = pkKind.single := rfl
  rw [hk]
  simp only [ResetLowerboundaryUpperboundary, pkTableSingle.ResetLowerboundaryUpperboundary,
    hlead, hlb, List.nil_append, assignLowerboundary, Option.map_some', singleIntRun, hu,
    List.getLast?_singleton, if_true]

/-- One chunk of a run on a single integer key, for the planner row from `a` to
`b`: with `a = b` the run stops, and when the loop goes on the lower boundary has
moved to `b`, which differs from `a`. -/
theorem singleInt_chunk (env : envarg) (src : List (Int × Int)) (dbTgt : Endpoint)
    (marshal : List Value → String) (srcFirst : Int → Bool) (row : resultRow) (a b : Int)
    (st : RunState) (tci : tableChunkInfo)
    (hu : env.ArgUpperBoundary = [""]) (hlead : row.leading = []) (hlb : row.lb = Value.int a)
    (hub : row.ub = Value.int b) (hst : st.lowerboundary = [Value.int a]) :
    (a = b →
      (RunTableChunk (singleIntRun env src dbTgt marshal srcFirst) tci [row] st).2 =
        Outcome.stop) ∧
    (∀ st1, RunTableChunk (singleIntRun env src dbTgt marshal srcFirst) tci [row] st =
        (st1, Outcome.more) → st1.lowerboundary = [Value.int b] ∧ a ≠ b) := by
  have hft : (singleIntRun env src dbTgt marshal srcFirst).t.lastPKfieldtype =
      some fieldtypeInt := rfl
  have hr := singleInt_reset env src dbTgt marshal srcFirst row a hu hlead hlb
  unfold RunTableChunk
  rw [hft]
  simp only [RunTableChunkLoop, hst, hr, List.isEmpty_nil, if_true, List.getLast?_singleton,
    hub]
  by_cases hab : a = b
  · subst hab
    have he : fieldtypeInt.equals (Value.int a) (Value.int a) = some true := by
      simp [fieldtypeInt]
    rw [he]
    exact ⟨fun _ => rfl, fun st1 h => Outcome.noConfusion (congrArg Prod.snd h)⟩
  · refine ⟨fun h => absurd h hab, ?_⟩
    intro st1 h
    refine ⟨?_, hab⟩
    cases he : fieldtypeInt.equals (Value.int a) (Value.int b) with
    | none => simp [fieldtypeInt] at he
    | some e =>
      rw [he] at h
      cases e with
      | true => exact Outcome.noConfusion (congrArg Prod.snd h)
      | false =>
        simp only at h
        split at h
        · exact Outcome.noConfusion (congrArg Prod.snd h)
        · rename_i tci2 line hcl
          obtain ⟨_, b2⟩ := RunTableRoutineChunkLevel_bounds _ _ _ _ _ _ _ tci2 line hcl
          simp only [Bool.false_eq_true, if_false, RunTableChunkLoop, Prod.mk.injEq,
            and_true] at h
          rw [← h]
          simp only [setLast, List.dropLast_single, List.nil_append, b2]

theorem length_filter_gt_lt (keys : List Int) (a b : Int) (hab : a < b) (hb : b ∈ keys) :
    (keys.filter (fun x => decide (b < x))).length <
      (keys.filter (fun x => decide (a < x))).length := by
  have e : keys.filter (fun x => decide (b < x)) =
      (keys.filter (fun x => decide (a < x))).filter (fun x => decide (b < x)) := by
    rw [List.filter_filter]
    apply List.filter_congr
    intro x _
    by_cases h : b < x
    · have h1 : a < x := by omega
      simp [h, h1]
    · simp [h]
  rw [e]
  apply List.length_filter_lt_length_iff_exists.mpr
  refine ⟨b, List.mem_filter.mpr ⟨hb, by simpa using hab⟩, ?_⟩
  simp

/-- The loop of `RunTableRoutine` on a single integer key does not run on once its
fuel exceeds the number of keys above the lower boundary. -/
theorem singleInt_loop (env : envarg) (src : List (Int × Int)) (dbTgt : Endpoint)
    (marshal : List Value → String) (srcFirst : Int → Bool)
    (hu : env.ArgUpperBoundary = [""]) (hc : 1 ≤ env.ArgChunksize) :
    ∀ (fuel : Nat) (st : RunState) (a : Int),
      st.lowerboundary = [Value.int a] → a ∈ src.map Prod.fst →
      ((src.map Prod.fst).filter (fun x => decide (a < x))).length < fuel →
      ¬ (RunTableRoutineLoop (singleIntRun env src dbTgt marshal srcFirst) fuel st).2 =
        Outcome.more := by
  intro fuel
  induction fuel with
  | zero =>
    intro st a _ _ h
    exact absurd h (Nat.not_lt_zero _)
  | succ n ih =>
    intro st a hst ha hm
    obtain ⟨row, b, hp, hlead, hlb, hub, hab, hbk⟩ := singleInt_planner env src a hc ha
    have hT : TransformUpperBoundaryResult (singleIntRun env src dbTgt marshal srcFirst).kind
        (singleIntRun env src dbTgt marshal srcFirst).env
        (singleIntRun env src dbTgt marshal srcFirst).t
        (singleIntRun env src dbTgt marshal srcFirst).dbSrc st.lowerboundary = some [row] := by
      rw [hst]
      exact hp
    obtain ⟨_, hstep⟩ := singleInt_chunk env src dbTgt marshal srcFirst row a b st
      (initialChunkInfo (singleIntRun env src dbTgt marshal srcFirst)) hu hlead hlb hub hst
    simp only [RunTableRoutineLoop, hT]
    cases hrc : RunTableChunk (singleIntRun env src dbTgt marshal srcFirst)
        (initialChunkInfo (singleIntRun env src dbTgt marshal srcFirst)) [row] st with
    | mk st1 o =>
      cases o with
      | more =>
        obtain ⟨hst1, hne⟩ := hstep st1 hrc
        have hlt : a < b := by omega
        have hdec := length_filter_gt_lt (src.map Prod.fst) a b hlt hbk
        exact ih st1 b hst1 hbk (by omega)
      | stop => simp
      | abort => simp

theorem singleInt_initial (env : envarg) (src : List (Int × Int)) (dbTgt : Endpoint)
    (marshal : List Value → String) (srcFirst : Int → Bool)
    (hl : env.ArgLowerBoundary = [""]) (hne : src ≠ []) :
    ∃ a, FindInitialPKFieldLowerboundary (singleIntRun env src dbTgt marshal srcFirst) =
        some [Value.int a] ∧ a ∈ src.map Prod.fst := by
  have hlen : (orderBy [0] (singleIntRows src)).length = src.length := by
    rw [orderBy, List.length_insertionSort, singleIntRows, List.length_map]
  cases ho : orderBy [0] (singleIntRows src) with
  | nil =>
    rw [ho] at hlen
    exact absurd (List.length_eq_zero.mp hlen.symm) hne
  | cons r rest =>
    have hr : r ∈ singleIntRows src := (mem_orderBy [0] _ r).mp (by rw [ho]; simp)
    obtain ⟨x, hx, hkx⟩ := mem_singleIntRows src r hr
    refine ⟨x, ?_, hx⟩
    have hfirst : (singleIntRun env src dbTgt marshal srcFirst).dbSrc.firstRow
        (singleIntRun env src dbTgt marshal srcFirst).env.ArgSrcTable
        (singleIntRun env src dbTgt marshal srcFirst).t.GetPKColumnNames =
        some [[Value.int x]] := by
      show some (((orderBy [0] (singleIntRows src)).take 1).map (fun r => r.key [0])) = _
      rw [ho]
      simp [hkx]
    have hla : (singleIntRun env src dbTgt marshal srcFirst).env.ArgLowerBoundary = [""] := hl
    unfold FindInitialPKFieldLowerboundary
    rw [hla]
    simp only [ne_eq, not_true_eq_false, if_false, hfirst]
    rfl

/-- C29. Main-loop termination.  On a source table with the single integer PK column
`id` and at least one row, with no user boundaries and a chunk size of at least 2,
the loop of `RunTableRoutine` has ended (by a stop or by a panic) within one planner
call more than the table has rows.  The reason: from a lower boundary that is a key
`a` of the table the planner returns one row from `a` to a key `b` with `a ≤ b`;
with `a = b` the chunk stops the run, and when the loop goes on the lower boundary
has moved to `b` with `a < b`. -/
theorem C29_main_loop_terminates_on_single_integer_key (env : envarg) (src : List (Int × Int))
    (dbTgt : Endpoint) (marshal : List Value → String) (srcFirst : Int → Bool)
    (hl : env.ArgLowerBoundary = [""]) (hu : env.ArgUpperBoundary = [""])
    (hc : 2 ≤ env.ArgChunksize) (hne : src ≠ []) :
    (∀ fuel, src.length < fuel →
      ¬ (RunTableRoutine (singleIntRun env src dbTgt marshal srcFirst) fuel).2 =
        Outcome.more) ∧
    (∀ (st : RunState) (a : Int), st.lowerboundary = [Value.int a] → a ∈ src.map Prod.fst →
      ∃ row b,
        TransformUpperBoundaryResult (singleIntRun env src dbTgt marshal srcFirst).kind
          (singleIntRun env src dbTgt marshal srcFirst).env
          (singleIntRun env src dbTgt marshal srcFirst).t
          (singleIntRun env src dbTgt marshal srcFirst).dbSrc st.lowerboundary = some [row] ∧
        row.lb = Value.int a ∧ row.ub = Value.int b ∧ a ≤ b ∧ b ∈ src.map Prod.fst ∧
        (a = b →
          (RunTableChunk (singleIntRun env src dbTgt marshal srcFirst)
            (initialChunkInfo (singleIntRun env src dbTgt marshal srcFirst)) [row] st).2 =
            Outcome.stop) ∧
        ∀ st1, RunTableChunk (singleIntRun env src dbTgt marshal srcFirst)
            (initialChunkInfo (singleIntRun env src dbTgt marshal srcFirst)) [row] st =
            (st1, Outcome.more) →
          st1.lowerboundary = [Value.int b] ∧ a < b) := by
  have hc1 : 1 ≤ env.ArgChunksize := by omega
  constructor
  · intro fuel hfuel
    obtain ⟨a, ha, hak⟩ := singleInt_initial env src dbTgt marshal srcFirst hl hne
    unfold RunTableRoutine
    rw [ha]
    apply singleInt_loop env src dbTgt marshal srcFirst hu hc1 fuel _ a rfl hak
    have h1 := List.length_filter_le (fun x => decide (a < x)) (src.map Prod.fst)
    rw [List.length_map] at h1
    omega
  · intro st a hst ha
    obtain ⟨row, b, hp, hlead, hlb, hub, hab, hbk⟩ := singleInt_planner env src a hc1 ha
    obtain ⟨s1, s2⟩ := singleInt_chunk env src dbTgt marshal srcFirst row a b st
      (initialChunkInfo (singleIntRun env src dbTgt marshal srcFirst)) hu hlead hlb hub hst
    refine ⟨row, b, ?_, hlb, hub, hab, hbk, s1, ?_⟩
    · rw [hst]
      exact hp
    · intro st1 h
      obtain ⟨t1, t2⟩ := s2 st1 h
      exact ⟨t1, by omega⟩

/-- C29 witness: the run of scenario S1 (keys 1, 2, 3, chunk size 2) stops within
four planner calls. -/
theorem C29_main_loop_terminates_on_single_integer_key_witness :
    (plainArgs 2).ArgLowerBoundary = [""] ∧ (plainArgs 2).ArgUpperBoundary = [""] ∧
    (RunTableRoutine (singleIntRun (plainArgs 2) [(1, 10), (2, 20), (3, 30)]
      identicalRun.dbTgt marshalInts (fun _ => true)) 4).2 = Outcome.stop ∧
    ¬ (RunTableRoutine (singleIntRun (plainArgs 2) [(1, 10), (2, 20), (3, 30)]
      identicalRun.dbTgt marshalInts (fun _ => true)) 4).2 = Outcome.more :=
  ⟨rfl, rfl, by decide,
    (C29_main_loop_terminates_on_single_integer_key (plainArgs 2) [(1, 10), (2, 20), (3, 30)]
      identicalRun.dbTgt marshalInts (fun _ => true) rfl rfl (by decide) (by decide)).1 4
      (by decide)⟩

end Diffchecker
